import Mathlib

/-!
# C-CUBE standard interpreter: evaluator core and collector

A shallow embedding of the evaluator core of the C-CUBE tree-walking
interpreter (`src/environment.cpp`, `src/interpreter.cpp`, `src/function.cpp`,
`src/class.cpp`, `src/instance.cpp`, `src/list.cpp`, `src/c_cube_module.cpp`,
`include/ast.h`, `include/value.h`, `include/object.h`, `include/token.h`,
`include/error_reporter.h`), of its generational collector (`src/gc.cpp`,
`include/gc.h`) and of its module loader (`src/module_loader.cpp`,
`include/module_loader.h`), together with the properties of the
natural-language specification that concern them.

Conventions of the embedding.

* A C++ `double` is an IEEE-754 binary64 datum (`Double`); comparisons are the
  IEEE comparisons, arithmetic is correctly rounded (round to nearest, ties to
  even). What that means is stated on the exact value of a datum
  (`Double.toRat`) by the predicate `Double.RoundsTo`, and proved of the
  operators.
* `std::shared_ptr<Object>` is an address (`ObjPtr`); pointer comparison is
  comparison of addresses.
* A C++ exception is a value of `Thrown`; a function that may throw returns
  `Except Thrown _`, and a function that may throw after mutating its receiver
  returns the outcome together with the receiver's state afterwards.
* `std::unordered_map<std::string, Value>` is an association list
  (`ValueMap`) read through its first entry for a key.
* An `Environment` chain is an environment together with the chain of its
  `enclosing` environments; the pointer `enclosing` is set once, by the
  constructor, so a chain is finite and acyclic.
* Where pointers matter, `Environment` objects and heap objects live in a
  `Memory` indexed by address (`Runtime`); `std::make_shared` places a new
  object at a fresh address.
* A `visit` method takes the evaluator's dispatch on sub-expressions and
  statements (`evaluate`, `execute`) and the virtual methods it calls as
  parameters; its properties hold for every dispatch.
* The collector is a record of its data members (`Gc`); a method of the
  collector is a function on that record. What a collection reads without
  owning it, the objects and environments in memory, is a separate record
  (`GcWorld`). A `std::unordered_set<ObjPtr>` is a list of handles, the
  metadata map is a `Memory` indexed by the address of the object, and a
  `size_t` is kept modulo `2 ^ 64`.
* The evaluator with the objects it refers to, its memory, the collector, the
  error reporter and the cache of the module loader, is the record `Machine`.
  The file system, the parser, the readers of the module loader and the
  implementation's object sizes are parameters.
-/

set_option autoImplicit false

/-! ## IEEE-754 binary64 -/

/-- IEEE-754 binary64 datum, the representation of the C++ type `double`:
sign bit, 11-bit biased exponent, 52-bit fraction. -/
structure Double where
  sign : Bool
  expo : Fin 2048
  frac : Fin 4503599627370496
deriving DecidableEq, Repr

namespace Double

/-- Not-a-number: all exponent bits set, fraction non-zero. -/
def isNaN (d : Double) : Bool := d.expo.val == 2047 && d.frac.val != 0

/-- Infinity: all exponent bits set, fraction zero. -/
def isInf (d : Double) : Bool := d.expo.val == 2047 && d.frac.val == 0

/-- Positive or negative zero. -/
def isZero (d : Double) : Bool := d.expo.val == 0 && d.frac.val == 0

/-- The literal `0.0`. -/
def zero : Double := ⟨false, 0, 0⟩

/-- The datum `-0.0`. -/
def negZero : Double := ⟨true, 0, 0⟩

/-- The literal `1.0`. -/
def one : Double := ⟨false, 1023, 0⟩

/-- The literal `2.0`. -/
def two : Double := ⟨false, 1024, 0⟩

/-- The default quiet NaN. -/
def qNaN : Double := ⟨false, 2047, 2251799813685248⟩

/-- Infinity of the given sign. -/
def infinity (s : Bool) : Double := ⟨s, 2047, 0⟩

/-- Sign-magnitude key: strictly monotone in the numeric value on the non-NaN
data, and equal for the two zeros. -/
def key (d : Double) : Int :=
  if d.sign then -((d.expo.val * 4503599627370496 + d.frac.val : Nat) : Int)
  else ((d.expo.val * 4503599627370496 + d.frac.val : Nat) : Int)

/-- The C++ expression `a == b` on doubles. -/
def eq (a b : Double) : Bool := !a.isNaN && !b.isNaN && decide (a.key = b.key)

/-- The C++ expression `a != b` on doubles. -/
def ne (a b : Double) : Bool := !(eq a b)

/-- The C++ expression `a < b` on doubles. -/
def lt (a b : Double) : Bool := !a.isNaN && !b.isNaN && decide (a.key < b.key)

/-- The C++ expression `a <= b` on doubles. -/
def le (a b : Double) : Bool := !a.isNaN && !b.isNaN && decide (a.key ≤ b.key)

/-- The C++ expression `a > b` on doubles. -/
def gt (a b : Double) : Bool := lt b a

/-- The C++ expression `a >= b` on doubles. -/
def ge (a b : Double) : Bool := le b a

/-- The C++ unary minus on a double: the sign bit is flipped. -/
def neg (d : Double) : Double := { d with sign := !d.sign }

/-- Exact value of a finite datum. -/
def toRat (d : Double) : ℚ :=
  let m : ℚ :=
    if d.expo.val = 0 then (d.frac.val : ℚ) * (2 : ℚ) ^ (-1074 : ℤ)
    else ((4503599627370496 + d.frac.val : Nat) : ℚ) * (2 : ℚ) ^ ((d.expo.val : ℤ) - 1075)
  if d.sign then -m else m

/-- Round a non-negative rational to the nearest integer, ties to even. -/
def roundEven (q : ℚ) : Nat :=
  let f := ⌊q⌋₊
  let r := q - f
  if r < 1 / 2 then f else if 1 / 2 < r then f + 1 else if f % 2 = 0 then f else f + 1

/-- Correctly rounded encoding of a rational (round to nearest, ties to even,
overflow to infinity); `s` is the sign given to an exact zero. -/
def ofRat (s : Bool) (q : ℚ) : Double :=
  if q = 0 then ⟨s, 0, 0⟩ else
  let neg := decide (q < 0)
  let a := |q|
  let e : ℤ := max (Int.log 2 a) (-1022)
  let n := roundEven (a / (2 : ℚ) ^ (e - 52))
  let (e, n) := if n = 9007199254740992 then (e + 1, 4503599627370496) else (e, n)
  if 1023 < e then infinity neg
  else if n < 4503599627370496 then
    ⟨neg, 0, ⟨n % 4503599627370496, Nat.mod_lt _ (by decide)⟩⟩
  else
    ⟨neg, ⟨(e + 1023).toNat % 2048, Nat.mod_lt _ (by decide)⟩,
      ⟨(n - 4503599627370496) % 4503599627370496, Nat.mod_lt _ (by decide)⟩⟩

/-- The C++ expression `a + b` on doubles. -/
def add (a b : Double) : Double :=
  if a.isNaN || b.isNaN then qNaN
  else if a.isInf then (if b.isInf && a.sign != b.sign then qNaN else a)
  else if b.isInf then b
  else ofRat (a.sign && b.sign) (a.toRat + b.toRat)

/-- The C++ expression `a - b` on doubles. -/
def sub (a b : Double) : Double := add a (neg b)

/-- The C++ expression `a * b` on doubles. -/
def mul (a b : Double) : Double :=
  if a.isNaN || b.isNaN then qNaN
  else if a.isInf || b.isInf then
    (if a.isZero || b.isZero then qNaN else infinity (a.sign != b.sign))
  else ofRat (a.sign != b.sign) (a.toRat * b.toRat)

/-- The C++ expression `a / b` on doubles. -/
def div (a b : Double) : Double :=
  if a.isNaN || b.isNaN then qNaN
  else if a.isInf then (if b.isInf then qNaN else infinity (a.sign != b.sign))
  else if b.isInf then ⟨a.sign != b.sign, 0, 0⟩
  else if b.isZero then (if a.isZero then qNaN else infinity (a.sign != b.sign))
  else ofRat (a.sign != b.sign) (a.toRat / b.toRat)

/-- Finite datum (`std::isfinite`): the exponent bits are not all set. -/
def isFinite (d : Double) : Bool := d.expo.val != 2047

/-- The result `r` of an arithmetic operation of IEEE-754 in the default
rounding mode, round to nearest with ties to even, where `q` is the exact
result on the values of the finite operands and `zeroSign` is the sign that
the operation gives an exact zero. The result is not a NaN; an exact zero has
the sign `zeroSign`, any other result the sign of `q`; an exact result that a
finite datum other than a zero has is that datum; the result is an infinity
exactly when the magnitude of `q` is at least `2 ^ 1024 - 2 ^ 970`, the
largest finite magnitude plus half a unit in its last place; otherwise no
finite datum is nearer to `q` than the result, and where another value is
as near the result is the one with an even fraction field. -/
def RoundsTo (zeroSign : Bool) (q : ℚ) (r : Double) : Prop :=
  r.isNaN = false ∧
  (q = 0 → r = ⟨zeroSign, 0, 0⟩) ∧
  (q ≠ 0 → r.sign = decide (q < 0)) ∧
  (∀ c : Double, c.isFinite = true → c.isZero = false → c.toRat = q → r = c) ∧
  (r.isInf = true ↔ (2 : ℚ) ^ (1024 : ℤ) - (2 : ℚ) ^ (970 : ℤ) ≤ |q|) ∧
  (r.isInf = false → ∀ c : Double, c.isFinite = true → |r.toRat - q| ≤ |c.toRat - q|) ∧
  (r.isInf = false → ∀ c : Double, c.isFinite = true → c.toRat ≠ r.toRat →
    |c.toRat - q| = |r.toRat - q| → r.frac.val % 2 = 0)

end Double

/-! ## Values, tokens, exceptions -/

/-- Handle to a heap object (`std::shared_ptr<Object>`): the address of the
object. Two handles are equal exactly when they point at the same object. -/
structure ObjPtr where
  addr : Nat
deriving DecidableEq, Repr

/-- The variant `Value` of `include/value.h`: `std::monostate` (none), `bool`,
`double`, `std::string`, `ObjPtr`, in this order. -/
inductive Value where
  | none
  | boolean (b : Bool)
  | number (d : Double)
  | string (s : String)
  | object (p : ObjPtr)
deriving DecidableEq, Repr

namespace Value

/-- The call `std::variant::index()`: position of the active alternative. -/
def index : Value → Nat
  | .none => 0
  | .boolean _ => 1
  | .number _ => 2
  | .string _ => 3
  | .object _ => 4

end Value

/-- Token kinds of `include/token.h`. -/
inductive TokenType where
  | LEFT_PAREN | RIGHT_PAREN | LEFT_BRACE | RIGHT_BRACE
  | COMMA | DOT | MINUS | PLUS | SEMICOLON | SLASH | STAR
  | LEFT_BRACKET | RIGHT_BRACKET
  | COLON
  | BANG | BANG_EQUAL
  | EQUAL | EQUAL_EQUAL
  | GREATER | GREATER_EQUAL
  | LESS | LESS_EQUAL
  | IDENTIFIER | STRING | NUMBER
  | AND | CLASS | ELSE | FALSE | FUN | FOR | IF | NONE | OR
  | PRINT | RETURN | SUPER | THIS | TRUE | VAR | WHILE
  | IMPORT | AS | MATCH | CASE | DEFAULT
  | END_OF_FILE
deriving DecidableEq, Repr

/-- Literal payload of a token:
`std::variant<std::monostate, std::string, double, bool>`. -/
inductive Literal where
  | none
  | string (s : String)
  | number (d : Double)
  | boolean (b : Bool)
deriving DecidableEq, Repr

/-- The class `Token` of `include/token.h`. -/
structure Token where
  type : TokenType
  lexeme : String
  literal : Literal
  line : Int
deriving DecidableEq, Repr

/-- What the evaluator can throw: `RuntimeException` and `ReturnException` of
`include/error_reporter.h`, `std::out_of_range` (from `unordered_map::at`),
`std::bad_variant_access` (from `std::get`) and a bare `std::runtime_error`.
The last alternative, `undefined`, is not a C++ exception: it marks an
execution that C++ leaves undefined (a null or dangling pointer is
dereferenced) or that the embedding cuts off (a pointer chain longer than the
fuel given to walk it). -/
inductive Thrown where
  | RuntimeException (token : Token) (message : String)
  | ReturnException (value : Value)
  | out_of_range
  | bad_variant_access
  | runtime_error (message : String)
  | undefined (what : String)
deriving DecidableEq, Repr

namespace Value

/-- The call `std::get<double>(value)`: the payload of a number,
`std::bad_variant_access` for any other alternative. -/
def getDouble : Value → Except Thrown Double
  | .number d => .ok d
  | _ => .error .bad_variant_access

/-- The call `std::get<std::string>(value)`. -/
def getString : Value → Except Thrown String
  | .string s => .ok s
  | _ => .error .bad_variant_access

/-- The test `std::holds_alternative<double>(value)`. -/
def holdsDouble : Value → Bool
  | .number _ => true
  | _ => false

/-- The test `std::holds_alternative<std::string>(value)`. -/
def holdsString : Value → Bool
  | .string _ => true
  | _ => false

end Value

/-! ## Environments (`src/environment.cpp`) -/

/-- The member `values` of an environment,
`std::unordered_map<std::string, Value>`, as an association list. -/
abbrev ValueMap := List (String × Value)

namespace ValueMap

/-- The call `values.count(key)`: 1 when the key is present, 0 otherwise. -/
def count (m : ValueMap) (key : String) : Nat :=
  match m.lookup key with
  | some _ => 1
  | none => 0

/-- The call `values.at(key)`: the mapped value, `std::out_of_range` when absent. -/
def atKey (m : ValueMap) (key : String) : Except Thrown Value :=
  match m.lookup key with
  | some v => .ok v
  | none => .error .out_of_range

/-- The statement `values[key] = value`: overwrite the entry of the key, or insert one. -/
def put : ValueMap → String → Value → ValueMap
  | [], key, value => [(key, value)]
  | (k, v) :: rest, key, value =>
    if k = key then (key, value) :: rest else (k, v) :: put rest key value

end ValueMap

/-- The class `Environment`: a map `values` and the pointer `enclosing`, which
is null for an environment built by `Environment()` and points at the parent
for one built by `Environment(enclosing)`. -/
inductive Environment where
  | global (values : ValueMap)
  | nested (values : ValueMap) (enclosing : Environment)
deriving DecidableEq, Repr

namespace Environment

/-- The accessor `getValues()`: the environment's own map. -/
def getValues : Environment → ValueMap
  | .global values => values
  | .nested values _ => values

/-- The accessor `getEnclosing()`: the enclosing environment, if any. -/
def getEnclosing : Environment → Option Environment
  | .global _ => none
  | .nested _ enclosing => some enclosing

/-- The maps of the chain, innermost first. -/
def chain : Environment → List ValueMap
  | .global values => [values]
  | .nested values enclosing => values :: chain enclosing

/-- The method `Environment::contains`: `values.count(name)` converted to `bool`. -/
def contains (env : Environment) (name : String) : Bool :=
  env.getValues.count name != 0

/-- The method `Environment::define`: `values[name] = value`. -/
def define : Environment → String → Value → Environment
  | .global values, name, value => .global (values.put name value)
  | .nested values enclosing, name, value => .nested (values.put name value) enclosing

/-- The method `Environment::assign`: the outcome and the chain afterwards. -/
def assign : Environment → Token → Value → Except Thrown Unit × Environment
  | .global values, name, value =>
    if values.count name.lexeme ≠ 0 then
      (.ok (), .global (values.put name.lexeme value))
    else
      (.error (.RuntimeException name
        ("Tanımlanmamış değişken \x27" ++ name.lexeme ++ "\x27.")), .global values)
  | .nested values enclosing, name, value =>
    if values.count name.lexeme ≠ 0 then
      (.ok (), .nested (values.put name.lexeme value) enclosing)
    else
      let r := assign enclosing name value
      (r.1, .nested values r.2)

/-- The method `Environment::get`. -/
def get : Environment → Token → Except Thrown Value
  | .global values, name =>
    if values.count name.lexeme ≠ 0 then values.atKey name.lexeme
    else .error (.RuntimeException name
      ("Tanımlanmamış değişken \x27" ++ name.lexeme ++ "\x27."))
  | .nested values enclosing, name =>
    if values.count name.lexeme ≠ 0 then values.atKey name.lexeme
    else get enclosing name

end Environment

/-! ## Syntax trees (`include/ast.h`, expressions) -/

/-- Expression nodes of `include/ast.h`, one constructor per class. -/
inductive Expr where
  | BinaryExpr (left : Expr) (op : Token) (right : Expr)
  | CallExpr (callee : Expr) (paren : Token) (arguments : List Expr)
  | GetExpr (object : Expr) (name : Token)
  | GroupingExpr (expression : Expr)
  | LiteralExpr (value : Value)
  | LogicalExpr (left : Expr) (op : Token) (right : Expr)
  | SetExpr (object : Expr) (name : Token) (value : Expr)
  | SuperExpr (keyword : Token) (method : Token)
  | ThisExpr (keyword : Token)
  | UnaryExpr (op : Token) (right : Expr)
  | VariableExpr (name : Token)
  | ListLiteralExpr (elements : List Expr)

/-! ## The evaluator (`src/interpreter.cpp`) -/

/-- The two environment pointers of the class `Interpreter`: `globals` and
the current `environment`. -/
structure Interpreter where
  globals : Environment
  environment : Environment
deriving DecidableEq, Repr

/-- A member function of the evaluator that may throw and may change the
evaluator state `σ`: it yields its outcome and the state afterwards. -/
abbrev Eval (σ : Type) (α : Type) : Type := σ → Except Thrown α × σ

namespace Interpreter

/-- The method `Interpreter::isTruthy`. -/
def isTruthy : Value → Bool
  | .none => false
  | .boolean b => b
  | .number d => Double.ne d Double.zero
  | .string s => !s.isEmpty
  | .object _ => true

/-- The method `Interpreter::isEqual`. -/
def isEqual (a b : Value) : Bool :=
  if a.index ≠ b.index then false
  else
    match a, b with
    | .none, _ => true
    | .boolean x, .boolean y => x == y
    | .number x, .number y => Double.eq x y
    | .string x, .string y => x == y
    | .object x, .object y => x == y
    | _, _ => false

/-- The method `Interpreter::runtimeError`: builds the exception (the caller throws it). -/
def runtimeError (token : Token) (message : String) : Thrown :=
  .RuntimeException token message

/-- The method `Interpreter::checkNumberOperand`. -/
def checkNumberOperand (op : Token) (operand : Value) : Except Thrown Unit :=
  if operand.holdsDouble then .ok ()
  else .error (runtimeError op "Operand bir sayı olmalıdır.")

/-- The method `Interpreter::checkNumberOperands`. -/
def checkNumberOperands (op : Token) (left right : Value) : Except Thrown Unit :=
  if left.holdsDouble && right.holdsDouble then .ok ()
  else .error (runtimeError op "Operanlar sayı olmalıdır.")

/-- The method `Interpreter::lookUpVariable`. -/
def lookUpVariable (self : Interpreter) (name : Token) : Except Thrown Value :=
  if self.environment.contains name.lexeme then self.environment.get name
  else if self.globals.contains name.lexeme then self.globals.get name
  else .error (runtimeError name
    ("Tanımlanmamış değişken \x27" ++ name.lexeme ++ "\x27."))

/-- The method `Interpreter::visitBinaryExpr` on the node `BinaryExpr left op right`;
`evaluate` is the evaluator's dispatch on sub-expressions. -/
def visitBinaryExpr {σ : Type} (evaluate : Expr → Eval σ Value)
    (left : Expr) (op : Token) (right : Expr) : Eval σ Value := fun s =>
  match evaluate left s with
  | (.error e, s1) => (.error e, s1)
  | (.ok left, s1) =>
  match evaluate right s1 with
  | (.error e, s2) => (.error e, s2)
  | (.ok right, s2) =>
    (match op.type with
      | .MINUS => do
        checkNumberOperands op left right
        return .number (Double.sub (← left.getDouble) (← right.getDouble))
      | .SLASH => do
        checkNumberOperands op left right
        if Double.eq (← right.getDouble) Double.zero then
          throw (runtimeError op "Sıfıra bölme hatası.")
        return .number (Double.div (← left.getDouble) (← right.getDouble))
      | .STAR => do
        checkNumberOperands op left right
        return .number (Double.mul (← left.getDouble) (← right.getDouble))
      | .PLUS => do
        if left.holdsDouble && right.holdsDouble then
          return .number (Double.add (← left.getDouble) (← right.getDouble))
        if left.holdsString && right.holdsString then
          return .string ((← left.getString) ++ (← right.getString))
        throw (runtimeError op "Operanlar sayılar veya stringler olmalıdır.")
      | .GREATER => do
        checkNumberOperands op left right
        return .boolean (Double.gt (← left.getDouble) (← right.getDouble))
      | .GREATER_EQUAL => do
        checkNumberOperands op left right
        return .boolean (Double.ge (← left.getDouble) (← right.getDouble))
      | .LESS => do
        checkNumberOperands op left right
        return .boolean (Double.lt (← left.getDouble) (← right.getDouble))
      | .LESS_EQUAL => do
        checkNumberOperands op left right
        return .boolean (Double.le (← left.getDouble) (← right.getDouble))
      | .BANG_EQUAL => return .boolean (!isEqual left right)
      | .EQUAL_EQUAL => return .boolean (isEqual left right)
      | _ => return .none, s2)

/-- The method `Interpreter::visitUnaryExpr` on the node `UnaryExpr op right`. -/
def visitUnaryExpr {σ : Type} (evaluate : Expr → Eval σ Value)
    (op : Token) (right : Expr) : Eval σ Value := fun s =>
  match evaluate right s with
  | (.error e, s1) => (.error e, s1)
  | (.ok right, s1) =>
    (match op.type with
      | .BANG => return .boolean (!isTruthy right)
      | .MINUS => do
        checkNumberOperand op right
        return .number (Double.neg (← right.getDouble))
      | _ => return .none, s1)

end Interpreter

deriving instance DecidableEq for Except

/-! ## Sample data -/

/-- An identifier token with lexeme `x`. -/
def sampleName : Token := ⟨.IDENTIFIER, "x", .none, 1⟩

/-- A three-deep chain: an empty block scope, inside a scope binding `x` to
`1.0`, inside a global scope binding `x` to `true`. -/
def sampleChain : Environment :=
  .nested [] (.nested [("x", .number Double.one)] (.global [("x", .boolean true)]))

/-- An evaluator inside a block of a function body: the current environment
is an empty block scope, its enclosing scope binds `x`, the globals do not. -/
def sampleInterpreter : Interpreter :=
  { globals := .global [],
    environment := .nested [] (.nested [("x", .number Double.one)] (.global [])) }

/-- The same evaluator with a global `x` as well. -/
def sampleShadowingInterpreter : Interpreter :=
  { globals := .global [("x", .boolean true)], environment := sampleChain }

/-- The evaluator's dispatch restricted to literal nodes (`visitLiteralExpr`
returns the node's value and leaves the state alone); any other node is
reported as unsupported. -/
def evaluateLiteral {σ : Type} : Expr → Eval σ Value
  | .LiteralExpr value, s => (.ok value, s)
  | _, s => (.error (.runtime_error "unsupported node"), s)


/-! ## Syntax trees (`include/ast.h`, statements) -/

mutual
/-- Statement nodes of `include/ast.h`, one constructor per class. A null
`ExprPtr` or `StmtPtr` field (no superclass, no else branch, no return value,
no initializer) is `none`. -/
inductive Stmt where
  | BlockStmt (statements : List Stmt)
  | ClassStmt (name : Token) (superclass : Option Expr) (methods : List Stmt)
  | ExprStmt (expression : Expr)
  | FunStmt (name : Token) (params : List Token) (body : List Stmt)
  | IfStmt (condition : Expr) (thenBranch : Stmt) (elseBranch : Option Stmt)
  | ImportStmt (moduleName : Token) (aliasName : String)
  | ReturnStmt (keyword : Token) (value : Option Expr)
  | VarStmt (name : Token) (initializer : Option Expr)
  | WhileStmt (condition : Expr) (body : Stmt)
  | MatchStmt (subject : Expr) (cases : List MatchCase)
/-- The struct `MatchCase`: a pattern (null for `default`) and a body. -/
inductive MatchCase where
  | mk (pattern : Option Expr) (body : Stmt)
end

namespace MatchCase

/-- The field `pattern`. -/
def pattern : MatchCase → Option Expr
  | .mk pattern _ => pattern

/-- The field `body`. -/
def body : MatchCase → Stmt
  | .mk _ body => body

end MatchCase

/-- The fields of a `FunStmt` node, as held by a function object through its
`declaration` pointer. -/
structure FunStmt where
  name : Token
  params : List Token
  body : List Stmt

/-! ## Memory: environments and heap objects by address -/

/-- Objects of one kind laid out in memory, by address. Address 0 is the null
pointer and is never allocated. -/
abbrev Memory (α : Type) := List (Nat × α)

namespace Memory

/-- Dereference: the object at an address, if one is allocated there. -/
def read {α : Type} (m : Memory α) (addr : Nat) : Option α :=
  m.lookup addr

/-- Store an object at an address, replacing the one that is there. -/
def write {α : Type} : Memory α → Nat → α → Memory α
  | [], addr, a => [(addr, a)]
  | (k, v) :: rest, addr, a =>
    if k = addr then (addr, a) :: rest else (k, v) :: write rest addr a

/-- An address that is not null and holds no object. -/
def fresh {α : Type} (m : Memory α) : Nat :=
  (m.map Prod.fst).foldr max 0 + 1

end Memory

/-- Pointer to an `Environment` object (`std::shared_ptr<Environment>`). -/
structure EnvPtr where
  addr : Nat
deriving DecidableEq, Repr

/-- An `Environment` object in memory: its map and its `enclosing` pointer
(`none` for the null pointer). -/
structure EnvironmentObject where
  values : ValueMap
  enclosing : Option EnvPtr
deriving DecidableEq, Repr

namespace ObjPtr

/-- The null handle. -/
def null : ObjPtr := ⟨0⟩

/-- The test `ptr == nullptr`. -/
def isNull (p : ObjPtr) : Bool := p.addr == 0

end ObjPtr

/-- The enumeration `Object::ObjectType` of `include/object.h`. -/
inductive ObjectType where
  | FUNCTION
  | CLASS
  | INSTANCE
  | LIST
  | C_CUBE_MODULE
  | BOUND_METHOD
deriving DecidableEq, Repr

/-- The data members of `CCubeFunction` (`include/function.h`). -/
structure CCubeFunction where
  declaration : FunStmt
  closure : EnvPtr
  isInitializer : Bool

/-- The data members of `CCubeClass` (`include/class.h`); a null `superclass`
is `none`, and `methods` maps a name to the handle of a function object. -/
structure CCubeClass where
  name : String
  superclass : Option ObjPtr
  methods : List (String × ObjPtr)
deriving DecidableEq, Repr

/-- The data members of `CCubeInstance` (`include/instance.h`). -/
structure CCubeInstance where
  klass : ObjPtr
  properties : ValueMap
deriving DecidableEq, Repr

/-- The data members of `BoundMethod` (`include/callable.h`). -/
structure BoundMethod where
  inst : ObjPtr
  function : ObjPtr
deriving DecidableEq, Repr

/-- The data member of `CCubeList`. -/
structure CCubeList where
  elements : List Value
deriving DecidableEq, Repr

/-- The data members of `CCubeModule` (`include/c_cube_module.h`). -/
structure CCubeModule where
  name : String
  moduleEnvironment : EnvPtr
deriving DecidableEq, Repr

/-- A heap object: one of the six classes derived from `Object`. -/
inductive Object where
  | function (f : CCubeFunction)
  | klass (c : CCubeClass)
  | inst (i : CCubeInstance)
  | list (l : CCubeList)
  | module (m : CCubeModule)
  | boundMethod (b : BoundMethod)

namespace Object

/-- The virtual method `getType()`. -/
def getType : Object → ObjectType
  | .function _ => .FUNCTION
  | .klass _ => .CLASS
  | .inst _ => .INSTANCE
  | .list _ => .LIST
  | .module _ => .C_CUBE_MODULE
  | .boundMethod _ => .BOUND_METHOD

/-- The method `Object::isCallable` of `include/object.h`. -/
def isCallable (o : Object) : Bool :=
  o.getType == .FUNCTION || o.getType == .CLASS || o.getType == .BOUND_METHOD

end Object

/-- The mutable state the evaluator works on: the `Environment` objects and
the heap objects in memory, and the two environment pointers of the class
`Interpreter`. -/
structure Runtime where
  environments : Memory EnvironmentObject
  objects : Memory Object
  globals : EnvPtr
  environment : EnvPtr

namespace Runtime

/-- The call `std::make_shared<Environment>(enclosing)`: a new environment
with an empty map at a fresh address. -/
def newEnvironment (s : Runtime) (enclosing : Option EnvPtr) : EnvPtr × Runtime :=
  let addr := Memory.fresh s.environments
  (⟨addr⟩, { s with environments := s.environments.write addr ⟨[], enclosing⟩ })

/-- The call `env->define(name, value)` through an environment pointer; an
unallocated address is left alone. -/
def define (s : Runtime) (env : EnvPtr) (name : String) (value : Value) : Runtime :=
  match s.environments.read env.addr with
  | some e =>
    { s with environments :=
        s.environments.write env.addr { e with values := e.values.put name value } }
  | none => s

/-- The call `std::make_shared<T>(...)` for a heap object: the object is
placed at a fresh address and its handle returned. -/
def newObject (s : Runtime) (o : Object) : ObjPtr × Runtime :=
  let addr := Memory.fresh s.objects
  (⟨addr⟩, { s with objects := s.objects.write addr o })

/-- The chain of environments reached from a pointer through the `enclosing`
pointers, walked for at most `fuel` steps. -/
def resolve (envs : Memory EnvironmentObject) : Nat → EnvPtr → Option Environment
  | 0, _ => none
  | fuel + 1, p =>
    match envs.read p.addr with
    | none => none
    | some e =>
      match e.enclosing with
      | none => some (.global e.values)
      | some q => (resolve envs fuel q).map (Environment.nested e.values)

/-- The evaluator's two environments as chains. The number of allocated
environments bounds the length of an acyclic chain. -/
def interpreter (s : Runtime) : Option Interpreter :=
  match resolve s.environments s.environments.length s.globals,
    resolve s.environments s.environments.length s.environment with
  | some g, some e => some { globals := g, environment := e }
  | _, _ => none

end Runtime

/-! ## Classes and instances (`src/class.cpp`, `src/instance.cpp`) -/

namespace CCubeClass

/-- The method `findMethod` of a class object, called through the handle
`klass`: the class's own table first, then the superclass. The result is the
handle found, or the null handle; `none` when a handle on the way is not the
handle of a class object or the chain is longer than `fuel`. -/
def findMethod (objects : Memory Object) : Nat → ObjPtr → String → Option ObjPtr
  | 0, _, _ => none
  | fuel + 1, klass, name =>
    match objects.read klass.addr with
    | some (.klass c) =>
      match c.methods.lookup name with
      | some method => some method
      | none =>
        match c.superclass with
        | some superclass => findMethod objects fuel superclass name
        | none => some ObjPtr.null
    | _ => none

/-- The classes from the class at `klass` up to the root of its superclass
chain, nearest first; `none` when a handle on the way is not the handle of a
class object or the chain is longer than `fuel`. -/
def superclassChain (objects : Memory Object) : Nat → ObjPtr → Option (List CCubeClass)
  | 0, _ => none
  | fuel + 1, klass =>
    match objects.read klass.addr with
    | some (.klass c) =>
      match c.superclass with
      | some superclass => (superclassChain objects fuel superclass).map (List.cons c)
      | none => some [c]
    | _ => none

end CCubeClass

namespace CCubeInstance

/-- The method `CCubeInstance::get`, called through the handle `self`; `fuel`
bounds the walk of the superclass chain. -/
def get (fuel : Nat) (self : ObjPtr) (name : Token) : Eval Runtime Value := fun s =>
  match s.objects.read self.addr with
  | some (.inst i) =>
    if i.properties.count name.lexeme ≠ 0 then (i.properties.atKey name.lexeme, s)
    else
      match CCubeClass.findMethod s.objects fuel i.klass name.lexeme with
      | none => (.error (.undefined "findMethod"), s)
      | some method =>
        if !method.isNull then
          let (bound, s1) := s.newObject (.boundMethod ⟨self, method⟩)
          (.ok (.object bound), s1)
        else
          (.error (.RuntimeException name
            ("\x27" ++ name.lexeme ++ "\x27 adlı özellik bulunamadı.")), s)
  | _ => (.error (.undefined "CCubeInstance::get"), s)

/-- The method `CCubeInstance::set`, called through the handle `self`:
`properties[name.lexeme] = value`. -/
def set (self : ObjPtr) (name : Token) (value : Value) (s : Runtime) : Runtime :=
  match s.objects.read self.addr with
  | some (.inst i) =>
    let updated : CCubeInstance := { i with properties := i.properties.put name.lexeme value }
    { s with objects := s.objects.write self.addr (.inst updated) }
  | _ => s

end CCubeInstance

namespace CCubeModule

/-- The method `CCubeModule::getMember`. -/
def getMember (m : CCubeModule) (name : Token) (s : Runtime) : Except Thrown Value :=
  match Runtime.resolve s.environments s.environments.length m.moduleEnvironment with
  | none => .error (.undefined "moduleEnvironment")
  | some env =>
    if env.contains name.lexeme then env.get name
    else .error (.RuntimeException name
      ("Modül \x27" ++ m.name ++ "\x27 içinde \x27" ++ name.lexeme ++
        "\x27 adlı üye bulunamadı."))

end CCubeModule

/-! ## The evaluator: logical operators, calls, properties -/

namespace Interpreter

/-- The method `Interpreter::visitLogicalExpr` on the node
`LogicalExpr left op right`. -/
def visitLogicalExpr {σ : Type} (evaluate : Expr → Eval σ Value)
    (left : Expr) (op : Token) (right : Expr) : Eval σ Value := fun s =>
  match evaluate left s with
  | (.error e, s1) => (.error e, s1)
  | (.ok left, s1) =>
    if op.type = .OR then
      if isTruthy left then (.ok left, s1) else evaluate right s1
    else
      if !isTruthy left then (.ok left, s1) else evaluate right s1

/-- The method `Interpreter::visitLiteralExpr`. -/
def visitLiteralExpr {σ : Type} (value : Value) : Eval σ Value := fun s =>
  (.ok value, s)

/-- The method `Interpreter::visitVariableExpr`: `lookUpVariable` on the
evaluator's two environments. -/
def visitVariableExpr (name : Token) : Eval Runtime Value := fun s =>
  match s.interpreter with
  | some self => (self.lookUpVariable name, s)
  | none => (.error (.undefined "environment"), s)

/-- The argument loop of `visitCallExpr`: the arguments are evaluated and
pushed back in source order. -/
def evaluateArguments {σ : Type} (evaluate : Expr → Eval σ Value) :
    List Expr → Eval σ (List Value)
  | [], s => (.ok [], s)
  | arg :: rest, s =>
    match evaluate arg s with
    | (.error e, s1) => (.error e, s1)
    | (.ok v, s1) =>
      match evaluateArguments evaluate rest s1 with
      | (.error e, s2) => (.error e, s2)
      | (.ok vs, s2) => (.ok (v :: vs), s2)

/-- The method `Interpreter::visitCallExpr` on the node
`CallExpr callee paren arguments`; `arity` and `call` are the virtual methods
of `Callable`, dispatched on the callee object. -/
def visitCallExpr (evaluate : Expr → Eval Runtime Value)
    (arity : ObjPtr → Runtime → Nat) (call : ObjPtr → List Value → Eval Runtime Value)
    (callee : Expr) (paren : Token) (arguments : List Expr) : Eval Runtime Value := fun s =>
  match evaluate callee s with
  | (.error e, s1) => (.error e, s1)
  | (.ok callee, s1) =>
  match evaluateArguments evaluate arguments s1 with
  | (.error e, s2) => (.error e, s2)
  | (.ok arguments, s2) =>
    match callee with
    | .object obj_callee =>
      match s2.objects.read obj_callee.addr with
      | none => (.error (.undefined "obj_callee"), s2)
      | some o =>
        if !o.isCallable then
          (.error (runtimeError paren "Sadece fonksiyonlar ve sınıflar çağrılabilir."), s2)
        else if arguments.length ≠ arity obj_callee s2 then
          (.error (runtimeError paren
            ("Beklenen " ++ toString (arity obj_callee s2) ++ " argüman, ancak " ++
              toString arguments.length ++ " geldi.")), s2)
        else call obj_callee arguments s2
    | _ => (.error (runtimeError paren "Sadece fonksiyonlar ve sınıflar çağrılabilir."), s2)

/-- The method `Interpreter::visitGetExpr` on the node `GetExpr object name`;
`createObject` is `Gc::createObject` for a bound method, and `fuel` bounds the
walk of the superclass chain. -/
def visitGetExpr (evaluate : Expr → Eval Runtime Value)
    (createObject : ObjPtr → Runtime → ObjPtr × Runtime) (fuel : Nat)
    (object : Expr) (name : Token) : Eval Runtime Value := fun s =>
  match evaluate object s with
  | (.error e, s1) => (.error e, s1)
  | (.ok object, s1) =>
    match object with
    | .object inst =>
      match s1.objects.read inst.addr with
      | none => (.error (.undefined "instance"), s1)
      | some (.inst _) =>
        match CCubeInstance.get fuel inst name s1 with
        | (.error e, s2) => (.error e, s2)
        | (.ok result, s2) =>
          match result with
          | .object function =>
            if !function.isNull then
              let (bound, s3) := s2.newObject (.boundMethod ⟨inst, function⟩)
              let (obj, s4) := createObject bound s3
              (.ok (.object obj), s4)
            else (.ok result, s2)
          | _ => (.ok result, s2)
      | some (.module m) => (m.getMember name s1, s1)
      | some _ =>
        (.error (runtimeError name
          "Sadece objeler, modüller veya sınıflar property\x27lere sahip olabilir."), s1)
    | _ =>
      (.error (runtimeError name
        "Sadece objeler, modüller veya sınıflar property\x27lere sahip olabilir."), s1)

/-- The method `Interpreter::visitSetExpr` on the node
`SetExpr object name value`. -/
def visitSetExpr (evaluate : Expr → Eval Runtime Value)
    (object : Expr) (name : Token) (value : Expr) : Eval Runtime Value := fun s =>
  match evaluate object s with
  | (.error e, s1) => (.error e, s1)
  | (.ok object, s1) =>
    match object with
    | .object inst =>
      match s1.objects.read inst.addr with
      | none => (.error (.undefined "object"), s1)
      | some o =>
        if o.getType ≠ .INSTANCE then
          (.error (runtimeError name "Sadece objelerin property\x27leri atanabilir."), s1)
        else
          match evaluate value s1 with
          | (.error e, s2) => (.error e, s2)
          | (.ok value, s2) => (.ok value, CCubeInstance.set inst name value s2)
    | _ => (.error (runtimeError name "Sadece objelerin property\x27leri atanabilir."), s1)

end Interpreter

/-! ## The evaluator: blocks, return, match, function calls -/

namespace Interpreter

/-- The statement loop `for (stmt : statements) execute(stmt);`: it stops at
the first statement that throws. -/
def executeStatements (execute : Stmt → Eval Runtime Unit) : List Stmt → Eval Runtime Unit
  | [], s => (.ok (), s)
  | stmt :: rest, s =>
    match execute stmt s with
    | (.error e, s1) => (.error e, s1)
    | (.ok (), s1) => executeStatements execute rest s1

/-- The method `Interpreter::executeBlock`; `execute` is the evaluator's
dispatch on statements. The handler `catch (...)` restores the environment
pointer and rethrows. -/
def executeBlock (execute : Stmt → Eval Runtime Unit) (statements : List Stmt)
    (newEnvironment : EnvPtr) : Eval Runtime Unit := fun s =>
  let previousEnvironment := s.environment
  match executeStatements execute statements { s with environment := newEnvironment } with
  | (.error e, s1) => (.error e, { s1 with environment := previousEnvironment })
  | (.ok (), s1) => (.ok (), { s1 with environment := previousEnvironment })

/-- The method `Interpreter::visitBlockStmt`. -/
def visitBlockStmt (execute : Stmt → Eval Runtime Unit) (statements : List Stmt) :
    Eval Runtime Unit := fun s =>
  let (env, s1) := s.newEnvironment (some s.environment)
  executeBlock execute statements env s1

/-- The method `Interpreter::visitExprStmt`. -/
def visitExprStmt {σ : Type} (evaluate : Expr → Eval σ Value) (expression : Expr) :
    Eval σ Unit := fun s =>
  match evaluate expression s with
  | (.error e, s1) => (.error e, s1)
  | (.ok _, s1) => (.ok (), s1)

/-- The method `Interpreter::visitReturnStmt`: it always throws, a
`ReturnException` carrying the value unless the evaluation of the value
throws first. -/
def visitReturnStmt {σ : Type} (evaluate : Expr → Eval σ Value) (value : Option Expr) :
    Eval σ Unit := fun s =>
  match value with
  | none => (.error (.ReturnException .none), s)
  | some expr =>
    match evaluate expr s with
    | (.error e, s1) => (.error e, s1)
    | (.ok v, s1) => (.error (.ReturnException v), s1)

/-- The case loop of `visitMatchStmt`, with the local flag `matched`. Every
branch that executes a body leaves the loop (`break`). -/
def matchCases (evaluate : Expr → Eval Runtime Value) (execute : Stmt → Eval Runtime Unit)
    (subject_value : Value) : List MatchCase → Bool → Eval Runtime Unit
  | [], _, s => (.ok (), s)
  | .mk none body :: _, matched, s =>
    if !matched then execute body s else (.ok (), s)
  | .mk (some (.LiteralExpr v)) body :: rest, matched, s =>
    match evaluate (.LiteralExpr v) s with
    | (.error e, s1) => (.error e, s1)
    | (.ok pattern_value, s1) =>
      if isEqual subject_value pattern_value then execute body s1
      else matchCases evaluate execute subject_value rest matched s1
  | .mk (some (.VariableExpr var_name)) body :: _, _, s =>
    let (case_env, s1) := s.newEnvironment (some s.environment)
    let s2 := s1.define case_env var_name.lexeme subject_value
    match body with
    | .BlockStmt statements => executeBlock execute statements case_env s2
    | _ =>
      match execute body s2 with
      | (.error e, s3) => (.error e, s3)
      | (.ok (), s3) =>
        (.error (runtimeError var_name "Match case body\x27si bir blok olmalıdır."), s3)
  | .mk (some _) _ :: rest, matched, s =>
    matchCases evaluate execute subject_value rest matched s

/-- The method `Interpreter::visitMatchStmt` on the node
`MatchStmt subject cases`. -/
def visitMatchStmt (evaluate : Expr → Eval Runtime Value) (execute : Stmt → Eval Runtime Unit)
    (subject : Expr) (cases : List MatchCase) : Eval Runtime Unit := fun s =>
  match evaluate subject s with
  | (.error e, s1) => (.error e, s1)
  | (.ok subject_value, s1) => matchCases evaluate execute subject_value cases false s1

end Interpreter

/-! ## Function objects (`src/function.cpp`) -/

namespace CCubeFunction

/-- The parameter loop of `CCubeFunction::call`:
`define(params[i].lexeme, arguments[i])` for every parameter index. Reading
`arguments[i]` past the end of a shorter argument vector is undefined in C++;
the loop of the embedding stops there. -/
def defineParameters (env : EnvPtr) : List Token → List Value → Runtime → Runtime
  | param :: params, argument :: arguments, s =>
    defineParameters env params arguments (s.define env param.lexeme argument)
  | _, _, s => s

/-- The first part of `CCubeFunction::call`: the new environment enclosed by
the closure, with `this` defined when `this_instance` is not null, then the
parameters. It yields the pointer `function_environment` and the state in
which the body starts. -/
def enter (self : CCubeFunction) (arguments : List Value) (this_instance : ObjPtr)
    (s : Runtime) : EnvPtr × Runtime :=
  let (function_environment, s1) := s.newEnvironment (some self.closure)
  let s2 :=
    if !this_instance.isNull then s1.define function_environment "this" (.object this_instance)
    else s1
  (function_environment,
    defineParameters function_environment self.declaration.params arguments s2)

/-- The method `CCubeFunction::call`; `executeBlock` is the method of the
evaluator, and a null `this_instance` is the default argument. -/
def call (executeBlock : List Stmt → EnvPtr → Eval Runtime Unit) (self : CCubeFunction)
    (arguments : List Value) (this_instance : ObjPtr) : Eval Runtime Value := fun s =>
  let (function_environment, s3) := enter self arguments this_instance s
  match executeBlock self.declaration.body function_environment s3 with
  | (.error (.ReturnException value), s4) =>
    if self.isInitializer then (.ok (.object this_instance), s4) else (.ok value, s4)
  | (.error e, s4) => (.error e, s4)
  | (.ok (), s4) =>
    if self.isInitializer then (.ok (.object this_instance), s4) else (.ok .none, s4)

end CCubeFunction

namespace MatchCase

/-- The spec's test of a case against the subject: a literal pattern matches
when it is equal to the subject under isEqual, an identifier pattern and
`default` always match, any other pattern never does. -/
def selects (subject : Value) : MatchCase → Bool
  | .mk none _ => true
  | .mk (some (.LiteralExpr v)) _ => Interpreter.isEqual subject v
  | .mk (some (.VariableExpr _)) _ => true
  | .mk (some _) _ => false

end MatchCase

/-! ## Sample programs and states -/

/-- The evaluator's dispatch restricted to literal and variable nodes. -/
def sampleEvaluate : Expr → Eval Runtime Value
  | .LiteralExpr value => Interpreter.visitLiteralExpr value
  | .VariableExpr name => Interpreter.visitVariableExpr name
  | _ => fun s => (.error (.runtime_error "unsupported node"), s)

/-- The evaluator's dispatch restricted to expression and return statements
over literals and variables. -/
def sampleExecute : Stmt → Eval Runtime Unit
  | .ExprStmt expression => Interpreter.visitExprStmt sampleEvaluate expression
  | .ReturnStmt _ value => Interpreter.visitReturnStmt sampleEvaluate value
  | _ => fun s => (.error (.runtime_error "unsupported node"), s)

/-- An evaluator of literals over a counter: every evaluation increments the
counter. -/
def countingEvaluate : Expr → Eval Nat Value
  | .LiteralExpr value, n => (.ok value, n + 1)
  | _, n => (.error (.runtime_error "unsupported node"), n + 1)

/-- A registration `Gc::createObject` that returns the handle it is given;
the collector's tables are not part of the state. -/
def sampleCreateObject (obj : ObjPtr) (s : Runtime) : ObjPtr × Runtime := (obj, s)

/-- A state at top level: one environment, the globals, which is also the
current one, and no heap objects. -/
def sampleRuntime : Runtime :=
  { environments := [(1, ⟨[], none⟩)], objects := [], globals := ⟨1⟩, environment := ⟨1⟩ }

/-- A state with a class `B` (at address 2) that extends a class `A` (at
address 1); `A` declares `greet` and `name`, `B` overrides `greet`; the
function objects are at addresses 3, 4 and 5. An instance of `B` at address 6
has the property `name`, a list is at address 7, and the globals bind `i` to
the instance and `xs` to the list. -/
def sampleHeap : Runtime :=
  { environments :=
      [(1, ⟨[("i", .object ⟨6⟩), ("xs", .object ⟨7⟩)], none⟩)],
    objects :=
      [(1, .klass ⟨"A", none, [("greet", ⟨3⟩), ("name", ⟨4⟩)]⟩),
       (2, .klass ⟨"B", some ⟨1⟩, [("greet", ⟨5⟩)]⟩),
       (3, .function ⟨⟨⟨.IDENTIFIER, "greet", .none, 1⟩, [], []⟩, ⟨1⟩, false⟩),
       (4, .function ⟨⟨⟨.IDENTIFIER, "name", .none, 1⟩, [], []⟩, ⟨1⟩, false⟩),
       (5, .function ⟨⟨⟨.IDENTIFIER, "greet", .none, 2⟩, [], []⟩, ⟨1⟩, false⟩),
       (6, .inst ⟨⟨2⟩, [("name", .string "bee")]⟩),
       (7, .list ⟨[.number Double.one]⟩)],
    globals := ⟨1⟩,
    environment := ⟨1⟩ }

/-- The function object of `fun f(x) { return x; }`, declared at top level. -/
def sampleFunction : CCubeFunction :=
  { declaration :=
      { name := ⟨.IDENTIFIER, "f", .none, 1⟩,
        params := [⟨.IDENTIFIER, "x", .none, 1⟩],
        body := [.ReturnStmt ⟨.RETURN, "return", .none, 1⟩
          (some (.VariableExpr ⟨.IDENTIFIER, "x", .none, 1⟩))] },
    closure := ⟨1⟩,
    isInitializer := false }

/-- The function object of the method `init() { return "nope"; }`. -/
def sampleInitializer : CCubeFunction :=
  { declaration :=
      { name := ⟨.IDENTIFIER, "init", .none, 1⟩,
        params := [],
        body := [.ReturnStmt ⟨.RETURN, "return", .none, 1⟩
          (some (.LiteralExpr (.string "nope")))] },
    closure := ⟨1⟩,
    isInitializer := true }

/-- The function object of the method `init() { }`, whose body falls
through. -/
def sampleEmptyInitializer : CCubeFunction :=
  { declaration := { name := ⟨.IDENTIFIER, "init", .none, 1⟩, params := [], body := [] },
    closure := ⟨1⟩,
    isInitializer := true }

/-- A dispatch `Callable::arity` that reads the parameter count of a function
object and gives 0 for any other object. -/
def sampleArity (callee : ObjPtr) (s : Runtime) : Nat :=
  match s.objects.read callee.addr with
  | some (.function f) => f.declaration.params.length
  | _ => 0

/-- A dispatch `Callable::call` that leaves a trace: it defines `called` in
the globals and returns the first argument. -/
def sampleCall (_callee : ObjPtr) (arguments : List Value) : Eval Runtime Value := fun s =>
  (.ok (arguments.headD .none), s.define s.globals "called" (.boolean true))

/-- A state with a function of one parameter at address 1 and a list at
address 2, bound to `f` and `xs` in the globals. -/
def sampleCallables : Runtime :=
  { environments := [(1, ⟨[("f", .object ⟨1⟩), ("xs", .object ⟨2⟩)], none⟩)],
    objects := [(1, .function sampleFunction), (2, .list ⟨[]⟩)],
    globals := ⟨1⟩,
    environment := ⟨1⟩ }

/-- The cases of scenario 4:
`case 1: return "one"; case "hi": return "greet"; default: return "?";`. -/
def sampleMatchCases : List MatchCase :=
  [.mk (some (.LiteralExpr (.number Double.one)))
     (.ReturnStmt ⟨.RETURN, "return", .none, 1⟩ (some (.LiteralExpr (.string "one")))),
   .mk (some (.LiteralExpr (.string "hi")))
     (.ReturnStmt ⟨.RETURN, "return", .none, 1⟩ (some (.LiteralExpr (.string "greet")))),
   .mk none
     (.ReturnStmt ⟨.RETURN, "return", .none, 1⟩ (some (.LiteralExpr (.string "?"))))]

/-! ## The collector (`include/gc.h`, `src/gc.cpp`) -/

namespace Memory

/-- The call `map.erase(key)`: the entry of an address is removed. -/
def erase {α : Type} (m : Memory α) (addr : Nat) : Memory α :=
  m.filter (fun entry => entry.1 != addr)

end Memory

/-- The struct `Gc::GcObjectMetadata`. The fields `generation` and `age` are
C++ `int`s; they are integers here, and an increment past the largest `int`
(undefined in C++) is not modelled. -/
structure GcObjectMetadata where
  object : ObjPtr
  generation : Int
  age : Int
  marked : Bool
deriving DecidableEq, Repr

/-- The data members of the class `Gc`. A `std::unordered_set<ObjPtr>` is a
list of handles without repetition; `roots` holds the values that the
registered `Value*` point at; `objectMetadata` is indexed by the address of
the object. The member `bytesAllocated` is a `size_t`, kept modulo `2 ^ 64`. -/
structure Gc where
  roots : List Value
  youngGeneration : List ObjPtr
  oldGeneration : List ObjPtr
  objectMetadata : Memory GcObjectMetadata
  youngGenCapacity : Nat
  oldGenCapacity : Nat
  youngGenCollections : Int
  bytesAllocated : Nat
deriving DecidableEq, Repr

/-- What a collection reads and does not own: the objects and environments in
memory, the virtual method `getSize()` of the objects, and the two
environment pointers `interpreter_globals` and `interpreter_environment`
that `collectGarbage` tests against `nullptr` (`include/gc.h` does not
declare them). -/
structure GcWorld where
  heap : Runtime
  getSize : ObjPtr → Nat
  interpreter_globals : Option EnvPtr
  interpreter_environment : Option EnvPtr

namespace Gc

/-- The constant `PROMOTION_THRESHOLD`. -/
def PROMOTION_THRESHOLD : Int := 3

/-- The constructor `Gc::Gc()`. -/
def new : Gc :=
  { roots := [], youngGeneration := [], oldGeneration := [], objectMetadata := [],
    youngGenCapacity := 1024, oldGenCapacity := 1024 * 10, youngGenCollections := 0,
    bytesAllocated := 0 }

/-- The call `set.insert(obj)` on an unordered set. -/
def setInsert (set : List ObjPtr) (obj : ObjPtr) : List ObjPtr :=
  if obj ∈ set then set else set ++ [obj]

/-- The call `set.erase(obj)` on an unordered set. -/
def setErase (set : List ObjPtr) (obj : ObjPtr) : List ObjPtr :=
  set.filter (fun o => o != obj)

/-- The method `Gc::addRoot(Value*)`. -/
def addRootValue (gc : Gc) (val : Value) : Gc :=
  { gc with roots := gc.roots ++ [val] }

/-- The method `Gc::addRoot(ObjPtr)`: the mark bit of a managed object is
set. -/
def addRoot (gc : Gc) (obj : ObjPtr) : Gc :=
  match gc.objectMetadata.read obj.addr with
  | some m => { gc with objectMetadata := gc.objectMetadata.write obj.addr { m with marked := true } }
  | none => gc

/-- The method `Gc::removeRoot(ObjPtr)`: the mark bit of a managed object is
cleared. -/
def removeRoot (gc : Gc) (obj : ObjPtr) : Gc :=
  match gc.objectMetadata.read obj.addr with
  | some m => { gc with objectMetadata := gc.objectMetadata.write obj.addr { m with marked := false } }
  | none => gc

/-- The method `Gc::resetMarks`. -/
def resetMarks (gc : Gc) : Gc :=
  { gc with objectMetadata :=
      gc.objectMetadata.map (fun entry => (entry.1, { entry.2 with marked := false })) }

/-- The method `Gc::markValue`, over the marking of an object. -/
def markValueWith (markObject : ObjPtr → Memory GcObjectMetadata → Memory GcObjectMetadata)
    (val : Value) (metadata : Memory GcObjectMetadata) : Memory GcObjectMetadata :=
  match val with
  | .object obj => markObject obj metadata
  | _ => metadata

/-- The method `Gc::markContainer`, over the marking of an object. -/
def markContainerWith
    (markObject : ObjPtr → Memory GcObjectMetadata → Memory GcObjectMetadata)
    (container : List Value) (metadata : Memory GcObjectMetadata) :
    Memory GcObjectMetadata :=
  container.foldl (fun md val => markValueWith markObject val md) metadata

/-- The method `Gc::markMap`, over the marking of an object. -/
def markMapWith (markObject : ObjPtr → Memory GcObjectMetadata → Memory GcObjectMetadata)
    (map : ValueMap) (metadata : Memory GcObjectMetadata) : Memory GcObjectMetadata :=
  map.foldl (fun md pair => markValueWith markObject pair.2 md) metadata

/-- The method `Gc::markMapObjects`, over the marking of an object. -/
def markMapObjectsWith
    (markObject : ObjPtr → Memory GcObjectMetadata → Memory GcObjectMetadata)
    (map : List (String × ObjPtr)) (metadata : Memory GcObjectMetadata) :
    Memory GcObjectMetadata :=
  map.foldl (fun md pair => markObject pair.2 md) metadata

/-- The method `Gc::markObject`, on the metadata map; `fuel` bounds the depth
of the recursion. A call returns at once on a null handle, an unmanaged
object or a marked object; otherwise it sets the mark bit and marks the
referents by the type of the object. -/
def markObject (w : GcWorld) :
    Nat → ObjPtr → Memory GcObjectMetadata → Memory GcObjectMetadata
  | 0, _, metadata => metadata
  | fuel + 1, obj, metadata =>
    if obj.isNull then metadata
    else
      match metadata.read obj.addr with
      | none => metadata
      | some m =>
        if m.marked then metadata
        else
          let metadata1 := metadata.write obj.addr { m with marked := true }
          match w.heap.objects.read obj.addr with
          | some (.function func) =>
            match w.heap.environments.read func.closure.addr with
            | some closure =>
              let metadata2 := markMapWith (markObject w fuel) closure.values metadata1
              match closure.enclosing with
              | some enclosing =>
                match w.heap.environments.read enclosing.addr with
                | some e => markMapWith (markObject w fuel) e.values metadata2
                | none => metadata2
              | none => metadata2
            | none => metadata1
          | some (.klass klass) =>
            let metadata2 := markMapObjectsWith (markObject w fuel) klass.methods metadata1
            match klass.superclass with
            | some superclass => markObject w fuel superclass metadata2
            | none => metadata2
          | some (.inst inst) =>
            markMapWith (markObject w fuel) inst.properties
              (markObject w fuel inst.klass metadata1)
          | some (.list list) => markContainerWith (markObject w fuel) list.elements metadata1
          | some (.boundMethod boundMethod) =>
            markObject w fuel boundMethod.function
              (markObject w fuel boundMethod.inst metadata1)
          | some (.module module) =>
            match w.heap.environments.read module.moduleEnvironment.addr with
            | some e => markMapWith (markObject w fuel) e.values metadata1
            | none => metadata1
          | none => metadata1

/-- The recursion depth given to a top-level call of `markObject`: a call
that goes deeper has marked one more managed object, so the depth never
exceeds the number of metadata entries by more than one. -/
def markFuel (gc : Gc) : Nat := gc.objectMetadata.length + 1

/-- The first part of `Gc::collectGarbage`: the marks are reset, then the root
values, the maps of the two interpreter environments when they are not null
and, in a minor collection, the old-generation objects that carry a mark are
marked. -/
def markPhase (w : GcWorld) (full_collection : Bool) (gc : Gc) : Gc :=
  let gc0 := gc.resetMarks
  let fuel := gc0.markFuel
  let md1 := gc0.roots.foldl (fun md root_val => markValueWith (markObject w fuel) root_val md)
    gc0.objectMetadata
  let md2 :=
    match w.interpreter_globals with
    | some globals =>
      match w.heap.environments.read globals.addr with
      | some e => markMapWith (markObject w fuel) e.values md1
      | none => md1
    | none => md1
  let md3 :=
    match w.interpreter_environment with
    | some environment =>
      match w.heap.environments.read environment.addr with
      | some e => markMapWith (markObject w fuel) e.values md2
      | none => md2
    | none => md2
  let md4 :=
    if !full_collection then
      md3.foldl (fun md entry =>
        match md.read entry.1 with
        | some m =>
          if m.generation = 1 && m.marked then markObject w fuel ⟨entry.1⟩ md else md
        | none => md) md3
    else md3
  { gc0 with objectMetadata := md4 }

/-- The test of `Gc::sweep` on an object of the target generation: it has no
metadata or its mark bit is clear. -/
def isGarbage (gc : Gc) (obj : ObjPtr) : Bool :=
  match gc.objectMetadata.read obj.addr with
  | some m => !m.marked
  | none => true

/-- The subtraction `bytesAllocated -= size` on a `size_t`. -/
def subBytes (bytes size : Nat) : Nat :=
  (bytes + 18446744073709551616 - size % 18446744073709551616) % 18446744073709551616

/-- The deletion loop of `Gc::sweep` on one object of the young generation:
the byte counter is decremented, the object leaves the generation and its
metadata entry is erased. -/
def deleteYoung (w : GcWorld) (gc : Gc) (obj : ObjPtr) : Gc :=
  { gc with
    bytesAllocated := subBytes gc.bytesAllocated (w.getSize obj),
    youngGeneration := setErase gc.youngGeneration obj,
    objectMetadata := gc.objectMetadata.erase obj.addr }

/-- The deletion loop of `Gc::sweep` on one object of the old generation. -/
def deleteOld (w : GcWorld) (gc : Gc) (obj : ObjPtr) : Gc :=
  { gc with
    bytesAllocated := subBytes gc.bytesAllocated (w.getSize obj),
    oldGeneration := setErase gc.oldGeneration obj,
    objectMetadata := gc.objectMetadata.erase obj.addr }

/-- The method `Gc::sweep`: the objects to delete are collected from the
target generation first, then deleted one by one. -/
def sweep (w : GcWorld) (generation_to_sweep : Int) (gc : Gc) : Gc :=
  if generation_to_sweep = 0 then
    (gc.youngGeneration.filter gc.isGarbage).foldl (deleteYoung w) gc
  else if generation_to_sweep = 1 then
    (gc.oldGeneration.filter gc.isGarbage).foldl (deleteOld w) gc
  else gc

/-- The first loop of `Gc::promoteObjects` on one young object: the age of a
marked object is incremented, and the object is listed for promotion when the
age has reached the threshold. -/
def ageObject (state : Memory GcObjectMetadata × List ObjPtr) (obj : ObjPtr) :
    Memory GcObjectMetadata × List ObjPtr :=
  match state.1.read obj.addr with
  | some m =>
    if m.marked then
      (state.1.write obj.addr { m with age := m.age + 1 },
        if m.age + 1 ≥ PROMOTION_THRESHOLD then state.2 ++ [obj] else state.2)
    else state
  | none => state

/-- The second loop of `Gc::promoteObjects` on one listed object. -/
def promoteObject (gc : Gc) (obj : ObjPtr) : Gc :=
  { gc with
    youngGeneration := setErase gc.youngGeneration obj,
    oldGeneration := setInsert gc.oldGeneration obj,
    objectMetadata :=
      match gc.objectMetadata.read obj.addr with
      | some m => gc.objectMetadata.write obj.addr { m with generation := 1, age := 0 }
      | none => gc.objectMetadata }

/-- The effect of the first loop of `Gc::promoteObjects` on the metadata of a
young object: the age of a marked object is one more. -/
def aged (m : GcObjectMetadata) : GcObjectMetadata :=
  if m.marked then { m with age := m.age + 1 } else m

/-- The objects that the first loop of `Gc::promoteObjects` lists: marked,
and of an incremented age that has reached the threshold. -/
def isPromoted (metadata : Memory GcObjectMetadata) (obj : ObjPtr) : Bool :=
  match metadata.read obj.addr with
  | some m => m.marked && decide (m.age + 1 ≥ PROMOTION_THRESHOLD)
  | none => false

/-- The effect of the second loop of `Gc::promoteObjects` on the metadata of
a listed object. -/
def promoted (m : GcObjectMetadata) : GcObjectMetadata :=
  { m with generation := 1, age := 0 }

/-- The method `Gc::promoteObjects`. -/
def promoteObjects (gc : Gc) : Gc :=
  let aged := gc.youngGeneration.foldl ageObject (gc.objectMetadata, [])
  aged.2.foldl promoteObject { gc with objectMetadata := aged.1 }

/-- The method `Gc::collectGarbage` called with `full_collection == true`. -/
def collectFull (w : GcWorld) (gc : Gc) : Gc :=
  { sweep w 1 (sweep w 0 (markPhase w true gc)) with youngGenCollections := 0 }

/-- The method `Gc::collectGarbage`. Its one recursive call,
`collectGarbage(true)` at the end of a minor collection, is `collectFull`. -/
def collectGarbage (w : GcWorld) (full_collection : Bool) (gc : Gc) : Gc :=
  if full_collection then collectFull w gc
  else
    let marked := markPhase w false gc
    let promoted := promoteObjects marked
    let counted := { promoted with youngGenCollections := promoted.youngGenCollections + 1 }
    let swept := sweep w 0 counted
    if swept.youngGenCollections ≥ 5 then collectFull w swept else swept

/-- The five overloads of `Gc::createObject`, which differ in the class whose
`sizeof` is added to `bytesAllocated`; `size` is that `sizeof`. -/
def createObject (w : GcWorld) (size : Nat) (obj : ObjPtr) (gc : Gc) : ObjPtr × Gc :=
  let gc1 :=
    { gc with
      youngGeneration := setInsert gc.youngGeneration obj,
      objectMetadata := gc.objectMetadata.write obj.addr ⟨obj, 0, 0, false⟩,
      bytesAllocated := (gc.bytesAllocated + size) % 18446744073709551616 }
  if gc1.youngGeneration.length ≥ gc1.youngGenCapacity then (obj, collectGarbage w false gc1)
  else (obj, gc1)

/-- The method `Gc::createList`: the list object is allocated and then
registered like any other object; `sizeofList` and `sizeofValue` are
`sizeof(CCubeList)` and `sizeof(Value)`. The memory after the allocation is
returned with the handle and the collector. -/
def createList (w : GcWorld) (sizeofList sizeofValue : Nat) (elements : List Value)
    (gc : Gc) : ObjPtr × Runtime × Gc :=
  let (obj, heap) := w.heap.newObject (.list ⟨elements⟩)
  let registered := createObject { w with heap := heap }
    (sizeofList + elements.length * sizeofValue) obj gc
  (registered.1, heap, registered.2)

end Gc

/-! ## Superclass method access and class calls -/

namespace Interpreter

/-- The method `Interpreter::visitSuperExpr` on the node
`SuperExpr keyword method`; `createObject` is `Gc::createObject` for a bound
method, and `fuel` bounds the walk of the superclass chain. -/
def visitSuperExpr (createObject : ObjPtr → Runtime → ObjPtr × Runtime) (fuel : Nat)
    (keyword method : Token) : Eval Runtime Value := fun s =>
  match Runtime.resolve s.environments s.environments.length s.environment with
  | none => (.error (.undefined "environment"), s)
  | some environment =>
    match environment.get ⟨.THIS, "this", .none, keyword.line⟩ with
    | .error e => (.error e, s)
    | .ok this_value =>
      match this_value with
      | .object inst =>
        match s.objects.read inst.addr with
        | none => (.error (.undefined "this"), s)
        | some (.inst i) =>
          match s.objects.read i.klass.addr with
          | some (.klass klass) =>
            match klass.superclass with
            | none =>
              (.error (runtimeError keyword
                "Üst sınıfı olmayan bir objenin \x27super\x27 metodu çağrılamaz."), s)
            | some superclass =>
              match CCubeClass.findMethod s.objects fuel superclass method.lexeme with
              | none => (.error (.undefined "findMethod"), s)
              | some function =>
                if function.isNull then
                  (.error (runtimeError method
                    ("Tanımlanmamış üst sınıf metodu \x27" ++ method.lexeme ++ "\x27.")), s)
                else
                  let (bound, s1) := s.newObject (.boundMethod ⟨inst, function⟩)
                  let (obj, s2) := createObject bound s1
                  (.ok (.object obj), s2)
          | _ => (.error (.undefined "get_class"), s)
        | some _ =>
          (.error (runtimeError keyword
            "\x27super\x27 anahtar kelimesi sadece metot içinde kullanılabilir."), s)
      | _ =>
        (.error (runtimeError keyword
          "\x27super\x27 anahtar kelimesi sadece metot içinde kullanılabilir."), s)

end Interpreter

namespace CCubeClass

/-- The method `arity` of a class object (`src/class.cpp`), called through
the handle `self`; `functionArity` is the method `arity` of a function
object, and `none` is returned when the superclass chain is not walked within
the fuel. -/
def arity (functionArity : ObjPtr → Nat) (objects : Memory Object) (fuel : Nat)
    (self : ObjPtr) : Option Nat :=
  match findMethod objects fuel self "init" with
  | none => none
  | some initializer => if !initializer.isNull then some (functionArity initializer) else some 0

/-- The handler `catch (const std::runtime_error& e) { throw e; }`: what is
thrown again is a copy of static type `std::runtime_error`, so an exception
of a derived class keeps its message only. Exceptions of other classes are
not caught. -/
def rethrowAsRuntimeError : Thrown → Thrown
  | .RuntimeException _ message => .runtime_error message
  | .runtime_error message => .runtime_error message
  | e => e

/-- The method `call` of a class object (`src/class.cpp`), called through the
handle `self`; `callFunction` is the method `Interpreter::callFunction`, which
is not under `src/`. The function object passed to it has the parameters and
body of the initializer and the new environment as its closure (the flag
argument is commented out in the source). -/
def call (callFunction : CCubeFunction → List Value → Eval Runtime Value) (fuel : Nat)
    (self : ObjPtr) (arguments : List Value) : Eval Runtime Value := fun s =>
  let (inst, s1) := s.newObject (.inst ⟨self, []⟩)
  match findMethod s1.objects fuel self "init" with
  | none => (.error (.undefined "findMethod"), s1)
  | some initializer =>
    if !initializer.isNull then
      match s1.objects.read initializer.addr with
      | some (.function f) =>
        let (init_env, s2) := s1.newEnvironment (some f.closure)
        let s3 := s2.define init_env "this" (.object inst)
        match callFunction
            { declaration := f.declaration, closure := init_env, isInitializer := false }
            arguments s3 with
        | (.error (.ReturnException _), s4) => (.ok (.object inst), s4)
        | (.error e, s4) => (.error (rethrowAsRuntimeError e), s4)
        | (.ok _, s4) => (.ok (.object inst), s4)
      | _ => (.error (.undefined "initializer"), s1)
    else if !arguments.isEmpty then
      (.error (.runtime_error
        ("Expected 0 arguments but got " ++ toString arguments.length ++ ".")), s1)
    else (.ok (.object inst), s1)

end CCubeClass

/-! ## Sample collector states -/

/-- A world without objects, environments or interpreter environments. -/
def sampleEmptyWorld : GcWorld :=
  { heap := { environments := [], objects := [], globals := ⟨0⟩, environment := ⟨0⟩ },
    getSize := fun _ => 0,
    interpreter_globals := none,
    interpreter_environment := none }

/-- A collector after its mark phase with three marked young objects, of
ages 0, 1 and 2. -/
def sampleAges : Gc :=
  { Gc.new with
    youngGeneration := [⟨1⟩, ⟨2⟩, ⟨3⟩],
    objectMetadata :=
      [(1, ⟨⟨1⟩, 0, 0, true⟩), (2, ⟨⟨2⟩, 0, 1, true⟩), (3, ⟨⟨3⟩, 0, 2, true⟩)] }

/-- A state with a class `P` at address 1 whose method `init` is the function
object at address 2. -/
def sampleInitHeap : Runtime :=
  { environments := [(1, ⟨[("P", .object ⟨1⟩)], none⟩)],
    objects := [(1, .klass ⟨"P", none, [("init", ⟨2⟩)]⟩), (2, .function sampleEmptyInitializer)],
    globals := ⟨1⟩,
    environment := ⟨1⟩ }

/-- A method `Interpreter::callFunction` that leaves a trace: it defines the
first argument as `arg` in the closure of the function it is given, and
returns nil. -/
def sampleCallFunction (function : CCubeFunction) (arguments : List Value) :
    Eval Runtime Value := fun s =>
  (.ok .none, s.define function.closure "arg" (arguments.headD .none))

/-- A state in which the method `greet` of class `B` runs on an instance of
class `C`: `A` (address 1) declares `greet` (function at 4), `B < A`
(address 2) overrides it (function at 5), `C < B` (address 3) declares no
method, and the instance of `C` is at address 6. Environment 2 binds `this`
and encloses the globals; environment 3, the current one, is that of the
call. -/
def sampleSuperHeap : Runtime :=
  { environments :=
      [(1, ⟨[("A", .object ⟨1⟩), ("B", .object ⟨2⟩), ("C", .object ⟨3⟩)], none⟩),
       (2, ⟨[("this", .object ⟨6⟩)], some ⟨1⟩⟩),
       (3, ⟨[], some ⟨2⟩⟩)],
    objects :=
      [(1, .klass ⟨"A", none, [("greet", ⟨4⟩)]⟩),
       (2, .klass ⟨"B", some ⟨1⟩, [("greet", ⟨5⟩)]⟩),
       (3, .klass ⟨"C", some ⟨2⟩, []⟩),
       (4, .function ⟨⟨⟨.IDENTIFIER, "greet", .none, 1⟩, [], []⟩, ⟨1⟩, false⟩),
       (5, .function ⟨⟨⟨.IDENTIFIER, "greet", .none, 2⟩, [], []⟩, ⟨1⟩, false⟩),
       (6, .inst ⟨⟨3⟩, []⟩)],
    globals := ⟨1⟩,
    environment := ⟨3⟩ }

/-- The bound method behind a value, if the value is the handle of one. -/
def Runtime.boundMethodAt (s : Runtime) : Value → Option BoundMethod
  | .object obj =>
    match s.objects.read obj.addr with
    | some (.boundMethod b) => some b
    | _ => none
  | _ => none

/-- A collector configured with a young-generation threshold of one
object. -/
def sampleSmallGc : Gc := { Gc.new with youngGenCapacity := 1 }

/-- A collector that manages one young object, at address 1, registered by
`createObject`. -/
def sampleOneObject : Gc := (Gc.createObject sampleEmptyWorld 8 ⟨1⟩ Gc.new).2

/-- A world in which the evaluator runs two blocks deep: the current
environment 3 is enclosed by environment 2, which binds `xs` to the list at
address 1 and is enclosed by the globals, environment 1. The globals bind `f`
to the function at address 2, whose closure 6 is enclosed by 5, which is
enclosed by 4, where `ys` is bound to the list at address 3. -/
def sampleNestedWorld : GcWorld :=
  { heap :=
      { environments :=
          [(1, ⟨[("f", .object ⟨2⟩)], none⟩),
           (2, ⟨[("xs", .object ⟨1⟩)], some ⟨1⟩⟩),
           (3, ⟨[], some ⟨2⟩⟩),
           (4, ⟨[("ys", .object ⟨3⟩)], none⟩),
           (5, ⟨[], some ⟨4⟩⟩),
           (6, ⟨[], some ⟨5⟩⟩)],
        objects :=
          [(1, .list ⟨[]⟩),
           (2, .function ⟨⟨⟨.IDENTIFIER, "f", .none, 1⟩, [], []⟩, ⟨6⟩, false⟩),
           (3, .list ⟨[]⟩)],
        globals := ⟨1⟩,
        environment := ⟨3⟩ },
    getSize := fun _ => 8,
    interpreter_globals := some ⟨1⟩,
    interpreter_environment := some ⟨3⟩ }

/-- The collector of the nested world after its three objects have been
registered. -/
def sampleNestedGc : Gc :=
  (Gc.createObject sampleNestedWorld 8 ⟨3⟩
    (Gc.createObject sampleNestedWorld 8 ⟨2⟩
      (Gc.createObject sampleNestedWorld 8 ⟨1⟩ Gc.new).2).2).2

/-! ## Collector states of a run -/

namespace Gc

/-- The collector states that a run reaches: from a collector constructed
with some thresholds, by registrations of objects and lists, collections of
either kind (promotion is part of a minor collection), and registrations and
removals of roots. -/
inductive Reachable : Gc → Prop
  | new (youngGenCapacity oldGenCapacity : Nat) :
    Reachable { Gc.new with
      youngGenCapacity := youngGenCapacity, oldGenCapacity := oldGenCapacity }
  | createObject (w : GcWorld) (size : Nat) (obj : ObjPtr) (gc : Gc) :
    Reachable gc → Reachable (Gc.createObject w size obj gc).2
  | createList (w : GcWorld) (sizeofList sizeofValue : Nat) (elements : List Value) (gc : Gc) :
    Reachable gc → Reachable (Gc.createList w sizeofList sizeofValue elements gc).2.2
  | collectGarbage (w : GcWorld) (full_collection : Bool) (gc : Gc) :
    Reachable gc → Reachable (Gc.collectGarbage w full_collection gc)
  | addRootValue (val : Value) (gc : Gc) : Reachable gc → Reachable (gc.addRootValue val)
  | addRoot (obj : ObjPtr) (gc : Gc) : Reachable gc → Reachable (gc.addRoot obj)
  | removeRoot (obj : ObjPtr) (gc : Gc) : Reachable gc → Reachable (gc.removeRoot obj)

/-- Every metadata entry is the entry of a member of a generation. -/
def MetadataOwned (gc : Gc) : Prop :=
  ∀ addr, (gc.objectMetadata.read addr).isSome = true →
    (⟨addr⟩ : ObjPtr) ∈ gc.youngGeneration ∨ (⟨addr⟩ : ObjPtr) ∈ gc.oldGeneration

/-- A step on the metadata map that neither adds nor removes an entry. -/
def KeepsKeys (f : Memory GcObjectMetadata → Memory GcObjectMetadata) : Prop :=
  ∀ metadata addr, ((f metadata).read addr).isSome = (metadata.read addr).isSome

end Gc

/-- A world whose globals bind `a` to the object at address 9 and `b` to the
object at address 1; both objects are empty lists. -/
def sampleTwoBound : GcWorld :=
  { heap :=
      { environments := [(1, ⟨[("a", .object ⟨9⟩), ("b", .object ⟨1⟩)], none⟩)],
        objects := [(1, .list ⟨[]⟩), (9, .list ⟨[]⟩)],
        globals := ⟨1⟩,
        environment := ⟨1⟩ },
    getSize := fun _ => 8,
    interpreter_globals := some ⟨1⟩,
    interpreter_environment := some ⟨1⟩ }

/-- The world of the two bound objects after `a` has been assigned nil: the
object at address 9 is no longer referenced. -/
def sampleOneBound : GcWorld :=
  { sampleTwoBound with
    heap :=
      { environments := [(1, ⟨[("a", .none), ("b", .object ⟨1⟩)], none⟩)],
        objects := [(1, .list ⟨[]⟩), (9, .list ⟨[]⟩)],
        globals := ⟨1⟩,
        environment := ⟨1⟩ } }

/-- A collector with an old-generation threshold of two objects, after the
object at address 9 has survived three minor collections, and so is old, and
the object at address 1 has survived two. -/
def sampleOldGc : Gc :=
  Gc.collectGarbage sampleTwoBound false
    (Gc.collectGarbage sampleTwoBound false
      (Gc.createObject sampleTwoBound 8 ⟨1⟩
        (Gc.collectGarbage sampleTwoBound false
          (Gc.createObject sampleTwoBound 8 ⟨9⟩ { Gc.new with oldGenCapacity := 2 }).2)).2)

/-- The collector with its data member `oldGenCapacity` set to another
value. -/
def Gc.setOldGenCapacity (gc : Gc) (capacity : Nat) : Gc :=
  { gc with oldGenCapacity := capacity }

/-- A collector after a mark phase: of the young objects at addresses 1 and 2
only the first is marked, and of the old objects at addresses 3 and 4 only the
first. -/
def sampleMarked : Gc :=
  { Gc.new with
    youngGeneration := [⟨1⟩, ⟨2⟩],
    oldGeneration := [⟨3⟩, ⟨4⟩],
    objectMetadata :=
      [(1, ⟨⟨1⟩, 0, 0, true⟩), (2, ⟨⟨2⟩, 0, 1, false⟩),
       (3, ⟨⟨3⟩, 1, 0, true⟩), (4, ⟨⟨4⟩, 1, 0, false⟩)] }

/-! ## Lists (`include/list.h`, `src/list.cpp`) -/

namespace CCubeList

/-- The method `CCubeList::size`, called through the handle `self`. -/
def size (self : ObjPtr) (s : Runtime) : Option Nat :=
  match s.objects.read self.addr with
  | some (.list l) => some l.elements.length
  | _ => none

end CCubeList

/-! ## The error reporter and the top-level loop -/

/-- The class `ErrorReporter` (`include/error_reporter.h`): its two flags, and
the runtime errors it has written to `std::cerr`, oldest first. -/
structure ErrorReporter where
  hadErrorFlag : Bool
  hadRuntimeErrorFlag : Bool
  reported : List (Token × String)
deriving DecidableEq, Repr

namespace ErrorReporter

/-- The method `ErrorReporter::runtimeError`. -/
def runtimeError (self : ErrorReporter) (token : Token) (message : String) : ErrorReporter :=
  { self with hadRuntimeErrorFlag := true, reported := self.reported ++ [(token, message)] }

/-- The method `ErrorReporter::hadRuntimeError`. -/
def hadRuntimeError (self : ErrorReporter) : Bool := self.hadRuntimeErrorFlag

end ErrorReporter

/-- The cache of the module loader,
`std::unordered_map<std::string, ModulePtr>`. -/
abbrev ModuleCache := List (String × ObjPtr)

/-- The evaluator together with the objects it holds references to: its
memory and environment pointers, the collector, the error reporter, and the
cache of the module loader. -/
structure Machine where
  runtime : Runtime
  gc : Gc
  errorReporter : ErrorReporter
  moduleCache : ModuleCache

namespace Machine

/-- A member function that acts on the memory of the evaluator only, run on
the whole machine. -/
def liftRuntime {α : Type} (f : Eval Runtime α) : Eval Machine α := fun m =>
  ((f m.runtime).1, { m with runtime := (f m.runtime).2 })

end Machine

namespace Interpreter

/-- The loop of `Interpreter::interpret`, `for (stmt : statements)
execute(stmt);`: it stops at the first statement that throws. -/
def interpretLoop {σ : Type} (execute : Stmt → Eval σ Unit) : List Stmt → Eval σ Unit
  | [], s => (.ok (), s)
  | stmt :: rest, s =>
    match execute stmt s with
    | (.error e, s1) => (.error e, s1)
    | (.ok (), s1) => interpretLoop execute rest s1

/-- The method `Interpreter::interpret`: the loop over the statements inside
`try`, with the handlers for `RuntimeException` and `ReturnException`. An
exception of another class leaves the method. -/
def interpret (execute : Stmt → Eval Machine Unit) (statements : List Stmt) :
    Eval Machine Unit := fun m =>
  match interpretLoop execute statements m with
  | (.ok (), m1) => (.ok (), m1)
  | (.error (.RuntimeException token message), m1) =>
    (.ok (), { m1 with errorReporter := m1.errorReporter.runtimeError token message })
  | (.error (.ReturnException _), m1) =>
    (.ok (), { m1 with errorReporter :=
      m1.errorReporter.runtimeError ⟨.RETURN, "return", .none, -1⟩ "Top-level return." })
  | (.error e, m1) => (.error e, m1)

end Interpreter

/-! ## Sample states: modules, lists and the top level -/

/-- A state with a module at address 1 whose environment, 2, binds `pi` and
is enclosed by the globals, which bind the built-in `clock`. -/
def sampleModuleHeap : Runtime :=
  { environments :=
      [(1, ⟨[("clock", .boolean true)], none⟩),
       (2, ⟨[("pi", .string "3.14")], some ⟨1⟩⟩)],
    objects := [(1, .module ⟨"math", ⟨2⟩⟩)],
    globals := ⟨1⟩,
    environment := ⟨1⟩ }

/-- A machine at top level: the empty runtime, a new collector, a reporter
without errors and an empty module cache. -/
def sampleMachine : Machine :=
  { runtime := sampleRuntime, gc := Gc.new, errorReporter := ⟨false, false, []⟩,
    moduleCache := [] }

/-- The dispatch on statements of the sample evaluator, run on the machine. -/
def sampleMachineExecute (stmt : Stmt) : Eval Machine Unit :=
  Machine.liftRuntime (sampleExecute stmt)

/-- The program `"a"; return "r"; "b";` at top level. -/
def sampleTopLevelReturn : List Stmt :=
  [.ExprStmt (.LiteralExpr (.string "a")),
   .ReturnStmt ⟨.RETURN, "return", .none, 1⟩ (some (.LiteralExpr (.string "r"))),
   .ExprStmt (.LiteralExpr (.string "b"))]

/-! ## The module loader (`include/module_loader.h`, `src/module_loader.cpp`) -/

/-- The file system as the module loader sees it. `isRegularFile` is
`fs::exists(p) && fs::is_regular_file(p)`; `join` is `fs::path(a) / b`
converted to a string; `content` is `readFileContent`, `none` when the file
cannot be opened; `separator` is the character that `findModuleFile` writes
for a dot, `/` or, under `_WIN32`, a backslash. -/
structure FileSystem where
  isRegularFile : String → Bool
  join : String → String → String
  content : String → Option String
  separator : Char

/-- A `ModuleReader`, by its virtual method `readModule(filePath, moduleName,
interpreter)`: it runs on the state `σ` of the evaluator and of the cache,
and returns a module pointer, null on failure, unless it throws. -/
abbrev ModuleReader (σ : Type) := String → String → Eval σ ObjPtr

/-- The data members `searchPaths` and `readers` of the class `ModuleLoader`;
the member `moduleCache` is part of the state that a reader runs on. The
readers are listed in the iteration order of the map. -/
structure ModuleLoader (σ : Type) where
  searchPaths : List String
  readers : List (String × ModuleReader σ)

namespace ModuleLoader

/-- The call `s.rfind(c)`: the position of the last occurrence, `none` for
`std::string::npos`. -/
def rfind : List Char → Char → Option Nat
  | [], _ => none
  | x :: rest, c =>
    match rfind rest c with
    | some pos => some (pos + 1)
    | none => if x = c then some 0 else none

/-- The method `ModuleLoader::getFileExtension`. -/
def getFileExtension (filePath : String) : String :=
  match rfind filePath.data '.' with
  | none => ""
  | some dotPos => String.mk (filePath.data.drop dotPos)

/-- The inner loops of `findModuleFile` for one search path: the first
extension, in order, for which the joined path is an existing regular
file. -/
def probeExtensions (fs : FileSystem) (searchPath baseModulePath : String) :
    List String → Option String
  | [] => none
  | ext :: rest =>
    if fs.isRegularFile (fs.join searchPath (baseModulePath ++ ext)) then
      some (fs.join searchPath (baseModulePath ++ ext))
    else probeExtensions fs searchPath baseModulePath rest

/-- The outer loop of `findModuleFile` over the search paths. -/
def probeSearchPaths (fs : FileSystem) (baseModulePath : String)
    (extensionsToTry : List String) : List String → Option String
  | [] => none
  | searchPath :: rest =>
    match probeExtensions fs searchPath baseModulePath extensionsToTry with
    | some fullPath => some fullPath
    | none => probeSearchPaths fs baseModulePath extensionsToTry rest

/-- The loop `for (char& c : baseModulePath) if (c == '.') c = separator;`. -/
def replaceDots (separator : Char) (baseModulePath : String) : String :=
  String.mk (baseModulePath.data.map (fun c => if c = '.' then separator else c))

/-- The method `ModuleLoader::findModuleFile`; the empty string means that no
file was found. -/
def findModuleFile (fs : FileSystem) (searchPaths : List String) (modulePath : String)
    (possibleExtensions : List String) : String :=
  let explicitExtension := getFileExtension modulePath
  let explicit := !explicitExtension.isEmpty && possibleExtensions.contains explicitExtension
  let baseModulePath :=
    if explicit then
      String.mk (modulePath.data.take (modulePath.length - explicitExtension.length))
    else modulePath
  let extensionsToTry := if explicit then [explicitExtension] else possibleExtensions
  match probeSearchPaths fs (replaceDots fs.separator baseModulePath) extensionsToTry
      searchPaths with
  | some fullPath => fullPath
  | none => ""

/-- The module name that `loadModule` passes to the reader: the module path
without the extension of the file found, when the path ends in it. -/
def moduleNameOf (modulePath extension : String) : String :=
  if modulePath.length > extension.length &&
      String.mk (modulePath.data.drop (modulePath.length - extension.length)) == extension then
    String.mk (modulePath.data.take (modulePath.length - extension.length))
  else modulePath

/-- The method `ModuleLoader::loadModule`. The state `σ` holds the cache,
read by `getCache` and written by `setCache`. The result is the module
pointer, null on failure. -/
def loadModule {σ : Type} (getCache : σ → ModuleCache) (setCache : ModuleCache → σ → σ)
    (fs : FileSystem) (self : ModuleLoader σ) (modulePath : String) : Eval σ ObjPtr := fun s =>
  match (getCache s).lookup modulePath with
  | some cached => (.ok cached, s)
  | none =>
    let allExtensions := self.readers.map Prod.fst
    let filePath := findModuleFile fs self.searchPaths modulePath allExtensions
    if filePath.isEmpty then (.ok ObjPtr.null, s)
    else
      let extension := getFileExtension filePath
      if extension.isEmpty then (.ok ObjPtr.null, s)
      else
        match self.readers.lookup extension with
        | none => (.ok ObjPtr.null, s)
        | some reader =>
          match reader filePath (moduleNameOf modulePath extension) s with
          | (.error e, s1) => (.error e, s1)
          | (.ok loadedModule, s1) =>
            if loadedModule.isNull then (.ok ObjPtr.null, s1)
            else (.ok loadedModule, setCache ((getCache s1).filter
              (fun entry => entry.1 != modulePath) ++ [(modulePath, loadedModule)]) s1)

/-- Successive calls `loadModule(modulePath)`: the results, in order, and the
state after the last call; the sequence ends at a call that throws. -/
def loadModuleTimes {σ : Type} (getCache : σ → ModuleCache)
    (setCache : ModuleCache → σ → σ) (fs : FileSystem) (self : ModuleLoader σ)
    (modulePath : String) : Nat → σ → List (Except Thrown ObjPtr) × σ
  | 0, s => ([], s)
  | n + 1, s =>
    match loadModule getCache setCache fs self modulePath s with
    | (.error e, s1) => ([.error e], s1)
    | (.ok loaded, s1) =>
      ((.ok loaded) :: (loadModuleTimes getCache setCache fs self modulePath n s1).1,
        (loadModuleTimes getCache setCache fs self modulePath n s1).2)

end ModuleLoader

/-- A file system with the three regular files `lib/game/utils.cube`,
`lib/shader.glsl` and `lib/ok.cube`, whose paths are joined with `/`; the
first file holds the text `boom;`, the last one is empty, and the second
cannot be opened. -/
def sampleFileSystem : FileSystem :=
  { isRegularFile := fun path =>
      path == "lib/game/utils.cube" || path == "lib/shader.glsl" || path == "lib/ok.cube",
    join := fun directory file => directory ++ "/" ++ file,
    content := fun path =>
      if path == "lib/game/utils.cube" then some "boom;"
      else if path == "lib/ok.cube" then some ""
      else none,
    separator := '/' }

/-! ## Object sizes (`getSize`) -/

/-- The implementation constants of the byte accounting: `sizeof` of the
object classes, of `Value`, of `std::string` and of a `std::shared_ptr`, and
the functions `std::string::capacity()` and `std::vector<Value>::capacity()`
of the standard library. -/
structure Layout where
  sizeofCCubeFunction : Nat
  sizeofCCubeClass : Nat
  sizeofCCubeInstance : Nat
  sizeofCCubeModule : Nat
  sizeofBoundMethod : Nat
  sizeofCCubeList : Nat
  sizeofValue : Nat
  sizeofString : Nat
  sizeofSharedPtr : Nat
  stringCapacity : String → Nat
  vectorCapacity : List Value → Nat

namespace Object

/-- The virtual method `getSize()` (`src/function.cpp`, `src/class.cpp`,
`src/instance.cpp`, `src/list.cpp`, `src/c_cube_module.cpp`,
`src/bound_method.cpp`), in `size_t` arithmetic. -/
def getSize (layout : Layout) : Object → Nat
  | .function _ => layout.sizeofCCubeFunction % 18446744073709551616
  | .klass c =>
    (layout.sizeofCCubeClass + layout.stringCapacity c.name +
      c.methods.length * (layout.sizeofString + layout.sizeofSharedPtr)) % 18446744073709551616
  | .inst i =>
    (i.properties.foldl
      (fun total_size pair => total_size + layout.stringCapacity pair.1 + layout.sizeofValue)
      layout.sizeofCCubeInstance) % 18446744073709551616
  | .list l =>
    (layout.sizeofCCubeList + layout.vectorCapacity l.elements * layout.sizeofValue) %
      18446744073709551616
  | .module m =>
    (layout.sizeofCCubeModule + layout.stringCapacity m.name + layout.sizeofSharedPtr) %
      18446744073709551616
  | .boundMethod _ => layout.sizeofBoundMethod % 18446744073709551616

/-- What `Gc::createObject` adds to `bytesAllocated` for an object of each
class: `sizeof` of the class. -/
def sizeofClass (layout : Layout) : Object → Nat
  | .function _ => layout.sizeofCCubeFunction
  | .klass _ => layout.sizeofCCubeClass
  | .inst _ => layout.sizeofCCubeInstance
  | .list _ => layout.sizeofCCubeList
  | .module _ => layout.sizeofCCubeModule
  | .boundMethod _ => layout.sizeofBoundMethod

end Object

namespace Machine

/-- What the collector reads when the evaluator calls it: the memory of the
evaluator, the sizes of the objects in it, and the two environment pointers
of the evaluator as `interpreter_globals` and `interpreter_environment`. -/
def world (layout : Layout) (m : Machine) : GcWorld :=
  { heap := m.runtime,
    getSize := fun obj =>
      match m.runtime.objects.read obj.addr with
      | some o => o.getSize layout
      | none => 0,
    interpreter_globals := some m.runtime.globals,
    interpreter_environment := some m.runtime.environment }

/-- The call `gc.createObject(std::make_shared<T>(...))` of the evaluator: the
object is placed in memory and registered with the collector, which adds
`sizeof(T)` to its byte count. -/
def createObject (layout : Layout) (o : Object) (m : Machine) : ObjPtr × Machine :=
  let allocated := m.runtime.newObject o
  let m1 : Machine := { m with runtime := allocated.2 }
  let registered := Gc.createObject (m1.world layout) (o.sizeofClass layout) allocated.1 m1.gc
  (registered.1, { m1 with gc := registered.2 })

/-- The call `gc.createObject(obj)` of the evaluator on an object that is in
memory already. -/
def registerObject (layout : Layout) (obj : ObjPtr) (m : Machine) : ObjPtr × Machine :=
  match m.runtime.objects.read obj.addr with
  | some o =>
    let registered := Gc.createObject (m.world layout) (o.sizeofClass layout) obj m.gc
    (registered.1, { m with gc := registered.2 })
  | none => (obj, m)

/-- The call `gc.collectGarbage(full_collection)` from the evaluator. -/
def collectGarbage (layout : Layout) (full_collection : Bool) (m : Machine) : Machine :=
  { m with gc := Gc.collectGarbage (m.world layout) full_collection m.gc }

end Machine

namespace Runtime

/-- The method `Environment::assign` through an environment pointer; `fuel`
bounds the walk of the `enclosing` pointers. -/
def assign (s : Runtime) : Nat → EnvPtr → Token → Value → Except Thrown Unit × Runtime
  | 0, _, _, _ => (.error (.undefined "assign"), s)
  | fuel + 1, env, name, value =>
    match s.environments.read env.addr with
    | none => (.error (.undefined "assign"), s)
    | some e =>
      if e.values.count name.lexeme ≠ 0 then
        (.ok (), { s with environments :=
          s.environments.write env.addr { e with values := e.values.put name.lexeme value } })
      else
        match e.enclosing with
        | some enclosing => assign s fuel enclosing name value
        | none =>
          (.error (.RuntimeException name
            ("Tanımlanmamış değişken \x27" ++ name.lexeme ++ "\x27.")), s)

end Runtime

/-! ## Declarations and imports (`src/interpreter.cpp`) -/

namespace Machine

/-- The cache of the module loader, written. -/
def setModuleCache (cache : ModuleCache) (m : Machine) : Machine :=
  { m with moduleCache := cache }

end Machine

namespace Interpreter

/-- The method `Interpreter::visitFunStmt` on the node
`FunStmt name params body`. -/
def visitFunStmt (layout : Layout) (name : Token) (params : List Token) (body : List Stmt) :
    Eval Machine Unit := fun m =>
  let created := m.createObject layout
    (.function ⟨⟨name, params, body⟩, m.runtime.environment, false⟩)
  let m1 := created.2
  (.ok (), { m1 with runtime :=
    m1.runtime.define m1.runtime.environment name.lexeme (.object created.1) })

/-- The statement `methods[name] = function` of `visitClassStmt`. -/
def putMethod (methods : List (String × ObjPtr)) (name : String) (function : ObjPtr) :
    List (String × ObjPtr) :=
  if methods.lookup name = none then methods ++ [(name, function)]
  else methods.map (fun entry => if entry.1 = name then (name, function) else entry)

/-- The loop of `visitClassStmt` over the method declarations: each function
object is made by `std::make_shared<CCubeFunction>(method_stmt, environment,
name == "init")` and entered in the map. A node that is not a `FunStmt`
cannot occur in the list and is skipped. -/
def declareMethods : List Stmt → List (String × ObjPtr) → Runtime →
    List (String × ObjPtr) × Runtime
  | [], methods, s => (methods, s)
  | .FunStmt name params body :: rest, methods, s =>
    let allocated := s.newObject
      (.function ⟨⟨name, params, body⟩, s.environment, name.lexeme == "init"⟩)
    declareMethods rest (putMethod methods name.lexeme allocated.1) allocated.2
  | _ :: rest, methods, s => declareMethods rest methods s

/-- The method `Interpreter::visitClassStmt` on the node
`ClassStmt name superclass methods`. -/
def visitClassStmt (layout : Layout) (evaluate : Expr → Eval Machine Value)
    (name : Token) (superclass : Option Expr) (methods : List Stmt) :
    Eval Machine Unit := fun m =>
  let evaluated : Except Thrown (Option ObjPtr) × Machine :=
    match superclass with
    | none => (.ok none, m)
    | some expr =>
      match evaluate expr m with
      | (.error e, m1) => (.error e, m1)
      | (.ok (.object obj), m1) =>
        match m1.runtime.objects.read obj.addr with
        | some (.klass _) => (.ok (some obj), m1)
        | some _ => (.error (runtimeError name "Üst sınıf bir sınıf olmalıdır."), m1)
        | none => (.error (.undefined "superclass"), m1)
      | (.ok _, m1) => (.error (runtimeError name "Üst sınıf bir sınıf olmalıdır."), m1)
  match evaluated with
  | (.error e, m1) => (.error e, m1)
  | (.ok superclassPtr, m1) =>
    let s2 := m1.runtime.define m1.runtime.environment name.lexeme .none
    let declared := declareMethods methods [] s2
    let m3 : Machine := { m1 with runtime := declared.2 }
    let created := m3.createObject layout (.klass ⟨name.lexeme, superclassPtr, declared.1⟩)
    let m4 := created.2
    let assigned := m4.runtime.assign m4.runtime.environments.length
      m4.runtime.environment name (.object created.1)
    (assigned.1, { m4 with runtime := assigned.2 })

/-- The method `Interpreter::visitImportStmt` on the node
`ImportStmt moduleName alias`; the loader is called with the lexeme of the
module name. -/
def visitImportStmt (layout : Layout) (fs : FileSystem) (moduleLoader : ModuleLoader Machine)
    (moduleName : Token) (aliasName : String) : Eval Machine Unit := fun m =>
  match ModuleLoader.loadModule Machine.moduleCache Machine.setModuleCache fs moduleLoader
      moduleName.lexeme m with
  | (.error e, m1) => (.error e, m1)
  | (.ok module, m1) =>
    if module.isNull then
      (.error (runtimeError moduleName
        ("Modül \x27" ++ moduleName.lexeme ++ "\x27 bulunamadı veya yüklenemedi.")), m1)
    else
      let import_name := if aliasName.isEmpty then moduleName.lexeme else aliasName
      let registered := m1.registerObject layout module
      let m2 := registered.2
      (.ok (), { m2 with runtime :=
        m2.runtime.define m2.runtime.environment import_name (.object registered.1) })

end Interpreter

/-- The exception classes derived from `std::runtime_error`, which a handler
`catch (const std::runtime_error&)` catches. -/
def Thrown.isRuntimeError : Thrown → Bool
  | .RuntimeException _ _ => true
  | .ReturnException _ => true
  | .runtime_error _ => true
  | _ => false

namespace CubeModuleReader

/-- The method `CubeModuleReader::readModule`. `parse` is the lexer followed
by the parser, `none` when the parser throws a `ParseError`; `moduleObject`
is the constructor of the module class from the syntax tree and the module
environment; `execute` is the dispatch of the evaluator on statements. A null
pointer is returned when the file cannot be opened, on a parse error, and
when `interpret` lets an exception derived from `std::runtime_error`
through. -/
def readModule (fs : FileSystem) (parse : String → Option (List Stmt))
    (moduleObject : List Stmt → EnvPtr → Object) (execute : Stmt → Eval Machine Unit) :
    ModuleReader Machine := fun filePath _moduleName m =>
  match fs.content filePath with
  | none => (.ok ObjPtr.null, m)
  | some source =>
    match parse source with
    | none => (.ok ObjPtr.null, m)
    | some ast =>
      let env := m.runtime.newEnvironment (some m.runtime.globals)
      let allocated := env.2.newObject (moduleObject ast env.1)
      let originalEnv := m.runtime.environment
      let m1 : Machine := { m with runtime := { allocated.2 with environment := env.1 } }
      match Interpreter.interpret execute ast m1 with
      | (.error e, m2) =>
        if e.isRuntimeError then
          (.ok ObjPtr.null, { m2 with runtime := { m2.runtime with environment := originalEnv } })
        else (.error e, m2)
      | (.ok (), m2) =>
        (.ok allocated.1, { m2 with runtime := { m2.runtime with environment := originalEnv } })

end CubeModuleReader

/-- A reader that counts its calls in the state and returns the module at
address 7. -/
def sampleCountingReader : ModuleReader (ModuleCache × Nat) := fun _ _ s =>
  (.ok ⟨7⟩, (s.1, s.2 + 1))

/-- A loader over the counting reader, registered for `.cube`. -/
def sampleCountingLoader : ModuleLoader (ModuleCache × Nat) :=
  { searchPaths := ["src", "lib"], readers := [(".cube", sampleCountingReader)] }

/-- A parser that knows two programs: the text `boom;` is the expression
statement of the variable `boom`, the empty text is the empty program, and
any other text is a parse error. -/
def sampleParse (source : String) : Option (List Stmt) :=
  if source == "boom;" then some [.ExprStmt (.VariableExpr ⟨.IDENTIFIER, "boom", .none, 1⟩)]
  else if source == "" then some []
  else none

/-- Sizes of a 64-bit build with the GNU standard library: a short string has
a capacity of 15 characters, a vector as much capacity as it has elements. -/
def sampleLayout : Layout :=
  { sizeofCCubeFunction := 64, sizeofCCubeClass := 120, sizeofCCubeInstance := 96,
    sizeofCCubeModule := 72, sizeofBoundMethod := 56, sizeofCCubeList := 48,
    sizeofValue := 40, sizeofString := 32, sizeofSharedPtr := 16,
    stringCapacity := fun s => max 15 s.length,
    vectorCapacity := fun elements => elements.length }

/-- The loader of the evaluator with the reader of `.cube` files, over the
sample file system, parser and dispatch. -/
def sampleCubeLoader : ModuleLoader Machine :=
  { searchPaths := ["src", "lib"],
    readers := [(".cube", CubeModuleReader.readModule sampleFileSystem sampleParse
      (fun _ env => .module ⟨"", env⟩) sampleMachineExecute)] }

/-- The dispatch on expressions of the sample evaluator, run on the
machine. -/
def sampleMachineEvaluate (expr : Expr) : Eval Machine Value :=
  Machine.liftRuntime (sampleEvaluate expr)

/-- The machine after the declaration `class A { greet() { } }` at top
level. -/
def sampleClassDeclared : Machine :=
  (Interpreter.visitClassStmt sampleLayout sampleMachineEvaluate
    ⟨.IDENTIFIER, "A", .none, 1⟩ none
    [.FunStmt ⟨.IDENTIFIER, "greet", .none, 1⟩ [] []] sampleMachine).2

/-- The machine after the declaration `fun f() { }` at top level. -/
def sampleFunDeclared : Machine :=
  (Interpreter.visitFunStmt sampleLayout ⟨.IDENTIFIER, "f", .none, 1⟩ [] [] sampleMachine).2

/-- The machine inside the body of a function: the current environment 2,
enclosed by the globals, binds `helper` to the managed list at address 1. -/
def sampleInsideFunction : Machine :=
  { sampleMachine with
    runtime :=
      { environments := [(1, ⟨[], none⟩), (2, ⟨[("helper", .object ⟨1⟩)], some ⟨1⟩⟩)],
        objects := [(1, .list ⟨[]⟩)],
        globals := ⟨1⟩,
        environment := ⟨2⟩ },
    gc := (Gc.createObject sampleEmptyWorld 48 ⟨1⟩ Gc.new).2 }

/-- The machine after the body `class A { m() { return helper; } }` of that
function has run and the function has returned the class, which the caller
has bound to `A` in the globals: the current environment is the globals
again. -/
def sampleClassReturned : Machine :=
  let declared := (Interpreter.visitClassStmt sampleLayout sampleMachineEvaluate
    ⟨.IDENTIFIER, "A", .none, 1⟩ none
    [.FunStmt ⟨.IDENTIFIER, "m", .none, 1⟩ []
      [.ReturnStmt ⟨.RETURN, "return", .none, 1⟩
        (some (.VariableExpr ⟨.IDENTIFIER, "helper", .none, 1⟩))]] sampleInsideFunction).2
  { declared with
    runtime :=
      { (declared.runtime.define ⟨1⟩ "A" (.object ⟨3⟩)) with environment := ⟨1⟩ } }

/-- The machine after `import ok` at top level, the first time. -/
def sampleImported : Machine :=
  (Interpreter.visitImportStmt sampleLayout sampleFileSystem sampleCubeLoader
    ⟨.IDENTIFIER, "ok", .none, 1⟩ "" sampleMachine).2

/-- The machine after three minor collections that follow the import. -/
def sampleImportedOld : Machine :=
  ((sampleImported.collectGarbage sampleLayout false).collectGarbage sampleLayout
    false).collectGarbage sampleLayout false

/-- The machine after `import ok` has then been executed a second time. -/
def sampleImportedAgain : Machine :=
  (Interpreter.visitImportStmt sampleLayout sampleFileSystem sampleCubeLoader
    ⟨.IDENTIFIER, "ok", .none, 1⟩ "" sampleImportedOld).2

/-- What the collector reads of a machine when nothing is a root: the world
of the machine without the two interpreter environments. -/
def Machine.worldWithoutRoots (layout : Layout) (m : Machine) : GcWorld :=
  { m.world layout with interpreter_globals := none, interpreter_environment := none }

/-! ## The recursion of the mark phase, with its depth counted -/

namespace Gc

/-- The number of managed objects whose mark bit is clear. -/
def unmarked (metadata : Memory GcObjectMetadata) : Nat :=
  (metadata.filter (fun entry => !entry.2.marked)).length

/-- A loop of marking steps, each of which may exceed the depth: the loop
stops with `none` at the first step that does. -/
def markAllWithin {β : Type}
    (step : β → Memory GcObjectMetadata → Option (Memory GcObjectMetadata)) :
    List β → Memory GcObjectMetadata → Option (Memory GcObjectMetadata)
  | [], metadata => some metadata
  | b :: rest, metadata =>
    match step b metadata with
    | none => none
    | some metadata1 => markAllWithin step rest metadata1

/-- The method `Gc::markValue`, over a marking of objects that may exceed the
depth. -/
def markValueWithin
    (markObject : ObjPtr → Memory GcObjectMetadata → Option (Memory GcObjectMetadata))
    (val : Value) (metadata : Memory GcObjectMetadata) : Option (Memory GcObjectMetadata) :=
  match val with
  | .object obj => markObject obj metadata
  | _ => some metadata

/-- The method `Gc::markObject` with the depth of its recursion counted:
`none` when a call would go deeper than `fuel`, and otherwise the metadata
map after the call. The body is that of `markObject`. -/
def markObjectWithin (w : GcWorld) :
    Nat → ObjPtr → Memory GcObjectMetadata → Option (Memory GcObjectMetadata)
  | 0, _, _ => none
  | fuel + 1, obj, metadata =>
    if obj.isNull then some metadata
    else
      match metadata.read obj.addr with
      | none => some metadata
      | some m =>
        if m.marked then some metadata
        else
          let metadata1 := metadata.write obj.addr { m with marked := true }
          let markMap := fun (map : ValueMap) =>
            markAllWithin (fun (pair : String × Value) =>
              markValueWithin (markObjectWithin w fuel) pair.2) map
          match w.heap.objects.read obj.addr with
          | some (.function func) =>
            match w.heap.environments.read func.closure.addr with
            | some closure =>
              (markMap closure.values metadata1).bind (fun metadata2 =>
                match closure.enclosing with
                | some enclosing =>
                  match w.heap.environments.read enclosing.addr with
                  | some e => markMap e.values metadata2
                  | none => some metadata2
                | none => some metadata2)
            | none => some metadata1
          | some (.klass klass) =>
            (markAllWithin (fun (pair : String × ObjPtr) => markObjectWithin w fuel pair.2)
              klass.methods metadata1).bind (fun metadata2 =>
                match klass.superclass with
                | some superclass => markObjectWithin w fuel superclass metadata2
                | none => some metadata2)
          | some (.inst inst) =>
            (markObjectWithin w fuel inst.klass metadata1).bind (markMap inst.properties)
          | some (.list list) =>
            markAllWithin (fun (val : Value) => markValueWithin (markObjectWithin w fuel) val)
              list.elements metadata1
          | some (.boundMethod boundMethod) =>
            (markObjectWithin w fuel boundMethod.inst metadata1).bind
              (markObjectWithin w fuel boundMethod.function)
          | some (.module module) =>
            match w.heap.environments.read module.moduleEnvironment.addr with
            | some e => markMap e.values metadata1
            | none => some metadata1
          | none => some metadata1

/-- A marking step that completes on every metadata map with fewer than
`bound` unmarked entries, without raising the number of unmarked entries or
changing the number of entries. -/
def CompletesBelow (bound : Nat)
    (f : Memory GcObjectMetadata → Option (Memory GcObjectMetadata)) : Prop :=
  ∀ metadata, unmarked metadata < bound →
    ∃ result, f metadata = some result ∧ unmarked result ≤ unmarked metadata ∧
      result.length = metadata.length

end Gc

/-- A world with three cycles: the list at address 1 contains itself; the
instance at address 2 has itself as a property, and its class, at address
3, has the method at address 4, whose closure, environment 1, binds the
class. -/
def sampleCyclicWorld : GcWorld :=
  { heap :=
      { environments := [(1, ⟨[("A", .object ⟨3⟩)], none⟩)],
        objects :=
          [(1, .list ⟨[.object ⟨1⟩]⟩),
           (2, .inst ⟨⟨3⟩, [("me", .object ⟨2⟩)]⟩),
           (3, .klass ⟨"A", none, [("m", ⟨4⟩)]⟩),
           (4, .function ⟨⟨⟨.IDENTIFIER, "m", .none, 1⟩, [], []⟩, ⟨1⟩, false⟩)],
        globals := ⟨1⟩,
        environment := ⟨1⟩ },
    getSize := fun _ => 8,
    interpreter_globals := some ⟨1⟩,
    interpreter_environment := some ⟨1⟩ }

/-- The metadata of the four objects of the cyclic world, all unmarked. -/
def sampleCyclicMetadata : Memory GcObjectMetadata :=
  [(1, ⟨⟨1⟩, 0, 0, false⟩), (2, ⟨⟨2⟩, 0, 0, false⟩), (3, ⟨⟨3⟩, 0, 0, false⟩),
   (4, ⟨⟨4⟩, 0, 0, false⟩)]
/-! ## Conditionals and blocks on the machine; a module that imports itself -/

namespace Interpreter

/-- The method `Interpreter::visitIfStmt`. -/
def visitIfStmt {σ : Type} (evaluate : Expr → Eval σ Value) (execute : Stmt → Eval σ Unit)
    (condition : Expr) (thenBranch : Stmt) (elseBranch : Option Stmt) : Eval σ Unit := fun s =>
  match evaluate condition s with
  | (.error e, s1) => (.error e, s1)
  | (.ok value, s1) =>
    if isTruthy value then execute thenBranch s1
    else
      match elseBranch with
      | some stmt => execute stmt s1
      | none => (.ok (), s1)

/-- The method `Interpreter::executeBlock` with a dispatch on statements that
runs on the machine. -/
def executeBlockMachine (execute : Stmt → Eval Machine Unit) (statements : List Stmt)
    (newEnvironment : EnvPtr) : Eval Machine Unit := fun m =>
  let previousEnvironment := m.runtime.environment
  match interpretLoop execute statements
      { m with runtime := { m.runtime with environment := newEnvironment } } with
  | (.error e, m1) =>
    (.error e, { m1 with runtime := { m1.runtime with environment := previousEnvironment } })
  | (.ok (), m1) =>
    (.ok (), { m1 with runtime := { m1.runtime with environment := previousEnvironment } })

/-- The method `Interpreter::visitBlockStmt` with a dispatch on statements
that runs on the machine. -/
def visitBlockStmtMachine (execute : Stmt → Eval Machine Unit) (statements : List Stmt) :
    Eval Machine Unit := fun m =>
  let env := m.runtime.newEnvironment (some m.runtime.environment)
  executeBlockMachine execute statements env.1 { m with runtime := env.2 }

end Interpreter

/-- A file system with the two regular files `lib/m.cube`, which holds the
program `if (i.go = !i.go) { import m; }`, and `lib/loop.cube`, which holds
the program `import loop;`. -/
def sampleReentrantFileSystem : FileSystem :=
  { isRegularFile := fun path => path == "lib/m.cube" || path == "lib/loop.cube",
    join := fun directory file => directory ++ "/" ++ file,
    content := fun path =>
      if path == "lib/m.cube" then some "if (i.go = !i.go) \x7b import m; \x7d"
      else if path == "lib/loop.cube" then some "import loop;"
      else none,
    separator := '/' }

/-- The syntax tree of the program `if (i.go = !i.go) { import m; }`. -/
def sampleReentrantProgram : List Stmt :=
  [.IfStmt
    (.SetExpr (.VariableExpr ⟨.IDENTIFIER, "i", .none, 1⟩) ⟨.IDENTIFIER, "go", .none, 1⟩
      (.UnaryExpr ⟨.BANG, "!", .none, 1⟩
        (.GetExpr (.VariableExpr ⟨.IDENTIFIER, "i", .none, 1⟩) ⟨.IDENTIFIER, "go", .none, 1⟩)))
    (.BlockStmt [.ImportStmt ⟨.IDENTIFIER, "m", .none, 1⟩ ""])
    none]

/-- A parser that knows those two programs; any other text is a parse
error. -/
def sampleReentrantParse (source : String) : Option (List Stmt) :=
  if source == "if (i.go = !i.go) \x7b import m; \x7d" then some sampleReentrantProgram
  else if source == "import loop;" then some [.ImportStmt ⟨.IDENTIFIER, "loop", .none, 1⟩ ""]
  else none

/-- The evaluator's dispatch on literal, variable, property and unary nodes;
`fuel` bounds the depth of the expression. -/
def sampleReentrantEvaluate : Nat → Expr → Eval Runtime Value
  | 0, _ => fun s => (.error (.undefined "evaluate"), s)
  | _ + 1, .LiteralExpr value => Interpreter.visitLiteralExpr value
  | _ + 1, .VariableExpr name => Interpreter.visitVariableExpr name
  | fuel + 1, .GetExpr object name =>
    Interpreter.visitGetExpr (sampleReentrantEvaluate fuel) sampleCreateObject 3 object name
  | fuel + 1, .SetExpr object name value =>
    Interpreter.visitSetExpr (sampleReentrantEvaluate fuel) object name value
  | fuel + 1, .UnaryExpr op right =>
    Interpreter.visitUnaryExpr (sampleReentrantEvaluate fuel) op right
  | _ + 1, _ => fun s => (.error (.runtime_error "unsupported node"), s)

/-- The evaluator's dispatch on expression, conditional, block and import
statements, run on the machine; the loader of an import statement reads
`.cube` files with `CubeModuleReader::readModule`, which executes the module
with this dispatch. `fuel` bounds the depth of nested statements and
imports. -/
def sampleReentrantExecute : Nat → Stmt → Eval Machine Unit
  | 0, _ => fun m => (.error (.undefined "execute"), m)
  | _ + 1, .ExprStmt expression =>
    Interpreter.visitExprStmt
      (fun expr => Machine.liftRuntime (sampleReentrantEvaluate 4 expr)) expression
  | fuel + 1, .IfStmt condition thenBranch elseBranch =>
    Interpreter.visitIfStmt
      (fun expr => Machine.liftRuntime (sampleReentrantEvaluate 4 expr))
      (sampleReentrantExecute fuel) condition thenBranch elseBranch
  | fuel + 1, .BlockStmt statements =>
    Interpreter.visitBlockStmtMachine (sampleReentrantExecute fuel) statements
  | fuel + 1, .ImportStmt moduleName aliasName =>
    Interpreter.visitImportStmt sampleLayout sampleReentrantFileSystem
      { searchPaths := ["lib"],
        readers := [(".cube", CubeModuleReader.readModule sampleReentrantFileSystem
          sampleReentrantParse (fun _ env => .module ⟨"", env⟩)
          (sampleReentrantExecute fuel))] }
      moduleName aliasName
  | _ + 1, _ => fun m => (.error (.runtime_error "unsupported node"), m)

/-- The loader of the evaluator whose dispatch has the given fuel. -/
def sampleReentrantLoader (fuel : Nat) : ModuleLoader Machine :=
  { searchPaths := ["lib"],
    readers := [(".cube", CubeModuleReader.readModule sampleReentrantFileSystem
      sampleReentrantParse (fun _ env => .module ⟨"", env⟩) (sampleReentrantExecute fuel))] }

/-- A machine at top level whose globals bind `i` to an instance, at address
2, of a class without methods, at address 1; the instance has the property
`go`, which is `false`. Both objects are registered with the collector, and
the module cache is empty. -/
def sampleReentrantMachine : Machine :=
  { runtime :=
      { environments := [(1, ⟨[("i", .object ⟨2⟩)], none⟩)],
        objects := [(1, .klass ⟨"Flag", none, []⟩), (2, .inst ⟨⟨1⟩, [("go", .boolean false)]⟩)],
        globals := ⟨1⟩,
        environment := ⟨1⟩ },
    gc := (Gc.createObject sampleEmptyWorld 96 ⟨2⟩
      (Gc.createObject sampleEmptyWorld 120 ⟨1⟩ Gc.new).2).2,
    errorReporter := ⟨false, false, []⟩,
    moduleCache := [] }

/-- The machine after the call `loadModule("m")` at top level. -/
def sampleReentrantLoaded : Except Thrown ObjPtr × Machine :=
  ModuleLoader.loadModule Machine.moduleCache Machine.setModuleCache sampleReentrantFileSystem
    (sampleReentrantLoader 6) "m" sampleReentrantMachine

/-! ## Lemmas on maps and chains -/

namespace ValueMap

theorem count_eq_zero_iff (m : ValueMap) (key : String) :
    m.count key = 0 ↔ m.lookup key = none := by
  unfold count
  cases h : List.lookup key m <;> simp

theorem count_ne_zero_iff (m : ValueMap) (key : String) :
    m.count key ≠ 0 ↔ ∃ v, m.lookup key = some v := by
  unfold count
  cases h : List.lookup key m <;> simp

theorem atKey_of_lookup (m : ValueMap) (key : String) (v : Value)
    (h : m.lookup key = some v) : m.atKey key = .ok v := by
  simp [atKey, h]

theorem lookup_put_self (m : ValueMap) (key : String) (value : Value) :
    (m.put key value).lookup key = some value := by
  induction m with
  | nil => simp [put, List.lookup]
  | cons p rest ih =>
    obtain ⟨k, v⟩ := p
    by_cases h : k = key
    · simp [put, h, List.lookup]
    · have h2 : (key == k) = false := by simpa using fun e => h e.symm
      simp [put, h, List.lookup, h2, ih]

theorem lookup_put_other (m : ValueMap) (key : String) (value : Value) (k2 : String)
    (hne : k2 ≠ key) : (m.put key value).lookup k2 = m.lookup k2 := by
  induction m with
  | nil =>
    have h2 : (k2 == key) = false := by simpa using hne
    simp [put, List.lookup, h2]
  | cons p rest ih =>
    obtain ⟨k, v⟩ := p
    by_cases h : k = key
    · subst h
      have h2 : (k2 == k) = false := by simpa using hne
      simp [put, List.lookup, h2]
    · simp only [put, h, if_false, List.lookup]
      cases (k2 == k) <;> simp [ih]

end ValueMap

namespace Environment

theorem chain_ne_nil (env : Environment) : env.chain ≠ [] := by
  cases env <;> simp [chain]

/-- Decomposing a chain at its first map: either the split is at the head, or
the head belongs to the prefix and the split is inside the enclosing chain. -/
theorem split_cons {vs : ValueMap} {rest pre : List ValueMap} {m : ValueMap}
    {post : List ValueMap} (h : vs :: rest = pre ++ m :: post) :
    (pre = [] ∧ m = vs ∧ post = rest) ∨
      ∃ pre2, pre = vs :: pre2 ∧ rest = pre2 ++ m :: post := by
  cases pre with
  | nil =>
    simp only [List.nil_append, List.cons.injEq] at h
    exact Or.inl ⟨rfl, h.1.symm, h.2.symm⟩
  | cons p pre2 =>
    simp only [List.cons_append, List.cons.injEq] at h
    exact Or.inr ⟨pre2, by rw [h.1], h.2⟩

theorem get_of_split (name : Token) :
    ∀ (env : Environment) (pre : List ValueMap) (m : ValueMap) (post : List ValueMap),
      env.chain = pre ++ m :: post →
      (∀ m2 ∈ pre, ValueMap.count m2 name.lexeme = 0) →
      ValueMap.count m name.lexeme ≠ 0 →
      env.get name = ValueMap.atKey m name.lexeme := by
  intro env
  induction env with
  | global vs =>
    intro pre m post hc hpre hm
    rcases split_cons hc with ⟨_, rfl, _⟩ | ⟨pre2, _, h2⟩
    · simp [get, hm]
    · cases pre2 <;> simp at h2
  | nested vs enc ih =>
    intro pre m post hc hpre hm
    rcases split_cons hc with ⟨_, rfl, _⟩ | ⟨pre2, rfl, h2⟩
    · simp [get, hm]
    · have h0 : ValueMap.count vs name.lexeme = 0 := hpre vs (by simp)
      have := ih pre2 m post h2 (fun m2 hm2 => hpre m2 (by simp [hm2])) hm
      simp [get, h0, this]

theorem get_error_iff (name : Token) (env : Environment) :
    (∃ e, env.get name = .error e) ↔ ∀ m ∈ env.chain, ValueMap.count m name.lexeme = 0 := by
  induction env with
  | global vs =>
    by_cases h : ValueMap.count vs name.lexeme = 0
    · simp [get, chain, h]
    · obtain ⟨v, hv⟩ := (ValueMap.count_ne_zero_iff _ _).1 h
      simp [get, chain, h, ValueMap.atKey_of_lookup _ _ _ hv]
  | nested vs enc ih =>
    by_cases h : ValueMap.count vs name.lexeme = 0
    · simp [get, chain, h, ih]
    · obtain ⟨v, hv⟩ := (ValueMap.count_ne_zero_iff _ _).1 h
      simp [get, chain, h, ValueMap.atKey_of_lookup _ _ _ hv]

theorem get_error_kind (name : Token) (env : Environment) (e : Thrown)
    (h : env.get name = .error e) :
    e = .RuntimeException name ("Tanımlanmamış değişken \x27" ++ name.lexeme ++ "\x27.") := by
  induction env with
  | global vs =>
    by_cases h0 : ValueMap.count vs name.lexeme = 0
    · simp [get, h0] at h
      exact h.symm
    · obtain ⟨v, hv⟩ := (ValueMap.count_ne_zero_iff _ _).1 h0
      simp [get, h0, ValueMap.atKey_of_lookup _ _ _ hv] at h
  | nested vs enc ih =>
    by_cases h0 : ValueMap.count vs name.lexeme = 0
    · simp [get, h0] at h
      exact ih h
    · obtain ⟨v, hv⟩ := (ValueMap.count_ne_zero_iff _ _).1 h0
      simp [get, h0, ValueMap.atKey_of_lookup _ _ _ hv] at h

theorem assign_of_split (name : Token) (value : Value) :
    ∀ (env : Environment) (pre : List ValueMap) (m : ValueMap) (post : List ValueMap),
      env.chain = pre ++ m :: post →
      (∀ m2 ∈ pre, ValueMap.count m2 name.lexeme = 0) →
      ValueMap.count m name.lexeme ≠ 0 →
      (env.assign name value).1 = .ok () ∧
        (env.assign name value).2.chain = pre ++ ValueMap.put m name.lexeme value :: post := by
  intro env
  induction env with
  | global vs =>
    intro pre m post hc hpre hm
    rcases split_cons hc with ⟨rfl, rfl, rfl⟩ | ⟨pre2, _, h2⟩
    · simp [assign, hm, chain]
    · cases pre2 <;> simp at h2
  | nested vs enc ih =>
    intro pre m post hc hpre hm
    rcases split_cons hc with ⟨rfl, rfl, rfl⟩ | ⟨pre2, rfl, h2⟩
    · simp [assign, hm, chain]
    · have h0 : ValueMap.count vs name.lexeme = 0 := hpre vs (by simp)
      have := ih pre2 m post h2 (fun m2 hm2 => hpre m2 (by simp [hm2])) hm
      simp [assign, h0, this, chain]

theorem assign_undefined (name : Token) (value : Value) (env : Environment)
    (h : ∀ m ∈ env.chain, ValueMap.count m name.lexeme = 0) :
    env.assign name value =
      (.error (.RuntimeException name
        ("Tanımlanmamış değişken \x27" ++ name.lexeme ++ "\x27.")), env) := by
  induction env with
  | global vs =>
    have h0 : ValueMap.count vs name.lexeme = 0 := h vs (by simp [chain])
    simp [assign, h0]
  | nested vs enc ih =>
    have h0 : ValueMap.count vs name.lexeme = 0 := h vs (by simp [chain])
    have := ih (fun m hm => h m (by simp [chain, hm]))
    simp [assign, h0, this]

theorem get_define (env : Environment) (name : Token) (value : Value) :
    (env.define name.lexeme value).get name = .ok value := by
  have hl := ValueMap.lookup_put_self
  cases env with
  | global vs =>
    have hc : ValueMap.count (ValueMap.put vs name.lexeme value) name.lexeme ≠ 0 :=
      (ValueMap.count_ne_zero_iff _ _).2 ⟨value, hl _ _ _⟩
    simp [define, get, hc, ValueMap.atKey_of_lookup _ _ _ (hl vs name.lexeme value)]
  | nested vs enc =>
    have hc : ValueMap.count (ValueMap.put vs name.lexeme value) name.lexeme ≠ 0 :=
      (ValueMap.count_ne_zero_iff _ _).2 ⟨value, hl _ _ _⟩
    simp [define, get, hc, ValueMap.atKey_of_lookup _ _ _ (hl vs name.lexeme value)]

end Environment

/-! ## Lemmas on double comparison -/

namespace Double

theorem key_eq_iff (a b : Double) :
    a.key = b.key ↔ (a = b ∨ (a.isZero = true ∧ b.isZero = true)) := by
  obtain ⟨sa, ⟨ea, hea⟩, ⟨fa, hfa⟩⟩ := a
  obtain ⟨sb, ⟨eb, heb⟩, ⟨fb, hfb⟩⟩ := b
  cases sa <;> cases sb <;>
    simp only [key, isZero, mk.injEq, Fin.mk.injEq, Bool.and_eq_true, beq_iff_eq,
      Bool.false_eq_true, if_false, if_true, true_and, false_and, false_or,
      Bool.true_eq_false, reduceCtorEq] <;>
    constructor <;> intro h <;> omega

theorem eq_iff (a b : Double) :
    Double.eq a b = true ↔
      a.isNaN = false ∧ b.isNaN = false ∧ (a = b ∨ (a.isZero = true ∧ b.isZero = true)) := by
  simp [Double.eq, key_eq_iff, and_assoc]

theorem isZero_not_isNaN (d : Double) (h : d.isZero = true) : d.isNaN = false := by
  simp [isZero, isNaN] at *
  omega

theorem eq_zero_iff (d : Double) : Double.eq d zero = true ↔ d.isZero = true := by
  rw [eq_iff]
  constructor
  · rintro ⟨_, _, h | h⟩
    · subst h; rfl
    · exact h.1
  · intro h
    exact ⟨isZero_not_isNaN d h, rfl, Or.inr ⟨h, rfl⟩⟩

theorem ne_zero_eq_false_iff (d : Double) : Double.ne d zero = false ↔ d.isZero = true := by
  simp [Double.ne, eq_zero_iff]

end Double

/-! ## Lemmas on the value of a datum and the order of the values -/

namespace Double

theorem abs_toRat (d : Double) :
    |d.toRat| = if d.expo.val = 0 then (d.frac.val : ℚ) * (2 : ℚ) ^ (-1074 : ℤ)
      else ((4503599627370496 + d.frac.val : Nat) : ℚ) * (2 : ℚ) ^ ((d.expo.val : ℤ) - 1075) := by
  have h : (0 : ℚ) ≤ if d.expo.val = 0 then (d.frac.val : ℚ) * (2 : ℚ) ^ (-1074 : ℤ)
      else ((4503599627370496 + d.frac.val : Nat) : ℚ) * (2 : ℚ) ^ ((d.expo.val : ℤ) - 1075) := by
    split <;> positivity
  unfold toRat
  simp only
  split
  · rw [abs_neg, abs_of_nonneg h]
  · rw [abs_of_nonneg h]

theorem toRat_eq_abs (d : Double) :
    d.toRat = if d.sign then -|d.toRat| else |d.toRat| := by
  rw [abs_toRat]
  rfl

theorem abs_toRat_lt_of_lt (a b : Double)
    (h : a.expo.val * 4503599627370496 + a.frac.val <
      b.expo.val * 4503599627370496 + b.frac.val) : |a.toRat| < |b.toRat| := by
  have hfa := a.frac.isLt
  have hfb := b.frac.isLt
  have h2 : (0 : ℚ) < 2 := by norm_num
  rw [abs_toRat, abs_toRat]
  by_cases he : a.expo.val = b.expo.val
  · have hf : a.frac.val < b.frac.val := by omega
    have hfq : (a.frac.val : ℚ) < (b.frac.val : ℚ) := by exact_mod_cast hf
    rw [he]
    split
    · exact mul_lt_mul_of_pos_right hfq (zpow_pos h2 _)
    · apply mul_lt_mul_of_pos_right _ (zpow_pos h2 _)
      push_cast
      linarith
  · have hlt : a.expo.val < b.expo.val := by
      by_contra hge
      have : b.expo.val + 1 ≤ a.expo.val := by omega
      have : (b.expo.val + 1) * 4503599627370496 ≤ a.expo.val * 4503599627370496 :=
        Nat.mul_le_mul_right _ this
      omega
    have hb0 : b.expo.val ≠ 0 := by omega
    rw [if_neg hb0]
    have hlow : (4503599627370496 : ℚ) * (2 : ℚ) ^ ((b.expo.val : ℤ) - 1075) ≤
        ((4503599627370496 + b.frac.val : Nat) : ℚ) * (2 : ℚ) ^ ((b.expo.val : ℤ) - 1075) := by
      apply mul_le_mul_of_nonneg_right _ (zpow_pos h2 _).le
      push_cast
      have : (0 : ℚ) ≤ (b.frac.val : ℚ) := Nat.cast_nonneg _
      linarith
    refine lt_of_lt_of_le ?_ hlow
    split
    · rename_i ha0
      have h1 : (a.frac.val : ℚ) * (2 : ℚ) ^ (-1074 : ℤ) <
          (4503599627370496 : ℚ) * (2 : ℚ) ^ (-1074 : ℤ) := by
        apply mul_lt_mul_of_pos_right _ (zpow_pos h2 _)
        exact_mod_cast hfa
      refine lt_of_lt_of_le h1 ?_
      apply mul_le_mul_of_nonneg_left _ (by norm_num)
      apply zpow_le_zpow_right₀ (by norm_num)
      omega
    · have h1 : ((4503599627370496 + a.frac.val : Nat) : ℚ) * (2 : ℚ) ^ ((a.expo.val : ℤ) - 1075) <
          (4503599627370496 * 2 : ℚ) * (2 : ℚ) ^ ((a.expo.val : ℤ) - 1075) := by
        apply mul_lt_mul_of_pos_right _ (zpow_pos h2 _)
        push_cast
        have : (a.frac.val : ℚ) < 4503599627370496 := by exact_mod_cast hfa
        linarith
      refine lt_of_lt_of_le h1 ?_
      have h3 : (4503599627370496 * 2 : ℚ) * (2 : ℚ) ^ ((a.expo.val : ℤ) - 1075) =
          (4503599627370496 : ℚ) * (2 : ℚ) ^ ((a.expo.val : ℤ) + 1 - 1075) := by
        rw [show (a.expo.val : ℤ) + 1 - 1075 = ((a.expo.val : ℤ) - 1075) + 1 by ring,
          zpow_add₀ (by norm_num : (2 : ℚ) ≠ 0), zpow_one]
        ring
      rw [h3]
      apply mul_le_mul_of_nonneg_left _ (by norm_num)
      apply zpow_le_zpow_right₀ (by norm_num)
      omega

theorem abs_toRat_eq_of_eq (a b : Double)
    (h : a.expo.val * 4503599627370496 + a.frac.val =
      b.expo.val * 4503599627370496 + b.frac.val) : |a.toRat| = |b.toRat| := by
  have hfa := a.frac.isLt
  have hfb := b.frac.isLt
  have he : a.expo.val = b.expo.val := by omega
  have hf : a.frac.val = b.frac.val := by omega
  rw [abs_toRat, abs_toRat, he, hf]

theorem abs_toRat_lt_iff (a b : Double) :
    |a.toRat| < |b.toRat| ↔
      a.expo.val * 4503599627370496 + a.frac.val <
        b.expo.val * 4503599627370496 + b.frac.val := by
  constructor
  · intro h
    by_contra hn
    rcases Nat.lt_or_ge (b.expo.val * 4503599627370496 + b.frac.val)
        (a.expo.val * 4503599627370496 + a.frac.val) with h1 | h1
    · exact absurd (abs_toRat_lt_of_lt b a h1) (not_lt.2 h.le)
    · have := abs_toRat_eq_of_eq a b (by omega)
      rw [this] at h
      exact lt_irrefl _ h
  · exact abs_toRat_lt_of_lt a b

theorem abs_toRat_pos_iff (a : Double) :
    0 < |a.toRat| ↔ 0 < a.expo.val * 4503599627370496 + a.frac.val := by
  have h := abs_toRat_lt_iff zero a
  have hz : |zero.toRat| = 0 := by simp [toRat, zero]
  rw [hz] at h
  simpa [zero] using h

/-- The order of the values is the order of the keys. -/
theorem toRat_lt_iff_key (a b : Double) : a.toRat < b.toRat ↔ a.key < b.key := by
  have hab := abs_toRat_lt_iff a b
  have hba := abs_toRat_lt_iff b a
  have ha := abs_toRat_pos_iff a
  have hb := abs_toRat_pos_iff b
  have hna := abs_nonneg a.toRat
  have hnb := abs_nonneg b.toRat
  rw [toRat_eq_abs a, toRat_eq_abs b]
  unfold key
  cases a.sign <;> cases b.sign <;> simp only [Bool.false_eq_true, if_false, if_true]
  · rw [hab]; omega
  · constructor
    · intro h; linarith
    · intro h; omega
  · constructor
    · intro h
      have : 0 < |a.toRat| ∨ 0 < |b.toRat| := by
        by_contra hc
        push_neg at hc
        linarith [hc.1, hc.2]
      rcases this with h1 | h1
      · have := ha.1 h1; omega
      · have := hb.1 h1; omega
    · intro h
      have : 0 < a.expo.val * 4503599627370496 + a.frac.val ∨
          0 < b.expo.val * 4503599627370496 + b.frac.val := by omega
      rcases this with h1 | h1
      · have := ha.2 h1; linarith
      · have := hb.2 h1; linarith
  · rw [neg_lt_neg_iff, hba]; omega

theorem toRat_le_iff_key (a b : Double) : a.toRat ≤ b.toRat ↔ a.key ≤ b.key := by
  rw [← not_lt, ← not_lt, toRat_lt_iff_key]

/-- The operator `<` on data that are not NaN is the order of the values. -/
theorem lt_iff (a b : Double) (ha : a.isNaN = false) (hb : b.isNaN = false) :
    Double.lt a b = true ↔ a.toRat < b.toRat := by
  simp [Double.lt, ha, hb, toRat_lt_iff_key]

theorem le_iff (a b : Double) (ha : a.isNaN = false) (hb : b.isNaN = false) :
    Double.le a b = true ↔ a.toRat ≤ b.toRat := by
  simp [Double.le, ha, hb, toRat_le_iff_key]

theorem gt_iff (a b : Double) (ha : a.isNaN = false) (hb : b.isNaN = false) :
    Double.gt a b = true ↔ b.toRat < a.toRat := by
  simp [Double.gt, Double.lt, ha, hb, toRat_lt_iff_key]

theorem ge_iff (a b : Double) (ha : a.isNaN = false) (hb : b.isNaN = false) :
    Double.ge a b = true ↔ b.toRat ≤ a.toRat := by
  simp [Double.ge, Double.le, ha, hb, toRat_le_iff_key]

/-- A comparison with a NaN operand is false. -/
theorem compare_nan (a b : Double) (h : a.isNaN = true ∨ b.isNaN = true) :
    Double.lt a b = false ∧ Double.le a b = false ∧ Double.gt a b = false ∧
      Double.ge a b = false := by
  rcases h with h | h <;> simp [Double.lt, Double.le, Double.gt, Double.ge, h]

theorem two_pow_52 : (4503599627370496 : ℚ) = (2 : ℚ) ^ (52 : ℤ) := by norm_num

theorem toRat_infinity (s : Bool) :
    (infinity s).toRat = if s then -(2 : ℚ) ^ (1024 : ℤ) else (2 : ℚ) ^ (1024 : ℤ) := by
  have hv : ((2047 : Fin 2048).val : ℤ) - 1075 = 972 := by decide
  have hm : ((4503599627370496 + (0 : Fin 4503599627370496).val : Nat) : ℚ) *
      (2 : ℚ) ^ (((2047 : Fin 2048).val : ℤ) - 1075) = (2 : ℚ) ^ (1024 : ℤ) := by
    rw [hv]
    have : ((4503599627370496 + (0 : Fin 4503599627370496).val : Nat) : ℚ) =
        (2 : ℚ) ^ (52 : ℤ) := by
      rw [← two_pow_52]
      rfl
    rw [this, ← zpow_add₀ (by norm_num : (2 : ℚ) ≠ 0)]
    rfl
  have h0 : ¬ (2047 : Fin 2048).val = 0 := by decide
  cases s
  · simp only [toRat, infinity, Bool.false_eq_true, if_false]
    rw [if_neg h0]
    exact hm
  · simp only [toRat, infinity, if_true]
    rw [if_neg h0]
    exact congrArg Neg.neg hm

/-- A finite datum is smaller in magnitude than `2 ^ 1024`, the magnitude
that the value function gives an infinity. -/
theorem abs_toRat_lt_of_isFinite (c : Double) (h : c.isFinite = true) :
    |c.toRat| < (2 : ℚ) ^ (1024 : ℤ) := by
  have h1 := abs_toRat_lt_of_lt c (infinity false) (by
    have := c.frac.isLt
    have : c.expo.val ≤ 2046 := by
      have := c.expo.isLt
      simp [isFinite] at h
      omega
    simp [infinity]
    omega)
  rw [toRat_infinity] at h1
  simp only [Bool.false_eq_true, if_false] at h1
  rwa [abs_of_pos (zpow_pos (by norm_num : (0 : ℚ) < 2) _)] at h1

end Double

/-! ## Lemmas on negation and on rounding to an integer -/

namespace Double

theorem neg_sign (d : Double) : (neg d).sign = !d.sign := rfl

theorem neg_expo (d : Double) : (neg d).expo = d.expo := rfl

theorem neg_frac (d : Double) : (neg d).frac = d.frac := rfl

theorem neg_neg (d : Double) : neg (neg d) = d := by
  cases d
  simp [neg]

theorem isNaN_neg (d : Double) : (neg d).isNaN = d.isNaN := rfl

theorem isInf_neg (d : Double) : (neg d).isInf = d.isInf := rfl

theorem isFinite_neg (d : Double) : (neg d).isFinite = d.isFinite := rfl

/-- The value of the negated datum is the negated value. -/
theorem toRat_neg (d : Double) : (neg d).toRat = -d.toRat := by
  unfold toRat neg
  cases d.sign <;> simp

theorem floor_le_roundEven (x : ℚ) : ⌊x⌋₊ ≤ roundEven x := by
  unfold roundEven
  simp only
  split_ifs <;> omega

theorem roundEven_le_floor_succ (x : ℚ) : roundEven x ≤ ⌊x⌋₊ + 1 := by
  unfold roundEven
  simp only
  split_ifs <;> omega

/-- The rounding of a non-negative rational is an integer nearest to it. -/
theorem roundEven_nearest (x : ℚ) (hx : 0 ≤ x) (m : ℕ) :
    |(roundEven x : ℚ) - x| ≤ |(m : ℚ) - x| := by
  have h1 : (⌊x⌋₊ : ℚ) ≤ x := Nat.floor_le hx
  have h2 : x < (⌊x⌋₊ : ℚ) + 1 := Nat.lt_floor_add_one x
  have hm : (m : ℚ) ≤ (⌊x⌋₊ : ℚ) ∨ (⌊x⌋₊ : ℚ) + 1 ≤ (m : ℚ) := by
    rcases Nat.lt_or_ge ⌊x⌋₊ m with h | h
    · right
      exact_mod_cast h
    · left
      exact_mod_cast h
  have hp := le_abs_self ((m : ℚ) - x)
  have hq := neg_abs_le ((m : ℚ) - x)
  unfold roundEven
  simp only
  split_ifs with ha hb hc
  · rw [abs_le]
    rcases hm with hm | hm <;> constructor <;> linarith
  · rw [abs_le]
    push_cast
    rcases hm with hm | hm <;> constructor <;> linarith
  · rw [abs_le]
    push_neg at ha hb
    rcases hm with hm | hm <;> constructor <;> linarith
  · rw [abs_le]
    push_cast
    push_neg at ha hb
    rcases hm with hm | hm <;> constructor <;> linarith

/-- Where two integers are nearest, the rounding is the even one. -/
theorem roundEven_tie (x : ℚ) (hx : 0 ≤ x) (m : ℕ) (hm : m ≠ roundEven x)
    (heq : |(m : ℚ) - x| = |(roundEven x : ℚ) - x|) : roundEven x % 2 = 0 := by
  have h1 : (⌊x⌋₊ : ℚ) ≤ x := Nat.floor_le hx
  have h2 : x < (⌊x⌋₊ : ℚ) + 1 := Nat.lt_floor_add_one x
  revert hm heq
  unfold roundEven
  simp only
  split_ifs with ha hb hc
  · intro hm heq
    exfalso
    rw [abs_of_nonpos (by linarith : (⌊x⌋₊ : ℚ) - x ≤ 0)] at heq
    rcases Nat.lt_or_ge ⌊x⌋₊ m with h | h
    · have h3 : (⌊x⌋₊ : ℚ) + 1 ≤ (m : ℚ) := by exact_mod_cast h
      rw [abs_of_nonneg (by linarith)] at heq
      linarith
    · have h3 : m + 1 ≤ ⌊x⌋₊ := by omega
      have h4 : (m : ℚ) + 1 ≤ (⌊x⌋₊ : ℚ) := by exact_mod_cast h3
      rw [abs_of_nonpos (by linarith)] at heq
      linarith
  · intro hm heq
    exfalso
    push_cast at heq
    rw [abs_of_nonneg (by linarith : (0 : ℚ) ≤ (⌊x⌋₊ : ℚ) + 1 - x)] at heq
    rcases Nat.lt_or_ge m (⌊x⌋₊ + 1) with h | h
    · have h3 : m ≤ ⌊x⌋₊ := by omega
      have h4 : (m : ℚ) ≤ (⌊x⌋₊ : ℚ) := by exact_mod_cast h3
      rw [abs_of_nonpos (by linarith)] at heq
      linarith
    · have h3 : ⌊x⌋₊ + 2 ≤ m := by omega
      have h4 : (⌊x⌋₊ : ℚ) + 2 ≤ (m : ℚ) := by exact_mod_cast h3
      rw [abs_of_nonneg (by linarith)] at heq
      linarith
  · intro _ _
    exact hc
  · intro _ _
    omega

theorem le_roundEven (x : ℚ) (k : ℕ) (hk : (k : ℚ) ≤ x) : k ≤ roundEven x :=
  le_trans (Nat.le_floor hk) (floor_le_roundEven x)

theorem roundEven_le (x : ℚ) (hx : 0 ≤ x) (k : ℕ) (hk : x ≤ (k : ℚ)) : roundEven x ≤ k := by
  have h := roundEven_nearest x hx k
  by_contra hn
  have h3 : k + 1 ≤ roundEven x := by omega
  have h4 : (k : ℚ) + 1 ≤ (roundEven x : ℚ) := by exact_mod_cast h3
  have h5 := roundEven_le_floor_succ x
  have h6 : (⌊x⌋₊ : ℚ) ≤ x := Nat.floor_le hx
  have h7 : k ≤ ⌊x⌋₊ := by omega
  have h8 : (k : ℚ) ≤ (⌊x⌋₊ : ℚ) := by exact_mod_cast h7
  have h9 : x = k := le_antisymm hk (le_trans h8 h6)
  rw [h9] at h
  simp only [sub_self, abs_zero] at h
  have := abs_nonneg ((roundEven (k : ℚ) : ℚ) - k)
  have h10 : ((roundEven (k : ℚ) : ℚ) - k) = 0 := by
    apply abs_eq_zero.1
    linarith
  rw [h9] at h4
  linarith

theorem roundEven_natCast (k : ℕ) : roundEven (k : ℚ) = k :=
  le_antisymm (roundEven_le _ (Nat.cast_nonneg k) k le_rfl) (le_roundEven _ k le_rfl)

end Double

/-! ## Lemmas on the encoding of a rational -/

namespace Double

theorem ofRat_zero (s : Bool) : ofRat s 0 = ⟨s, 0, 0⟩ := by
  simp [ofRat]

theorem ofRat_unfold (s : Bool) (q : ℚ) (hq : q ≠ 0) (E : ℤ) (n : ℕ)
    (hE : E = max (Int.log 2 |q|) (-1022))
    (hn : n = roundEven (|q| / (2 : ℚ) ^ (E - 52))) :
    ofRat s q =
      if n = 9007199254740992 then
        (if 1023 < E + 1 then infinity (decide (q < 0))
         else if 4503599627370496 < 4503599627370496 then
          ⟨decide (q < 0), 0, ⟨4503599627370496 % 4503599627370496, Nat.mod_lt _ (by decide)⟩⟩
         else ⟨decide (q < 0), ⟨(E + 1 + 1023).toNat % 2048, Nat.mod_lt _ (by decide)⟩,
          ⟨(4503599627370496 - 4503599627370496) % 4503599627370496, Nat.mod_lt _ (by decide)⟩⟩)
      else
        (if 1023 < E then infinity (decide (q < 0))
         else if n < 4503599627370496 then
          ⟨decide (q < 0), 0, ⟨n % 4503599627370496, Nat.mod_lt _ (by decide)⟩⟩
         else ⟨decide (q < 0), ⟨(E + 1023).toNat % 2048, Nat.mod_lt _ (by decide)⟩,
          ⟨(n - 4503599627370496) % 4503599627370496, Nat.mod_lt _ (by decide)⟩⟩) := by
  subst hn
  subst hE
  unfold ofRat
  rw [if_neg hq]
  simp only
  split_ifs <;> rfl

end Double

namespace Double

theorem two_pos : (0 : ℚ) < 2 := by norm_num

theorem two_ne_zero : (2 : ℚ) ≠ 0 := by norm_num

theorem two_pow_53 : (9007199254740992 : ℚ) = (2 : ℚ) ^ (53 : ℤ) := by norm_num

theorem zpow_log_le (a : ℚ) (ha : 0 < a) : (2 : ℚ) ^ Int.log 2 a ≤ a := by
  have h := Int.zpow_log_le_self (b := 2) (by norm_num) ha
  simpa using h

theorem lt_zpow_log_succ (a : ℚ) : a < (2 : ℚ) ^ (Int.log 2 a + 1) := by
  have h := Int.lt_zpow_succ_log_self (b := 2) (by norm_num) a
  simpa using h

theorem log_lt_of_lt_zpow (a : ℚ) (ha : 0 < a) (k : ℤ) (h : a < (2 : ℚ) ^ k) :
    Int.log 2 a < k := by
  have h1 := (Int.lt_zpow_iff_log_lt (b := 2) (by norm_num) (x := k) ha).1 (by simpa using h)
  exact h1

theorem le_log_of_zpow_le (a : ℚ) (ha : 0 < a) (k : ℤ) (h : (2 : ℚ) ^ k ≤ a) :
    k ≤ Int.log 2 a := by
  have h1 := (Int.zpow_le_iff_le_log (b := 2) (by norm_num) (x := k) ha).1 (by simpa using h)
  exact h1

theorem log_eq_of_bounds (a : ℚ) (k : ℤ) (h1 : (2 : ℚ) ^ k ≤ a) (h2 : a < (2 : ℚ) ^ (k + 1)) :
    Int.log 2 a = k := by
  have ha : 0 < a := lt_of_lt_of_le (zpow_pos two_pos k) h1
  have := log_lt_of_lt_zpow a ha _ h2
  have := le_log_of_zpow_le a ha _ h1
  omega

/-- The scaled magnitude that `ofRat` rounds is below `2 ^ 53`; it is at
least `2 ^ 52` in the normal range and below `2 ^ 52` in the subnormal
range. -/
theorem scaled_bounds (a : ℚ) (ha : 0 < a) (E : ℤ)
    (hE : E = max (Int.log 2 a) (-1022)) :
    0 < a / (2 : ℚ) ^ (E - 52) ∧
    a / (2 : ℚ) ^ (E - 52) < 9007199254740992 ∧
    (E = Int.log 2 a → (4503599627370496 : ℚ) ≤ a / (2 : ℚ) ^ (E - 52)) ∧
    (Int.log 2 a < -1022 → a / (2 : ℚ) ^ (E - 52) < 4503599627370496) := by
  have hu : (0 : ℚ) < (2 : ℚ) ^ (E - 52) := zpow_pos two_pos _
  have hle : Int.log 2 a ≤ E := by rw [hE]; exact le_max_left _ _
  refine ⟨div_pos ha hu, ?_, ?_, ?_⟩
  · rw [div_lt_iff₀ hu, two_pow_53, ← zpow_add₀ two_ne_zero]
    refine lt_of_lt_of_le (lt_zpow_log_succ a) ?_
    apply zpow_le_zpow_right₀ (by norm_num)
    omega
  · intro h
    rw [le_div_iff₀ hu, two_pow_52, ← zpow_add₀ two_ne_zero]
    refine le_trans ?_ (zpow_log_le a ha)
    apply zpow_le_zpow_right₀ (by norm_num)
    omega
  · intro h
    have hE2 : E = -1022 := by rw [hE]; exact max_eq_right (by omega)
    rw [div_lt_iff₀ hu, two_pow_52, ← zpow_add₀ two_ne_zero]
    refine lt_of_lt_of_le (lt_zpow_log_succ a) ?_
    apply zpow_le_zpow_right₀ (by norm_num)
    omega

/-- Bounds of the rounded significand of `ofRat`. -/
theorem rounded_bounds (a : ℚ) (ha : 0 < a) (E : ℤ) (n : ℕ)
    (hE : E = max (Int.log 2 a) (-1022))
    (hn : n = roundEven (a / (2 : ℚ) ^ (E - 52))) :
    n ≤ 9007199254740992 ∧
    (E = Int.log 2 a → 4503599627370496 ≤ n) ∧
    (Int.log 2 a < -1022 → n ≤ 4503599627370496) ∧
    (n < 4503599627370496 → E = -1022) := by
  obtain ⟨h0, h1, h2, h3⟩ := scaled_bounds a ha E hE
  have hA : n ≤ 9007199254740992 := by
    rw [hn]
    exact roundEven_le _ h0.le _ (by exact_mod_cast h1.le)
  have hB : E = Int.log 2 a → 4503599627370496 ≤ n := by
    intro h
    rw [hn]
    exact le_roundEven _ _ (by exact_mod_cast h2 h)
  refine ⟨hA, hB, ?_, ?_⟩
  · intro h
    rw [hn]
    exact roundEven_le _ h0.le _ (by exact_mod_cast (h3 h).le)
  · intro h
    by_contra hne
    have : E = Int.log 2 a := by
      rw [hE]
      rcases le_total (Int.log 2 a) (-1022) with h4 | h4
      · rw [max_eq_right h4] at hE
        omega
      · exact max_eq_left h4
    have := hB this
    omega

end Double

namespace Double

theorem abs_toRat_mk_subnormal (sg : Bool) (f : Fin 4503599627370496) :
    |(Double.mk sg 0 f).toRat| = (f.val : ℚ) * (2 : ℚ) ^ (-1074 : ℤ) := by
  rw [abs_toRat]
  simp

theorem abs_toRat_mk_normal (sg : Bool) (e : Fin 2048) (f : Fin 4503599627370496)
    (he : e.val ≠ 0) :
    |(Double.mk sg e f).toRat| =
      ((4503599627370496 + f.val : Nat) : ℚ) * (2 : ℚ) ^ ((e.val : ℤ) - 1075) := by
  rw [abs_toRat]
  simp [he]

/-- The three shapes of a finite result of `ofRat`. -/
theorem ofRat_shape (s : Bool) (q : ℚ) (hq : q ≠ 0) (E : ℤ) (n : ℕ)
    (hE : E = max (Int.log 2 |q|) (-1022))
    (hn : n = roundEven (|q| / (2 : ℚ) ^ (E - 52))) :
    (n < 4503599627370496 →
      ofRat s q = ⟨decide (q < 0), 0, ⟨n % 4503599627370496, Nat.mod_lt _ (by decide)⟩⟩) ∧
    (4503599627370496 ≤ n → n < 9007199254740992 → E ≤ 1023 →
      ofRat s q = ⟨decide (q < 0), ⟨(E + 1023).toNat % 2048, Nat.mod_lt _ (by decide)⟩,
        ⟨(n - 4503599627370496) % 4503599627370496, Nat.mod_lt _ (by decide)⟩⟩) ∧
    (n = 9007199254740992 → E < 1023 →
      ofRat s q = ⟨decide (q < 0), ⟨(E + 1 + 1023).toNat % 2048, Nat.mod_lt _ (by decide)⟩,
        ⟨0, by decide⟩⟩) ∧
    ((1023 < E ∨ (E = 1023 ∧ n = 9007199254740992)) → ofRat s q = infinity (decide (q < 0))) := by
  have ha : 0 < |q| := abs_pos.2 hq
  obtain ⟨h1, h2, h3, h4⟩ := rounded_bounds |q| ha E n hE hn
  rw [ofRat_unfold s q hq E n hE hn]
  refine ⟨?_, ?_, ?_, ?_⟩
  · intro h
    have hE2 := h4 h
    rw [if_neg (by omega), if_neg (by omega), if_pos h]
  · intro h5 h6 h7
    rw [if_neg (by omega), if_neg (by omega), if_neg (by omega)]
  · intro h5 h6
    rw [if_pos h5, if_neg (by omega), if_neg (by omega)]
  · rintro (h | ⟨h5, h6⟩)
    · by_cases h7 : n = 9007199254740992
      · rw [if_pos h7, if_pos (by omega)]
      · rw [if_neg h7, if_pos h]
    · rw [if_pos h6, if_pos (by omega)]

/-- A result of `ofRat` that is not an infinity: it is finite, has the sign
of the rational, and its magnitude is the rounded significand times the unit
in the last place. -/
theorem ofRat_finite (s : Bool) (q : ℚ) (hq : q ≠ 0) (E : ℤ) (n : ℕ)
    (hE : E = max (Int.log 2 |q|) (-1022))
    (hn : n = roundEven (|q| / (2 : ℚ) ^ (E - 52)))
    (hfin : E ≤ 1023) (hnot : ¬ (E = 1023 ∧ n = 9007199254740992)) :
    (ofRat s q).isFinite = true ∧ (ofRat s q).sign = decide (q < 0) ∧
    |(ofRat s q).toRat| = (n : ℚ) * (2 : ℚ) ^ (E - 52) ∧
    (ofRat s q).frac.val % 2 = n % 2 := by
  have ha : 0 < |q| := abs_pos.2 hq
  obtain ⟨h1, h2, h3, h4⟩ := rounded_bounds |q| ha E n hE hn
  obtain ⟨s1, s2, s3, _⟩ := ofRat_shape s q hq E n hE hn
  have hElow : -1022 ≤ E := by rw [hE]; exact le_max_right _ _
  rcases Nat.lt_or_ge n 4503599627370496 with h5 | h5
  · rw [s1 h5]
    have hE2 := h4 h5
    refine ⟨rfl, rfl, ?_, ?_⟩
    · rw [abs_toRat_mk_subnormal, hE2]
      simp only [Nat.mod_eq_of_lt h5]
      norm_num
    · simp only [Nat.mod_eq_of_lt h5]
  · rcases Nat.lt_or_ge n 9007199254740992 with h6 | h6
    · rw [s2 h5 h6 hfin]
      have hexp : (E + 1023).toNat % 2048 = (E + 1023).toNat := Nat.mod_eq_of_lt (by omega)
      have hfr : (n - 4503599627370496) % 4503599627370496 = n - 4503599627370496 :=
        Nat.mod_eq_of_lt (by omega)
      refine ⟨?_, rfl, ?_, ?_⟩
      · simp only [isFinite, hexp]
        simp
        omega
      · rw [abs_toRat_mk_normal _ _ _ (by simp only [hexp]; omega)]
        simp only [hexp, hfr]
        have h7 : 4503599627370496 + (n - 4503599627370496) = n := by omega
        have h8 : (((E + 1023).toNat : ℕ) : ℤ) - 1075 = E - 52 := by omega
        rw [h7, h8]
      · simp only [hfr]
        omega
    · have h7 : n = 9007199254740992 := by omega
      have h8 : E < 1023 := by
        by_contra hc
        exact hnot ⟨by omega, h7⟩
      rw [s3 h7 h8]
      have hexp : (E + 1 + 1023).toNat % 2048 = (E + 1 + 1023).toNat :=
        Nat.mod_eq_of_lt (by omega)
      refine ⟨?_, rfl, ?_, ?_⟩
      · simp only [isFinite, hexp]
        simp
        omega
      · rw [abs_toRat_mk_normal _ _ _ (by simp only [hexp]; omega)]
        simp only [hexp]
        have h9 : (((E + 1 + 1023).toNat : ℕ) : ℤ) - 1075 = (E - 52) + 1 := by omega
        rw [h9, zpow_add₀ two_ne_zero, h7]
        norm_num
        ring
      · rw [h7]
        show 0 % 2 = 9007199254740992 % 2
        norm_num

theorem ofRat_sign (s : Bool) (q : ℚ) (hq : q ≠ 0) : (ofRat s q).sign = decide (q < 0) := by
  obtain ⟨s1, s2, s3, s4⟩ := ofRat_shape s q hq _ _ rfl rfl
  have ha : 0 < |q| := abs_pos.2 hq
  obtain ⟨h1, _, _, _⟩ := rounded_bounds |q| ha _ _ rfl rfl
  by_cases h : max (Int.log 2 |q|) (-1022) ≤ 1023 ∧
      ¬ (max (Int.log 2 |q|) (-1022) = 1023 ∧
        roundEven (|q| / (2 : ℚ) ^ (max (Int.log 2 |q|) (-1022) - 52)) = 9007199254740992)
  · exact (ofRat_finite s q hq _ _ rfl rfl h.1 h.2).2.1
  · rw [s4 (by
      by_contra hc
      push_neg at hc
      apply h
      refine ⟨by omega, ?_⟩
      rintro ⟨h5, h6⟩
      exact hc.2 h5 h6)]
    rfl

theorem ofRat_isNaN (s : Bool) (q : ℚ) : (ofRat s q).isNaN = false := by
  by_cases hq : q = 0
  · rw [hq, ofRat_zero]
    rfl
  obtain ⟨s1, s2, s3, s4⟩ := ofRat_shape s q hq _ _ rfl rfl
  by_cases h : max (Int.log 2 |q|) (-1022) ≤ 1023 ∧
      ¬ (max (Int.log 2 |q|) (-1022) = 1023 ∧
        roundEven (|q| / (2 : ℚ) ^ (max (Int.log 2 |q|) (-1022) - 52)) = 9007199254740992)
  · have := (ofRat_finite s q hq _ _ rfl rfl h.1 h.2).1
    simp only [isFinite, bne_iff_ne, ne_eq] at this
    simp [isNaN, this]
  · rw [s4 (by
      by_contra hc
      push_neg at hc
      apply h
      refine ⟨by omega, ?_⟩
      rintro ⟨h5, h6⟩
      exact hc.2 h5 h6)]
    rfl

end Double

/-! ## The encoding of the value of a datum -/

namespace Double

theorem toRat_ne_zero_of_not_isZero (c : Double) (hnz : c.isZero = false) : c.toRat ≠ 0 := by
  have h : 0 < c.expo.val * 4503599627370496 + c.frac.val := by
    simp only [isZero, Bool.and_eq_false_iff, beq_eq_false_iff_ne, ne_eq] at hnz
    omega
  have := (abs_toRat_pos_iff c).2 h
  exact abs_pos.1 this

theorem toRat_lt_zero_iff (c : Double) (hnz : c.isZero = false) :
    c.toRat < 0 ↔ c.sign = true := by
  have hpos : 0 < |c.toRat| := abs_pos.2 (toRat_ne_zero_of_not_isZero c hnz)
  rw [toRat_eq_abs c]
  cases c.sign
  · simp only [Bool.false_eq_true, if_false, iff_false, not_lt]
    exact hpos.le
  · simp only [if_true, iff_true]
    linarith

/-- Encoding the value of a finite datum other than a zero gives the datum
back. -/
theorem ofRat_toRat (s : Bool) (c : Double) (hfin : c.isFinite = true)
    (hnz : c.isZero = false) : ofRat s c.toRat = c := by
  have hq := toRat_ne_zero_of_not_isZero c hnz
  have hsign : decide (c.toRat < 0) = c.sign := by
    cases hs : c.sign
    · rw [decide_eq_false_iff_not, toRat_lt_zero_iff c hnz, hs]
      simp
    · rw [decide_eq_true_iff, toRat_lt_zero_iff c hnz, hs]
  have habs := abs_toRat c
  obtain ⟨sg, ⟨e, he⟩, ⟨f, hf⟩⟩ := c
  simp only [isFinite, bne_iff_ne, ne_eq] at hfin
  simp only [isZero, Bool.and_eq_false_iff, beq_eq_false_iff_ne, ne_eq] at hnz
  simp only at habs hsign
  by_cases he0 : e = 0
  · subst he0
    rw [if_pos rfl] at habs
    have hf0 : f ≠ 0 := by
      rcases hnz with h | h
      · exact absurd rfl h
      · exact h
    have hpos : 0 < |(Double.mk sg ⟨0, he⟩ ⟨f, hf⟩).toRat| := abs_pos.2 hq
    have hlog : Int.log 2 |(Double.mk sg ⟨0, he⟩ ⟨f, hf⟩).toRat| < -1022 := by
      apply log_lt_of_lt_zpow _ hpos
      rw [habs]
      have : (f : ℚ) < 4503599627370496 := by exact_mod_cast hf
      calc (f : ℚ) * 2 ^ (-1074 : ℤ) < 4503599627370496 * 2 ^ (-1074 : ℤ) :=
            mul_lt_mul_of_pos_right this (zpow_pos two_pos _)
        _ = 2 ^ (-1022 : ℤ) := by
            rw [two_pow_52, ← zpow_add₀ two_ne_zero]
            norm_num
    have hE : (-1022 : ℤ) = max (Int.log 2 |(Double.mk sg ⟨0, he⟩ ⟨f, hf⟩).toRat|) (-1022) :=
      (max_eq_right hlog.le).symm
    have hn : f = roundEven (|(Double.mk sg ⟨0, he⟩ ⟨f, hf⟩).toRat| /
        (2 : ℚ) ^ ((-1022 : ℤ) - 52)) := by
      rw [habs]
      have : (f : ℚ) * 2 ^ (-1074 : ℤ) / 2 ^ ((-1022 : ℤ) - 52) = (f : ℚ) := by
        rw [show ((-1022 : ℤ) - 52) = -1074 by norm_num]
        exact mul_div_cancel_right₀ _ (zpow_pos two_pos _).ne'
      rw [this, roundEven_natCast]
    rw [(ofRat_shape s _ hq _ _ hE hn).1 hf, hsign]
    simp only [Nat.mod_eq_of_lt hf]
    rfl
  · rw [if_neg he0] at habs
    have hpos : 0 < |(Double.mk sg ⟨e, he⟩ ⟨f, hf⟩).toRat| := abs_pos.2 hq
    have hfq : (f : ℚ) < 4503599627370496 := by exact_mod_cast hf
    have hfq0 : (0 : ℚ) ≤ (f : ℚ) := Nat.cast_nonneg f
    have hu : (0 : ℚ) < (2 : ℚ) ^ ((e : ℤ) - 1075) := zpow_pos two_pos _
    have hlog : Int.log 2 |(Double.mk sg ⟨e, he⟩ ⟨f, hf⟩).toRat| = (e : ℤ) - 1023 := by
      apply log_eq_of_bounds
      · rw [habs]
        calc (2 : ℚ) ^ ((e : ℤ) - 1023) = 4503599627370496 * 2 ^ ((e : ℤ) - 1075) := by
              rw [two_pow_52, ← zpow_add₀ two_ne_zero]
              congr 1
              ring
          _ ≤ _ := by
              apply mul_le_mul_of_nonneg_right _ hu.le
              push_cast
              linarith
      · rw [habs]
        calc ((4503599627370496 + f : ℕ) : ℚ) * 2 ^ ((e : ℤ) - 1075)
            < 9007199254740992 * 2 ^ ((e : ℤ) - 1075) := by
              apply mul_lt_mul_of_pos_right _ hu
              push_cast
              linarith
          _ = (2 : ℚ) ^ ((e : ℤ) - 1023 + 1) := by
              rw [two_pow_53, ← zpow_add₀ two_ne_zero]
              congr 1
              ring
    have hE : (e : ℤ) - 1023 = max (Int.log 2 |(Double.mk sg ⟨e, he⟩ ⟨f, hf⟩).toRat|) (-1022) := by
      rw [hlog]
      exact (max_eq_left (by omega)).symm
    have hn : 4503599627370496 + f = roundEven (|(Double.mk sg ⟨e, he⟩ ⟨f, hf⟩).toRat| /
        (2 : ℚ) ^ ((e : ℤ) - 1023 - 52)) := by
      rw [habs]
      have : ((4503599627370496 + f : ℕ) : ℚ) * 2 ^ ((e : ℤ) - 1075) /
          2 ^ ((e : ℤ) - 1023 - 52) = ((4503599627370496 + f : ℕ) : ℚ) := by
        rw [show ((e : ℤ) - 1023 - 52) = (e : ℤ) - 1075 by ring]
        exact mul_div_cancel_right₀ _ hu.ne'
      rw [this, roundEven_natCast]
    rw [(ofRat_shape s _ hq _ _ hE hn).2.1 (by omega) (by omega) (by omega), hsign]
    have h1 : ((e : ℤ) - 1023 + 1023).toNat % 2048 = e := by
      rw [show (e : ℤ) - 1023 + 1023 = (e : ℤ) by ring, Int.toNat_natCast]
      exact Nat.mod_eq_of_lt he
    have h2 : (4503599627370496 + f - 4503599627370496) % 4503599627370496 = f := by
      rw [Nat.add_sub_cancel_left]
      exact Nat.mod_eq_of_lt hf
    simp only [h1, h2]

end Double

/-! ## The encoding is a nearest datum -/

namespace Double

/-- The magnitude of a finite datum is a significand below `2 ^ 53` times a
power of two that is at least `2 ^ (-1074)`. -/
theorem abs_toRat_repr (c : Double) :
    ∃ (M : ℕ) (k : ℤ), |c.toRat| = (M : ℚ) * (2 : ℚ) ^ k ∧ -1074 ≤ k ∧
      M < 9007199254740992 := by
  have hf := c.frac.isLt
  rw [abs_toRat]
  split
  · exact ⟨c.frac.val, -1074, rfl, le_rfl, by omega⟩
  · rename_i he
    exact ⟨4503599627370496 + c.frac.val, (c.expo.val : ℤ) - 1075, rfl, by omega, by omega⟩

/-- The rounded magnitude `n * u`, with `u` the unit in the last place, is at
least as near to the magnitude `a` as the magnitude of any datum; a datum at
the same distance as `n * u` is a multiple `m * u` with `m` as near to the
scaled magnitude as `n`. -/
theorem grid_nearest (a : ℚ) (ha : 0 < a) (E : ℤ) (n : ℕ)
    (hE : E = max (Int.log 2 a) (-1022))
    (hn : n = roundEven (a / (2 : ℚ) ^ (E - 52))) (c : Double) :
    |(n : ℚ) * (2 : ℚ) ^ (E - 52) - a| ≤ |(|c.toRat|) - a| ∧
    (|(n : ℚ) * (2 : ℚ) ^ (E - 52) - a| = |(|c.toRat|) - a| →
      ∃ m : ℕ, |c.toRat| = (m : ℚ) * (2 : ℚ) ^ (E - 52) ∧
        |(m : ℚ) - a / (2 : ℚ) ^ (E - 52)| = |(n : ℚ) - a / (2 : ℚ) ^ (E - 52)|) := by
  have hu : (0 : ℚ) < (2 : ℚ) ^ (E - 52) := zpow_pos two_pos _
  obtain ⟨hx0, hx1, hx2, hx3⟩ := scaled_bounds a ha E hE
  have hscale : ∀ m : ℕ, |(m : ℚ) * (2 : ℚ) ^ (E - 52) - a| =
      |(m : ℚ) - a / (2 : ℚ) ^ (E - 52)| * (2 : ℚ) ^ (E - 52) := by
    intro m
    rw [← abs_of_pos hu, ← abs_mul, abs_of_pos hu, sub_mul, div_mul_cancel₀ _ hu.ne']
  obtain ⟨M, k, hc, hk, hM⟩ := abs_toRat_repr c
  rcases le_or_lt (E - 52) k with hcase | hcase
  · have hm : |c.toRat| = ((M * 2 ^ (k - (E - 52)).toNat : ℕ) : ℚ) * (2 : ℚ) ^ (E - 52) := by
      rw [hc]
      push_cast
      rw [mul_assoc, ← zpow_natCast, ← zpow_add₀ two_ne_zero]
      congr 2
      omega
    have hnear := roundEven_nearest _ hx0.le (M * 2 ^ (k - (E - 52)).toNat)
    rw [← hn] at hnear
    constructor
    · rw [hm, hscale, hscale]
      exact mul_le_mul_of_nonneg_right hnear hu.le
    · intro heq
      refine ⟨_, hm, ?_⟩
      rw [hm, hscale, hscale] at heq
      exact (mul_right_cancel₀ hu.ne' heq).symm
  · have hElog : E = Int.log 2 a := by
      rcases le_total (Int.log 2 a) (-1022) with h4 | h4
      · rw [max_eq_right h4] at hE
        omega
      · rw [hE]
        exact max_eq_left h4
    have hlow : (2 : ℚ) ^ E ≤ a := by
      rw [hElog]
      exact zpow_log_le a ha
    have hclt : |c.toRat| < (2 : ℚ) ^ E := by
      rw [hc]
      have h1 : (M : ℚ) < 9007199254740992 := by exact_mod_cast hM
      calc (M : ℚ) * 2 ^ k < 9007199254740992 * 2 ^ k :=
            mul_lt_mul_of_pos_right h1 (zpow_pos two_pos _)
        _ = (2 : ℚ) ^ (53 + k) := by rw [two_pow_53, ← zpow_add₀ two_ne_zero]
        _ ≤ (2 : ℚ) ^ E := by
            apply zpow_le_zpow_right₀ (by norm_num)
            omega
    have hnear := roundEven_nearest _ hx0.le 4503599627370496
    rw [← hn] at hnear
    have h52 := hx2 hElog
    have hEq : (2 : ℚ) ^ E = (4503599627370496 : ℚ) * (2 : ℚ) ^ (E - 52) := by
      rw [two_pow_52, ← zpow_add₀ two_ne_zero]
      congr 1
      ring
    have hstrict : |(n : ℚ) * (2 : ℚ) ^ (E - 52) - a| < |(|c.toRat|) - a| := by
      rw [abs_of_neg (by linarith : |c.toRat| - a < 0), hscale]
      have h5 : |((4503599627370496 : ℕ) : ℚ) - a / (2 : ℚ) ^ (E - 52)| =
          a / (2 : ℚ) ^ (E - 52) - 4503599627370496 := by
        rw [abs_of_nonpos (by push_cast; linarith)]
        push_cast
        ring
      rw [h5] at hnear
      calc |(n : ℚ) - a / 2 ^ (E - 52)| * 2 ^ (E - 52)
          ≤ (a / (2 : ℚ) ^ (E - 52) - 4503599627370496) * 2 ^ (E - 52) :=
            mul_le_mul_of_nonneg_right hnear hu.le
        _ = a - (2 : ℚ) ^ E := by
            rw [sub_mul, div_mul_cancel₀ _ hu.ne', hEq]
        _ < -(|c.toRat| - a) := by linarith
    exact ⟨hstrict.le, fun heq => absurd heq hstrict.ne⟩

theorem isInf_infinity (sg : Bool) : (infinity sg).isInf = true := rfl

theorem isInf_of_isFinite (c : Double) (h : c.isFinite = true) : c.isInf = false := by
  simp only [isFinite, bne_iff_ne, ne_eq] at h
  simp [isInf, h]

/-- What a result of `ofRat` that is not an infinity is, for a rational other
than zero. -/
theorem ofRat_not_isInf (s : Bool) (q : ℚ) (hq : q ≠ 0) (E : ℤ) (n : ℕ)
    (hE : E = max (Int.log 2 |q|) (-1022))
    (hn : n = roundEven (|q| / (2 : ℚ) ^ (E - 52)))
    (hfin : (ofRat s q).isInf = false) :
    E ≤ 1023 ∧ ¬ (E = 1023 ∧ n = 9007199254740992) := by
  by_contra hc
  have h : 1023 < E ∨ (E = 1023 ∧ n = 9007199254740992) := by
    by_cases h1 : 1023 < E
    · exact Or.inl h1
    · right
      by_contra h2
      exact hc ⟨by omega, h2⟩
  rw [(ofRat_shape s q hq E n hE hn).2.2.2 h, isInf_infinity] at hfin
  cases hfin

/-- The value of a finite result of `ofRat`, and the rational, as a sign times
a magnitude. -/
theorem ofRat_toRat_signed (s : Bool) (q : ℚ) (hq : q ≠ 0) (E : ℤ) (n : ℕ)
    (hE : E = max (Int.log 2 |q|) (-1022))
    (hn : n = roundEven (|q| / (2 : ℚ) ^ (E - 52)))
    (hfin : (ofRat s q).isInf = false) :
    ∃ σ : ℚ, |σ| = 1 ∧ (ofRat s q).toRat = σ * ((n : ℚ) * (2 : ℚ) ^ (E - 52)) ∧
      q = σ * |q| := by
  obtain ⟨h1, h2⟩ := ofRat_not_isInf s q hq E n hE hn hfin
  obtain ⟨_, hs, hv, _⟩ := ofRat_finite s q hq E n hE hn h1 h2
  by_cases h : q < 0
  · refine ⟨-1, by norm_num, ?_, ?_⟩
    · rw [toRat_eq_abs, hs, hv]
      simp [h]
    · rw [abs_of_neg h]
      ring
  · refine ⟨1, by norm_num, ?_, ?_⟩
    · rw [toRat_eq_abs, hs, hv]
      simp [h]
    · rw [abs_of_nonneg (not_lt.1 h)]
      ring

/-- The distance of a finite result of `ofRat` from the rational. -/
theorem ofRat_dist (s : Bool) (q : ℚ) (hq : q ≠ 0) (E : ℤ) (n : ℕ)
    (hE : E = max (Int.log 2 |q|) (-1022))
    (hn : n = roundEven (|q| / (2 : ℚ) ^ (E - 52)))
    (hfin : (ofRat s q).isInf = false) :
    |(ofRat s q).toRat - q| = |(n : ℚ) * (2 : ℚ) ^ (E - 52) - (|q|)| ∧
    |(-(ofRat s q).toRat) - q| = |(ofRat s q).toRat| + |q| := by
  obtain ⟨σ, hσ, hr, hqa⟩ := ofRat_toRat_signed s q hq E n hE hn hfin
  obtain ⟨h1, h2⟩ := ofRat_not_isInf s q hq E n hE hn hfin
  obtain ⟨_, _, hv, _⟩ := ofRat_finite s q hq E n hE hn h1 h2
  have hnn : (0 : ℚ) ≤ (n : ℚ) * (2 : ℚ) ^ (E - 52) := by positivity
  constructor
  · have h3 : |σ * ((n : ℚ) * (2 : ℚ) ^ (E - 52)) - σ * (|q|)| =
        |(n : ℚ) * (2 : ℚ) ^ (E - 52) - (|q|)| := by
      rw [← mul_sub, abs_mul, hσ, one_mul]
    rw [← h3, ← hr, ← hqa]
  · have h3 : |(-(σ * ((n : ℚ) * (2 : ℚ) ^ (E - 52)))) - σ * (|q|)| =
        (n : ℚ) * (2 : ℚ) ^ (E - 52) + |q| := by
      rw [show (-(σ * ((n : ℚ) * (2 : ℚ) ^ (E - 52)))) - σ * |q| =
        -σ * ((n : ℚ) * (2 : ℚ) ^ (E - 52) + |q|) by ring, abs_mul, abs_neg, hσ, one_mul,
        abs_of_nonneg (add_nonneg hnn (abs_nonneg q))]
    rw [hv, ← h3, ← hr, ← hqa]

/-- A result of `ofRat` that is not an infinity is a finite datum nearest to
the rational. -/
theorem ofRat_nearest (s : Bool) (q : ℚ) (hfin : (ofRat s q).isInf = false) (c : Double) :
    |(ofRat s q).toRat - q| ≤ |c.toRat - q| := by
  by_cases hq : q = 0
  · subst hq
    rw [ofRat_zero]
    have : (Double.mk s 0 0).toRat = 0 := by simp [toRat]
    rw [this]
    simp
  · have h1 := (ofRat_dist s q hq _ _ rfl rfl hfin).1
    have hg := (grid_nearest |q| (abs_pos.2 hq) _ _ rfl rfl c).1
    rw [h1]
    exact le_trans hg (abs_abs_sub_abs_le_abs_sub _ _)

/-- Of two data at the same distance from the rational, `ofRat` gives the one
whose fraction field is even. -/
theorem ofRat_tie (s : Bool) (q : ℚ) (hfin : (ofRat s q).isInf = false) (c : Double)
    (hne : c.toRat ≠ (ofRat s q).toRat)
    (heq : |c.toRat - q| = |(ofRat s q).toRat - q|) : (ofRat s q).frac.val % 2 = 0 := by
  by_cases hq : q = 0
  · subst hq
    rw [ofRat_zero]
    rfl
  · obtain ⟨h1, h4⟩ := ofRat_dist s q hq _ _ rfl rfl hfin
    obtain ⟨hE1, hE2⟩ := ofRat_not_isInf s q hq _ _ rfl rfl hfin
    obtain ⟨_, _, hv, hpar⟩ := ofRat_finite s q hq _ _ rfl rfl hE1 hE2
    obtain ⟨hg, hgt⟩ := grid_nearest |q| (abs_pos.2 hq) _ _ rfl rfl c
    have hqpos : 0 < |q| := abs_pos.2 hq
    have hx0 := (scaled_bounds |q| hqpos _ rfl).1
    have h2 := abs_abs_sub_abs_le_abs_sub c.toRat q
    rw [heq, h1] at h2
    obtain ⟨m, hm, hmx⟩ := hgt (le_antisymm hg h2)
    rw [hpar]
    by_cases hmn : m = roundEven (|q| / (2 : ℚ) ^ (max (Int.log 2 |q|) (-1022) - 52))
    · exfalso
      rw [hmn, ← hv] at hm
      rcases abs_eq_abs.1 hm with h3 | h3
      · exact hne h3
      · rw [h3, h4] at heq
        have h5 : |(ofRat s q).toRat| = 0 := by
          by_contra h6
          have h7 : 0 < |(ofRat s q).toRat| := lt_of_le_of_ne (abs_nonneg _) (Ne.symm h6)
          have h8 := abs_sub_abs_le_abs_sub (ofRat s q).toRat q
          have h9 := abs_sub_abs_le_abs_sub q (ofRat s q).toRat
          rw [abs_sub_comm] at h9
          have h10 : |(ofRat s q).toRat - q| < |(ofRat s q).toRat| + |q| := by
            rw [h1, ← hv]
            exact abs_sub_lt_iff.2 ⟨by linarith, by linarith⟩
          linarith
        have h9 : (ofRat s q).toRat = 0 := abs_eq_zero.1 h5
        rw [h9] at h3
        simp only [neg_zero] at h3
        exact hne (by rw [h3, h9])
    · exact roundEven_tie _ hx0.le m hmn hmx

end Double

/-! ## Overflow, and the arithmetic operators -/

namespace Double

theorem overflow_threshold :
    (2 : ℚ) ^ (1024 : ℤ) - (2 : ℚ) ^ (970 : ℤ) =
      (9007199254740992 - 1 / 2) * (2 : ℚ) ^ ((1023 : ℤ) - 52) := by
  have h1 : (2 : ℚ) ^ (1024 : ℤ) = 9007199254740992 * (2 : ℚ) ^ ((1023 : ℤ) - 52) := by
    rw [two_pow_53, ← zpow_add₀ two_ne_zero]
    norm_num
  have h2 : (2 : ℚ) ^ (970 : ℤ) = 1 / 2 * (2 : ℚ) ^ ((1023 : ℤ) - 52) := by
    rw [show (1 / 2 : ℚ) = (2 : ℚ) ^ (-1 : ℤ) by norm_num, ← zpow_add₀ two_ne_zero]
    norm_num
  rw [h1, h2]
  ring

theorem zpow_1023_le_threshold :
    (2 : ℚ) ^ (1023 : ℤ) ≤ (2 : ℚ) ^ (1024 : ℤ) - (2 : ℚ) ^ (970 : ℤ) := by
  have h1 : (2 : ℚ) ^ (1024 : ℤ) = 2 * (2 : ℚ) ^ (1023 : ℤ) := by
    rw [show (1024 : ℤ) = 1 + 1023 by norm_num, zpow_add₀ two_ne_zero, zpow_one]
  have h2 : (2 : ℚ) ^ (970 : ℤ) ≤ (2 : ℚ) ^ (1023 : ℤ) :=
    zpow_le_zpow_right₀ (by norm_num) (by norm_num)
  rw [h1]
  linarith

theorem threshold_lt_zpow_1024 :
    (2 : ℚ) ^ (1024 : ℤ) - (2 : ℚ) ^ (970 : ℤ) < (2 : ℚ) ^ (1024 : ℤ) := by
  have := zpow_pos two_pos (970 : ℤ)
  linarith

theorem roundEven_lt_of_lt (x : ℚ) (hx : 0 ≤ x) (k : ℕ) (hk : 1 ≤ k)
    (h : x < (k : ℚ) - 1 / 2) : roundEven x < k := by
  by_contra hc
  have h1 : k ≤ roundEven x := by omega
  have h2 : (k : ℚ) ≤ (roundEven x : ℚ) := by exact_mod_cast h1
  have hnear := roundEven_nearest x hx (k - 1)
  have h3 : ((k - 1 : ℕ) : ℚ) = (k : ℚ) - 1 := by
    rw [Nat.cast_sub hk]
    simp
  rw [h3, abs_of_nonneg (by linarith : (0 : ℚ) ≤ (roundEven x : ℚ) - x)] at hnear
  rcases le_abs.1 hnear with h4 | h4 <;> linarith

theorem le_roundEven_of_le (x : ℚ) (hx : 0 ≤ x) (k : ℕ) (hk : k % 2 = 0)
    (h : (k : ℚ) - 1 / 2 ≤ x) : k ≤ roundEven x := by
  by_contra hc
  have h1 : roundEven x + 1 ≤ k := by omega
  have h2 : (roundEven x : ℚ) + 1 ≤ (k : ℚ) := by exact_mod_cast h1
  have hxk : x < (k : ℚ) := by
    by_contra h3
    have := le_roundEven x k (not_lt.1 h3)
    omega
  have hnear := roundEven_nearest x hx k
  have htie := roundEven_tie x hx k (by omega)
  rw [abs_of_nonneg (by linarith : (0 : ℚ) ≤ (k : ℚ) - x)] at hnear htie
  rw [abs_of_nonpos (by linarith : (roundEven x : ℚ) - x ≤ 0)] at hnear htie
  have h4 : (roundEven x : ℚ) + 1 = (k : ℚ) := by linarith
  have h5 : roundEven x + 1 = k := by exact_mod_cast h4
  have := htie (by linarith)
  omega

/-- The result of `ofRat` is an infinity exactly from the largest finite
magnitude plus half a unit in its last place on. -/
theorem ofRat_isInf_iff (s : Bool) (q : ℚ) :
    (ofRat s q).isInf = true ↔ (2 : ℚ) ^ (1024 : ℤ) - (2 : ℚ) ^ (970 : ℤ) ≤ |q| := by
  have hTpos : (0 : ℚ) < (2 : ℚ) ^ (1024 : ℤ) - (2 : ℚ) ^ (970 : ℤ) :=
    lt_of_lt_of_le (zpow_pos two_pos _) zpow_1023_le_threshold
  by_cases hq : q = 0
  · subst hq
    rw [ofRat_zero, abs_zero]
    constructor
    · intro h
      cases h
    · intro h
      linarith
  have ha : 0 < |q| := abs_pos.2 hq
  have hx0 := (scaled_bounds |q| ha _ rfl).1
  have hu : (0 : ℚ) < (2 : ℚ) ^ ((1023 : ℤ) - 52) := zpow_pos two_pos _
  constructor
  · intro hinf
    by_contra hlt
    push_neg at hlt
    have hL : Int.log 2 |q| < 1024 :=
      log_lt_of_lt_zpow _ ha _ (lt_trans hlt threshold_lt_zpow_1024)
    have hE : max (Int.log 2 |q|) (-1022) ≤ 1023 := max_le (by omega) (by norm_num)
    have hnot : ¬ (max (Int.log 2 |q|) (-1022) = 1023 ∧
        roundEven (|q| / (2 : ℚ) ^ (max (Int.log 2 |q|) (-1022) - 52)) =
          9007199254740992) := by
      rintro ⟨h1, h2⟩
      rw [h1] at h2 hx0
      rw [overflow_threshold] at hlt
      have hx : |q| / (2 : ℚ) ^ ((1023 : ℤ) - 52) <
          ((9007199254740992 : ℕ) : ℚ) - 1 / 2 := by
        rw [div_lt_iff₀ hu]
        push_cast
        exact hlt
      have := roundEven_lt_of_lt _ hx0.le 9007199254740992 (by norm_num) hx
      omega
    have := (ofRat_finite s q hq _ _ rfl rfl hE hnot).1
    rw [isInf_of_isFinite _ this] at hinf
    cases hinf
  · intro hge
    by_contra hni
    have hfin : (ofRat s q).isInf = false := by
      cases h : (ofRat s q).isInf
      · rfl
      · exact absurd h hni
    obtain ⟨h1, h2⟩ := ofRat_not_isInf s q hq _ _ rfl rfl hfin
    have hn1 := (rounded_bounds |q| ha _ _ rfl rfl).1
    have hL : 1023 ≤ Int.log 2 |q| :=
      le_log_of_zpow_le _ ha _ (le_trans zpow_1023_le_threshold hge)
    have hE : max (Int.log 2 |q|) (-1022) = 1023 :=
      le_antisymm h1 (le_trans hL (le_max_left _ _))
    apply h2
    refine ⟨hE, ?_⟩
    rw [hE] at hx0 hn1 ⊢
    rw [overflow_threshold] at hge
    have hx : ((9007199254740992 : ℕ) : ℚ) - 1 / 2 ≤ |q| / (2 : ℚ) ^ ((1023 : ℤ) - 52) := by
      rw [le_div_iff₀ hu]
      push_cast
      exact hge
    have := le_roundEven_of_le _ hx0.le 9007199254740992 (by norm_num) hx
    omega

/-- The result of `ofRat` is the IEEE-754 rounding of the rational. -/
theorem ofRat_roundsTo (s : Bool) (q : ℚ) : RoundsTo s q (ofRat s q) := by
  refine ⟨ofRat_isNaN s q, ?_, ofRat_sign s q, ?_, ofRat_isInf_iff s q, ?_, ?_⟩
  · intro h
    rw [h, ofRat_zero]
  · intro c hc hz h
    rw [← h]
    exact ofRat_toRat s c hc hz
  · intro h c _
    exact ofRat_nearest s q h c
  · intro h c _ hne heq
    exact ofRat_tie s q h c hne heq

theorem isNaN_of_isFinite (c : Double) (h : c.isFinite = true) : c.isNaN = false := by
  simp only [isFinite, bne_iff_ne, ne_eq] at h
  simp [isNaN, h]

theorem isNaN_qNaN : qNaN.isNaN = true := by decide

/-- The sum of two finite data is the rounding of the sum of their values. -/
theorem add_finite (a b : Double) (ha : a.isFinite = true) (hb : b.isFinite = true) :
    RoundsTo (a.sign && b.sign) (a.toRat + b.toRat) (add a b) := by
  unfold add
  rw [isNaN_of_isFinite a ha, isNaN_of_isFinite b hb, isInf_of_isFinite a ha,
    isInf_of_isFinite b hb]
  exact ofRat_roundsTo _ _

/-- The difference of two finite data is the rounding of the difference of
their values. -/
theorem sub_finite (a b : Double) (ha : a.isFinite = true) (hb : b.isFinite = true) :
    RoundsTo (a.sign && !b.sign) (a.toRat - b.toRat) (sub a b) := by
  have h := add_finite a (neg b) ha (by rw [isFinite_neg]; exact hb)
  rw [toRat_neg, neg_sign, ← sub_eq_add_neg] at h
  exact h

/-- The product of two finite data is the rounding of the product of their
values. -/
theorem mul_finite (a b : Double) (ha : a.isFinite = true) (hb : b.isFinite = true) :
    RoundsTo (a.sign != b.sign) (a.toRat * b.toRat) (mul a b) := by
  unfold mul
  rw [isNaN_of_isFinite a ha, isNaN_of_isFinite b hb, isInf_of_isFinite a ha,
    isInf_of_isFinite b hb]
  exact ofRat_roundsTo _ _

/-- The quotient of two finite data, the divisor not a zero, is the rounding
of the quotient of their values. -/
theorem div_finite (a b : Double) (ha : a.isFinite = true) (hb : b.isFinite = true)
    (hz : b.isZero = false) :
    RoundsTo (a.sign != b.sign) (a.toRat / b.toRat) (div a b) := by
  unfold div
  rw [isNaN_of_isFinite a ha, isNaN_of_isFinite b hb, isInf_of_isFinite a ha,
    isInf_of_isFinite b hb, hz]
  exact ofRat_roundsTo _ _

/-- An arithmetic operation with a NaN operand gives a NaN. -/
theorem arith_nan (a b : Double) (h : a.isNaN = true ∨ b.isNaN = true) :
    (add a b).isNaN = true ∧ (sub a b).isNaN = true ∧ (mul a b).isNaN = true ∧
      (div a b).isNaN = true := by
  have hs : a.isNaN = true ∨ (neg b).isNaN = true := by rw [isNaN_neg]; exact h
  refine ⟨?_, ?_, ?_, ?_⟩
  · unfold add
    rcases h with h | h <;> simp [h, isNaN_qNaN]
  · unfold sub add
    rcases hs with h | h <;> simp [h, isNaN_qNaN]
  · unfold mul
    rcases h with h | h <;> simp [h, isNaN_qNaN]
  · unfold div
    rcases h with h | h <;> simp [h, isNaN_qNaN]

end Double

/-! ## Infinite operands, and the values of some data -/

namespace Double

theorem isNaN_of_isInf (c : Double) (h : c.isInf = true) : c.isNaN = false := by
  simp only [isInf, Bool.and_eq_true, beq_iff_eq] at h
  simp [isNaN, h.2]

theorem isInf_eq_infinity (c : Double) (h : c.isInf = true) : c = infinity c.sign := by
  obtain ⟨sg, ⟨e, he⟩, ⟨f, hf⟩⟩ := c
  simp only [isInf, Bool.and_eq_true, beq_iff_eq] at h
  obtain ⟨h1, h2⟩ := h
  change e = 2047 at h1
  change f = 0 at h2
  subst h1 h2
  rfl

/-- The value that the value function gives an infinity. -/
theorem toRat_of_isInf (c : Double) (h : c.isInf = true) :
    c.toRat = if c.sign then -(2 : ℚ) ^ (1024 : ℤ) else (2 : ℚ) ^ (1024 : ℤ) := by
  rw [isInf_eq_infinity c h, toRat_infinity]
  rfl

/-- Sums and differences with an infinite operand. -/
theorem add_sub_infinite (a b : Double) :
    (a.isInf = true → b.isFinite = true → add a b = a ∧ sub a b = a) ∧
    (a.isFinite = true → b.isInf = true → add a b = b ∧ sub a b = neg b) ∧
    (a.isInf = true → b.isInf = true → a.sign = b.sign →
      add a b = a ∧ (sub a b).isNaN = true) ∧
    (a.isInf = true → b.isInf = true → a.sign ≠ b.sign →
      (add a b).isNaN = true ∧ sub a b = a) := by
  refine ⟨?_, ?_, ?_, ?_⟩
  · intro ha hb
    have h1 := isNaN_of_isInf a ha
    have h2 := isNaN_of_isFinite b hb
    have h3 := isInf_of_isFinite b hb
    constructor
    · simp [add, h1, h2, ha, h3]
    · simp [sub, add, h1, isNaN_neg, isInf_neg, h2, ha, h3]
  · intro ha hb
    have h1 := isNaN_of_isFinite a ha
    have h2 := isNaN_of_isInf b hb
    have h3 := isInf_of_isFinite a ha
    constructor
    · simp [add, h1, h2, hb, h3]
    · simp [sub, add, h1, isNaN_neg, isInf_neg, h2, hb, h3]
  · intro ha hb hs
    have h1 := isNaN_of_isInf a ha
    have h2 := isNaN_of_isInf b hb
    constructor
    · simp [add, h1, h2, ha, hb, hs]
    · simp [sub, add, h1, isNaN_neg, isInf_neg, h2, ha, hb, hs, neg_sign, isNaN_qNaN]
  · intro ha hb hs
    have h1 := isNaN_of_isInf a ha
    have h2 := isNaN_of_isInf b hb
    constructor
    · simp [add, h1, h2, ha, hb, hs, isNaN_qNaN]
    · have : a.sign = !b.sign := by
        cases ha' : a.sign <;> cases hb' : b.sign <;> simp_all
      simp [sub, add, h1, isNaN_neg, isInf_neg, h2, ha, hb, neg_sign, this]

/-- Products with an infinite operand. -/
theorem mul_infinite (a b : Double) (h : a.isInf = true ∨ b.isInf = true)
    (ha : a.isNaN = false) (hb : b.isNaN = false) :
    ((a.isZero = true ∨ b.isZero = true) → (mul a b).isNaN = true) ∧
    (a.isZero = false → b.isZero = false → mul a b = infinity (a.sign != b.sign)) := by
  have h1 : (a.isInf || b.isInf) = true := by
    rcases h with h | h <;> simp [h]
  constructor
  · intro hz
    have h2 : (a.isZero || b.isZero) = true := by
      rcases hz with h | h <;> simp [h]
    simp [mul, ha, hb, h1, h2, isNaN_qNaN]
  · intro hza hzb
    simp [mul, ha, hb, h1, hza, hzb]

/-- Quotients with an infinite operand. -/
theorem div_infinite (a b : Double) :
    (a.isInf = true → b.isFinite = true → div a b = infinity (a.sign != b.sign)) ∧
    (a.isFinite = true → b.isInf = true → div a b = ⟨a.sign != b.sign, 0, 0⟩) ∧
    (a.isInf = true → b.isInf = true → (div a b).isNaN = true) := by
  refine ⟨?_, ?_, ?_⟩
  · intro ha hb
    simp [div, isNaN_of_isInf a ha, isNaN_of_isFinite b hb, ha, isInf_of_isFinite b hb]
  · intro ha hb
    simp [div, isNaN_of_isFinite a ha, isNaN_of_isInf b hb, hb, isInf_of_isFinite a ha]
  · intro ha hb
    simp [div, isNaN_of_isInf a ha, isNaN_of_isInf b hb, ha, hb, isNaN_qNaN]

theorem toRat_one : one.toRat = 1 := by
  have h : ((1023 : Fin 2048).val : ℤ) - 1075 = -52 := by decide
  have h0 : ¬ (1023 : Fin 2048).val = 0 := by decide
  simp only [toRat, one, Bool.false_eq_true, if_false]
  rw [if_neg h0, h]
  norm_num

theorem toRat_two : two.toRat = 2 := by
  have h : ((1024 : Fin 2048).val : ℤ) - 1075 = -51 := by decide
  have h0 : ¬ (1024 : Fin 2048).val = 0 := by decide
  simp only [toRat, two, Bool.false_eq_true, if_false]
  rw [if_neg h0, h]
  norm_num

/-- The datum `3.0`. -/
theorem toRat_three : (Double.mk false 1024 2251799813685248).toRat = 3 := by
  have h : ((1024 : Fin 2048).val : ℤ) - 1075 = -51 := by decide
  have h0 : ¬ (1024 : Fin 2048).val = 0 := by decide
  have h1 : (2251799813685248 : Fin 4503599627370496).val = 2251799813685248 := by decide
  simp only [toRat, Bool.false_eq_true, if_false]
  rw [if_neg h0, h, h1]
  norm_num

/-- The datum `4.0`. -/
theorem toRat_four : (Double.mk false 1025 0).toRat = 4 := by
  have h : ((1025 : Fin 2048).val : ℤ) - 1075 = -50 := by decide
  have h0 : ¬ (1025 : Fin 2048).val = 0 := by decide
  simp only [toRat, Bool.false_eq_true, if_false]
  rw [if_neg h0, h]
  norm_num

/-- The datum `0.5`. -/
theorem toRat_half : (Double.mk false 1022 0).toRat = 1 / 2 := by
  have h : ((1022 : Fin 2048).val : ℤ) - 1075 = -53 := by decide
  have h0 : ¬ (1022 : Fin 2048).val = 0 := by decide
  simp only [toRat, Bool.false_eq_true, if_false]
  rw [if_neg h0, h]
  norm_num

end Double

/-! ## Environments: lookup, assignment, definition -/

/-- Claim C2. Environment get walks outward from the receiver. Whenever the
chain splits as a prefix of maps that do not define the name, then a map that
defines it, then the rest, get returns the value that this first defining map
stores under the name. Get fails if and only if no map of the chain defines
the name, and every failure is a RuntimeException on the looked-up token. -/
theorem Environment.get_returns_innermost_binding (env : Environment) (name : Token) :
    (∀ (pre : List ValueMap) (m : ValueMap) (post : List ValueMap),
        env.chain = pre ++ m :: post →
        (∀ m2 ∈ pre, ValueMap.count m2 name.lexeme = 0) →
        ValueMap.count m name.lexeme ≠ 0 →
        ∃ v, m.lookup name.lexeme = some v ∧ env.get name = .ok v) ∧
    ((∃ e, env.get name = .error e) ↔
        ∀ m ∈ env.chain, ValueMap.count m name.lexeme = 0) ∧
    (∀ e, env.get name = .error e → ∃ message, e = .RuntimeException name message) := by
  refine ⟨?_, Environment.get_error_iff name env, ?_⟩
  · intro pre m post hc hpre hm
    obtain ⟨v, hv⟩ := (ValueMap.count_ne_zero_iff _ _).1 hm
    refine ⟨v, hv, ?_⟩
    rw [Environment.get_of_split name env pre m post hc hpre hm]
    exact ValueMap.atKey_of_lookup _ _ _ hv
  · intro e he
    exact ⟨_, Environment.get_error_kind name env e he⟩

/-- Witness for claim C2: in the sample chain the block scope does not define
`x`, the scope around it does, and get returns that scope's value although
the global scope binds `x` too. -/
theorem Environment.get_returns_innermost_binding_witness :
    ∃ v, List.lookup sampleName.lexeme [("x", Value.number Double.one)] = some v ∧
      sampleChain.get sampleName = .ok v :=
  (Environment.get_returns_innermost_binding sampleChain sampleName).1
    [[]] [("x", .number Double.one)] [[("x", .boolean true)]] rfl (by decide) (by decide)

/-- Claim C3. Environment assign writes the value into the first map of the
chain that defines the name: the outcome is success, the maps before and
after that map are the same as before, and in that map the name is now bound
to the value while every other key reads as before. When no map of the chain
defines the name, assign fails with a RuntimeException on the token and the
chain afterwards is the chain before. -/
theorem Environment.assign_updates_innermost_binding (env : Environment) (name : Token)
    (value : Value) :
    (∀ (pre : List ValueMap) (m : ValueMap) (post : List ValueMap),
        env.chain = pre ++ m :: post →
        (∀ m2 ∈ pre, ValueMap.count m2 name.lexeme = 0) →
        ValueMap.count m name.lexeme ≠ 0 →
        (env.assign name value).1 = .ok () ∧
        (env.assign name value).2.chain = pre ++ ValueMap.put m name.lexeme value :: post ∧
        (ValueMap.put m name.lexeme value).lookup name.lexeme = some value ∧
        ∀ key, key ≠ name.lexeme →
          (ValueMap.put m name.lexeme value).lookup key = m.lookup key) ∧
    ((∀ m ∈ env.chain, ValueMap.count m name.lexeme = 0) →
        (∃ message, (env.assign name value).1 = .error (.RuntimeException name message)) ∧
        (env.assign name value).2 = env) := by
  constructor
  · intro pre m post hc hpre hm
    obtain ⟨h1, h2⟩ := Environment.assign_of_split name value env pre m post hc hpre hm
    exact ⟨h1, h2, ValueMap.lookup_put_self _ _ _,
      fun key hk => ValueMap.lookup_put_other _ _ _ key hk⟩
  · intro h
    rw [Environment.assign_undefined name value env h]
    exact ⟨⟨_, rfl⟩, rfl⟩

/-- Witness for claim C3: assigning `x` in the sample chain succeeds and
rewrites the middle scope only; assigning there to a name that no scope
defines fails and leaves the chain as it was. -/
theorem Environment.assign_updates_innermost_binding_witness :
    ((sampleChain.assign sampleName (.string "new")).1 = .ok () ∧
      (sampleChain.assign sampleName (.string "new")).2.chain =
        [[]] ++ ValueMap.put [("x", .number Double.one)] sampleName.lexeme (.string "new") ::
          [[("x", .boolean true)]]) ∧
    ((∃ message, (sampleChain.assign ⟨.IDENTIFIER, "y", .none, 1⟩ .none).1 =
        .error (.RuntimeException ⟨.IDENTIFIER, "y", .none, 1⟩ message)) ∧
      (sampleChain.assign ⟨.IDENTIFIER, "y", .none, 1⟩ .none).2 = sampleChain) :=
  ⟨((Environment.assign_updates_innermost_binding sampleChain sampleName
      (.string "new")).1 [[]] [("x", .number Double.one)] [[("x", .boolean true)]] rfl
      (by decide) (by decide)).elim fun h1 h2 => ⟨h1, h2.1⟩,
   (Environment.assign_updates_innermost_binding sampleChain ⟨.IDENTIFIER, "y", .none, 1⟩
      .none).2 (by decide)⟩

/-- Claim C4. Environment define writes into the receiver's own map: get of
the name on the receiver afterwards returns the defined value, whatever the
receiver or its enclosing environments bound before; the enclosing pointer
and the maps of all enclosing environments are unchanged, and so is every
other key of the receiver's own map. -/
theorem Environment.define_writes_current_scope (env : Environment) (name : Token)
    (value : Value) :
    (env.define name.lexeme value).get name = .ok value ∧
    (env.define name.lexeme value).getEnclosing = env.getEnclosing ∧
    (env.define name.lexeme value).chain.tail = env.chain.tail ∧
    (env.define name.lexeme value).getValues = ValueMap.put env.getValues name.lexeme value ∧
    ∀ key, key ≠ name.lexeme →
      (env.define name.lexeme value).getValues.lookup key = env.getValues.lookup key := by
  refine ⟨Environment.get_define env name value, ?_, ?_, ?_, ?_⟩
  · cases env <;> rfl
  · cases env <;> rfl
  · cases env <;> rfl
  · intro key hk
    cases env <;> exact ValueMap.lookup_put_other _ _ _ key hk

/-! ## Variable lookup by the evaluator -/

/-- Claim C1, the code at the failing input. In an evaluator whose current
environment is an empty block scope inside a scope that binds `x`, the chain
walk of Environment get finds `x`, yet lookUpVariable reports `x` as
undefined; and when the globals also bind `x`, lookUpVariable returns the
global value instead of the innermost one. -/
theorem Interpreter.lookUpVariable_skips_enclosing_scopes :
    sampleInterpreter.environment.get sampleName = .ok (.number Double.one) ∧
    sampleInterpreter.lookUpVariable sampleName =
      .error (.RuntimeException sampleName "Tanımlanmamış değişken \x27x\x27.") ∧
    sampleShadowingInterpreter.environment.get sampleName = .ok (.number Double.one) ∧
    sampleShadowingInterpreter.lookUpVariable sampleName = .ok (.boolean true) := by
  decide

/-! ## Truthiness and equality -/

/-- Claim C5, counterexample. The number `0.0` and the empty string are
neither none nor the boolean false, and isTruthy returns false for both. -/
theorem Interpreter.isTruthy_zero_and_empty_string_are_falsy :
    Interpreter.isTruthy (.number Double.zero) = false ∧
    Interpreter.isTruthy (.string "") = false ∧
    Value.number Double.zero ≠ Value.none ∧
    Value.number Double.zero ≠ Value.boolean false ∧
    Value.string "" ≠ Value.none ∧
    Value.string "" ≠ Value.boolean false := by
  decide

/-- Claim C5, amended. The method isTruthy returns false exactly for none,
the boolean false, a number that is zero (`0.0` or `-0.0`) and the empty
string; it returns true for every other value: the boolean true, every
non-zero number (NaN included), every non-empty string and every heap-object
handle. -/
theorem Interpreter.isTruthy_false_iff (v : Value) :
    (Interpreter.isTruthy v = false ↔
      (v = .none ∨ v = .boolean false ∨ (∃ d, v = .number d ∧ d.isZero = true) ∨
        v = .string "")) ∧
    (∀ p : ObjPtr, Interpreter.isTruthy (.object p) = true) ∧
    Interpreter.isTruthy (.number Double.qNaN) = true := by
  refine ⟨?_, fun _ => rfl, by decide⟩
  cases v with
  | none => simp [Interpreter.isTruthy]
  | boolean b => simp [Interpreter.isTruthy]
  | number d => simp [Interpreter.isTruthy, Double.ne_zero_eq_false_iff]
  | string s => simp [Interpreter.isTruthy, String.isEmpty_iff]
  | object p => simp [Interpreter.isTruthy]

/-- Claim C6. The method isEqual is false whenever its arguments hold
different alternatives of the variant. On the same primitive alternative it
is the equality of the payloads: none equals none, booleans and strings are
equal when they are the same, and numbers are compared with the C++ operator
`==` on doubles (two numbers are equal when neither is NaN and they are the
same datum or both zero). On two heap-object handles it is true exactly when
the handles are the same address; the objects pointed at are not consulted. -/
theorem Interpreter.isEqual_by_variant :
    (∀ a b : Value, a.index ≠ b.index → Interpreter.isEqual a b = false) ∧
    Interpreter.isEqual .none .none = true ∧
    (∀ x y : Bool, Interpreter.isEqual (.boolean x) (.boolean y) = true ↔ x = y) ∧
    (∀ x y : Double, Interpreter.isEqual (.number x) (.number y) = Double.eq x y) ∧
    (∀ x y : Double, Interpreter.isEqual (.number x) (.number y) = true ↔
      x.isNaN = false ∧ y.isNaN = false ∧ (x = y ∨ (x.isZero = true ∧ y.isZero = true))) ∧
    (∀ x y : String, Interpreter.isEqual (.string x) (.string y) = true ↔ x = y) ∧
    (∀ p q : ObjPtr, Interpreter.isEqual (.object p) (.object q) = true ↔ p = q) := by
  refine ⟨?_, ?_, ?_, ?_, ?_, ?_, ?_⟩
  · intro a b h
    simp [Interpreter.isEqual, h]
  · simp [Interpreter.isEqual]
  · intro x y; simp [Interpreter.isEqual, Value.index]
  · intro x y; simp [Interpreter.isEqual, Value.index]
  · intro x y
    rw [← Double.eq_iff]
    simp [Interpreter.isEqual, Value.index]
  · intro x y; simp [Interpreter.isEqual, Value.index]
  · intro x y; simp [Interpreter.isEqual, Value.index]

/-- Witness for claim C6: a number and a string are different alternatives,
so they are not equal. -/
theorem Interpreter.isEqual_by_variant_witness :
    Interpreter.isEqual (.number Double.one) (.string "1") = false :=
  Interpreter.isEqual_by_variant.1 (.number Double.one) (.string "1") (by decide)

/-! ## Binary and unary operators -/

/-- Claim C7. Let the two operands of a binary node evaluate to the values
`l` and `r`, and let the operator be one of `-`, `*`, `/`, `<`, `<=`, `>`,
`>=`. If `l` or `r` is not a number, visitBinaryExpr throws the
RuntimeException "operands must be numbers" on the operator token (so
comparing two strings with `<` or `>` is an error). If both are numbers `a`
and `b` it returns, without error, the difference, product, quotient (when
the right operand does not compare equal to zero) or the boolean result of
the comparison, and these are the results of IEEE-754: with a NaN operand the
arithmetic result is a NaN and every comparison is false; on finite operands
the difference, the product and, for a divisor other than a zero, the
quotient are the exact results on the values, rounded to nearest with ties to
even (`Double.RoundsTo`); on operands that are not NaN the comparisons are
the order of the values, where the value of an infinity is `2 ^ 1024` with
its sign, beyond the value of every finite datum; and with an infinite
operand the arithmetic results are the infinity, zero or NaN that IEEE-754
prescribes. -/
theorem Interpreter.visitBinaryExpr_requires_numbers {σ : Type}
    (evaluate : Expr → Eval σ Value) (left : Expr) (op : Token) (right : Expr)
    (s s1 s2 : σ) (l r : Value)
    (hl : evaluate left s = (.ok l, s1)) (hr : evaluate right s1 = (.ok r, s2))
    (hop : op.type ∈ [TokenType.MINUS, .STAR, .SLASH, .LESS, .LESS_EQUAL, .GREATER,
      .GREATER_EQUAL]) :
    ((l.holdsDouble = false ∨ r.holdsDouble = false) →
      Interpreter.visitBinaryExpr evaluate left op right s =
        (.error (.RuntimeException op "Operanlar sayı olmalıdır."), s2)) ∧
    (∀ x y : String, l = .string x → r = .string y →
      Interpreter.visitBinaryExpr evaluate left op right s =
        (.error (.RuntimeException op "Operanlar sayı olmalıdır."), s2)) ∧
    (∀ a b : Double, l = .number a → r = .number b →
      ((op.type = .MINUS → Interpreter.visitBinaryExpr evaluate left op right s =
        (.ok (.number (Double.sub a b)), s2)) ∧
      (op.type = .STAR → Interpreter.visitBinaryExpr evaluate left op right s =
        (.ok (.number (Double.mul a b)), s2)) ∧
      (op.type = .SLASH → Double.eq b Double.zero = false →
        Interpreter.visitBinaryExpr evaluate left op right s =
          (.ok (.number (Double.div a b)), s2)) ∧
      (op.type = .LESS → Interpreter.visitBinaryExpr evaluate left op right s =
        (.ok (.boolean (Double.lt a b)), s2)) ∧
      (op.type = .LESS_EQUAL → Interpreter.visitBinaryExpr evaluate left op right s =
        (.ok (.boolean (Double.le a b)), s2)) ∧
      (op.type = .GREATER → Interpreter.visitBinaryExpr evaluate left op right s =
        (.ok (.boolean (Double.gt a b)), s2)) ∧
      (op.type = .GREATER_EQUAL → Interpreter.visitBinaryExpr evaluate left op right s =
        (.ok (.boolean (Double.ge a b)), s2))) ∧
      ((a.isNaN = true ∨ b.isNaN = true) →
        (Double.sub a b).isNaN = true ∧ (Double.mul a b).isNaN = true ∧
        (Double.div a b).isNaN = true ∧ Double.lt a b = false ∧ Double.le a b = false ∧
        Double.gt a b = false ∧ Double.ge a b = false) ∧
      (a.isFinite = true → b.isFinite = true →
        Double.RoundsTo (a.sign && !b.sign) (a.toRat - b.toRat) (Double.sub a b) ∧
        Double.RoundsTo (a.sign != b.sign) (a.toRat * b.toRat) (Double.mul a b) ∧
        (b.isZero = false →
          Double.RoundsTo (a.sign != b.sign) (a.toRat / b.toRat) (Double.div a b))) ∧
      (a.isNaN = false → b.isNaN = false →
        (Double.lt a b = true ↔ a.toRat < b.toRat) ∧
        (Double.le a b = true ↔ a.toRat ≤ b.toRat) ∧
        (Double.gt a b = true ↔ b.toRat < a.toRat) ∧
        (Double.ge a b = true ↔ b.toRat ≤ a.toRat)) ∧
      (∀ c : Double,
        (c.isInf = true →
          c.toRat = if c.sign then -(2 : ℚ) ^ (1024 : ℤ) else (2 : ℚ) ^ (1024 : ℤ)) ∧
        (c.isFinite = true → |c.toRat| < (2 : ℚ) ^ (1024 : ℤ))) ∧
      (a.isInf = true → b.isFinite = true →
        Double.sub a b = a ∧ Double.div a b = Double.infinity (a.sign != b.sign)) ∧
      (a.isFinite = true → b.isInf = true →
        Double.sub a b = Double.neg b ∧ Double.div a b = ⟨a.sign != b.sign, 0, 0⟩) ∧
      (a.isInf = true → b.isInf = true →
        (Double.div a b).isNaN = true ∧
        (a.sign = b.sign → (Double.sub a b).isNaN = true) ∧
        (a.sign ≠ b.sign → Double.sub a b = a)) ∧
      ((a.isInf = true ∨ b.isInf = true) → a.isNaN = false → b.isNaN = false →
        ((a.isZero = true ∨ b.isZero = true) → (Double.mul a b).isNaN = true) ∧
        (a.isZero = false → b.isZero = false →
          Double.mul a b = Double.infinity (a.sign != b.sign)))) := by
  have herr : (l.holdsDouble = false ∨ r.holdsDouble = false) →
      Interpreter.visitBinaryExpr evaluate left op right s =
        (.error (.RuntimeException op "Operanlar sayı olmalıdır."), s2) := by
    intro hnum
    have hchk : Interpreter.checkNumberOperands op l r =
        .error (.RuntimeException op "Operanlar sayı olmalıdır.") := by
      rcases hnum with h | h <;>
        simp [Interpreter.checkNumberOperands, Interpreter.runtimeError, h]
    simp only [List.mem_cons, List.mem_singleton, List.mem_nil_iff, or_false] at hop
    rcases hop with h | h | h | h | h | h | h <;>
      simp [Interpreter.visitBinaryExpr, hl, hr, h, hchk, bind, Except.bind]
  refine ⟨herr, ?_, ?_⟩
  · intro x y hx _
    exact herr (Or.inl (by rw [hx]; rfl))
  · intro a b ha hb
    subst ha hb
    have hchk : Interpreter.checkNumberOperands op (.number a) (.number b) = .ok () := by
      simp [Interpreter.checkNumberOperands, Value.holdsDouble]
    refine ⟨⟨?_, ?_, ?_, ?_, ?_, ?_, ?_⟩, ?_, ?_, ?_, ?_, ?_, ?_, ?_, ?_⟩
    · intro h
      unfold Interpreter.visitBinaryExpr
      simp only [hl, hr, h]
      rw [hchk]
      rfl
    · intro h
      unfold Interpreter.visitBinaryExpr
      simp only [hl, hr, h]
      rw [hchk]
      rfl
    · intro h
      simp [Interpreter.visitBinaryExpr, hl, hr, h, hchk, bind, Except.bind,
        Value.getDouble, pure, Except.pure]
    · intro h
      simp [Interpreter.visitBinaryExpr, hl, hr, h, hchk, bind, Except.bind,
        Value.getDouble, pure, Except.pure]
    · intro h
      simp [Interpreter.visitBinaryExpr, hl, hr, h, hchk, bind, Except.bind,
        Value.getDouble, pure, Except.pure]
    · intro h
      simp [Interpreter.visitBinaryExpr, hl, hr, h, hchk, bind, Except.bind,
        Value.getDouble, pure, Except.pure]
    · intro h
      simp [Interpreter.visitBinaryExpr, hl, hr, h, hchk, bind, Except.bind,
        Value.getDouble, pure, Except.pure]
    · intro h
      exact ⟨(Double.arith_nan a b h).2.1, (Double.arith_nan a b h).2.2.1,
        (Double.arith_nan a b h).2.2.2, Double.compare_nan a b h⟩
    · intro hfa hfb
      exact ⟨Double.sub_finite a b hfa hfb, Double.mul_finite a b hfa hfb,
        Double.div_finite a b hfa hfb⟩
    · intro hna hnb
      exact ⟨Double.lt_iff a b hna hnb, Double.le_iff a b hna hnb, Double.gt_iff a b hna hnb,
        Double.ge_iff a b hna hnb⟩
    · intro c
      exact ⟨Double.toRat_of_isInf c, Double.abs_toRat_lt_of_isFinite c⟩
    · intro hia hfb
      exact ⟨((Double.add_sub_infinite a b).1 hia hfb).2, (Double.div_infinite a b).1 hia hfb⟩
    · intro hfa hib
      exact ⟨((Double.add_sub_infinite a b).2.1 hfa hib).2,
        (Double.div_infinite a b).2.1 hfa hib⟩
    · intro hia hib
      exact ⟨(Double.div_infinite a b).2.2 hia hib,
        fun hs => ((Double.add_sub_infinite a b).2.2.1 hia hib hs).2,
        fun hs => ((Double.add_sub_infinite a b).2.2.2 hia hib hs).2⟩
    · intro hi hna hnb
      exact Double.mul_infinite a b hi hna hnb

/-- Witness for claim C7: `"a" < "b"` is a runtime error, `1.0 < 2.0` is
`true`, `3.0 - 1.0` is `2.0`, `2.0 * 2.0` is `4.0` and `1.0 / 2.0` is `0.5`. -/
theorem Interpreter.visitBinaryExpr_requires_numbers_witness :
    Interpreter.visitBinaryExpr evaluateLiteral (.LiteralExpr (.string "a"))
        ⟨.LESS, "<", .none, 1⟩ (.LiteralExpr (.string "b")) () =
      (.error (.RuntimeException ⟨.LESS, "<", .none, 1⟩ "Operanlar sayı olmalıdır."), ()) ∧
    Interpreter.visitBinaryExpr evaluateLiteral (.LiteralExpr (.number Double.one))
        ⟨.LESS, "<", .none, 1⟩ (.LiteralExpr (.number Double.two)) () =
      (.ok (.boolean true), ()) ∧
    Interpreter.visitBinaryExpr evaluateLiteral
        (.LiteralExpr (.number ⟨false, 1024, 2251799813685248⟩))
        ⟨.MINUS, "-", .none, 1⟩ (.LiteralExpr (.number Double.one)) () =
      (.ok (.number Double.two), ()) ∧
    Interpreter.visitBinaryExpr evaluateLiteral (.LiteralExpr (.number Double.two))
        ⟨.STAR, "*", .none, 1⟩ (.LiteralExpr (.number Double.two)) () =
      (.ok (.number ⟨false, 1025, 0⟩), ()) ∧
    Interpreter.visitBinaryExpr evaluateLiteral (.LiteralExpr (.number Double.one))
        ⟨.SLASH, "/", .none, 1⟩ (.LiteralExpr (.number Double.two)) () =
      (.ok (.number ⟨false, 1022, 0⟩), ()) := by
  refine ⟨?_, ?_, ?_, ?_, ?_⟩
  · exact (Interpreter.visitBinaryExpr_requires_numbers evaluateLiteral
      (.LiteralExpr (.string "a")) ⟨.LESS, "<", .none, 1⟩ (.LiteralExpr (.string "b")) () ()
      () (.string "a") (.string "b") rfl rfl (by decide)).2.1 "a" "b" rfl rfl
  · have h := (Interpreter.visitBinaryExpr_requires_numbers evaluateLiteral
      (.LiteralExpr (.number Double.one)) ⟨.LESS, "<", .none, 1⟩
      (.LiteralExpr (.number Double.two)) () () () (.number Double.one)
      (.number Double.two) rfl rfl (by decide)).2.2 Double.one Double.two rfl rfl
    rw [h.1.2.2.2.1 rfl,
      (h.2.2.2.1 (by decide) (by decide)).1.2
        (by rw [Double.toRat_one, Double.toRat_two]; norm_num)]
  · have h := (Interpreter.visitBinaryExpr_requires_numbers evaluateLiteral
      (.LiteralExpr (.number ⟨false, 1024, 2251799813685248⟩)) ⟨.MINUS, "-", .none, 1⟩
      (.LiteralExpr (.number Double.one)) () () () (.number ⟨false, 1024, 2251799813685248⟩)
      (.number Double.one) rfl rfl (by decide)).2.2 ⟨false, 1024, 2251799813685248⟩
      Double.one rfl rfl
    rw [h.1.1 rfl,
      (h.2.2.1 (by decide) (by decide)).1.2.2.2.1 Double.two (by decide) (by decide)
        (by rw [Double.toRat_one, Double.toRat_two, Double.toRat_three]; norm_num)]
  · have h := (Interpreter.visitBinaryExpr_requires_numbers evaluateLiteral
      (.LiteralExpr (.number Double.two)) ⟨.STAR, "*", .none, 1⟩
      (.LiteralExpr (.number Double.two)) () () () (.number Double.two)
      (.number Double.two) rfl rfl (by decide)).2.2 Double.two Double.two rfl rfl
    rw [h.1.2.1 rfl,
      (h.2.2.1 (by decide) (by decide)).2.1.2.2.2.1 ⟨false, 1025, 0⟩ (by decide) (by decide)
        (by rw [Double.toRat_two, Double.toRat_four]; norm_num)]
  · have h := (Interpreter.visitBinaryExpr_requires_numbers evaluateLiteral
      (.LiteralExpr (.number Double.one)) ⟨.SLASH, "/", .none, 1⟩
      (.LiteralExpr (.number Double.two)) () () () (.number Double.one)
      (.number Double.two) rfl rfl (by decide)).2.2 Double.one Double.two rfl rfl
    rw [h.1.2.2.1 rfl (by decide),
      ((h.2.2.1 (by decide) (by decide)).2.2 (by decide)).2.2.2.1 ⟨false, 1022, 0⟩
        (by decide) (by decide)
        (by rw [Double.toRat_one, Double.toRat_two, Double.toRat_half])]

/-- Claim C8. Let the two operands of a binary node with operator `+`
evaluate to the values `l` and `r`. If both are numbers visitBinaryExpr
returns their sum, which is the sum of IEEE-754: a NaN with a NaN operand; on
finite operands the exact sum of the values, rounded to nearest with ties to
even (`Double.RoundsTo`); with one infinite operand that infinity, with two
infinities of the same sign that infinity and of opposite signs a NaN. If
both are strings it returns the left string followed by the right one; for
every other pair of alternatives it throws the RuntimeException "operands
must be numbers or strings" on the operator token, in particular for a number
with a string in either order. -/
theorem Interpreter.visitBinaryExpr_plus {σ : Type}
    (evaluate : Expr → Eval σ Value) (left : Expr) (op : Token) (right : Expr)
    (s s1 s2 : σ) (l r : Value)
    (hl : evaluate left s = (.ok l, s1)) (hr : evaluate right s1 = (.ok r, s2))
    (hop : op.type = .PLUS) :
    (∀ a b : Double, l = .number a → r = .number b →
      Interpreter.visitBinaryExpr evaluate left op right s =
        (.ok (.number (Double.add a b)), s2) ∧
      ((a.isNaN = true ∨ b.isNaN = true) → (Double.add a b).isNaN = true) ∧
      (a.isFinite = true → b.isFinite = true →
        Double.RoundsTo (a.sign && b.sign) (a.toRat + b.toRat) (Double.add a b)) ∧
      (a.isInf = true → b.isFinite = true → Double.add a b = a) ∧
      (a.isFinite = true → b.isInf = true → Double.add a b = b) ∧
      (a.isInf = true → b.isInf = true →
        (a.sign = b.sign → Double.add a b = a) ∧
        (a.sign ≠ b.sign → (Double.add a b).isNaN = true))) ∧
    (∀ x y : String, l = .string x → r = .string y →
      Interpreter.visitBinaryExpr evaluate left op right s = (.ok (.string (x ++ y)), s2)) ∧
    (¬ (l.holdsDouble = true ∧ r.holdsDouble = true) →
      ¬ (l.holdsString = true ∧ r.holdsString = true) →
      Interpreter.visitBinaryExpr evaluate left op right s =
        (.error (.RuntimeException op "Operanlar sayılar veya stringler olmalıdır."), s2)) ∧
    (∀ (a : Double) (x : String),
      (l = .number a → r = .string x →
        Interpreter.visitBinaryExpr evaluate left op right s =
          (.error (.RuntimeException op "Operanlar sayılar veya stringler olmalıdır."),
            s2)) ∧
      (l = .string x → r = .number a →
        Interpreter.visitBinaryExpr evaluate left op right s =
          (.error (.RuntimeException op "Operanlar sayılar veya stringler olmalıdır."),
            s2))) := by
  have herr : ¬ (l.holdsDouble = true ∧ r.holdsDouble = true) →
      ¬ (l.holdsString = true ∧ r.holdsString = true) →
      Interpreter.visitBinaryExpr evaluate left op right s =
        (.error (.RuntimeException op "Operanlar sayılar veya stringler olmalıdır."),
          s2) := by
    intro h1 h2
    have h1b : (l.holdsDouble && r.holdsDouble) = false := by
      simpa [Bool.and_eq_true] using h1
    have h2b : (l.holdsString && r.holdsString) = false := by
      simpa [Bool.and_eq_true] using h2
    simp [Interpreter.visitBinaryExpr, hl, hr, hop, h1b, h2b, Interpreter.runtimeError,
      bind, Except.bind, pure, Except.pure, throw, throwThe, MonadExceptOf.throw]
  refine ⟨?_, ?_, herr, ?_⟩
  · intro a b ha hb
    subst ha hb
    refine ⟨?_, fun h => (Double.arith_nan a b h).1, Double.add_finite a b,
      fun hia hfb => ((Double.add_sub_infinite a b).1 hia hfb).1,
      fun hfa hib => ((Double.add_sub_infinite a b).2.1 hfa hib).1,
      fun hia hib => ⟨fun hs => ((Double.add_sub_infinite a b).2.2.1 hia hib hs).1,
        fun hs => ((Double.add_sub_infinite a b).2.2.2 hia hib hs).1⟩⟩
    simp [Interpreter.visitBinaryExpr, hl, hr, hop, Value.holdsDouble, Value.getDouble,
      bind, Except.bind, pure, Except.pure]
  · intro x y hx hy
    subst hx hy
    simp [Interpreter.visitBinaryExpr, hl, hr, hop, Value.holdsDouble, Value.holdsString,
      Value.getString, bind, Except.bind, pure, Except.pure]
  · intro a x
    constructor
    · intro ha hx
      subst ha hx
      exact herr (by simp [Value.holdsDouble]) (by simp [Value.holdsString])
    · intro hx ha
      subst ha hx
      exact herr (by simp [Value.holdsDouble]) (by simp [Value.holdsString])

/-- Witness for claim C8: `1.0 + 2.0` is `3.0`, `"a" + "b"` is `"ab"`, and
`1.0 + "b"` is a runtime error. -/
theorem Interpreter.visitBinaryExpr_plus_witness :
    Interpreter.visitBinaryExpr evaluateLiteral (.LiteralExpr (.number Double.one))
        ⟨.PLUS, "+", .none, 1⟩ (.LiteralExpr (.number Double.two)) () =
      (.ok (.number ⟨false, 1024, 2251799813685248⟩), ()) ∧
    Interpreter.visitBinaryExpr evaluateLiteral (.LiteralExpr (.string "a"))
        ⟨.PLUS, "+", .none, 1⟩ (.LiteralExpr (.string "b")) () =
      (.ok (.string "ab"), ()) ∧
    Interpreter.visitBinaryExpr evaluateLiteral (.LiteralExpr (.number Double.one))
        ⟨.PLUS, "+", .none, 1⟩ (.LiteralExpr (.string "b")) () =
      (.error (.RuntimeException ⟨.PLUS, "+", .none, 1⟩
        "Operanlar sayılar veya stringler olmalıdır."), ()) := by
  refine ⟨?_, ?_, ?_⟩
  · have h := (Interpreter.visitBinaryExpr_plus evaluateLiteral
      (.LiteralExpr (.number Double.one)) ⟨.PLUS, "+", .none, 1⟩
      (.LiteralExpr (.number Double.two)) () () () (.number Double.one)
      (.number Double.two) rfl rfl rfl).1 Double.one Double.two rfl rfl
    rw [h.1, (h.2.2.1 (by decide) (by decide)).2.2.2.1 ⟨false, 1024, 2251799813685248⟩
      (by decide) (by decide)
      (by rw [Double.toRat_one, Double.toRat_two, Double.toRat_three]; norm_num)]
  · exact (Interpreter.visitBinaryExpr_plus evaluateLiteral (.LiteralExpr (.string "a"))
      ⟨.PLUS, "+", .none, 1⟩ (.LiteralExpr (.string "b")) () () () (.string "a")
      (.string "b") rfl rfl rfl).2.1 "a" "b" rfl rfl
  · exact ((Interpreter.visitBinaryExpr_plus evaluateLiteral
      (.LiteralExpr (.number Double.one)) ⟨.PLUS, "+", .none, 1⟩
      (.LiteralExpr (.string "b")) () () () (.number Double.one)
      (.string "b") rfl rfl rfl).2.2.2 Double.one "b").1 rfl rfl

/-- Claim C9. Let the operands of a binary node with operator `/` evaluate to
the numbers `a` and `b`. Whenever `b` compares equal to zero (it is `0.0` or
`-0.0`), whatever `a` is, visitBinaryExpr throws the RuntimeException
"division by zero" on the operator token; no value is returned. -/
theorem Interpreter.visitBinaryExpr_division_by_zero {σ : Type}
    (evaluate : Expr → Eval σ Value) (left : Expr) (op : Token) (right : Expr)
    (s s1 s2 : σ) (a b : Double)
    (hl : evaluate left s = (.ok (.number a), s1))
    (hr : evaluate right s1 = (.ok (.number b), s2))
    (hop : op.type = .SLASH) (hzero : Double.eq b Double.zero = true) :
    Interpreter.visitBinaryExpr evaluate left op right s =
      (.error (.RuntimeException op "Sıfıra bölme hatası."), s2) ∧
    ∀ v, (Interpreter.visitBinaryExpr evaluate left op right s).1 ≠ .ok v := by
  have h : Interpreter.visitBinaryExpr evaluate left op right s =
      (.error (.RuntimeException op "Sıfıra bölme hatası."), s2) := by
    simp [Interpreter.visitBinaryExpr, hl, hr, hop, hzero, Interpreter.checkNumberOperands,
      Interpreter.runtimeError, Value.holdsDouble, Value.getDouble, bind, Except.bind,
      throw, throwThe, MonadExceptOf.throw]
  refine ⟨h, ?_⟩
  intro v
  rw [h]
  simp

/-- Witness for claim C9: `0.0 / 0.0` is the division-by-zero error, not
NaN. -/
theorem Interpreter.visitBinaryExpr_division_by_zero_witness :
    Interpreter.visitBinaryExpr evaluateLiteral (.LiteralExpr (.number Double.zero))
        ⟨.SLASH, "/", .none, 1⟩ (.LiteralExpr (.number Double.zero)) () =
      (.error (.RuntimeException ⟨.SLASH, "/", .none, 1⟩ "Sıfıra bölme hatası."), ()) :=
  (Interpreter.visitBinaryExpr_division_by_zero evaluateLiteral
    (.LiteralExpr (.number Double.zero)) ⟨.SLASH, "/", .none, 1⟩
    (.LiteralExpr (.number Double.zero)) () () () Double.zero Double.zero rfl rfl rfl
    (by decide)).1

/-- Claim C10. Let the operand of a unary node evaluate to the value `r`.
With operator `-`, visitUnaryExpr returns the negated number when `r` is a
number `d`, and throws the RuntimeException "operand must be a number" on the
operator token when it is not. The negated number is `d` with the sign bit
flipped and the exponent and fraction fields unchanged, so its value is the
negated value of `d`, negating twice gives `d` back, and a NaN stays a NaN.
With operator `!` it returns the boolean negation of isTruthy of `r`, for
every `r`, and does not throw. -/
theorem Interpreter.visitUnaryExpr_minus_and_bang {σ : Type}
    (evaluate : Expr → Eval σ Value) (op : Token) (right : Expr) (s s1 : σ) (r : Value)
    (hr : evaluate right s = (.ok r, s1)) :
    (op.type = .MINUS →
      (∀ d : Double, r = .number d →
        Interpreter.visitUnaryExpr evaluate op right s =
          (.ok (.number (Double.neg d)), s1) ∧
        Double.neg d = ⟨!d.sign, d.expo, d.frac⟩ ∧
        (Double.neg d).toRat = -d.toRat ∧
        Double.neg (Double.neg d) = d ∧
        (Double.neg d).isNaN = d.isNaN) ∧
      (r.holdsDouble = false →
        Interpreter.visitUnaryExpr evaluate op right s =
          (.error (.RuntimeException op "Operand bir sayı olmalıdır."), s1))) ∧
    (op.type = .BANG →
      Interpreter.visitUnaryExpr evaluate op right s =
        (.ok (.boolean (!Interpreter.isTruthy r)), s1)) := by
  refine ⟨fun hop => ⟨?_, ?_⟩, ?_⟩
  · intro d hd
    subst hd
    refine ⟨?_, rfl, Double.toRat_neg d, Double.neg_neg d, rfl⟩
    simp [Interpreter.visitUnaryExpr, hr, hop, Interpreter.checkNumberOperand,
      Value.holdsDouble, Value.getDouble, bind, Except.bind, pure, Except.pure]
  · intro hn
    simp [Interpreter.visitUnaryExpr, hr, hop, Interpreter.checkNumberOperand,
      Interpreter.runtimeError, hn, bind, Except.bind]
  · intro hop
    simp [Interpreter.visitUnaryExpr, hr, hop, pure, Except.pure]

/-- Witness for claim C10: `-"a"` is a runtime error, `-1.0` is the datum
with the sign bit set and the fields of `1.0`, and `!""` is `true`, the
empty string not being truthy. -/
theorem Interpreter.visitUnaryExpr_minus_and_bang_witness :
    Interpreter.visitUnaryExpr evaluateLiteral ⟨.MINUS, "-", .none, 1⟩
        (.LiteralExpr (.string "a")) () =
      (.error (.RuntimeException ⟨.MINUS, "-", .none, 1⟩ "Operand bir sayı olmalıdır."),
        ()) ∧
    Interpreter.visitUnaryExpr evaluateLiteral ⟨.MINUS, "-", .none, 1⟩
        (.LiteralExpr (.number Double.one)) () =
      (.ok (.number ⟨true, 1023, 0⟩), ()) ∧
    Interpreter.visitUnaryExpr evaluateLiteral ⟨.BANG, "!", .none, 1⟩
        (.LiteralExpr (.string "")) () =
      (.ok (.boolean true), ()) :=
  ⟨((Interpreter.visitUnaryExpr_minus_and_bang evaluateLiteral ⟨.MINUS, "-", .none, 1⟩
      (.LiteralExpr (.string "a")) () () (.string "a") rfl).1 rfl).2 rfl,
   (((Interpreter.visitUnaryExpr_minus_and_bang evaluateLiteral ⟨.MINUS, "-", .none, 1⟩
      (.LiteralExpr (.number Double.one)) () () (.number Double.one) rfl).1 rfl).1
      Double.one rfl).1,
   (Interpreter.visitUnaryExpr_minus_and_bang evaluateLiteral ⟨.BANG, "!", .none, 1⟩
      (.LiteralExpr (.string "")) () () (.string "") rfl).2 rfl⟩

/-! ## Lemmas on memory -/

namespace Memory

theorem read_write_self {α : Type} (m : Memory α) (addr : Nat) (a : α) :
    (m.write addr a).read addr = some a := by
  induction m with
  | nil => simp [write, read, List.lookup]
  | cons p rest ih =>
    obtain ⟨k, v⟩ := p
    by_cases h : k = addr
    · simp [write, read, h, List.lookup]
    · have h2 : (addr == k) = false := by simpa using fun e => h e.symm
      simp only [read] at ih
      simp [write, read, h, List.lookup, h2, ih]

theorem read_write_other {α : Type} (m : Memory α) (addr : Nat) (a : α) (other : Nat)
    (hne : other ≠ addr) : (m.write addr a).read other = m.read other := by
  induction m with
  | nil =>
    have h2 : (other == addr) = false := by simpa using hne
    simp [write, read, List.lookup, h2]
  | cons p rest ih =>
    obtain ⟨k, v⟩ := p
    by_cases h : k = addr
    · subst h
      have h2 : (other == k) = false := by simpa using hne
      simp [write, read, List.lookup, h2]
    · simp only [read] at ih
      simp only [write, h, if_false, read, List.lookup]
      cases (other == k) <;> simp [ih]

theorem le_foldr_max (l : List Nat) (k : Nat) (h : k ∈ l) : k ≤ l.foldr max 0 := by
  induction l with
  | nil => simp at h
  | cons a rest ih =>
    simp only [List.foldr_cons]
    rcases List.mem_cons.1 h with h1 | h1
    · subst h1; exact Nat.le_max_left _ _
    · exact Nat.le_trans (ih h1) (Nat.le_max_right _ _)

theorem read_eq_none_of_not_mem {α : Type} (m : Memory α) (addr : Nat)
    (h : addr ∉ m.map Prod.fst) : m.read addr = none := by
  induction m with
  | nil => simp [read, List.lookup]
  | cons p rest ih =>
    obtain ⟨k, v⟩ := p
    simp only [List.map_cons, List.mem_cons, not_or] at h
    have h2 : (addr == k) = false := by simpa using h.1
    simp only [read] at ih
    simp [read, List.lookup, h2, ih h.2]

theorem read_fresh {α : Type} (m : Memory α) : m.read (fresh m) = none := by
  apply read_eq_none_of_not_mem
  intro hmem
  have := le_foldr_max _ _ hmem
  simp only [fresh] at this
  omega

theorem fresh_ne_zero {α : Type} (m : Memory α) : fresh m ≠ 0 := by
  simp [fresh]

end Memory

/-! ## Logical operators -/

/-- Claim C11. Let the left operand of a logical node evaluate to the value
`l`, leaving the state `s1`. For `or`, when `l` is truthy the result is `l`
itself and the state is `s1`, whatever the evaluator would do on the right
operand; when `l` is falsy the result is the evaluation of the right operand
from `s1`. For `and`, when `l` is falsy the result is `l` itself and the
state is `s1`; when `l` is truthy the result is the evaluation of the right
operand from `s1`. -/
theorem Interpreter.visitLogicalExpr_short_circuits {σ : Type}
    (evaluate : Expr → Eval σ Value) (left : Expr) (op : Token) (right : Expr)
    (s s1 : σ) (l : Value) (hl : evaluate left s = (.ok l, s1)) :
    (op.type = .OR → Interpreter.isTruthy l = true →
      Interpreter.visitLogicalExpr evaluate left op right s = (.ok l, s1)) ∧
    (op.type = .OR → Interpreter.isTruthy l = false →
      Interpreter.visitLogicalExpr evaluate left op right s = evaluate right s1) ∧
    (op.type = .AND → Interpreter.isTruthy l = false →
      Interpreter.visitLogicalExpr evaluate left op right s = (.ok l, s1)) ∧
    (op.type = .AND → Interpreter.isTruthy l = true →
      Interpreter.visitLogicalExpr evaluate left op right s = evaluate right s1) := by
  refine ⟨?_, ?_, ?_, ?_⟩ <;> intro hop ht <;>
    simp [Interpreter.visitLogicalExpr, hl, hop, ht]

/-- Witness for claim C11, over an evaluator that counts its evaluations:
`"a" or "b"` is `"a"` after one evaluation, `none and "b"` is `none` after
one evaluation, and `none or "b"` is `"b"` after two. -/
theorem Interpreter.visitLogicalExpr_short_circuits_witness :
    Interpreter.visitLogicalExpr countingEvaluate (.LiteralExpr (.string "a"))
        ⟨.OR, "or", .none, 1⟩ (.LiteralExpr (.string "b")) 0 = (.ok (.string "a"), 1) ∧
    Interpreter.visitLogicalExpr countingEvaluate (.LiteralExpr .none)
        ⟨.AND, "and", .none, 1⟩ (.LiteralExpr (.string "b")) 0 = (.ok .none, 1) ∧
    Interpreter.visitLogicalExpr countingEvaluate (.LiteralExpr .none)
        ⟨.OR, "or", .none, 1⟩ (.LiteralExpr (.string "b")) 0 =
      countingEvaluate (.LiteralExpr (.string "b")) 1 :=
  ⟨(Interpreter.visitLogicalExpr_short_circuits countingEvaluate (.LiteralExpr (.string "a"))
      ⟨.OR, "or", .none, 1⟩ (.LiteralExpr (.string "b")) 0 1 (.string "a") rfl).1 rfl
      (by decide),
   (Interpreter.visitLogicalExpr_short_circuits countingEvaluate (.LiteralExpr .none)
      ⟨.AND, "and", .none, 1⟩ (.LiteralExpr (.string "b")) 0 1 .none rfl).2.2.1 rfl
      (by decide),
   (Interpreter.visitLogicalExpr_short_circuits countingEvaluate (.LiteralExpr .none)
      ⟨.OR, "or", .none, 1⟩ (.LiteralExpr (.string "b")) 0 1 .none rfl).2.1 rfl
      (by decide)⟩

/-! ## Blocks -/

/-- Claim C15. For every statement dispatch, statement list, new environment
and state, executeBlock runs the statements with the new environment as the
current one and, whether the run ends normally or by a thrown signal or
error, sets the current-environment pointer back to the pointer that was
current before the call; the outcome of the run is passed on unchanged.
The same holds for a block statement, which runs in a freshly allocated
environment. -/
theorem Interpreter.executeBlock_restores_environment
    (execute : Stmt → Eval Runtime Unit) (statements : List Stmt) (newEnvironment : EnvPtr)
    (s : Runtime) :
    (Interpreter.executeBlock execute statements newEnvironment s).2.environment =
      s.environment ∧
    Interpreter.executeBlock execute statements newEnvironment s =
      ((Interpreter.executeStatements execute statements
          { s with environment := newEnvironment }).1,
        { (Interpreter.executeStatements execute statements
            { s with environment := newEnvironment }).2 with
          environment := s.environment }) ∧
    (Interpreter.visitBlockStmt execute statements s).2.environment = s.environment := by
  have key : ∀ (env : EnvPtr) (t : Runtime),
      Interpreter.executeBlock execute statements env t =
        ((Interpreter.executeStatements execute statements { t with environment := env }).1,
          { (Interpreter.executeStatements execute statements
              { t with environment := env }).2 with environment := t.environment }) := by
    intro env t
    unfold Interpreter.executeBlock
    rcases h : Interpreter.executeStatements execute statements
      { t with environment := env } with ⟨r, s1⟩
    cases r <;> rfl
  refine ⟨?_, key newEnvironment s, ?_⟩
  · rw [key]
  · unfold Interpreter.visitBlockStmt
    simp only [Runtime.newEnvironment]
    rw [key]

/-! ## Function calls and the return signal -/

/-- Claim C13. For a function that is not an initializer: when the execution
of its body ends with a return signal carrying `v`, call returns `v`; when
the body completes, call returns none; and the outcome of call is never a
return signal, whatever the body does. -/
theorem CCubeFunction.call_catches_return_signal
    (executeBlock : List Stmt → EnvPtr → Eval Runtime Unit) (self : CCubeFunction)
    (arguments : List Value) (this_instance : ObjPtr) (s : Runtime)
    (hinit : self.isInitializer = false) :
    (∀ v s4, executeBlock self.declaration.body (self.enter arguments this_instance s).1
        (self.enter arguments this_instance s).2 = (.error (.ReturnException v), s4) →
      self.call executeBlock arguments this_instance s = (.ok v, s4)) ∧
    (∀ s4, executeBlock self.declaration.body (self.enter arguments this_instance s).1
        (self.enter arguments this_instance s).2 = (.ok (), s4) →
      self.call executeBlock arguments this_instance s = (.ok .none, s4)) ∧
    (∀ v, (self.call executeBlock arguments this_instance s).1 ≠
      .error (.ReturnException v)) := by
  refine ⟨?_, ?_, ?_⟩
  · intro v s4 h
    simp [CCubeFunction.call, h, hinit]
  · intro s4 h
    simp [CCubeFunction.call, h, hinit]
  · intro v
    unfold CCubeFunction.call
    simp only []
    rcases h : executeBlock self.declaration.body (self.enter arguments this_instance s).1
      (self.enter arguments this_instance s).2 with ⟨r, s4⟩
    cases r with
    | ok u => cases u; simp [hinit]
    | error e => cases e <;> simp [hinit]

/-- Claim C14. For a function whose initializer flag is set and every
instance handle `this_instance`: call returns that handle both when the body
completes and when the body ends with a return signal, whatever value the
signal carries. -/
theorem CCubeFunction.call_initializer_returns_instance
    (executeBlock : List Stmt → EnvPtr → Eval Runtime Unit) (self : CCubeFunction)
    (arguments : List Value) (this_instance : ObjPtr) (s : Runtime)
    (hinit : self.isInitializer = true) :
    (∀ v s4, executeBlock self.declaration.body (self.enter arguments this_instance s).1
        (self.enter arguments this_instance s).2 = (.error (.ReturnException v), s4) →
      self.call executeBlock arguments this_instance s = (.ok (.object this_instance), s4)) ∧
    (∀ s4, executeBlock self.declaration.body (self.enter arguments this_instance s).1
        (self.enter arguments this_instance s).2 = (.ok (), s4) →
      self.call executeBlock arguments this_instance s =
        (.ok (.object this_instance), s4)) := by
  refine ⟨?_, ?_⟩
  · intro v s4 h
    simp [CCubeFunction.call, h, hinit]
  · intro s4 h
    simp [CCubeFunction.call, h, hinit]

/-- Witness for claim C13: calling `fun f(x) { return x; }` with the
argument `"v"` returns `"v"`. -/
theorem CCubeFunction.call_catches_return_signal_witness :
    (sampleFunction.call (Interpreter.executeBlock sampleExecute) [.string "v"] ObjPtr.null
      sampleRuntime).1 = .ok (.string "v") :=
  congrArg Prod.fst
    ((CCubeFunction.call_catches_return_signal (Interpreter.executeBlock sampleExecute)
      sampleFunction [.string "v"] ObjPtr.null sampleRuntime rfl).1 (.string "v")
      (Interpreter.executeBlock sampleExecute sampleFunction.declaration.body
        (sampleFunction.enter [.string "v"] ObjPtr.null sampleRuntime).1
        (sampleFunction.enter [.string "v"] ObjPtr.null sampleRuntime).2).2
      (Prod.ext (by decide) rfl))

/-- Witness for claim C14: the initializer `init() { return "nope"; }` called
on the instance at address 6 returns that instance, not `"nope"`; so does
an initializer whose body is empty. -/
theorem CCubeFunction.call_initializer_returns_instance_witness :
    (sampleInitializer.call (Interpreter.executeBlock sampleExecute) [] ⟨6⟩ sampleHeap).1 =
      .ok (.object ⟨6⟩) ∧
    (sampleEmptyInitializer.call (Interpreter.executeBlock sampleExecute) [] ⟨6⟩
      sampleHeap).1 = .ok (.object ⟨6⟩) :=
  ⟨congrArg Prod.fst
    ((CCubeFunction.call_initializer_returns_instance
      (Interpreter.executeBlock sampleExecute) sampleInitializer [] ⟨6⟩ sampleHeap rfl).1
      (.string "nope")
      (Interpreter.executeBlock sampleExecute sampleInitializer.declaration.body
        (sampleInitializer.enter [] ⟨6⟩ sampleHeap).1
        (sampleInitializer.enter [] ⟨6⟩ sampleHeap).2).2
      (Prod.ext (by decide) rfl)),
   congrArg Prod.fst
    ((CCubeFunction.call_initializer_returns_instance
      (Interpreter.executeBlock sampleExecute) sampleEmptyInitializer [] ⟨6⟩ sampleHeap
      rfl).2
      (Interpreter.executeBlock sampleExecute sampleEmptyInitializer.declaration.body
        (sampleEmptyInitializer.enter [] ⟨6⟩ sampleHeap).1
        (sampleEmptyInitializer.enter [] ⟨6⟩ sampleHeap).2).2
      (Prod.ext (by decide) rfl))⟩

/-! ## Calls -/

/-- Claim C12. Let the callee expression evaluate to the value `c` and then
the argument expressions, in source order, to the values `args`, leaving the
state `s2`. If `c` is not an object handle, or is the handle of an object
that is not a function, a class or a bound method, visitCallExpr throws a
RuntimeException on the parenthesis token and the state stays `s2`, whatever
the callee's call would do. If the object is callable and the number of
arguments differs from its arity, it throws a RuntimeException on the
parenthesis token and the state stays `s2`. Otherwise the result is the
callee's call on `args` from `s2`. The argument values are in source order:
the first argument is evaluated first and the rest from the state it
leaves. -/
theorem Interpreter.visitCallExpr_checks_callee_and_arity
    (evaluate : Expr → Eval Runtime Value) (arity : ObjPtr → Runtime → Nat)
    (call : ObjPtr → List Value → Eval Runtime Value)
    (callee : Expr) (paren : Token) (arguments : List Expr)
    (s s1 s2 : Runtime) (c : Value) (args : List Value)
    (hc : evaluate callee s = (.ok c, s1))
    (ha : Interpreter.evaluateArguments evaluate arguments s1 = (.ok args, s2)) :
    ((∀ p, c ≠ .object p) →
      Interpreter.visitCallExpr evaluate arity call callee paren arguments s =
        (.error (.RuntimeException paren "Sadece fonksiyonlar ve sınıflar çağrılabilir."),
          s2)) ∧
    (∀ p o, c = .object p → s2.objects.read p.addr = some o →
      (o.isCallable = true ↔
        (o.getType = .FUNCTION ∨ o.getType = .CLASS ∨ o.getType = .BOUND_METHOD)) ∧
      (o.isCallable = false →
        Interpreter.visitCallExpr evaluate arity call callee paren arguments s =
          (.error (.RuntimeException paren "Sadece fonksiyonlar ve sınıflar çağrılabilir."),
            s2)) ∧
      (o.isCallable = true → args.length ≠ arity p s2 →
        ∃ message,
          Interpreter.visitCallExpr evaluate arity call callee paren arguments s =
            (.error (.RuntimeException paren message), s2)) ∧
      (o.isCallable = true → args.length = arity p s2 →
        Interpreter.visitCallExpr evaluate arity call callee paren arguments s =
          call p args s2)) ∧
    (∀ first rest v t vs, arguments = first :: rest → evaluate first s1 = (.ok v, t) →
      Interpreter.evaluateArguments evaluate rest t = (.ok vs, s2) → args = v :: vs) := by
  refine ⟨?_, ?_, ?_⟩
  · intro hno
    cases c with
    | object p => exact absurd rfl (hno p)
    | none => simp [Interpreter.visitCallExpr, hc, ha, Interpreter.runtimeError]
    | boolean b => simp [Interpreter.visitCallExpr, hc, ha, Interpreter.runtimeError]
    | number d => simp [Interpreter.visitCallExpr, hc, ha, Interpreter.runtimeError]
    | string x => simp [Interpreter.visitCallExpr, hc, ha, Interpreter.runtimeError]
  · intro p o hp ho
    subst hp
    refine ⟨?_, ?_, ?_, ?_⟩
    · cases o <;> simp [Object.isCallable, Object.getType]
    · intro hcall
      simp [Interpreter.visitCallExpr, hc, ha, ho, hcall, Interpreter.runtimeError]
    · intro hcall hlen
      refine ⟨"Beklenen " ++ toString (arity p s2) ++ " argüman, ancak " ++
        toString args.length ++ " geldi.", ?_⟩
      simp [Interpreter.visitCallExpr, hc, ha, ho, hcall, hlen, Interpreter.runtimeError]
    · intro hcall hlen
      simp [Interpreter.visitCallExpr, hc, ha, ho, hcall, hlen]
  · intro first rest v t vs harg hfirst hrest
    subst harg
    simp [Interpreter.evaluateArguments, hfirst, hrest] at ha
    exact ha.symm

/-- Witness for claim C12: calling the list `xs` throws and the callee's
call leaves no trace in the state; calling `f` with no argument throws;
calling `f("v")` is the callee's call on `["v"]`. -/
theorem Interpreter.visitCallExpr_checks_callee_and_arity_witness :
    Interpreter.visitCallExpr sampleEvaluate sampleArity sampleCall
        (.VariableExpr ⟨.IDENTIFIER, "xs", .none, 1⟩) ⟨.RIGHT_PAREN, ")", .none, 1⟩ []
        sampleCallables =
      (.error (.RuntimeException ⟨.RIGHT_PAREN, ")", .none, 1⟩
        "Sadece fonksiyonlar ve sınıflar çağrılabilir."), sampleCallables) ∧
    (∃ message,
      Interpreter.visitCallExpr sampleEvaluate sampleArity sampleCall
          (.VariableExpr ⟨.IDENTIFIER, "f", .none, 1⟩) ⟨.RIGHT_PAREN, ")", .none, 1⟩ []
          sampleCallables =
        (.error (.RuntimeException ⟨.RIGHT_PAREN, ")", .none, 1⟩ message),
          sampleCallables)) ∧
    Interpreter.visitCallExpr sampleEvaluate sampleArity sampleCall
        (.VariableExpr ⟨.IDENTIFIER, "f", .none, 1⟩) ⟨.RIGHT_PAREN, ")", .none, 1⟩
        [.LiteralExpr (.string "v")] sampleCallables =
      sampleCall ⟨1⟩ [.string "v"] sampleCallables :=
  ⟨((Interpreter.visitCallExpr_checks_callee_and_arity sampleEvaluate sampleArity sampleCall
      (.VariableExpr ⟨.IDENTIFIER, "xs", .none, 1⟩) ⟨.RIGHT_PAREN, ")", .none, 1⟩ []
      sampleCallables sampleCallables sampleCallables (.object ⟨2⟩) [] rfl rfl).2.1
      ⟨2⟩ (.list ⟨[]⟩) rfl rfl).2.1 rfl,
   ((Interpreter.visitCallExpr_checks_callee_and_arity sampleEvaluate sampleArity sampleCall
      (.VariableExpr ⟨.IDENTIFIER, "f", .none, 1⟩) ⟨.RIGHT_PAREN, ")", .none, 1⟩ []
      sampleCallables sampleCallables sampleCallables (.object ⟨1⟩) [] rfl rfl).2.1
      ⟨1⟩ (.function sampleFunction) rfl rfl).2.2.1 rfl (by decide),
   ((Interpreter.visitCallExpr_checks_callee_and_arity sampleEvaluate sampleArity sampleCall
      (.VariableExpr ⟨.IDENTIFIER, "f", .none, 1⟩) ⟨.RIGHT_PAREN, ")", .none, 1⟩
      [.LiteralExpr (.string "v")] sampleCallables sampleCallables sampleCallables
      (.object ⟨1⟩) [.string "v"] rfl rfl).2.1
      ⟨1⟩ (.function sampleFunction) rfl rfl).2.2.2 rfl rfl⟩

/-! ## Match statements -/

/-- Claim C16. Let the subject of a match evaluate, once, to `v`, leaving the
state `s1`, and let a literal pattern evaluate to its value. The statement
then does what the first case selected by `v` does, and nothing else: that
case is the first one, in source order, that is `default`, or has a literal
pattern equal to `v` under isEqual, or has an identifier pattern. When no
case is selected no body is executed and the state is `s1`. A selected
`default` or literal case executes its body from `s1`. A selected identifier
case executes its body once, after a new environment binding the identifier
to `v` has been allocated. In particular a `default` body is executed
exactly when no case before it is selected. (The last alternative of the
statement is never taken: a selected case has no other kind of pattern.) -/
theorem Interpreter.visitMatchStmt_runs_first_selected_case
    (evaluate : Expr → Eval Runtime Value) (execute : Stmt → Eval Runtime Unit)
    (subject : Expr) (cases : List MatchCase) (s s1 : Runtime) (v : Value)
    (hsubject : evaluate subject s = (.ok v, s1))
    (hliteral : ∀ w t, evaluate (.LiteralExpr w) t = (.ok w, t)) :
    (Interpreter.visitMatchStmt evaluate execute subject cases s =
      match cases.find? (MatchCase.selects v) with
      | none => (.ok (), s1)
      | some (.mk none body) => execute body s1
      | some (.mk (some (.LiteralExpr _)) body) => execute body s1
      | some (.mk (some (.VariableExpr var_name)) (.BlockStmt statements)) =>
        Interpreter.executeBlock execute statements (s1.newEnvironment (some s1.environment)).1
          ((s1.newEnvironment (some s1.environment)).2.define
            (s1.newEnvironment (some s1.environment)).1 var_name.lexeme v)
      | some (.mk (some (.VariableExpr var_name)) body) =>
        match execute body ((s1.newEnvironment (some s1.environment)).2.define
            (s1.newEnvironment (some s1.environment)).1 var_name.lexeme v) with
        | (.error e, s3) => (.error e, s3)
        | (.ok (), s3) =>
          (.error (.RuntimeException var_name "Match case body\x27si bir blok olmalıdır."), s3)
      | some (.mk (some _) _) => (.ok (), s1)) ∧
    (∀ c, cases.find? (MatchCase.selects v) = some c → MatchCase.selects v c = true) := by
  refine ⟨?_, fun c hfind => List.find?_some hfind⟩
  unfold Interpreter.visitMatchStmt
  simp only [hsubject]
  induction cases with
  | nil => simp [Interpreter.matchCases]
  | cons c rest ih =>
    obtain ⟨pattern, body⟩ := c
    cases pattern with
    | none => simp [Interpreter.matchCases, MatchCase.selects]
    | some e =>
      cases e with
      | LiteralExpr w =>
        by_cases heq : Interpreter.isEqual v w = true
        · simp [Interpreter.matchCases, MatchCase.selects, hliteral, heq]
        · simp [Interpreter.matchCases, MatchCase.selects, hliteral, heq, ih]
      | VariableExpr name =>
        cases body <;>
          simp [Interpreter.matchCases, MatchCase.selects, Interpreter.runtimeError]
      | _ => simp [Interpreter.matchCases, MatchCase.selects, ih]

/-- Witness for claim C16: in the match of scenario 4 with the subject
`"hi"`, the statement does what `return "greet";` does; with the subject
`2.0` it does what the default body does. -/
theorem Interpreter.visitMatchStmt_runs_first_selected_case_witness :
    Interpreter.visitMatchStmt sampleEvaluate sampleExecute (.LiteralExpr (.string "hi"))
        sampleMatchCases sampleRuntime =
      sampleExecute (.ReturnStmt ⟨.RETURN, "return", .none, 1⟩
        (some (.LiteralExpr (.string "greet")))) sampleRuntime ∧
    Interpreter.visitMatchStmt sampleEvaluate sampleExecute (.LiteralExpr (.number Double.two))
        sampleMatchCases sampleRuntime =
      sampleExecute (.ReturnStmt ⟨.RETURN, "return", .none, 1⟩
        (some (.LiteralExpr (.string "?")))) sampleRuntime :=
  ⟨(Interpreter.visitMatchStmt_runs_first_selected_case sampleEvaluate sampleExecute
      (.LiteralExpr (.string "hi")) sampleMatchCases sampleRuntime sampleRuntime
      (.string "hi") rfl (fun _ _ => rfl)).1,
   (Interpreter.visitMatchStmt_runs_first_selected_case sampleEvaluate sampleExecute
      (.LiteralExpr (.number Double.two)) sampleMatchCases sampleRuntime sampleRuntime
      (.number Double.two) rfl (fun _ _ => rfl)).1⟩

/-! ## Instances: property and method lookup -/

namespace CCubeClass

theorem findMethod_of_superclassChain (objects : Memory Object) (name : String) :
    ∀ (fuel : Nat) (klass : ObjPtr) (chain : List CCubeClass),
      superclassChain objects fuel klass = some chain →
      findMethod objects fuel klass name =
        some ((chain.findSome? (fun c => c.methods.lookup name)).getD ObjPtr.null) := by
  intro fuel
  induction fuel with
  | zero => intro klass chain h; simp [superclassChain] at h
  | succ fuel ih =>
    intro klass chain h
    unfold superclassChain at h
    unfold findMethod
    cases hread : objects.read klass.addr with
    | none => simp [hread] at h
    | some o =>
      cases o with
      | klass c =>
        simp only [hread] at h ⊢
        cases hsup : c.superclass with
        | none =>
          simp only [hsup, Option.some.injEq] at h
          subst h
          cases hl : List.lookup name c.methods <;> simp [List.findSome?, hl]
        | some sup =>
          simp only [hsup, Option.map_eq_some'] at h
          obtain ⟨rest, hrest, rfl⟩ := h
          cases hl : List.lookup name c.methods with
          | some m => simp [List.findSome?, hl]
          | none => simp [List.findSome?, hl, ih sup rest hrest]
      | _ => simp [hread] at h

theorem findSome_of_split (name : String) (pre : List CCubeClass) (c : CCubeClass)
    (post : List CCubeClass) (m : ObjPtr)
    (hpre : ∀ c2 ∈ pre, c2.methods.lookup name = none)
    (hc : c.methods.lookup name = some m) :
    (pre ++ c :: post).findSome? (fun c => c.methods.lookup name) = some m := by
  induction pre with
  | nil => simp [List.findSome?, hc]
  | cons a rest ih =>
    have ha : List.lookup name a.methods = none := hpre a (by simp)
    simp only [List.cons_append, List.findSome?, ha]
    exact ih (fun c2 h2 => hpre c2 (by simp [h2]))

theorem findSome_eq_none (name : String) (chain : List CCubeClass)
    (h : ∀ c ∈ chain, c.methods.lookup name = none) :
    chain.findSome? (fun c => c.methods.lookup name) = none := by
  induction chain with
  | nil => rfl
  | cons a rest ih =>
    have ha : List.lookup name a.methods = none := h a (by simp)
    simp only [List.findSome?, ha]
    exact ih (fun c2 h2 => h c2 (by simp [h2]))

theorem findSome_some_split (name : String) (chain : List CCubeClass) (m : ObjPtr)
    (h : chain.findSome? (fun c => c.methods.lookup name) = some m) :
    ∃ pre c post, chain = pre ++ c :: post ∧
      (∀ c2 ∈ pre, c2.methods.lookup name = none) ∧ c.methods.lookup name = some m := by
  induction chain with
  | nil => simp [List.findSome?] at h
  | cons a rest ih =>
    cases ha : List.lookup name a.methods with
    | some m2 =>
      simp only [List.findSome?, ha, Option.some.injEq] at h
      subst h
      exact ⟨[], a, rest, rfl, by simp, ha⟩
    | none =>
      simp only [List.findSome?, ha] at h
      obtain ⟨pre, c, post, hsplit, hpre, hc⟩ := ih h
      refine ⟨a :: pre, c, post, by simp [hsplit], ?_, hc⟩
      intro c2 h2
      rcases List.mem_cons.1 h2 with h3 | h3
      · subst h3; exact ha
      · exact hpre c2 h3

end CCubeClass

/-- Claim C18. Let `self` be the handle of an instance `i` whose class has
the superclass chain `chain` (nearest class first, walked within the fuel),
with no null handle in the method tables. A property of `i` with the name is
returned as stored, whether or not a class declares a method of that name.
Without such a property, when `chain` splits as classes that do not declare
the name, then a class that declares it with function `m`, then the rest,
findMethod on the instance's class yields `m`, and get allocates a new
bound-method object pairing `self` with `m` and returns its handle. Get
throws a RuntimeException on the name token if and only if there is no
property and no class of the chain declares the name. -/
theorem CCubeInstance.get_property_then_method (fuel : Nat) (self : ObjPtr) (name : Token)
    (s : Runtime) (i : CCubeInstance) (chain : List CCubeClass)
    (hself : s.objects.read self.addr = some (.inst i))
    (hchain : CCubeClass.superclassChain s.objects fuel i.klass = some chain)
    (hmethods : ∀ c ∈ chain, ∀ m, c.methods.lookup name.lexeme = some m → m.isNull = false) :
    (∀ v, i.properties.lookup name.lexeme = some v →
      CCubeInstance.get fuel self name s = (.ok v, s)) ∧
    (∀ pre c post m, chain = pre ++ c :: post →
      (∀ c2 ∈ pre, c2.methods.lookup name.lexeme = none) →
      c.methods.lookup name.lexeme = some m →
      CCubeClass.findMethod s.objects fuel i.klass name.lexeme = some m ∧
      (i.properties.lookup name.lexeme = none →
        CCubeInstance.get fuel self name s =
          (.ok (.object ⟨Memory.fresh s.objects⟩),
            { s with objects :=
                s.objects.write (Memory.fresh s.objects) (.boundMethod ⟨self, m⟩) }) ∧
        s.objects.read (Memory.fresh s.objects) = none ∧
        (s.objects.write (Memory.fresh s.objects) (.boundMethod ⟨self, m⟩)).read
          (Memory.fresh s.objects) = some (.boundMethod ⟨self, m⟩))) ∧
    ((∃ message, (CCubeInstance.get fuel self name s).1 =
        .error (.RuntimeException name message)) ↔
      (i.properties.lookup name.lexeme = none ∧
        ∀ c ∈ chain, c.methods.lookup name.lexeme = none)) := by
  have hfind := CCubeClass.findMethod_of_superclassChain s.objects name.lexeme fuel i.klass
    chain hchain
  have hmiss : i.properties.lookup name.lexeme = none →
      ValueMap.count i.properties name.lexeme = 0 :=
    fun h => (ValueMap.count_eq_zero_iff _ _).2 h
  have hmethod : ∀ pre c post m, chain = pre ++ c :: post →
      (∀ c2 ∈ pre, c2.methods.lookup name.lexeme = none) →
      c.methods.lookup name.lexeme = some m →
      CCubeClass.findMethod s.objects fuel i.klass name.lexeme = some m ∧
      (i.properties.lookup name.lexeme = none →
        CCubeInstance.get fuel self name s =
          (.ok (.object ⟨Memory.fresh s.objects⟩),
            { s with objects :=
                s.objects.write (Memory.fresh s.objects) (.boundMethod ⟨self, m⟩) })) := by
    intro pre c post m hsplit hpre hc
    have hsome := CCubeClass.findSome_of_split name.lexeme pre c post m hpre hc
    rw [← hsplit] at hsome
    have hm : CCubeClass.findMethod s.objects fuel i.klass name.lexeme = some m := by
      rw [hfind, hsome]; rfl
    refine ⟨hm, fun hprop => ?_⟩
    have hnn : m.isNull = false := hmethods c (by rw [hsplit]; simp) m hc
    simp [CCubeInstance.get, hself, hmiss hprop, hm, hnn, Runtime.newObject]
  refine ⟨?_, ?_, ?_⟩
  · intro v hv
    have hcount : ValueMap.count i.properties name.lexeme ≠ 0 :=
      (ValueMap.count_ne_zero_iff _ _).2 ⟨v, hv⟩
    simp [CCubeInstance.get, hself, hcount, ValueMap.atKey_of_lookup _ _ _ hv]
  · intro pre c post m hsplit hpre hc
    obtain ⟨hm, hget⟩ := hmethod pre c post m hsplit hpre hc
    exact ⟨hm, fun hprop => ⟨hget hprop, Memory.read_fresh _, Memory.read_write_self _ _ _⟩⟩
  · constructor
    · rintro ⟨message, hmsg⟩
      cases hprop : i.properties.lookup name.lexeme with
      | some v =>
        have hcount : ValueMap.count i.properties name.lexeme ≠ 0 :=
          (ValueMap.count_ne_zero_iff _ _).2 ⟨v, hprop⟩
        simp [CCubeInstance.get, hself, hcount, ValueMap.atKey_of_lookup _ _ _ hprop] at hmsg
      | none =>
        refine ⟨rfl, ?_⟩
        cases hsome : chain.findSome? (fun c => c.methods.lookup name.lexeme) with
        | none =>
          intro c hcmem
          cases hl : List.lookup name.lexeme c.methods with
          | none => rfl
          | some m =>
            obtain ⟨pre, post, hsplit⟩ := List.append_of_mem hcmem
            exfalso
            have : ∀ (pre : List CCubeClass) (c : CCubeClass) (post : List CCubeClass)
                (m : ObjPtr), c.methods.lookup name.lexeme = some m →
                (pre ++ c :: post).findSome? (fun c => c.methods.lookup name.lexeme) ≠
                  none := by
              intro pre c post m hc
              induction pre with
              | nil => simp [List.findSome?, hc]
              | cons a rest ih =>
                simp only [List.cons_append, List.findSome?]
                cases List.lookup name.lexeme a.methods <;> simp [ih]
            exact this pre c post m hl (hsplit ▸ hsome)
        | some m =>
          exfalso
          obtain ⟨pre, c, post, hsplit, hpre, hc⟩ :=
            CCubeClass.findSome_some_split name.lexeme chain m hsome
          have hget := (hmethod pre c post m hsplit hpre hc).2 hprop
          rw [hget] at hmsg
          simp at hmsg
    · rintro ⟨hprop, hnone⟩
      have hsome := CCubeClass.findSome_eq_none name.lexeme chain hnone
      have hm : CCubeClass.findMethod s.objects fuel i.klass name.lexeme =
          some ObjPtr.null := by
        rw [hfind, hsome]; rfl
      refine ⟨"\x27" ++ name.lexeme ++ "\x27 adlı özellik bulunamadı.", ?_⟩
      simp [CCubeInstance.get, hself, hmiss hprop, hm, ObjPtr.isNull, ObjPtr.null]

/-- Witness for claim C18, on the instance of `B` in the sample heap: the
property `name` shadows the method `name` inherited from `A`, and the method
`greet` is found in `B`, which overrides the one of `A`. -/
theorem CCubeInstance.get_property_then_method_witness :
    CCubeInstance.get 2 ⟨6⟩ ⟨.IDENTIFIER, "name", .none, 1⟩ sampleHeap =
      (.ok (.string "bee"), sampleHeap) ∧
    CCubeClass.findMethod sampleHeap.objects 2 ⟨2⟩ "greet" = some ⟨5⟩ :=
  ⟨(CCubeInstance.get_property_then_method 2 ⟨6⟩ ⟨.IDENTIFIER, "name", .none, 1⟩ sampleHeap
      ⟨⟨2⟩, [("name", .string "bee")]⟩
      [⟨"B", some ⟨1⟩, [("greet", ⟨5⟩)]⟩, ⟨"A", none, [("greet", ⟨3⟩), ("name", ⟨4⟩)]⟩]
      rfl rfl (by
        intro c hc m hm
        simp only [List.mem_cons, List.mem_singleton, List.mem_nil_iff, or_false] at hc
        rcases hc with rfl | rfl
        · simp [List.lookup] at hm
        · simp [List.lookup] at hm
          subst hm
          rfl)).1 (.string "bee") rfl,
   ((CCubeInstance.get_property_then_method 2 ⟨6⟩ ⟨.IDENTIFIER, "greet", .none, 1⟩ sampleHeap
      ⟨⟨2⟩, [("name", .string "bee")]⟩
      [⟨"B", some ⟨1⟩, [("greet", ⟨5⟩)]⟩, ⟨"A", none, [("greet", ⟨3⟩), ("name", ⟨4⟩)]⟩]
      rfl rfl (by
        intro c hc m hm
        simp only [List.mem_cons, List.mem_singleton, List.mem_nil_iff, or_false] at hc
        rcases hc with rfl | rfl
        · simp [List.lookup] at hm
          subst hm
          rfl
        · simp [List.lookup] at hm
          subst hm
          rfl)).2.1 [] ⟨"B", some ⟨1⟩, [("greet", ⟨5⟩)]⟩
      [⟨"A", none, [("greet", ⟨3⟩), ("name", ⟨4⟩)]⟩] ⟨5⟩ rfl (by decide) rfl).1⟩

/-! ## Property assignment -/

/-- Claim C20. Let the target of a Set node evaluate to the value `target`,
leaving the state `s1`. If `target` is a primitive, or the handle of an
object that is not an instance, visitSetExpr throws the RuntimeException
"only instances have assignable properties" on the name token, without
evaluating the value expression. If `target` is the handle of an instance,
the value expression is evaluated, and when it yields `v` the result is `v`
and no error is raised: in the instance the property is bound to `v`
(created if absent), every other property reads as before, and every other
object and the environments are unchanged. -/
theorem Interpreter.visitSetExpr_requires_instance
    (evaluate : Expr → Eval Runtime Value) (object : Expr) (name : Token) (value : Expr)
    (s s1 : Runtime) (target : Value) (htarget : evaluate object s = (.ok target, s1)) :
    ((∀ p, target = .object p →
        ∃ o, s1.objects.read p.addr = some o ∧ o.getType ≠ .INSTANCE) →
      Interpreter.visitSetExpr evaluate object name value s =
        (.error (.RuntimeException name "Sadece objelerin property\x27leri atanabilir."),
          s1)) ∧
    (∀ p i, target = .object p → s1.objects.read p.addr = some (.inst i) →
      ∀ v s2 i2, evaluate value s1 = (.ok v, s2) →
        s2.objects.read p.addr = some (.inst i2) →
        Interpreter.visitSetExpr evaluate object name value s =
          (.ok v, CCubeInstance.set p name v s2) ∧
        (CCubeInstance.set p name v s2).objects.read p.addr =
          some (.inst { i2 with properties := i2.properties.put name.lexeme v }) ∧
        (i2.properties.put name.lexeme v).lookup name.lexeme = some v ∧
        (∀ key, key ≠ name.lexeme →
          (i2.properties.put name.lexeme v).lookup key = i2.properties.lookup key) ∧
        (∀ addr, addr ≠ p.addr →
          (CCubeInstance.set p name v s2).objects.read addr = s2.objects.read addr) ∧
        (CCubeInstance.set p name v s2).environments = s2.environments ∧
        (CCubeInstance.set p name v s2).environment = s2.environment ∧
        (CCubeInstance.set p name v s2).globals = s2.globals) := by
  constructor
  · intro hnot
    cases target with
    | object p =>
      obtain ⟨o, ho, hty⟩ := hnot p rfl
      simp [Interpreter.visitSetExpr, htarget, ho, hty, Interpreter.runtimeError]
    | none => simp [Interpreter.visitSetExpr, htarget, Interpreter.runtimeError]
    | boolean b => simp [Interpreter.visitSetExpr, htarget, Interpreter.runtimeError]
    | number d => simp [Interpreter.visitSetExpr, htarget, Interpreter.runtimeError]
    | string x => simp [Interpreter.visitSetExpr, htarget, Interpreter.runtimeError]
  · intro p i hp hi v s2 i2 hv hi2
    subst hp
    refine ⟨?_, ?_, ?_, ?_, ?_, ?_, ?_, ?_⟩
    · simp [Interpreter.visitSetExpr, htarget, hi, hv, Object.getType]
    · simp [CCubeInstance.set, hi2, Memory.read_write_self]
    · exact ValueMap.lookup_put_self _ _ _
    · intro key hkey
      exact ValueMap.lookup_put_other _ _ _ key hkey
    · intro addr haddr
      simp [CCubeInstance.set, hi2, Memory.read_write_other _ _ _ _ haddr]
    · simp [CCubeInstance.set, hi2]
    · simp [CCubeInstance.set, hi2]
    · simp [CCubeInstance.set, hi2]

/-- Witness for claim C20: `xs.p = "v"` on the list `xs` throws; `i.p = "v"`
on the instance `i` returns `"v"`. -/
theorem Interpreter.visitSetExpr_requires_instance_witness :
    Interpreter.visitSetExpr sampleEvaluate (.VariableExpr ⟨.IDENTIFIER, "xs", .none, 1⟩)
        ⟨.IDENTIFIER, "p", .none, 1⟩ (.LiteralExpr (.string "v")) sampleHeap =
      (.error (.RuntimeException ⟨.IDENTIFIER, "p", .none, 1⟩
        "Sadece objelerin property\x27leri atanabilir."), sampleHeap) ∧
    Interpreter.visitSetExpr sampleEvaluate (.VariableExpr ⟨.IDENTIFIER, "i", .none, 1⟩)
        ⟨.IDENTIFIER, "p", .none, 1⟩ (.LiteralExpr (.string "v")) sampleHeap =
      (.ok (.string "v"),
        CCubeInstance.set ⟨6⟩ ⟨.IDENTIFIER, "p", .none, 1⟩ (.string "v") sampleHeap) :=
  ⟨(Interpreter.visitSetExpr_requires_instance sampleEvaluate
      (.VariableExpr ⟨.IDENTIFIER, "xs", .none, 1⟩) ⟨.IDENTIFIER, "p", .none, 1⟩
      (.LiteralExpr (.string "v")) sampleHeap sampleHeap (.object ⟨7⟩) rfl).1
      (fun p hp => ⟨.list ⟨[.number Double.one]⟩, by
        cases hp
        exact ⟨rfl, by decide⟩⟩),
   ((Interpreter.visitSetExpr_requires_instance sampleEvaluate
      (.VariableExpr ⟨.IDENTIFIER, "i", .none, 1⟩) ⟨.IDENTIFIER, "p", .none, 1⟩
      (.LiteralExpr (.string "v")) sampleHeap sampleHeap (.object ⟨6⟩) rfl).2
      ⟨6⟩ ⟨⟨2⟩, [("name", .string "bee")]⟩ rfl rfl (.string "v") sampleHeap
      ⟨⟨2⟩, [("name", .string "bee")]⟩ rfl rfl).1⟩

/-! ## Identifier patterns and the property round trip: the code at its failing inputs -/

/-- Claim C17, the code at the failing input. For `match (1) { case x: return x; }`
at top level the body is a single statement: it is executed in the current
environment, where `x` is not bound, so the match ends with the
RuntimeException "undefined variable x" instead of returning the subject.
For `match (1) { case x: none; }` the body completes and the match then
throws the RuntimeException "match case body must be a block". With the block
body `{ return x; }` the body runs in the new scope and the return signal
carries the subject. -/
theorem Interpreter.visitMatchStmt_identifier_case_single_statement :
    (Interpreter.visitMatchStmt sampleEvaluate sampleExecute (.LiteralExpr (.number Double.one))
        [.mk (some (.VariableExpr sampleName))
          (.ReturnStmt ⟨.RETURN, "return", .none, 1⟩ (some (.VariableExpr sampleName)))]
        sampleRuntime).1 =
      .error (.RuntimeException sampleName "Tanımlanmamış değişken \x27x\x27.") ∧
    (Interpreter.visitMatchStmt sampleEvaluate sampleExecute (.LiteralExpr (.number Double.one))
        [.mk (some (.VariableExpr sampleName)) (.ExprStmt (.LiteralExpr .none))]
        sampleRuntime).1 =
      .error (.RuntimeException sampleName "Match case body\x27si bir blok olmalıdır.") ∧
    (Interpreter.visitMatchStmt sampleEvaluate sampleExecute (.LiteralExpr (.number Double.one))
        [.mk (some (.VariableExpr sampleName))
          (.BlockStmt [.ReturnStmt ⟨.RETURN, "return", .none, 1⟩
            (some (.VariableExpr sampleName))])]
        sampleRuntime).1 =
      .error (.ReturnException (.number Double.one)) := by
  decide

/-- Claim C19, the code at the failing input. In the sample heap, `i.p = xs`
stores the handle of the list (address 7) in the instance, and the lookup in
the instance returns that handle; but visitGetExpr on `i.p` returns the
handle of a newly allocated object (address 8), a bound method pairing the
instance with the list, and that handle is not equal to the stored one under
isEqual. -/
theorem Interpreter.visitGetExpr_wraps_stored_handle :
    (Interpreter.visitSetExpr sampleEvaluate (.VariableExpr ⟨.IDENTIFIER, "i", .none, 1⟩)
        ⟨.IDENTIFIER, "p", .none, 1⟩ (.VariableExpr ⟨.IDENTIFIER, "xs", .none, 1⟩)
        sampleHeap).1 = .ok (.object ⟨7⟩) ∧
    (CCubeInstance.get 2 ⟨6⟩ ⟨.IDENTIFIER, "p", .none, 1⟩
        (Interpreter.visitSetExpr sampleEvaluate (.VariableExpr ⟨.IDENTIFIER, "i", .none, 1⟩)
          ⟨.IDENTIFIER, "p", .none, 1⟩ (.VariableExpr ⟨.IDENTIFIER, "xs", .none, 1⟩)
          sampleHeap).2).1 = .ok (.object ⟨7⟩) ∧
    (Interpreter.visitGetExpr sampleEvaluate sampleCreateObject 2
        (.VariableExpr ⟨.IDENTIFIER, "i", .none, 1⟩) ⟨.IDENTIFIER, "p", .none, 1⟩
        (Interpreter.visitSetExpr sampleEvaluate (.VariableExpr ⟨.IDENTIFIER, "i", .none, 1⟩)
          ⟨.IDENTIFIER, "p", .none, 1⟩ (.VariableExpr ⟨.IDENTIFIER, "xs", .none, 1⟩)
          sampleHeap).2).1 = .ok (.object ⟨8⟩) ∧
    ((Interpreter.visitGetExpr sampleEvaluate sampleCreateObject 2
        (.VariableExpr ⟨.IDENTIFIER, "i", .none, 1⟩) ⟨.IDENTIFIER, "p", .none, 1⟩
        (Interpreter.visitSetExpr sampleEvaluate (.VariableExpr ⟨.IDENTIFIER, "i", .none, 1⟩)
          ⟨.IDENTIFIER, "p", .none, 1⟩ (.VariableExpr ⟨.IDENTIFIER, "xs", .none, 1⟩)
          sampleHeap).2).2.objects.read 8).map Object.getType = some .BOUND_METHOD ∧
    Interpreter.isEqual (.object ⟨8⟩) (.object ⟨7⟩) = false := by
  decide

/-! ## Lemmas on the collector's maps and sets -/

namespace Memory

theorem read_filter_key {α : Type} (m : Memory α) (p : Nat → Bool) (addr : Nat) :
    read (List.filter (fun entry => p entry.1) m) addr =
      if p addr then m.read addr else none := by
  induction m with
  | nil => simp [read, List.lookup]
  | cons e rest ih =>
    obtain ⟨k, v⟩ := e
    simp only [read] at ih ⊢
    by_cases hk : addr = k
    · subst hk
      by_cases hp : p addr = true
      · simp [List.filter, hp, List.lookup]
      · have hp2 : p addr = false := by simpa using hp
        simp [List.filter, hp2, List.lookup, ih]
    · have hb : (addr == k) = false := by simpa using hk
      cases hpk : p k
      · simp [List.filter, hpk, ih, List.lookup, hb]
      · simp only [List.filter, hpk, List.lookup, hb, ih]

theorem read_erase {α : Type} (m : Memory α) (addr other : Nat) :
    (m.erase addr).read other = if other = addr then none else m.read other := by
  unfold erase
  rw [read_filter_key m (fun k => k != addr) other]
  by_cases h : other = addr <;> simp [h]

end Memory

namespace Gc

theorem mem_setErase (set : List ObjPtr) (obj o : ObjPtr) :
    o ∈ setErase set obj ↔ o ∈ set ∧ o ≠ obj := by
  simp [setErase]

theorem mem_setInsert (set : List ObjPtr) (obj o : ObjPtr) :
    o ∈ setInsert set obj ↔ o ∈ set ∨ o = obj := by
  unfold setInsert
  by_cases h : obj ∈ set
  · simp only [h, if_true]
    constructor
    · exact Or.inl
    · rintro (h1 | h1)
      · exact h1
      · subst h1; exact h
  · simp [h]

theorem foldl_deleteYoung (w : GcWorld) (dead : List ObjPtr) (gc : Gc) :
    (dead.foldl (deleteYoung w) gc).youngGeneration =
        gc.youngGeneration.filter (fun o => !dead.contains o) ∧
    (dead.foldl (deleteYoung w) gc).oldGeneration = gc.oldGeneration ∧
    (dead.foldl (deleteYoung w) gc).objectMetadata =
        gc.objectMetadata.filter (fun e => !dead.contains ⟨e.1⟩) ∧
    (dead.foldl (deleteYoung w) gc).roots = gc.roots ∧
    (dead.foldl (deleteYoung w) gc).youngGenCapacity = gc.youngGenCapacity ∧
    (dead.foldl (deleteYoung w) gc).oldGenCapacity = gc.oldGenCapacity ∧
    (dead.foldl (deleteYoung w) gc).youngGenCollections = gc.youngGenCollections := by
  induction dead generalizing gc with
  | nil => simp
  | cons d rest ih =>
    simp only [List.foldl_cons]
    obtain ⟨h1, h2, h3, h4, h5, h6, h7⟩ := ih (deleteYoung w gc d)
    refine ⟨?_, ?_, ?_, ?_, ?_, ?_, ?_⟩
    · rw [h1]
      simp only [deleteYoung, setErase, List.filter_filter]
      congr 1
      funext o
      by_cases hod : o = d
      · subst hod; simp
      · have : (d == o) = false := by simpa using fun e => hod e.symm
        simp [List.contains_cons, hod, this, Bool.and_comm]
    · rw [h2]; rfl
    · rw [h3]
      simp only [deleteYoung, Memory.erase, List.filter_filter]
      congr 1
      funext e
      by_cases hod : e.1 = d.addr
      · have : (⟨e.1⟩ : ObjPtr) = d := by cases d; simp_all
        simp [List.contains_cons, hod, this]
      · have hne : (⟨e.1⟩ : ObjPtr) ≠ d := by
          intro h; apply hod; rw [← h]
        have : (d == (⟨e.1⟩ : ObjPtr)) = false := by simpa using fun e2 => hne e2.symm
        simp [List.contains_cons, hod, hne, this, Bool.and_comm]
    · rw [h4]; rfl
    · rw [h5]; rfl
    · rw [h6]; rfl
    · rw [h7]; rfl

theorem foldl_deleteOld (w : GcWorld) (dead : List ObjPtr) (gc : Gc) :
    (dead.foldl (deleteOld w) gc).oldGeneration =
        gc.oldGeneration.filter (fun o => !dead.contains o) ∧
    (dead.foldl (deleteOld w) gc).youngGeneration = gc.youngGeneration ∧
    (dead.foldl (deleteOld w) gc).objectMetadata =
        gc.objectMetadata.filter (fun e => !dead.contains ⟨e.1⟩) ∧
    (dead.foldl (deleteOld w) gc).roots = gc.roots ∧
    (dead.foldl (deleteOld w) gc).youngGenCapacity = gc.youngGenCapacity ∧
    (dead.foldl (deleteOld w) gc).oldGenCapacity = gc.oldGenCapacity ∧
    (dead.foldl (deleteOld w) gc).youngGenCollections = gc.youngGenCollections := by
  induction dead generalizing gc with
  | nil => simp
  | cons d rest ih =>
    simp only [List.foldl_cons]
    obtain ⟨h1, h2, h3, h4, h5, h6, h7⟩ := ih (deleteOld w gc d)
    refine ⟨?_, ?_, ?_, ?_, ?_, ?_, ?_⟩
    · rw [h1]
      simp only [deleteOld, setErase, List.filter_filter]
      congr 1
      funext o
      by_cases hod : o = d
      · subst hod; simp
      · have : (d == o) = false := by simpa using fun e => hod e.symm
        simp [List.contains_cons, hod, this, Bool.and_comm]
    · rw [h2]; rfl
    · rw [h3]
      simp only [deleteOld, Memory.erase, List.filter_filter]
      congr 1
      funext e
      by_cases hod : e.1 = d.addr
      · have : (⟨e.1⟩ : ObjPtr) = d := by cases d; simp_all
        simp [List.contains_cons, hod, this]
      · have hne : (⟨e.1⟩ : ObjPtr) ≠ d := by
          intro h; apply hod; rw [← h]
        have : (d == (⟨e.1⟩ : ObjPtr)) = false := by simpa using fun e2 => hne e2.symm
        simp [List.contains_cons, hod, hne, this, Bool.and_comm]
    · rw [h4]; rfl
    · rw [h5]; rfl
    · rw [h6]; rfl
    · rw [h7]; rfl


theorem read_filter_dead (md : Memory GcObjectMetadata) (dead : List ObjPtr) (obj : ObjPtr) :
    Memory.read (List.filter (fun e => !dead.contains ⟨e.1⟩) md) obj.addr =
      if obj ∈ dead then none else md.read obj.addr := by
  have h := Memory.read_filter_key md (fun k => !dead.contains ⟨k⟩) obj.addr
  simp only at h
  rw [h]
  have hobj : (⟨obj.addr⟩ : ObjPtr) = obj := by cases obj; rfl
  rw [hobj]
  by_cases hm : obj ∈ dead
  · have : dead.contains obj = true := by simpa using hm
    simp [hm, this]
  · have : dead.contains obj = false := by simpa using hm
    simp [hm, this]

theorem isGarbage_iff (gc : Gc) (obj : ObjPtr) :
    gc.isGarbage obj = true ↔
      (gc.objectMetadata.read obj.addr = none ∨
        ∃ m, gc.objectMetadata.read obj.addr = some m ∧ m.marked = false) := by
  unfold isGarbage
  cases h : gc.objectMetadata.read obj.addr <;> simp

theorem contains_filter_isGarbage (gc : Gc) (set : List ObjPtr) (obj : ObjPtr) :
    (set.filter gc.isGarbage).contains obj = true ↔ obj ∈ set ∧ gc.isGarbage obj = true := by
  simp [List.contains_iff_exists_mem_beq]

end Gc

/-! ## Sweep -/

namespace Gc

theorem sweep_young (w : GcWorld) (gc : Gc) :
    (∀ obj, obj ∈ (sweep w 0 gc).youngGeneration ↔
        obj ∈ gc.youngGeneration ∧ gc.isGarbage obj = false) ∧
    (∀ obj, obj ∈ gc.youngGeneration → gc.isGarbage obj = true →
        (sweep w 0 gc).objectMetadata.read obj.addr = none) ∧
    (∀ obj, ¬ (obj ∈ gc.youngGeneration ∧ gc.isGarbage obj = true) →
        (sweep w 0 gc).objectMetadata.read obj.addr = gc.objectMetadata.read obj.addr) ∧
    (sweep w 0 gc).oldGeneration = gc.oldGeneration := by
  obtain ⟨h1, h2, h3, _⟩ := foldl_deleteYoung w (gc.youngGeneration.filter gc.isGarbage) gc
  have hsweep : sweep w 0 gc =
      (gc.youngGeneration.filter gc.isGarbage).foldl (deleteYoung w) gc := by
    simp [sweep]
  rw [hsweep]
  refine ⟨?_, ?_, ?_, h2⟩
  · intro obj
    rw [h1]
    simp only [List.mem_filter, Bool.not_eq_true', ← Bool.not_eq_true,
      contains_filter_isGarbage]
    constructor
    · rintro ⟨hm, hn⟩
      exact ⟨hm, fun hg => hn ⟨hm, hg⟩⟩
    · rintro ⟨hm, hn⟩
      exact ⟨hm, fun hg => hn hg.2⟩
  · intro obj hm hg
    rw [h3, read_filter_dead]
    exact if_pos (List.mem_filter.2 ⟨hm, hg⟩)
  · intro obj hn
    rw [h3, read_filter_dead]
    exact if_neg (fun hmem => hn (List.mem_filter.1 hmem))

theorem sweep_old (w : GcWorld) (gc : Gc) :
    (∀ obj, obj ∈ (sweep w 1 gc).oldGeneration ↔
        obj ∈ gc.oldGeneration ∧ gc.isGarbage obj = false) ∧
    (∀ obj, obj ∈ gc.oldGeneration → gc.isGarbage obj = true →
        (sweep w 1 gc).objectMetadata.read obj.addr = none) ∧
    (∀ obj, ¬ (obj ∈ gc.oldGeneration ∧ gc.isGarbage obj = true) →
        (sweep w 1 gc).objectMetadata.read obj.addr = gc.objectMetadata.read obj.addr) ∧
    (sweep w 1 gc).youngGeneration = gc.youngGeneration := by
  obtain ⟨h1, h2, h3, _⟩ := foldl_deleteOld w (gc.oldGeneration.filter gc.isGarbage) gc
  have hsweep : sweep w 1 gc =
      (gc.oldGeneration.filter gc.isGarbage).foldl (deleteOld w) gc := by
    simp [sweep]
  rw [hsweep]
  refine ⟨?_, ?_, ?_, h2⟩
  · intro obj
    rw [h1]
    simp only [List.mem_filter, Bool.not_eq_true', ← Bool.not_eq_true,
      contains_filter_isGarbage]
    constructor
    · rintro ⟨hm, hn⟩
      exact ⟨hm, fun hg => hn ⟨hm, hg⟩⟩
    · rintro ⟨hm, hn⟩
      exact ⟨hm, fun hg => hn hg.2⟩
  · intro obj hm hg
    rw [h3, read_filter_dead]
    exact if_pos (List.mem_filter.2 ⟨hm, hg⟩)
  · intro obj hn
    rw [h3, read_filter_dead]
    exact if_neg (fun hmem => hn (List.mem_filter.1 hmem))

theorem sweep_fields (w : GcWorld) (g : Int) (gc : Gc) :
    (sweep w g gc).roots = gc.roots ∧
    (sweep w g gc).youngGenCapacity = gc.youngGenCapacity ∧
    (sweep w g gc).oldGenCapacity = gc.oldGenCapacity ∧
    (sweep w g gc).youngGenCollections = gc.youngGenCollections := by
  unfold sweep
  by_cases h0 : g = 0
  · simp only [h0, if_true]
    obtain ⟨_, _, _, h4, h5, h6, h7⟩ :=
      foldl_deleteYoung w (gc.youngGeneration.filter gc.isGarbage) gc
    exact ⟨h4, h5, h6, h7⟩
  · by_cases h1 : g = 1
    · simp only [h0, h1, if_true, if_false]
      obtain ⟨_, _, _, h4, h5, h6, h7⟩ :=
        foldl_deleteOld w (gc.oldGeneration.filter gc.isGarbage) gc
      simp only [one_ne_zero, if_false]
      exact ⟨h4, h5, h6, h7⟩
    · simp [h0, h1]

end Gc

/-- Claim C26. For every collector state: sweep of generation 0 keeps in the
young generation exactly the objects that have metadata with the mark bit
set; the metadata entry of every young object it removes is erased; the
metadata of every other object, in particular of every marked young object,
is unchanged; and the old generation is unchanged. Sweep of generation 1
does the same with the roles of the two generations exchanged. Sweep with
any other generation number returns the state unchanged. An object is
removed when it has no metadata or its mark bit is clear. -/
theorem Gc.sweep_removes_exactly_unmarked (w : GcWorld) (gc : Gc) :
    ((∀ obj, obj ∈ (Gc.sweep w 0 gc).youngGeneration ↔
        obj ∈ gc.youngGeneration ∧ gc.isGarbage obj = false) ∧
      (∀ obj, obj ∈ gc.youngGeneration → gc.isGarbage obj = true →
        (Gc.sweep w 0 gc).objectMetadata.read obj.addr = none) ∧
      (∀ obj, ¬ (obj ∈ gc.youngGeneration ∧ gc.isGarbage obj = true) →
        (Gc.sweep w 0 gc).objectMetadata.read obj.addr =
          gc.objectMetadata.read obj.addr) ∧
      (Gc.sweep w 0 gc).oldGeneration = gc.oldGeneration) ∧
    ((∀ obj, obj ∈ (Gc.sweep w 1 gc).oldGeneration ↔
        obj ∈ gc.oldGeneration ∧ gc.isGarbage obj = false) ∧
      (∀ obj, obj ∈ gc.oldGeneration → gc.isGarbage obj = true →
        (Gc.sweep w 1 gc).objectMetadata.read obj.addr = none) ∧
      (∀ obj, ¬ (obj ∈ gc.oldGeneration ∧ gc.isGarbage obj = true) →
        (Gc.sweep w 1 gc).objectMetadata.read obj.addr =
          gc.objectMetadata.read obj.addr) ∧
      (Gc.sweep w 1 gc).youngGeneration = gc.youngGeneration) ∧
    (∀ g : Int, g ≠ 0 → g ≠ 1 → Gc.sweep w g gc = gc) ∧
    (∀ obj, gc.isGarbage obj = true ↔
      (gc.objectMetadata.read obj.addr = none ∨
        ∃ m, gc.objectMetadata.read obj.addr = some m ∧ m.marked = false)) := by
  refine ⟨Gc.sweep_young w gc, Gc.sweep_old w gc, ?_, Gc.isGarbage_iff gc⟩
  intro g h0 h1
  simp [Gc.sweep, h0, h1]

/-! ## Promotion -/

namespace Gc

theorem objPtr_eta (obj : ObjPtr) : (⟨obj.addr⟩ : ObjPtr) = obj := by
  cases obj; rfl

theorem addr_ne_of_ne {a b : ObjPtr} (h : a ≠ b) : a.addr ≠ b.addr := by
  intro h2
  apply h
  cases a; cases b; simp_all

theorem foldl_ageObject (young : List ObjPtr) (hnodup : young.Nodup) :
    ∀ (md : Memory GcObjectMetadata) (listed : List ObjPtr),
      (∀ obj, (young.foldl ageObject (md, listed)).1.read obj.addr =
          if obj ∈ young then (md.read obj.addr).map aged else md.read obj.addr) ∧
      (young.foldl ageObject (md, listed)).2 = listed ++ young.filter (isPromoted md) := by
  induction young with
  | nil => intro md listed; simp
  | cons x rest ih =>
    intro md listed
    have hx : x ∉ rest := (List.nodup_cons.1 hnodup).1
    have hrest : rest.Nodup := (List.nodup_cons.1 hnodup).2
    simp only [List.foldl_cons]
    -- the state after the step on `x`
    have hstep : ∀ obj, (ageObject (md, listed) x).1.read obj.addr =
        if obj = x then (md.read obj.addr).map aged else md.read obj.addr := by
      intro obj
      unfold ageObject
      by_cases hobj : obj = x
      · subst hobj
        cases hr : md.read obj.addr with
        | none => simp [hr]
        | some m =>
          by_cases hm : m.marked = true
          · simp [hr, hm, aged, Memory.read_write_self]
          · simp [hr, hm, aged]
      · cases hr : md.read x.addr with
        | none => simp [hr, hobj]
        | some m =>
          by_cases hm : m.marked = true
          · simp [hr, hm, hobj, Memory.read_write_other _ _ _ _ (addr_ne_of_ne hobj)]
          · simp [hr, hm, hobj]
    have hlist : (ageObject (md, listed) x).2 =
        listed ++ (if isPromoted md x then [x] else []) := by
      unfold ageObject isPromoted
      cases hr : md.read x.addr with
      | none => simp [hr]
      | some m =>
        by_cases hm : m.marked = true
        · by_cases ha : m.age + 1 ≥ PROMOTION_THRESHOLD
          · simp [hr, hm, ha]
          · simp [hr, hm, ha]
        · simp [hr, hm]
    obtain ⟨ih1, ih2⟩ := ih hrest (ageObject (md, listed) x).1 (ageObject (md, listed) x).2
    constructor
    · intro obj
      rw [ih1 obj, hstep obj]
      by_cases hobj : obj = x
      · subst hobj
        simp [hx]
      · simp [hobj]
    · rw [ih2, hlist]
      have hfilter : rest.filter (isPromoted (ageObject (md, listed) x).1) =
          rest.filter (isPromoted md) := by
        apply List.filter_congr
        intro obj hmem
        have hne : obj ≠ x := fun h => hx (h ▸ hmem)
        unfold isPromoted
        rw [hstep obj]
        simp [hne]
      rw [hfilter]
      by_cases hp : isPromoted md x = true
      · simp [List.filter, hp]
      · have hp2 : isPromoted md x = false := by simpa using hp
        simp [List.filter, hp2]

theorem map_promoted_idem (o : Option GcObjectMetadata) :
    (o.map promoted).map promoted = o.map promoted := by
  cases o <;> rfl

theorem foldl_promoteObject (listed : List ObjPtr) :
    ∀ gc : Gc,
      (∀ o, o ∈ (listed.foldl promoteObject gc).youngGeneration ↔
          o ∈ gc.youngGeneration ∧ o ∉ listed) ∧
      (∀ o, o ∈ (listed.foldl promoteObject gc).oldGeneration ↔
          o ∈ gc.oldGeneration ∨ o ∈ listed) ∧
      (∀ obj, (listed.foldl promoteObject gc).objectMetadata.read obj.addr =
          if obj ∈ listed then (gc.objectMetadata.read obj.addr).map promoted
          else gc.objectMetadata.read obj.addr) ∧
      (listed.foldl promoteObject gc).roots = gc.roots ∧
      (listed.foldl promoteObject gc).youngGenCapacity = gc.youngGenCapacity ∧
      (listed.foldl promoteObject gc).oldGenCapacity = gc.oldGenCapacity ∧
      (listed.foldl promoteObject gc).youngGenCollections = gc.youngGenCollections ∧
      (listed.foldl promoteObject gc).bytesAllocated = gc.bytesAllocated := by
  induction listed with
  | nil => intro gc; simp
  | cons x rest ih =>
    intro gc
    simp only [List.foldl_cons]
    obtain ⟨h1, h2, h3, h4, h5, h6, h7, h8⟩ := ih (promoteObject gc x)
    have hmd : ∀ obj, (promoteObject gc x).objectMetadata.read obj.addr =
        if obj = x then (gc.objectMetadata.read obj.addr).map promoted
        else gc.objectMetadata.read obj.addr := by
      intro obj
      simp only [promoteObject]
      by_cases hobj : obj = x
      · subst hobj
        cases hr : gc.objectMetadata.read obj.addr with
        | none => simp [hr]
        | some m => simp [hr, Memory.read_write_self, promoted]
      · cases hr : gc.objectMetadata.read x.addr with
        | none => simp [hr, hobj]
        | some m => simp [hr, hobj, Memory.read_write_other _ _ _ _ (addr_ne_of_ne hobj)]
    refine ⟨?_, ?_, ?_, ?_, ?_, ?_, ?_, ?_⟩
    · intro o
      rw [h1 o]
      simp only [promoteObject, mem_setErase, List.mem_cons, not_or]
      tauto
    · intro o
      rw [h2 o]
      simp only [promoteObject, mem_setInsert, List.mem_cons]
      tauto
    · intro obj
      rw [h3 obj, hmd obj]
      by_cases hobj : obj = x
      · subst hobj
        by_cases hr : obj ∈ rest
        · simp only [hr, if_true, List.mem_cons, true_or, map_promoted_idem]
        · simp [hr]
      · simp [hobj]
    · rw [h4]; rfl
    · rw [h5]; rfl
    · rw [h6]; rfl
    · rw [h7]; rfl
    · rw [h8]; rfl

end Gc

namespace Gc

theorem promoteObjects_spec (gc : Gc) (hset : gc.youngGeneration.Nodup) :
    (∀ o, o ∈ (promoteObjects gc).youngGeneration ↔
        o ∈ gc.youngGeneration ∧ isPromoted gc.objectMetadata o = false) ∧
    (∀ o, o ∈ (promoteObjects gc).oldGeneration ↔
        o ∈ gc.oldGeneration ∨ (o ∈ gc.youngGeneration ∧ isPromoted gc.objectMetadata o = true)) ∧
    (∀ obj, (promoteObjects gc).objectMetadata.read obj.addr =
        if obj ∈ gc.youngGeneration then
          (if isPromoted gc.objectMetadata obj then
            ((gc.objectMetadata.read obj.addr).map aged).map promoted
          else (gc.objectMetadata.read obj.addr).map aged)
        else gc.objectMetadata.read obj.addr) ∧
    (promoteObjects gc).roots = gc.roots ∧
    (promoteObjects gc).youngGenCapacity = gc.youngGenCapacity ∧
    (promoteObjects gc).oldGenCapacity = gc.oldGenCapacity ∧
    (promoteObjects gc).youngGenCollections = gc.youngGenCollections ∧
    (promoteObjects gc).bytesAllocated = gc.bytesAllocated := by
  obtain ⟨ha1, ha2⟩ := foldl_ageObject gc.youngGeneration hset gc.objectMetadata []
  simp only [List.nil_append] at ha2
  obtain ⟨h1, h2, h3, h4, h5, h6, h7, h8⟩ :=
    foldl_promoteObject (gc.youngGeneration.foldl ageObject (gc.objectMetadata, [])).2
      { gc with objectMetadata :=
          (gc.youngGeneration.foldl ageObject (gc.objectMetadata, [])).1 }
  have hdef : promoteObjects gc =
      (gc.youngGeneration.foldl ageObject (gc.objectMetadata, [])).2.foldl promoteObject
        { gc with objectMetadata :=
            (gc.youngGeneration.foldl ageObject (gc.objectMetadata, [])).1 } := rfl
  rw [hdef]
  refine ⟨?_, ?_, ?_, h4, h5, h6, h7, h8⟩
  · intro o
    rw [h1 o, ha2]
    simp only [List.mem_filter, not_and, Bool.not_eq_true]
    constructor
    · rintro ⟨hm, hn⟩; exact ⟨hm, hn hm⟩
    · rintro ⟨hm, hn⟩; exact ⟨hm, fun _ => hn⟩
  · intro o
    rw [h2 o, ha2]
    simp only [List.mem_filter]
  · intro obj
    rw [h3 obj, ha2]
    simp only [ha1 obj, List.mem_filter]
    by_cases hm : obj ∈ gc.youngGeneration
    · by_cases hp : isPromoted gc.objectMetadata obj = true
      · simp [hm, hp]
      · simp [hm, hp]
    · simp [hm]

end Gc

namespace Gc

theorem promoteObjects_fields (gc : Gc) :
    (promoteObjects gc).roots = gc.roots ∧
    (promoteObjects gc).youngGenCapacity = gc.youngGenCapacity ∧
    (promoteObjects gc).oldGenCapacity = gc.oldGenCapacity ∧
    (promoteObjects gc).youngGenCollections = gc.youngGenCollections ∧
    (promoteObjects gc).bytesAllocated = gc.bytesAllocated := by
  obtain ⟨_, _, _, h4, h5, h6, h7, h8⟩ :=
    foldl_promoteObject (gc.youngGeneration.foldl ageObject (gc.objectMetadata, [])).2
      { gc with objectMetadata :=
          (gc.youngGeneration.foldl ageObject (gc.objectMetadata, [])).1 }
  exact ⟨h4, h5, h6, h7, h8⟩

theorem markPhase_fields (w : GcWorld) (full : Bool) (gc : Gc) :
    (markPhase w full gc).roots = gc.roots ∧
    (markPhase w full gc).youngGeneration = gc.youngGeneration ∧
    (markPhase w full gc).oldGeneration = gc.oldGeneration ∧
    (markPhase w full gc).youngGenCapacity = gc.youngGenCapacity ∧
    (markPhase w full gc).oldGenCapacity = gc.oldGenCapacity ∧
    (markPhase w full gc).youngGenCollections = gc.youngGenCollections ∧
    (markPhase w full gc).bytesAllocated = gc.bytesAllocated :=
  ⟨rfl, rfl, rfl, rfl, rfl, rfl, rfl⟩

/-- The state of a minor collection after its sweep, before the test of the
collection counter. -/
theorem minor_counter (w : GcWorld) (gc : Gc) :
    (sweep w 0 { promoteObjects (markPhase w false gc) with
      youngGenCollections :=
        (promoteObjects (markPhase w false gc)).youngGenCollections + 1 }).youngGenCollections =
      gc.youngGenCollections + 1 := by
  rw [(sweep_fields w 0 _).2.2.2]
  simp only
  rw [(promoteObjects_fields _).2.2.2.1]
  rfl

end Gc

/-! ## The collection counter -/

/-- Claim C28. For every collector state and every world: a full collection
leaves the counter of minor collections at 0; a minor collection whose
increment brings the counter to 5 or more continues with a full collection
before it returns, and so leaves the counter at 0; any other minor
collection leaves the counter one higher than before. Hence the counter is
at most 4 after any collection. -/
theorem Gc.collectGarbage_bounds_counter (w : GcWorld) (gc : Gc) :
    (Gc.collectGarbage w true gc).youngGenCollections = 0 ∧
    (gc.youngGenCollections + 1 ≥ 5 →
      Gc.collectGarbage w false gc =
        Gc.collectFull w
          (Gc.sweep w 0 { Gc.promoteObjects (Gc.markPhase w false gc) with
            youngGenCollections :=
              (Gc.promoteObjects (Gc.markPhase w false gc)).youngGenCollections + 1 }) ∧
      (Gc.collectGarbage w false gc).youngGenCollections = 0) ∧
    (gc.youngGenCollections + 1 < 5 →
      (Gc.collectGarbage w false gc).youngGenCollections = gc.youngGenCollections + 1) ∧
    (∀ full, (Gc.collectGarbage w full gc).youngGenCollections ≤ 4) := by
  have hfull : (Gc.collectGarbage w true gc).youngGenCollections = 0 := rfl
  have hminor := Gc.minor_counter w gc
  have hge : gc.youngGenCollections + 1 ≥ 5 →
      Gc.collectGarbage w false gc =
        Gc.collectFull w
          (Gc.sweep w 0 { Gc.promoteObjects (Gc.markPhase w false gc) with
            youngGenCollections :=
              (Gc.promoteObjects (Gc.markPhase w false gc)).youngGenCollections + 1 }) := by
    intro h
    simp only [Gc.collectGarbage, Bool.false_eq_true, if_false]
    rw [if_pos (by rw [hminor]; exact h)]
  have hlt : gc.youngGenCollections + 1 < 5 →
      Gc.collectGarbage w false gc =
        Gc.sweep w 0 { Gc.promoteObjects (Gc.markPhase w false gc) with
          youngGenCollections :=
            (Gc.promoteObjects (Gc.markPhase w false gc)).youngGenCollections + 1 } := by
    intro h
    simp only [Gc.collectGarbage, Bool.false_eq_true, if_false]
    rw [if_neg (by rw [hminor]; omega)]
  refine ⟨hfull, fun h => ⟨hge h, by rw [hge h]; rfl⟩, fun h => by rw [hlt h, hminor], ?_⟩
  intro full
  cases full
  · by_cases h : gc.youngGenCollections + 1 ≥ 5
    · rw [hge h]
      show (0 : Int) ≤ 4
      decide
    · have h2 : gc.youngGenCollections + 1 < 5 := by omega
      rw [hlt h2, hminor]
      omega
  · rw [hfull]
    decide

/-! ## Ageing and promotion in a minor collection -/

/-- Claim C27. For every collector state whose young generation is a set,
and every young object with metadata `m`: when the mark bit is clear,
promoteObjects leaves the metadata, the age included, and the object stays
young; when the mark bit is set and the incremented age is below the
threshold 3, the age is one more and the object stays young; when the mark
bit is set and the incremented age has reached 3, the object leaves the young
generation, joins the old one, and its metadata has generation 1 and age 0.
An object that starts at age 0 is therefore promoted by the third minor
collection it survives, not by the first or second. The sweep of the young
generation that follows in the same minor collection does not take a promoted
object: it is a member of the old generation afterwards, with its
metadata. -/
theorem Gc.promoteObjects_ages_then_promotes (gc : Gc) (hset : gc.youngGeneration.Nodup) :
    (∀ obj m, obj ∈ gc.youngGeneration → gc.objectMetadata.read obj.addr = some m →
      (m.marked = false →
        (Gc.promoteObjects gc).objectMetadata.read obj.addr = some m ∧
        obj ∈ (Gc.promoteObjects gc).youngGeneration) ∧
      (m.marked = true → m.age + 1 < Gc.PROMOTION_THRESHOLD →
        (Gc.promoteObjects gc).objectMetadata.read obj.addr =
          some { m with age := m.age + 1 } ∧
        obj ∈ (Gc.promoteObjects gc).youngGeneration ∧
        (obj ∈ (Gc.promoteObjects gc).oldGeneration ↔ obj ∈ gc.oldGeneration)) ∧
      (m.marked = true → m.age + 1 ≥ Gc.PROMOTION_THRESHOLD →
        (Gc.promoteObjects gc).objectMetadata.read obj.addr =
          some { m with generation := 1, age := 0 } ∧
        obj ∉ (Gc.promoteObjects gc).youngGeneration ∧
        obj ∈ (Gc.promoteObjects gc).oldGeneration ∧
        ∀ (w : GcWorld) (count : Int),
          obj ∈ (Gc.sweep w 0
            { Gc.promoteObjects gc with youngGenCollections := count }).oldGeneration ∧
          obj ∉ (Gc.sweep w 0
            { Gc.promoteObjects gc with youngGenCollections := count }).youngGeneration ∧
          (Gc.sweep w 0
            { Gc.promoteObjects gc with youngGenCollections := count }).objectMetadata.read
              obj.addr = some { m with generation := 1, age := 0 })) ∧
    Gc.PROMOTION_THRESHOLD = 3 ∧
    (∀ age : Int, age + 1 ≥ Gc.PROMOTION_THRESHOLD ↔ 2 ≤ age) ∧
    (∀ w, gc.youngGenCollections + 1 < 5 →
      Gc.collectGarbage w false gc =
        Gc.sweep w 0 { Gc.promoteObjects (Gc.markPhase w false gc) with
          youngGenCollections :=
            (Gc.promoteObjects (Gc.markPhase w false gc)).youngGenCollections + 1 }) := by
  obtain ⟨hy, ho, hmd, _⟩ := Gc.promoteObjects_spec gc hset
  refine ⟨?_, rfl, ?_, ?_⟩
  · intro obj m hmem hread
    refine ⟨?_, ?_, ?_⟩
    · intro hm
      have hp : Gc.isPromoted gc.objectMetadata obj = false := by
        simp [Gc.isPromoted, hread, hm]
      refine ⟨?_, (hy obj).2 ⟨hmem, hp⟩⟩
      rw [hmd obj]
      simp [hmem, hp, hread, Gc.aged, hm]
    · intro hm hage
      have hp : Gc.isPromoted gc.objectMetadata obj = false := by
        simp only [Gc.isPromoted, hread, hm, Bool.true_and, decide_eq_false_iff_not]
        omega
      refine ⟨?_, (hy obj).2 ⟨hmem, hp⟩, ?_⟩
      · rw [hmd obj]
        simp [hmem, hp, hread, Gc.aged, hm]
      · rw [ho obj]
        simp [hp]
    · intro hm hage
      have hp : Gc.isPromoted gc.objectMetadata obj = true := by
        simp only [Gc.isPromoted, hread, hm, Bool.true_and, decide_eq_true_eq]
        exact hage
      have hmd2 : (Gc.promoteObjects gc).objectMetadata.read obj.addr =
          some { m with generation := 1, age := 0 } := by
        rw [hmd obj]
        simp [hmem, hp, hread, Gc.aged, hm, Gc.promoted]
      have hny : obj ∉ (Gc.promoteObjects gc).youngGeneration := by
        rw [hy obj]
        simp [hp]
      have hio : obj ∈ (Gc.promoteObjects gc).oldGeneration := (ho obj).2 (Or.inr ⟨hmem, hp⟩)
      refine ⟨hmd2, hny, hio, ?_⟩
      intro w count
      obtain ⟨s1, _, s3, s4⟩ :=
        Gc.sweep_young w { Gc.promoteObjects gc with youngGenCollections := count }
      refine ⟨by rw [s4]; exact hio, fun h => hny ((s1 obj).1 h).1, ?_⟩
      rw [s3 obj (fun h => hny h.1)]
      exact hmd2
  · intro age
    simp only [Gc.PROMOTION_THRESHOLD]
    omega
  · intro w h
    have hminor := Gc.minor_counter w gc
    simp only [Gc.collectGarbage, Bool.false_eq_true, if_false]
    rw [if_neg (by rw [hminor]; omega)]

/-- Witness for claim C27, on a state with three marked young objects of
ages 0, 1 and 2: only the third is promoted. -/
theorem Gc.promoteObjects_ages_then_promotes_witness :
    (Gc.promoteObjects sampleAges).objectMetadata.read 3 = some ⟨⟨3⟩, 1, 0, true⟩ ∧
    (⟨3⟩ : ObjPtr) ∉ (Gc.promoteObjects sampleAges).youngGeneration ∧
    (⟨3⟩ : ObjPtr) ∈ (Gc.promoteObjects sampleAges).oldGeneration ∧
    (Gc.promoteObjects sampleAges).objectMetadata.read 1 = some ⟨⟨1⟩, 0, 1, true⟩ ∧
    (⟨1⟩ : ObjPtr) ∈ (Gc.promoteObjects sampleAges).youngGeneration :=
  ⟨(((Gc.promoteObjects_ages_then_promotes sampleAges (by decide)).1 ⟨3⟩ ⟨⟨3⟩, 0, 2, true⟩
      (by decide) rfl).2.2 rfl (by decide)).1,
   (((Gc.promoteObjects_ages_then_promotes sampleAges (by decide)).1 ⟨3⟩ ⟨⟨3⟩, 0, 2, true⟩
      (by decide) rfl).2.2 rfl (by decide)).2.1,
   (((Gc.promoteObjects_ages_then_promotes sampleAges (by decide)).1 ⟨3⟩ ⟨⟨3⟩, 0, 2, true⟩
      (by decide) rfl).2.2 rfl (by decide)).2.2.1,
   (((Gc.promoteObjects_ages_then_promotes sampleAges (by decide)).1 ⟨1⟩ ⟨⟨1⟩, 0, 0, true⟩
      (by decide) rfl).2.1 rfl (by decide)).1,
   (((Gc.promoteObjects_ages_then_promotes sampleAges (by decide)).1 ⟨1⟩ ⟨⟨1⟩, 0, 0, true⟩
      (by decide) rfl).2.1 rfl (by decide)).2.1⟩

/-! ## Calling a class -/

theorem CCubeClass.findMethod_write_fresh (objects : Memory Object) (o : Object) (name : String) :
    ∀ (fuel : Nat) (klass result : ObjPtr), findMethod objects fuel klass name = some result →
      findMethod (objects.write (Memory.fresh objects) o) fuel klass name = some result := by
  intro fuel
  induction fuel with
  | zero => intro klass result h; simp [findMethod] at h
  | succ n ih =>
    intro klass result h
    unfold findMethod at h ⊢
    have hne : klass.addr ≠ Memory.fresh objects := by
      intro heq
      rw [heq, Memory.read_fresh] at h
      simp at h
    rw [Memory.read_write_other _ _ _ _ hne]
    cases hr : objects.read klass.addr with
    | none => rw [hr] at h; simp at h
    | some ob =>
      rw [hr] at h
      cases ob with
      | klass c =>
        simp only at h ⊢
        cases hl : c.methods.lookup name with
        | some method => rw [hl] at h; simpa using h
        | none =>
          rw [hl] at h
          simp only at h ⊢
          cases hs : c.superclass with
          | none => rw [hs] at h; simpa using h
          | some superclass => rw [hs] at h; exact ih superclass result h
      | _ => simp at h

/-- Claim C22. Whenever the lookup of `init` from a class along its superclass
chain comes to an end: the instance handle of a call is fresh and the object
there is an instance of that class without properties; the arity of the class
is the arity of the `init` found, or 0 when none is found; with no `init` a
call with no arguments returns the instance and a call with arguments throws
the runtime error `Expected 0 arguments but got n.`; with an `init`, the
function called has the parameters and body of `init` and a new environment,
enclosed by the closure of `init`, in which `this` is the new instance, it is
called with the arguments of the call, and when it returns or signals a
return the call returns the instance, while any other exception leaves the
call. -/
theorem CCubeClass.call_constructs_instance (functionArity : ObjPtr → Nat)
    (callFunction : CCubeFunction → List Value → Eval Runtime Value)
    (fuel : Nat) (self : ObjPtr) (arguments : List Value) (s : Runtime) (initializer : ObjPtr)
    (hfind : findMethod s.objects fuel self "init" = some initializer) :
    s.objects.read (s.newObject (.inst ⟨self, []⟩)).1.addr = none ∧
    (s.newObject (.inst ⟨self, []⟩)).2.objects.read (s.newObject (.inst ⟨self, []⟩)).1.addr =
      some (.inst ⟨self, []⟩) ∧
    arity functionArity s.objects fuel self =
      some (if initializer.isNull then 0 else functionArity initializer) ∧
    (initializer.isNull = true →
      (arguments = [] →
        call callFunction fuel self arguments s =
          (.ok (.object (s.newObject (.inst ⟨self, []⟩)).1), (s.newObject (.inst ⟨self, []⟩)).2)) ∧
      (arguments ≠ [] →
        call callFunction fuel self arguments s =
          (.error (.runtime_error
            ("Expected 0 arguments but got " ++ toString arguments.length ++ ".")),
           (s.newObject (.inst ⟨self, []⟩)).2))) ∧
    (initializer.isNull = false → ∀ f, s.objects.read initializer.addr = some (.function f) →
      ∀ init_env s3,
        init_env = ((s.newObject (.inst ⟨self, []⟩)).2.newEnvironment (some f.closure)).1 →
        s3 = (((s.newObject (.inst ⟨self, []⟩)).2.newEnvironment (some f.closure)).2.define
          init_env "this" (.object (s.newObject (.inst ⟨self, []⟩)).1)) →
        s.environments.read init_env.addr = none ∧
        s3.environments.read init_env.addr =
          some ⟨[("this", .object (s.newObject (.inst ⟨self, []⟩)).1)], some f.closure⟩ ∧
        s3.objects = (s.newObject (.inst ⟨self, []⟩)).2.objects ∧
        ∀ outcome s4,
          callFunction
            { declaration := f.declaration, closure := init_env, isInitializer := false }
            arguments s3 = (outcome, s4) →
          ((∀ v, outcome = .ok v →
            call callFunction fuel self arguments s =
              (.ok (.object (s.newObject (.inst ⟨self, []⟩)).1), s4)) ∧
           (∀ v, outcome = .error (.ReturnException v) →
            call callFunction fuel self arguments s =
              (.ok (.object (s.newObject (.inst ⟨self, []⟩)).1), s4)) ∧
           (∀ e, outcome = .error e → (∀ v, e ≠ .ReturnException v) →
            call callFunction fuel self arguments s =
              (.error (rethrowAsRuntimeError e), s4)))) := by
  have hfind1 := findMethod_write_fresh s.objects (.inst ⟨self, []⟩) "init" fuel self initializer hfind
  have hfresh : s.objects.read (Memory.fresh s.objects) = none := Memory.read_fresh _
  refine ⟨hfresh, Memory.read_write_self _ _ _, ?_, ?_, ?_⟩
  · simp only [arity, hfind]
    cases initializer.isNull <;> simp
  · intro hnull
    refine ⟨?_, ?_⟩
    · intro hargs
      simp [call, Runtime.newObject, hfind1, hnull, hargs]
    · intro hargs
      have : arguments.isEmpty = false := by cases arguments <;> simp_all
      simp [call, Runtime.newObject, hfind1, hnull, this]
  · intro hnull f hf init_env s3 henv hs3
    have hne : initializer.addr ≠ Memory.fresh s.objects := by
      intro heq
      rw [heq, hfresh] at hf
      simp at hf
    have hf1 : (s.objects.write (Memory.fresh s.objects) (.inst ⟨self, []⟩)).read
        initializer.addr = some (.function f) := by
      rw [Memory.read_write_other _ _ _ _ hne]; exact hf
    subst henv
    subst hs3
    refine ⟨Memory.read_fresh _, ?_, ?_, ?_⟩
    · simp [Runtime.newObject, Runtime.newEnvironment, Runtime.define, Memory.read_write_self,
        ValueMap.put]
    · simp only [Runtime.newObject, Runtime.newEnvironment, Runtime.define,
        Memory.read_write_self]
    · intro outcome s4 hrun
      simp only [Runtime.newObject, Runtime.newEnvironment] at hrun
      refine ⟨?_, ?_, ?_⟩
      · intro v hv
        subst hv
        simp [call, Runtime.newObject, Runtime.newEnvironment, hfind1, hnull, hf1, hrun]
      · intro v hv
        subst hv
        simp [call, Runtime.newObject, Runtime.newEnvironment, hfind1, hnull, hf1, hrun]
      · intro e he hnot
        subst he
        simp only [call, Runtime.newObject, Runtime.newEnvironment, hfind1, hnull, hf1, hrun,
          Bool.not_false, if_true]

/-- Witness for claim C22, on a class whose `init` is found in its own
table. -/
theorem CCubeClass.call_constructs_instance_witness :
    CCubeClass.findMethod sampleInitHeap.objects 2 ⟨1⟩ "init" = some ⟨2⟩ ∧
    CCubeClass.arity (fun _ => 7) sampleInitHeap.objects 2 ⟨1⟩ = some 7 ∧
    (CCubeClass.call sampleCallFunction 2 ⟨1⟩ [.boolean true] sampleInitHeap).1 =
      .ok (.object ⟨3⟩) :=
  ⟨rfl,
   (CCubeClass.call_constructs_instance (fun _ => 7) sampleCallFunction 2 ⟨1⟩ [.boolean true]
      sampleInitHeap ⟨2⟩ rfl).2.2.1,
   congrArg Prod.fst
     ((((CCubeClass.call_constructs_instance (fun _ => 7) sampleCallFunction 2 ⟨1⟩
        [.boolean true] sampleInitHeap ⟨2⟩ rfl).2.2.2.2 rfl sampleEmptyInitializer rfl
        _ _ rfl rfl).2.2.2 _ _ rfl).1 Value.none rfl)⟩

/-! ## The superclass of `super` -/

/-- Claim C21, evaluated at an instance of `C < B < A` running the method
`greet` declared in `B`: the lookup of `greet` from `A`, the superclass of the
class that encloses the method, gives the function of `A` at address 4, but
`super.greet` evaluates to a bound method whose function is the one of `B` at
address 5, the method that is running, bound to the instance at address 6. -/
theorem Interpreter.visitSuperExpr_starts_at_dynamic_superclass :
    CCubeClass.findMethod sampleSuperHeap.objects 3 ⟨1⟩ "greet" = some ⟨4⟩ ∧
    (Interpreter.visitSuperExpr sampleCreateObject 3 ⟨.SUPER, "super", .none, 2⟩
      ⟨.IDENTIFIER, "greet", .none, 2⟩ sampleSuperHeap).1 = .ok (.object ⟨7⟩) ∧
    (Interpreter.visitSuperExpr sampleCreateObject 3 ⟨.SUPER, "super", .none, 2⟩
      ⟨.IDENTIFIER, "greet", .none, 2⟩ sampleSuperHeap).2.boundMethodAt (.object ⟨7⟩) =
        some ⟨⟨6⟩, ⟨5⟩⟩ := by
  refine ⟨by decide, by decide, by decide⟩

/-! ## Allocation that triggers a collection -/

/-- Claim C23, evaluated at a collector with a threshold of one object and no
roots: `createObject` returns the handle it registered, and `createList` the
handle of the list it allocated, but the collection that the registration
triggered has swept the object: the young generation is empty and the handle
has no metadata. -/
theorem Gc.createObject_sweeps_new_object :
    (Gc.createObject sampleEmptyWorld 8 ⟨1⟩ sampleSmallGc).1 = ⟨1⟩ ∧
    (Gc.createObject sampleEmptyWorld 8 ⟨1⟩ sampleSmallGc).2.youngGeneration = [] ∧
    (Gc.createObject sampleEmptyWorld 8 ⟨1⟩ sampleSmallGc).2.oldGeneration = [] ∧
    (Gc.createObject sampleEmptyWorld 8 ⟨1⟩ sampleSmallGc).2.objectMetadata.read 1 = none ∧
    (Gc.createList sampleEmptyWorld 8 8 [] sampleSmallGc).1 = ⟨1⟩ ∧
    (Gc.createList sampleEmptyWorld 8 8 [] sampleSmallGc).2.2.youngGeneration = [] ∧
    (Gc.createList sampleEmptyWorld 8 8 [] sampleSmallGc).2.2.objectMetadata.read 1 = none := by
  refine ⟨by decide, by decide, by decide, by decide, by decide, by decide, by decide⟩

/-! ## Roots of a collection -/

/-- Claim C24, evaluated at a world where the evaluator is two blocks deep:
the list at address 1 is bound in the environment that encloses the current
one, and the list at address 3 is bound two environments above the closure of
the function `f` of the globals. Both are young and managed before a minor
collection; after it the function is still young, and neither list is a
member of a generation or has metadata. -/
theorem Gc.collectGarbage_sweeps_enclosing_bindings :
    sampleNestedGc.youngGeneration = [⟨1⟩, ⟨2⟩, ⟨3⟩] ∧
    sampleNestedGc.objectMetadata.read 1 = some ⟨⟨1⟩, 0, 0, false⟩ ∧
    sampleNestedGc.objectMetadata.read 3 = some ⟨⟨3⟩, 0, 0, false⟩ ∧
    (Gc.collectGarbage sampleNestedWorld false sampleNestedGc).youngGeneration = [⟨2⟩] ∧
    (Gc.collectGarbage sampleNestedWorld false sampleNestedGc).oldGeneration = [] ∧
    (Gc.collectGarbage sampleNestedWorld false sampleNestedGc).objectMetadata.read 1 = none ∧
    (Gc.collectGarbage sampleNestedWorld false sampleNestedGc).objectMetadata.read 3 = none := by
  refine ⟨by decide, by decide, by decide, by decide, by decide, by decide, by decide⟩

/-! ## Object handles as roots -/

/-- Claim C30, evaluated at a collector that manages one young object:
`addRoot` sets the mark bit of the object, and the next collection, minor or
full, clears it before marking and sweeps the object. -/
theorem Gc.addRoot_mark_is_reset :
    sampleOneObject.youngGeneration = [⟨1⟩] ∧
    (Gc.addRoot sampleOneObject ⟨1⟩).objectMetadata.read 1 = some ⟨⟨1⟩, 0, 0, true⟩ ∧
    (Gc.collectGarbage sampleEmptyWorld false (Gc.addRoot sampleOneObject ⟨1⟩)).youngGeneration
      = [] ∧
    (Gc.collectGarbage sampleEmptyWorld false (Gc.addRoot sampleOneObject ⟨1⟩)).oldGeneration
      = [] ∧
    (Gc.collectGarbage sampleEmptyWorld false
      (Gc.addRoot sampleOneObject ⟨1⟩)).objectMetadata.read 1 = none ∧
    (Gc.collectGarbage sampleEmptyWorld true (Gc.addRoot sampleOneObject ⟨1⟩)).youngGeneration
      = [] ∧
    (Gc.collectGarbage sampleEmptyWorld true
      (Gc.addRoot sampleOneObject ⟨1⟩)).objectMetadata.read 1 = none := by
  refine ⟨by decide, by decide, by decide, by decide, by decide, by decide, by decide⟩

/-! ## The metadata of a reachable collector state -/

namespace Memory

theorem read_map_snd {α : Type} (m : Memory α) (f : α → α) (addr : Nat) :
    read (List.map (fun entry => (entry.1, f entry.2)) m) addr = (m.read addr).map f := by
  induction m with
  | nil => simp [read, List.lookup]
  | cons p rest ih =>
    obtain ⟨k, v⟩ := p
    simp only [read] at ih
    simp only [List.map_cons, read, List.lookup]
    cases (addr == k) <;> simp [ih]

theorem isSome_read_write {α : Type} (m : Memory α) (key : Nat) (a : α) (addr : Nat)
    (h : (m.read key).isSome = true) :
    ((m.write key a).read addr).isSome = (m.read addr).isSome := by
  by_cases hk : addr = key
  · subst hk
    rw [read_write_self, h]
    rfl
  · rw [read_write_other _ _ _ _ hk]

theorem eq_nil_of_read_none {α : Type} (m : Memory α) (h : ∀ addr, m.read addr = none) :
    m = [] := by
  cases m with
  | nil => rfl
  | cons p rest =>
    obtain ⟨k, v⟩ := p
    have := h k
    simp [read, List.lookup] at this

end Memory

namespace Gc

theorem keepsKeys_id : KeepsKeys (fun metadata => metadata) := fun _ _ => rfl

theorem keepsKeys_comp {f g : Memory GcObjectMetadata → Memory GcObjectMetadata}
    (hf : KeepsKeys f) (hg : KeepsKeys g) : KeepsKeys (fun metadata => g (f metadata)) :=
  fun metadata addr => (hg (f metadata) addr).trans (hf metadata addr)

theorem keepsKeys_foldl {β : Type}
    (f : Memory GcObjectMetadata → β → Memory GcObjectMetadata)
    (hf : ∀ b, KeepsKeys (fun metadata => f metadata b)) (l : List β) :
    KeepsKeys (fun metadata => l.foldl f metadata) := by
  induction l with
  | nil => exact keepsKeys_id
  | cons b rest ih =>
    intro metadata addr
    simp only [List.foldl_cons]
    exact (ih (f metadata b) addr).trans (hf b metadata addr)

theorem keepsKeys_markValueWith
    (markObject : ObjPtr → Memory GcObjectMetadata → Memory GcObjectMetadata)
    (h : ∀ obj, KeepsKeys (markObject obj)) (val : Value) :
    KeepsKeys (markValueWith markObject val) := by
  cases val <;> first | exact h _ | exact keepsKeys_id

theorem keepsKeys_markContainerWith
    (markObject : ObjPtr → Memory GcObjectMetadata → Memory GcObjectMetadata)
    (h : ∀ obj, KeepsKeys (markObject obj)) (container : List Value) :
    KeepsKeys (markContainerWith markObject container) :=
  keepsKeys_foldl (fun md (val : Value) => markValueWith markObject val md)
    (fun val => keepsKeys_markValueWith markObject h val) container

theorem keepsKeys_markMapWith
    (markObject : ObjPtr → Memory GcObjectMetadata → Memory GcObjectMetadata)
    (h : ∀ obj, KeepsKeys (markObject obj)) (map : ValueMap) :
    KeepsKeys (markMapWith markObject map) :=
  keepsKeys_foldl (fun md (pair : String × Value) => markValueWith markObject pair.2 md)
    (fun pair => keepsKeys_markValueWith markObject h pair.2) map

theorem keepsKeys_markMapObjectsWith
    (markObject : ObjPtr → Memory GcObjectMetadata → Memory GcObjectMetadata)
    (h : ∀ obj, KeepsKeys (markObject obj)) (map : List (String × ObjPtr)) :
    KeepsKeys (markMapObjectsWith markObject map) :=
  keepsKeys_foldl (fun md (pair : String × ObjPtr) => markObject pair.2 md)
    (fun pair => h pair.2) map

theorem keepsKeys_markObject (w : GcWorld) :
    ∀ (fuel : Nat) (obj : ObjPtr), KeepsKeys (markObject w fuel obj) := by
  intro fuel
  induction fuel with
  | zero => intro obj; exact keepsKeys_id
  | succ n ih =>
    intro obj metadata addr
    have hmap := keepsKeys_markMapWith (markObject w n) ih
    have hobjs := keepsKeys_markMapObjectsWith (markObject w n) ih
    have hcont := keepsKeys_markContainerWith (markObject w n) ih
    unfold markObject
    by_cases hnull : obj.isNull = true
    · simp only [hnull, if_true]
    · simp only [hnull, Bool.false_eq_true, if_false]
      cases hr : metadata.read obj.addr with
      | none => rfl
      | some m =>
        simp only
        by_cases hm : m.marked = true
        · simp only [hm, if_true]
        · simp only [hm, Bool.false_eq_true, if_false]
          have hw : ∀ a, ((metadata.write obj.addr { m with marked := true }).read a).isSome =
              (metadata.read a).isSome :=
            fun a => Memory.isSome_read_write _ _ _ _ (by rw [hr]; rfl)
          cases w.heap.objects.read obj.addr with
          | none => exact hw addr
          | some o =>
            cases o with
            | function func =>
              simp only
              cases w.heap.environments.read func.closure.addr with
              | none => exact hw addr
              | some closure =>
                simp only
                cases closure.enclosing with
                | none => exact (hmap _ _ addr).trans (hw addr)
                | some enclosing =>
                  simp only
                  cases w.heap.environments.read enclosing.addr with
                  | none => exact (hmap _ _ addr).trans (hw addr)
                  | some e => exact (hmap _ _ addr).trans ((hmap _ _ addr).trans (hw addr))
            | klass klass =>
              simp only
              cases klass.superclass with
              | none => exact (hobjs _ _ addr).trans (hw addr)
              | some superclass =>
                exact (ih _ _ addr).trans ((hobjs _ _ addr).trans (hw addr))
            | inst inst => exact (hmap _ _ addr).trans ((ih _ _ addr).trans (hw addr))
            | list list => exact (hcont _ _ addr).trans (hw addr)
            | boundMethod b => exact (ih _ _ addr).trans ((ih _ _ addr).trans (hw addr))
            | module module =>
              simp only
              cases w.heap.environments.read module.moduleEnvironment.addr with
              | none => exact hw addr
              | some e => exact (hmap _ _ addr).trans (hw addr)

end Gc

namespace Gc

theorem keepsKeys_resetMarks (metadata : Memory GcObjectMetadata) (addr : Nat) :
    (Memory.read (List.map (fun entry => (entry.1, { entry.2 with marked := false }))
      metadata) addr).isSome = (metadata.read addr).isSome := by
  rw [Memory.read_map_snd metadata (fun m => { m with marked := false })]
  cases metadata.read addr <;> rfl

theorem markPhase_keys (w : GcWorld) (full : Bool) (gc : Gc) (addr : Nat) :
    ((markPhase w full gc).objectMetadata.read addr).isSome =
      (gc.objectMetadata.read addr).isSome := by
  have hobj := keepsKeys_markObject w gc.resetMarks.markFuel
  have hmap := keepsKeys_markMapWith (markObject w gc.resetMarks.markFuel) hobj
  have hroots := keepsKeys_foldl
    (fun md (root_val : Value) =>
      markValueWith (markObject w gc.resetMarks.markFuel) root_val md)
    (fun val => keepsKeys_markValueWith _ hobj val) gc.resetMarks.roots
  have hglobals : KeepsKeys (fun md1 =>
      match w.interpreter_globals with
      | some globals =>
        match w.heap.environments.read globals.addr with
        | some e => markMapWith (markObject w gc.resetMarks.markFuel) e.values md1
        | none => md1
      | none => md1) := by
    cases w.interpreter_globals with
    | none => exact keepsKeys_id
    | some globals =>
      simp only
      cases w.heap.environments.read globals.addr with
      | none => exact keepsKeys_id
      | some e => exact hmap e.values
  have henv : KeepsKeys (fun md2 =>
      match w.interpreter_environment with
      | some environment =>
        match w.heap.environments.read environment.addr with
        | some e => markMapWith (markObject w gc.resetMarks.markFuel) e.values md2
        | none => md2
      | none => md2) := by
    cases w.interpreter_environment with
    | none => exact keepsKeys_id
    | some environment =>
      simp only
      cases w.heap.environments.read environment.addr with
      | none => exact keepsKeys_id
      | some e => exact hmap e.values
  have hold : ∀ entries : List (Nat × GcObjectMetadata), KeepsKeys (fun md3 =>
      entries.foldl (fun md entry =>
        match md.read entry.1 with
        | some m =>
          if m.generation = 1 && m.marked then
            markObject w gc.resetMarks.markFuel ⟨entry.1⟩ md
          else md
        | none => md) md3) := by
    intro entries
    apply keepsKeys_foldl
    intro entry md a
    simp only
    cases md.read entry.1 with
    | none => rfl
    | some m =>
      simp only
      split
      · exact hobj _ md a
      · rfl
  have hreset := keepsKeys_resetMarks gc.objectMetadata addr
  cases full with
  | true =>
    simp only [markPhase, Bool.not_true, Bool.false_eq_true, if_false]
    exact (henv _ addr).trans ((hglobals _ addr).trans ((hroots _ addr).trans hreset))
  | false =>
    simp only [markPhase, Bool.not_false, if_true]
    exact (hold _ _ addr).trans
      ((henv _ addr).trans ((hglobals _ addr).trans ((hroots _ addr).trans hreset)))

theorem markPhase_owned (w : GcWorld) (full : Bool) (gc : Gc) (h : gc.MetadataOwned) :
    (markPhase w full gc).MetadataOwned := by
  intro addr hsome
  rw [markPhase_keys] at hsome
  exact h addr hsome

theorem foldl_ageObject_keys (young : List ObjPtr) :
    ∀ (md : Memory GcObjectMetadata) (listed : List ObjPtr),
      (∀ addr, ((young.foldl ageObject (md, listed)).1.read addr).isSome =
        (md.read addr).isSome) ∧
      (∀ o, o ∈ (young.foldl ageObject (md, listed)).2 → o ∈ listed ∨ o ∈ young) := by
  induction young with
  | nil => intro md listed; simp
  | cons x rest ih =>
    intro md listed
    simp only [List.foldl_cons]
    have hstep : (∀ addr, ((ageObject (md, listed) x).1.read addr).isSome =
          (md.read addr).isSome) ∧
        (∀ o, o ∈ (ageObject (md, listed) x).2 → o ∈ listed ∨ o = x) := by
      simp only [ageObject]
      cases hr : md.read x.addr with
      | none => exact ⟨fun _ => rfl, fun o ho => Or.inl ho⟩
      | some m =>
        simp only
        by_cases hm : m.marked = true
        · simp only [hm, if_true]
          refine ⟨fun addr => Memory.isSome_read_write _ _ _ _ (by rw [hr]; rfl), ?_⟩
          intro o ho
          split at ho
          · simpa using ho
          · exact Or.inl ho
        · simp only [hm, Bool.false_eq_true, if_false]
          exact ⟨fun _ => trivial, fun o ho => Or.inl ho⟩
    obtain ⟨h1, h2⟩ := ih (ageObject (md, listed) x).1 (ageObject (md, listed) x).2
    refine ⟨fun addr => (h1 addr).trans (hstep.1 addr), ?_⟩
    intro o ho
    rcases h2 o ho with h | h
    · rcases hstep.2 o h with h3 | h3
      · exact Or.inl h3
      · exact Or.inr (List.mem_cons.2 (Or.inl h3))
    · exact Or.inr (List.mem_cons.2 (Or.inr h))

theorem promoteObjects_owned (gc : Gc) (h : gc.MetadataOwned) :
    (promoteObjects gc).MetadataOwned := by
  obtain ⟨ha1, ha2⟩ := foldl_ageObject_keys gc.youngGeneration gc.objectMetadata []
  obtain ⟨h1, h2, h3, _⟩ :=
    foldl_promoteObject (gc.youngGeneration.foldl ageObject (gc.objectMetadata, [])).2
      { gc with objectMetadata :=
          (gc.youngGeneration.foldl ageObject (gc.objectMetadata, [])).1 }
  have hdef : promoteObjects gc =
      (gc.youngGeneration.foldl ageObject (gc.objectMetadata, [])).2.foldl promoteObject
        { gc with objectMetadata :=
            (gc.youngGeneration.foldl ageObject (gc.objectMetadata, [])).1 } := rfl
  intro addr hsome
  rw [hdef] at hsome ⊢
  have hsome2 : (gc.objectMetadata.read addr).isSome = true := by
    have h3a := h3 ⟨addr⟩
    simp only at h3a
    rw [h3a] at hsome
    rw [← ha1 addr]
    split at hsome
    · cases hq : (gc.youngGeneration.foldl ageObject (gc.objectMetadata, [])).1.read addr with
      | none => rw [hq] at hsome; simp at hsome
      | some m => rfl
    · exact hsome
  rw [h1, h2]
  by_cases hl : (⟨addr⟩ : ObjPtr) ∈
      (gc.youngGeneration.foldl ageObject (gc.objectMetadata, [])).2
  · exact Or.inr (Or.inr hl)
  · rcases h addr hsome2 with hy | ho
    · exact Or.inl ⟨hy, hl⟩
    · exact Or.inr (Or.inl ho)

theorem sweep_owned (w : GcWorld) (g : Int) (gc : Gc) (h : gc.MetadataOwned) :
    (sweep w g gc).MetadataOwned := by
  by_cases h0 : g = 0
  · subst h0
    obtain ⟨s1, s2, s3, s4⟩ := sweep_young w gc
    intro addr hsome
    by_cases hdead : (⟨addr⟩ : ObjPtr) ∈ gc.youngGeneration ∧ gc.isGarbage ⟨addr⟩ = true
    · have := s2 ⟨addr⟩ hdead.1 hdead.2
      simp only at this
      rw [this] at hsome
      simp at hsome
    · have hkeep := s3 ⟨addr⟩ hdead
      simp only at hkeep
      rw [hkeep] at hsome
      rw [s1, s4]
      rcases h addr hsome with hy | ho
      · refine Or.inl ⟨hy, ?_⟩
        cases hg : gc.isGarbage ⟨addr⟩ with
        | false => rfl
        | true => exact absurd ⟨hy, hg⟩ hdead
      · exact Or.inr ho
  · by_cases h1 : g = 1
    · subst h1
      obtain ⟨s1, s2, s3, s4⟩ := sweep_old w gc
      intro addr hsome
      by_cases hdead : (⟨addr⟩ : ObjPtr) ∈ gc.oldGeneration ∧ gc.isGarbage ⟨addr⟩ = true
      · have := s2 ⟨addr⟩ hdead.1 hdead.2
        simp only at this
        rw [this] at hsome
        simp at hsome
      · have hkeep := s3 ⟨addr⟩ hdead
        simp only at hkeep
        rw [hkeep] at hsome
        rw [s1, s4]
        rcases h addr hsome with hy | ho
        · exact Or.inl hy
        · refine Or.inr ⟨ho, ?_⟩
          cases hg : gc.isGarbage ⟨addr⟩ with
          | false => rfl
          | true => exact absurd ⟨ho, hg⟩ hdead
    · have : sweep w g gc = gc := by simp [sweep, h0, h1]
      rw [this]; exact h

theorem collectFull_owned (w : GcWorld) (gc : Gc) (h : gc.MetadataOwned) :
    (collectFull w gc).MetadataOwned :=
  sweep_owned w 1 _ (sweep_owned w 0 _ (markPhase_owned w true gc h))

theorem collectGarbage_owned (w : GcWorld) (full : Bool) (gc : Gc) (h : gc.MetadataOwned) :
    (collectGarbage w full gc).MetadataOwned := by
  cases full with
  | true => exact collectFull_owned w gc h
  | false =>
    have hminor : (sweep w 0 { promoteObjects (markPhase w false gc) with
        youngGenCollections :=
          (promoteObjects (markPhase w false gc)).youngGenCollections + 1 }).MetadataOwned :=
      sweep_owned w 0 _ (promoteObjects_owned _ (markPhase_owned w false gc h))
    simp only [collectGarbage, Bool.false_eq_true, if_false]
    split
    · exact collectFull_owned w _ hminor
    · exact hminor

theorem createObject_owned (w : GcWorld) (size : Nat) (obj : ObjPtr) (gc : Gc)
    (h : gc.MetadataOwned) : (createObject w size obj gc).2.MetadataOwned := by
  have h1 : MetadataOwned { gc with
      youngGeneration := setInsert gc.youngGeneration obj,
      objectMetadata := gc.objectMetadata.write obj.addr ⟨obj, 0, 0, false⟩,
      bytesAllocated := (gc.bytesAllocated + size) % 18446744073709551616 } := by
    intro addr hsome
    simp only at hsome ⊢
    by_cases ha : addr = obj.addr
    · subst ha
      exact Or.inl ((mem_setInsert _ _ _).2 (Or.inr (objPtr_eta obj)))
    · rw [Memory.read_write_other _ _ _ _ ha] at hsome
      rcases h addr hsome with hy | ho
      · exact Or.inl ((mem_setInsert _ _ _).2 (Or.inl hy))
      · exact Or.inr ho
  simp only [createObject]
  split
  · exact collectGarbage_owned w false _ h1
  · exact h1

theorem Reachable.owned {gc : Gc} (h : gc.Reachable) : gc.MetadataOwned := by
  induction h with
  | new y o => intro addr hsome; simp [Gc.new, Memory.read] at hsome
  | createObject w size obj gc _ ih => exact createObject_owned w size obj gc ih
  | createList w a b elements gc _ ih => exact createObject_owned _ _ _ gc ih
  | collectGarbage w full gc _ ih => exact collectGarbage_owned w full gc ih
  | addRootValue val gc _ ih => exact ih
  | addRoot obj gc _ ih =>
    intro addr hsome
    unfold Gc.addRoot at hsome ⊢
    cases hr : gc.objectMetadata.read obj.addr with
    | none => rw [hr] at hsome; exact ih addr hsome
    | some m =>
      rw [hr] at hsome
      have hsome2 : ((gc.objectMetadata.write obj.addr { m with marked := true }).read
          addr).isSome = true := hsome
      rw [Memory.isSome_read_write _ _ _ _ (by rw [hr]; rfl)] at hsome2
      exact ih addr hsome2
  | removeRoot obj gc _ ih =>
    intro addr hsome
    unfold Gc.removeRoot at hsome ⊢
    cases hr : gc.objectMetadata.read obj.addr with
    | none => rw [hr] at hsome; exact ih addr hsome
    | some m =>
      rw [hr] at hsome
      have hsome2 : ((gc.objectMetadata.write obj.addr { m with marked := false }).read
          addr).isSome = true := hsome
      rw [Memory.isSome_read_write _ _ _ _ (by rw [hr]; rfl)] at hsome2
      exact ih addr hsome2

end Gc

namespace Gc

theorem markPhase_without_roots (w : GcWorld) (gc : Gc) (hroots : gc.roots = [])
    (hglobals : w.interpreter_globals = none) (henv : w.interpreter_environment = none) :
    markPhase w true gc = gc.resetMarks := by
  simp [markPhase, resetMarks, hroots, hglobals, henv]

theorem isGarbage_resetMarks (gc : Gc) (obj : ObjPtr) : gc.resetMarks.isGarbage obj = true := by
  simp only [isGarbage, resetMarks]
  rw [Memory.read_map_snd gc.objectMetadata (fun m => { m with marked := false })]
  cases gc.objectMetadata.read obj.addr <;> rfl

theorem collectFull_without_marks (w : GcWorld) (gc : Gc) (howned : gc.MetadataOwned)
    (hgarbage : ∀ obj, gc.isGarbage obj = true) :
    (sweep w 1 (sweep w 0 gc)).youngGeneration = [] ∧
    (sweep w 1 (sweep w 0 gc)).oldGeneration = [] ∧
    (sweep w 1 (sweep w 0 gc)).objectMetadata = [] := by
  obtain ⟨y1, y2, y3, y4⟩ := sweep_young w gc
  obtain ⟨o1, o2, o3, o4⟩ := sweep_old w (sweep w 0 gc)
  have hgarbage0 : ∀ obj, (sweep w 0 gc).isGarbage obj = true := by
    intro obj
    by_cases hdead : obj ∈ gc.youngGeneration ∧ gc.isGarbage obj = true
    · simp [isGarbage, y2 obj hdead.1 hdead.2]
    · have := hgarbage obj
      simp only [isGarbage, y3 obj hdead] at this ⊢
      exact this
  refine ⟨?_, ?_, ?_⟩
  · rw [o4]
    apply List.eq_nil_iff_forall_not_mem.2
    intro obj hmem
    have := ((y1 obj).1 hmem).2
    rw [hgarbage obj] at this
    exact Bool.noConfusion this
  · apply List.eq_nil_iff_forall_not_mem.2
    intro obj hmem
    have := ((o1 obj).1 hmem).2
    rw [hgarbage0 obj] at this
    exact Bool.noConfusion this
  · apply Memory.eq_nil_of_read_none
    intro addr
    by_cases hold : (⟨addr⟩ : ObjPtr) ∈ (sweep w 0 gc).oldGeneration
    · exact o2 ⟨addr⟩ hold (hgarbage0 _)
    · have h1 := o3 ⟨addr⟩ (fun h => hold h.1)
      simp only at h1
      rw [h1]
      by_cases hyoung : (⟨addr⟩ : ObjPtr) ∈ gc.youngGeneration
      · exact y2 ⟨addr⟩ hyoung (hgarbage _)
      · have h2 := y3 ⟨addr⟩ (fun h => hyoung h.1)
        simp only at h2
        rw [h2]
        cases hr : gc.objectMetadata.read addr with
        | none => rfl
        | some m =>
          rw [y4] at hold
          rcases howned addr (by rw [hr]; rfl) with h | h
          · exact absurd h hyoung
          · exact absurd h hold

end Gc

/-! ## A full collection without roots -/

/-- Claim C25. For every collector state that a run reaches from a newly
constructed collector by registrations of objects and lists, collections and
root registrations, and every memory: a full collection of that state with
the root list emptied, and with neither of the two interpreter environments
set, leaves the young generation, the old generation and the metadata map
empty. -/
theorem Gc.collectGarbage_without_roots_frees_everything (w : GcWorld) (gc : Gc)
    (hreach : gc.Reachable)
    (hglobals : w.interpreter_globals = none) (henv : w.interpreter_environment = none) :
    (Gc.collectGarbage w true { gc with roots := [] }).youngGeneration = [] ∧
    (Gc.collectGarbage w true { gc with roots := [] }).oldGeneration = [] ∧
    (Gc.collectGarbage w true { gc with roots := [] }).objectMetadata = [] := by
  have howned : Gc.MetadataOwned { gc with roots := [] } := hreach.owned
  have hmark := Gc.markPhase_without_roots w { gc with roots := [] } rfl hglobals henv
  have hres : (Gc.resetMarks { gc with roots := [] }).MetadataOwned := by
    rw [← hmark]
    exact Gc.markPhase_owned w true _ howned
  have h := Gc.collectFull_without_marks w _ hres (Gc.isGarbage_resetMarks _)
  simp only [Gc.collectGarbage, if_true, Gc.collectFull, hmark]
  exact h

/-- Witness for claim C25, on the state that three registrations and a minor
collection reach. -/
theorem Gc.collectGarbage_without_roots_frees_everything_witness :
    (Gc.collectGarbage sampleEmptyWorld true
      { Gc.collectGarbage sampleNestedWorld false sampleNestedGc with roots := [] }
      ).youngGeneration = [] ∧
    (Gc.collectGarbage sampleEmptyWorld true
      { Gc.collectGarbage sampleNestedWorld false sampleNestedGc with roots := [] }
      ).oldGeneration = [] ∧
    (Gc.collectGarbage sampleEmptyWorld true
      { Gc.collectGarbage sampleNestedWorld false sampleNestedGc with roots := [] }
      ).objectMetadata = [] :=
  Gc.collectGarbage_without_roots_frees_everything sampleEmptyWorld
    (Gc.collectGarbage sampleNestedWorld false sampleNestedGc)
    (.collectGarbage _ _ _ (.createObject _ _ _ _ (.createObject _ _ _ _
      (.createObject _ _ _ _ (.new 1024 (1024 * 10)))))) rfl rfl

/-! ## The old-generation threshold -/

namespace Gc

theorem markPhase_oldGenCapacity (w : GcWorld) (full : Bool) (gc : Gc) (c : Nat) :
    markPhase w full (gc.setOldGenCapacity c) = (markPhase w full gc).setOldGenCapacity c :=
  rfl

theorem foldl_promoteObject_oldGenCapacity (c : Nat) (listed : List ObjPtr) :
    ∀ gc : Gc, listed.foldl promoteObject (gc.setOldGenCapacity c) =
      (listed.foldl promoteObject gc).setOldGenCapacity c := by
  induction listed with
  | nil => intro gc; rfl
  | cons x rest ih =>
    intro gc
    simp only [List.foldl_cons]
    exact ih (promoteObject gc x)

theorem promoteObjects_oldGenCapacity (gc : Gc) (c : Nat) :
    promoteObjects (gc.setOldGenCapacity c) = (promoteObjects gc).setOldGenCapacity c :=
  foldl_promoteObject_oldGenCapacity c
    (gc.youngGeneration.foldl ageObject (gc.objectMetadata, [])).2
    { gc with objectMetadata := (gc.youngGeneration.foldl ageObject (gc.objectMetadata, [])).1 }

theorem foldl_deleteYoung_oldGenCapacity (w : GcWorld) (c : Nat) (dead : List ObjPtr) :
    ∀ gc : Gc, dead.foldl (deleteYoung w) (gc.setOldGenCapacity c) =
      (dead.foldl (deleteYoung w) gc).setOldGenCapacity c := by
  induction dead with
  | nil => intro gc; rfl
  | cons x rest ih =>
    intro gc
    simp only [List.foldl_cons]
    exact ih (deleteYoung w gc x)

theorem foldl_deleteOld_oldGenCapacity (w : GcWorld) (c : Nat) (dead : List ObjPtr) :
    ∀ gc : Gc, dead.foldl (deleteOld w) (gc.setOldGenCapacity c) =
      (dead.foldl (deleteOld w) gc).setOldGenCapacity c := by
  induction dead with
  | nil => intro gc; rfl
  | cons x rest ih =>
    intro gc
    simp only [List.foldl_cons]
    exact ih (deleteOld w gc x)

theorem sweep_oldGenCapacity (w : GcWorld) (g : Int) (gc : Gc) (c : Nat) :
    sweep w g (gc.setOldGenCapacity c) = (sweep w g gc).setOldGenCapacity c := by
  unfold sweep
  by_cases h0 : g = 0
  · simp only [h0, if_true]
    exact foldl_deleteYoung_oldGenCapacity w c (gc.youngGeneration.filter gc.isGarbage) gc
  · by_cases h1 : g = 1
    · simp only [h1, one_ne_zero, if_false, if_true]
      exact foldl_deleteOld_oldGenCapacity w c (gc.oldGeneration.filter gc.isGarbage) gc
    · simp only [h0, h1, if_false]

theorem collectFull_oldGenCapacity (w : GcWorld) (gc : Gc) (c : Nat) :
    collectFull w (gc.setOldGenCapacity c) = (collectFull w gc).setOldGenCapacity c := by
  have h : sweep w 1 (sweep w 0 (markPhase w true (gc.setOldGenCapacity c))) =
      (sweep w 1 (sweep w 0 (markPhase w true gc))).setOldGenCapacity c := by
    rw [markPhase_oldGenCapacity, sweep_oldGenCapacity, sweep_oldGenCapacity]
  unfold collectFull
  rw [h]
  rfl

theorem minor_oldGenCapacity (w : GcWorld) (gc : Gc) (c : Nat) :
    sweep w 0 { promoteObjects (markPhase w false (gc.setOldGenCapacity c)) with
        youngGenCollections :=
          (promoteObjects (markPhase w false (gc.setOldGenCapacity c))).youngGenCollections
            + 1 } =
      (sweep w 0 { promoteObjects (markPhase w false gc) with
        youngGenCollections :=
          (promoteObjects (markPhase w false gc)).youngGenCollections + 1 }
        ).setOldGenCapacity c := by
  rw [markPhase_oldGenCapacity, promoteObjects_oldGenCapacity]
  exact sweep_oldGenCapacity w 0
    { promoteObjects (markPhase w false gc) with
      youngGenCollections := (promoteObjects (markPhase w false gc)).youngGenCollections + 1 } c

theorem collectGarbage_false (w : GcWorld) (gc : Gc) :
    collectGarbage w false gc =
      if (sweep w 0 { promoteObjects (markPhase w false gc) with
          youngGenCollections :=
            (promoteObjects (markPhase w false gc)).youngGenCollections + 1 }
          ).youngGenCollections ≥ 5 then
        collectFull w (sweep w 0 { promoteObjects (markPhase w false gc) with
          youngGenCollections :=
            (promoteObjects (markPhase w false gc)).youngGenCollections + 1 })
      else
        sweep w 0 { promoteObjects (markPhase w false gc) with
          youngGenCollections :=
            (promoteObjects (markPhase w false gc)).youngGenCollections + 1 } := rfl

theorem collectGarbage_oldGenCapacity (w : GcWorld) (full : Bool) (gc : Gc) (c : Nat) :
    collectGarbage w full (gc.setOldGenCapacity c) =
      (collectGarbage w full gc).setOldGenCapacity c := by
  cases full with
  | true => exact collectFull_oldGenCapacity w gc c
  | false =>
    rw [collectGarbage_false, collectGarbage_false, minor_oldGenCapacity]
    generalize sweep w 0 { promoteObjects (markPhase w false gc) with
      youngGenCollections :=
        (promoteObjects (markPhase w false gc)).youngGenCollections + 1 } = swept
    by_cases h : swept.youngGenCollections ≥ 5
    · have h2 : (swept.setOldGenCapacity c).youngGenCollections ≥ 5 := h
      rw [if_pos h, if_pos h2]
      exact collectFull_oldGenCapacity w swept c
    · have h2 : ¬ (swept.setOldGenCapacity c).youngGenCollections ≥ 5 := h
      rw [if_neg h, if_neg h2]

theorem createObject_eq (w : GcWorld) (size : Nat) (obj : ObjPtr) (gc : Gc) :
    createObject w size obj gc =
      if (setInsert gc.youngGeneration obj).length ≥ gc.youngGenCapacity then
        (obj, collectGarbage w false { gc with
          youngGeneration := setInsert gc.youngGeneration obj,
          objectMetadata := gc.objectMetadata.write obj.addr ⟨obj, 0, 0, false⟩,
          bytesAllocated := (gc.bytesAllocated + size) % 18446744073709551616 })
      else
        (obj, { gc with
          youngGeneration := setInsert gc.youngGeneration obj,
          objectMetadata := gc.objectMetadata.write obj.addr ⟨obj, 0, 0, false⟩,
          bytesAllocated := (gc.bytesAllocated + size) % 18446744073709551616 }) := rfl

theorem createObject_oldGenCapacity (w : GcWorld) (size : Nat) (obj : ObjPtr) (gc : Gc)
    (c : Nat) :
    createObject w size obj (gc.setOldGenCapacity c) =
      ((createObject w size obj gc).1, (createObject w size obj gc).2.setOldGenCapacity c) := by
  rw [createObject_eq, createObject_eq]
  by_cases h : (setInsert gc.youngGeneration obj).length ≥ gc.youngGenCapacity
  · have h2 : (setInsert (gc.setOldGenCapacity c).youngGeneration obj).length ≥
        (gc.setOldGenCapacity c).youngGenCapacity := h
    rw [if_pos h, if_pos h2]
    exact congrArg (Prod.mk obj) (collectGarbage_oldGenCapacity w false
      { gc with
        youngGeneration := setInsert gc.youngGeneration obj,
        objectMetadata := gc.objectMetadata.write obj.addr ⟨obj, 0, 0, false⟩,
        bytesAllocated := (gc.bytesAllocated + size) % 18446744073709551616 } c)
  · have h2 : ¬ (setInsert (gc.setOldGenCapacity c).youngGeneration obj).length ≥
        (gc.setOldGenCapacity c).youngGenCapacity := h
    rw [if_neg h, if_neg h2]
    rfl

end Gc

namespace Gc

theorem minor_keeps_old (w : GcWorld) (gc : Gc) (obj : ObjPtr) (h : obj ∈ gc.oldGeneration) :
    obj ∈ (sweep w 0 { promoteObjects (markPhase w false gc) with
      youngGenCollections :=
        (promoteObjects (markPhase w false gc)).youngGenCollections + 1 }).oldGeneration := by
  rw [(sweep_young w _).2.2.2]
  have hdef : promoteObjects (markPhase w false gc) =
      ((markPhase w false gc).youngGeneration.foldl ageObject
          ((markPhase w false gc).objectMetadata, [])).2.foldl promoteObject
        { markPhase w false gc with objectMetadata :=
            ((markPhase w false gc).youngGeneration.foldl ageObject
              ((markPhase w false gc).objectMetadata, [])).1 } := rfl
  show obj ∈ (promoteObjects (markPhase w false gc)).oldGeneration
  rw [hdef, (foldl_promoteObject _ _).2.1]
  exact Or.inl h

end Gc

/-- Claim C29, a state where it fails. With an old-generation threshold of
two objects, the object at address 9 is old and no longer referenced and the
object at address 1 is young, referenced and of age 2. The fourth minor
collection promotes the object at address 1, so the old generation reaches
its threshold; the collection returns with the counter at 4 and with the
unreferenced object still old, which a full collection would have swept. -/
theorem Gc.collectGarbage_full_old_generation_not_swept :
    sampleOldGc.oldGenCapacity = 2 ∧
    sampleOldGc.oldGeneration = [⟨9⟩] ∧
    sampleOldGc.youngGeneration = [⟨1⟩] ∧
    (Gc.collectGarbage sampleOneBound false sampleOldGc).oldGeneration = [⟨9⟩, ⟨1⟩] ∧
    (Gc.collectGarbage sampleOneBound false sampleOldGc).oldGeneration.length ≥
      (Gc.collectGarbage sampleOneBound false sampleOldGc).oldGenCapacity ∧
    (Gc.collectGarbage sampleOneBound false sampleOldGc).youngGenCollections = 4 ∧
    (Gc.collectGarbage sampleOneBound true
      (Gc.collectGarbage sampleOneBound false sampleOldGc)).oldGeneration = [⟨1⟩] := by
  refine ⟨by decide, by decide, by decide, by decide, by decide, by decide, by decide⟩

/-- Claim C29, amended. The data member `oldGenCapacity` is never read: for
every value of it, `collectGarbage`, `createObject` and `createList` give the
same result up to that member. A full collection runs when `collectGarbage`
is called with `full_collection` set, or when a minor collection brings the
counter of minor collections to 5 or more; a minor collection that leaves the
counter below 5 is the mark phase, the promotion and the sweep of the young
generation only, and every object of the old generation stays in it,
whatever the size of the old generation. -/
theorem Gc.collectGarbage_ignores_oldGenCapacity (w : GcWorld) (gc : Gc) (capacity : Nat) :
    (∀ full, Gc.collectGarbage w full (gc.setOldGenCapacity capacity) =
      (Gc.collectGarbage w full gc).setOldGenCapacity capacity) ∧
    (∀ size obj, Gc.createObject w size obj (gc.setOldGenCapacity capacity) =
      ((Gc.createObject w size obj gc).1,
        (Gc.createObject w size obj gc).2.setOldGenCapacity capacity)) ∧
    (∀ sizeofList sizeofValue elements,
      Gc.createList w sizeofList sizeofValue elements (gc.setOldGenCapacity capacity) =
        ((Gc.createList w sizeofList sizeofValue elements gc).1,
          (Gc.createList w sizeofList sizeofValue elements gc).2.1,
          (Gc.createList w sizeofList sizeofValue elements gc).2.2.setOldGenCapacity
            capacity)) ∧
    Gc.collectGarbage w true gc = Gc.collectFull w gc ∧
    (gc.youngGenCollections + 1 ≥ 5 →
      Gc.collectGarbage w false gc =
        Gc.collectFull w (Gc.sweep w 0 { Gc.promoteObjects (Gc.markPhase w false gc) with
          youngGenCollections :=
            (Gc.promoteObjects (Gc.markPhase w false gc)).youngGenCollections + 1 })) ∧
    (gc.youngGenCollections + 1 < 5 →
      Gc.collectGarbage w false gc =
        Gc.sweep w 0 { Gc.promoteObjects (Gc.markPhase w false gc) with
          youngGenCollections :=
            (Gc.promoteObjects (Gc.markPhase w false gc)).youngGenCollections + 1 } ∧
      ∀ obj, obj ∈ gc.oldGeneration → obj ∈ (Gc.collectGarbage w false gc).oldGeneration) := by
  have hminor := Gc.minor_counter w gc
  refine ⟨fun full => Gc.collectGarbage_oldGenCapacity w full gc capacity,
    fun size obj => Gc.createObject_oldGenCapacity w size obj gc capacity, ?_, rfl, ?_, ?_⟩
  · intro sizeofList sizeofValue elements
    simp only [Gc.createList, Runtime.newObject]
    rw [Gc.createObject_oldGenCapacity]
  · intro h
    rw [Gc.collectGarbage_false, if_pos (by rw [hminor]; exact h)]
  · intro h
    have heq : Gc.collectGarbage w false gc =
        Gc.sweep w 0 { Gc.promoteObjects (Gc.markPhase w false gc) with
          youngGenCollections :=
            (Gc.promoteObjects (Gc.markPhase w false gc)).youngGenCollections + 1 } := by
      rw [Gc.collectGarbage_false, if_neg (by rw [hminor]; omega)]
    refine ⟨heq, ?_⟩
    intro obj hobj
    rw [heq]
    exact Gc.minor_keeps_old w gc obj hobj

/-- Witness for claim C29 as amended, on the state of the counterexample: the
fourth minor collection keeps the unreferenced old object. -/
theorem Gc.collectGarbage_ignores_oldGenCapacity_witness :
    (⟨9⟩ : ObjPtr) ∈ (Gc.collectGarbage sampleOneBound false sampleOldGc).oldGeneration ∧
    Gc.collectGarbage sampleOneBound false (sampleOldGc.setOldGenCapacity 1) =
      (Gc.collectGarbage sampleOneBound false sampleOldGc).setOldGenCapacity 1 :=
  ⟨((Gc.collectGarbage_ignores_oldGenCapacity sampleOneBound sampleOldGc 1).2.2.2.2.2
      (by decide)).2 ⟨9⟩ (by decide),
   (Gc.collectGarbage_ignores_oldGenCapacity sampleOneBound sampleOldGc 1).1 false⟩

/-! ## Sweep and the collection counter on sample states -/

/-- Witness for claim C26: the sweep of the young generation erases the
metadata of the unmarked young object and keeps that of the marked one, and
the sweep of the old generation does the same with the old objects. -/
theorem Gc.sweep_removes_exactly_unmarked_witness :
    (Gc.sweep sampleEmptyWorld 0 sampleMarked).objectMetadata.read 2 = none ∧
    (Gc.sweep sampleEmptyWorld 0 sampleMarked).objectMetadata.read 1 =
      some ⟨⟨1⟩, 0, 0, true⟩ ∧
    (Gc.sweep sampleEmptyWorld 1 sampleMarked).objectMetadata.read 4 = none ∧
    Gc.sweep sampleEmptyWorld 2 sampleMarked = sampleMarked :=
  ⟨(Gc.sweep_removes_exactly_unmarked sampleEmptyWorld sampleMarked).1.2.1 ⟨2⟩
      (by decide) (by decide),
   (Gc.sweep_removes_exactly_unmarked sampleEmptyWorld sampleMarked).1.2.2.1 ⟨1⟩ (by decide),
   (Gc.sweep_removes_exactly_unmarked sampleEmptyWorld sampleMarked).2.1.2.1 ⟨4⟩
      (by decide) (by decide),
   (Gc.sweep_removes_exactly_unmarked sampleEmptyWorld sampleMarked).2.2.1 2
      (by decide) (by decide)⟩

/-- Witness for claim C28: the fifth minor collection since the last full one
leaves the counter at 0, and the fourth leaves it at 4. -/
theorem Gc.collectGarbage_bounds_counter_witness :
    (Gc.collectGarbage sampleEmptyWorld false
      { sampleMarked with youngGenCollections := 4 }).youngGenCollections = 0 ∧
    (Gc.collectGarbage sampleEmptyWorld false
      { sampleMarked with youngGenCollections := 3 }).youngGenCollections = 4 :=
  ⟨((Gc.collectGarbage_bounds_counter sampleEmptyWorld
      { sampleMarked with youngGenCollections := 4 }).2.1 (by decide)).2,
   (Gc.collectGarbage_bounds_counter sampleEmptyWorld
      { sampleMarked with youngGenCollections := 3 }).2.2.1 (by decide)⟩

/-- The lookup of `super.m` in general. Let `this` be bound, in the chain of
the current environment, to an instance whose class is `klass`. When `klass` has no
superclass, `super.m` throws a RuntimeException on the keyword. Otherwise the
method is looked up by name from the superclass of `klass`, the class of the
instance: when no class on that chain declares it, `super.m` throws a
RuntimeException on the method token; when one does, a new bound method that
pairs the instance with the function found is allocated, registered with the
collector and returned. -/
theorem Interpreter.visitSuperExpr_resolves_from_class_of_this
    (createObject : ObjPtr → Runtime → ObjPtr × Runtime) (fuel : Nat)
    (keyword method : Token) (s : Runtime) (environment : Environment)
    (inst : ObjPtr) (i : CCubeInstance) (klass : CCubeClass)
    (henv : Runtime.resolve s.environments s.environments.length s.environment =
      some environment)
    (hthis : environment.get ⟨.THIS, "this", .none, keyword.line⟩ = .ok (.object inst))
    (hinst : s.objects.read inst.addr = some (.inst i))
    (hklass : s.objects.read i.klass.addr = some (.klass klass)) :
    (klass.superclass = none →
      Interpreter.visitSuperExpr createObject fuel keyword method s =
        (.error (Interpreter.runtimeError keyword
          "Üst sınıfı olmayan bir objenin \x27super\x27 metodu çağrılamaz."), s)) ∧
    (∀ superclass function, klass.superclass = some superclass →
      CCubeClass.findMethod s.objects fuel superclass method.lexeme = some function →
      (function.isNull = true →
        Interpreter.visitSuperExpr createObject fuel keyword method s =
          (.error (Interpreter.runtimeError method
            ("Tanımlanmamış üst sınıf metodu \x27" ++ method.lexeme ++ "\x27.")), s)) ∧
      (function.isNull = false →
        (s.newObject (.boundMethod ⟨inst, function⟩)).2.objects.read
          (s.newObject (.boundMethod ⟨inst, function⟩)).1.addr =
            some (.boundMethod ⟨inst, function⟩) ∧
        Interpreter.visitSuperExpr createObject fuel keyword method s =
          (.ok (.object (createObject (s.newObject (.boundMethod ⟨inst, function⟩)).1
              (s.newObject (.boundMethod ⟨inst, function⟩)).2).1),
            (createObject (s.newObject (.boundMethod ⟨inst, function⟩)).1
              (s.newObject (.boundMethod ⟨inst, function⟩)).2).2))) := by
  refine ⟨?_, ?_⟩
  · intro hsuper
    simp only [Interpreter.visitSuperExpr, henv, hthis, hinst, hklass, hsuper]
  · intro superclass function hsuper hfind
    refine ⟨?_, ?_⟩
    · intro hnull
      simp only [Interpreter.visitSuperExpr, henv, hthis, hinst, hklass, hsuper, hfind, hnull,
        if_true]
    · intro hnull
      refine ⟨Memory.read_write_self _ _ _, ?_⟩
      simp only [Interpreter.visitSuperExpr, henv, hthis, hinst, hklass, hsuper, hfind, hnull,
        Bool.false_eq_true, if_false]

/-- The lookup of `super.greet` on the instance of `C < B < A` that runs the
method `greet` of `B`: it starts at `B`, the superclass of the class of the
instance. -/
theorem Interpreter.visitSuperExpr_resolves_from_class_of_this_witness :
    Interpreter.visitSuperExpr sampleCreateObject 3 ⟨.SUPER, "super", .none, 2⟩
        ⟨.IDENTIFIER, "greet", .none, 2⟩ sampleSuperHeap =
      (.ok (.object ⟨7⟩), (sampleSuperHeap.newObject (.boundMethod ⟨⟨6⟩, ⟨5⟩⟩)).2) :=
  ((Interpreter.visitSuperExpr_resolves_from_class_of_this sampleCreateObject 3
    ⟨.SUPER, "super", .none, 2⟩ ⟨.IDENTIFIER, "greet", .none, 2⟩ sampleSuperHeap
    (.nested [] (.nested [("this", .object ⟨6⟩)]
      (.global [("A", .object ⟨1⟩), ("B", .object ⟨2⟩), ("C", .object ⟨3⟩)])))
    ⟨6⟩ ⟨⟨3⟩, []⟩ ⟨"C", some ⟨2⟩, []⟩ rfl rfl rfl rfl).2 ⟨2⟩ ⟨5⟩ rfl rfl).2 rfl |>.2

/-! ## Members of a module -/

/-- Claim C37. For every module whose environment pointer resolves: when the
module environment's own map binds the name, `getMember` returns the value
bound there; when it does not, `getMember` throws the RuntimeException on the
name token, whatever the enclosing environments bind; and `getMember` throws
exactly when the own map does not bind the name. -/
theorem CCubeModule.getMember_reads_own_map (m : CCubeModule) (name : Token) (s : Runtime)
    (env : Environment)
    (henv : Runtime.resolve s.environments s.environments.length m.moduleEnvironment =
      some env) :
    (∀ v, env.getValues.lookup name.lexeme = some v → m.getMember name s = .ok v) ∧
    (env.getValues.lookup name.lexeme = none →
      m.getMember name s = .error (.RuntimeException name
        ("Modül \x27" ++ m.name ++ "\x27 içinde \x27" ++ name.lexeme ++
          "\x27 adlı üye bulunamadı."))) ∧
    ((∃ e, m.getMember name s = .error e) ↔ env.getValues.lookup name.lexeme = none) ∧
    (∀ values enclosing v, env = .nested values enclosing →
      values.lookup name.lexeme = none → enclosing.get name = .ok v →
      ∃ e, m.getMember name s = .error e) := by
  have hsome : ∀ v, env.getValues.lookup name.lexeme = some v →
      m.getMember name s = .ok v := by
    intro v hv
    have hc : env.contains name.lexeme = true := by
      simp [Environment.contains, ValueMap.count, hv]
    have hget : env.get name = .ok v := by
      cases env with
      | global values =>
        simp only [Environment.getValues] at hv
        simp [Environment.get, ValueMap.count, ValueMap.atKey, hv]
      | nested values enclosing =>
        simp only [Environment.getValues] at hv
        simp [Environment.get, ValueMap.count, ValueMap.atKey, hv]
    simp [CCubeModule.getMember, henv, hc, hget]
  have hnone : env.getValues.lookup name.lexeme = none →
      m.getMember name s = .error (.RuntimeException name
        ("Modül \x27" ++ m.name ++ "\x27 içinde \x27" ++ name.lexeme ++
          "\x27 adlı üye bulunamadı.")) := by
    intro hv
    have hc : env.contains name.lexeme = false := by
      simp [Environment.contains, ValueMap.count, hv]
    simp [CCubeModule.getMember, henv, hc]
  refine ⟨hsome, hnone, ?_, ?_⟩
  · constructor
    · rintro ⟨e, he⟩
      cases hl : env.getValues.lookup name.lexeme with
      | none => rfl
      | some v => rw [hsome v hl] at he; cases he
    · intro hl
      exact ⟨_, hnone hl⟩
  · intro values enclosing v henc hl _
    subst henc
    exact ⟨_, hnone hl⟩

/-- Witness for claim C37: the module binds `pi`, and the built-in `clock` of
the enclosing globals is not a member. -/
theorem CCubeModule.getMember_reads_own_map_witness :
    CCubeModule.getMember ⟨"math", ⟨2⟩⟩ ⟨.IDENTIFIER, "pi", .none, 1⟩ sampleModuleHeap =
      .ok (.string "3.14") ∧
    ∃ e, CCubeModule.getMember ⟨"math", ⟨2⟩⟩ ⟨.IDENTIFIER, "clock", .none, 1⟩
      sampleModuleHeap = .error e :=
  ⟨(CCubeModule.getMember_reads_own_map ⟨"math", ⟨2⟩⟩ ⟨.IDENTIFIER, "pi", .none, 1⟩
      sampleModuleHeap (.nested [("pi", .string "3.14")] (.global [("clock", .boolean true)]))
      rfl).1 (.string "3.14") rfl,
   (CCubeModule.getMember_reads_own_map ⟨"math", ⟨2⟩⟩ ⟨.IDENTIFIER, "clock", .none, 1⟩
      sampleModuleHeap (.nested [("pi", .string "3.14")] (.global [("clock", .boolean true)]))
      rfl).2.2.2 [("pi", .string "3.14")] (.global [("clock", .boolean true)])
      (.boolean true) rfl rfl rfl⟩

/-! ## Lists: indexing, assignment and identity -/

namespace Interpreter

theorem interpretLoop_append_error {σ : Type} (execute : Stmt → Eval σ Unit)
    (stmt : Stmt) (post : List Stmt) (e : Thrown) :
    ∀ (pre : List Stmt) (s s1 s2 : σ),
      interpretLoop execute pre s = (.ok (), s1) →
      execute stmt s1 = (.error e, s2) →
      interpretLoop execute (pre ++ stmt :: post) s = (.error e, s2) := by
  intro pre
  induction pre with
  | nil =>
    intro s s1 s2 hpre hstmt
    simp only [interpretLoop] at hpre
    have hs : s = s1 := (Prod.mk.inj hpre).2
    subst hs
    simp [interpretLoop, hstmt]
  | cons first rest ih =>
    intro s s1 s2 hpre hstmt
    simp only [interpretLoop] at hpre
    simp only [List.cons_append, interpretLoop]
    rcases hfirst : execute first s with ⟨outcome, t⟩
    rw [hfirst] at hpre
    cases outcome with
    | error e2 => simp at hpre
    | ok u =>
      simp only at hpre ⊢
      exact ih t s1 s2 hpre hstmt

end Interpreter

/-- Claim C35. Let the statements before a top-level statement execute
without throwing, and let that statement throw the return signal, leaving the
machine in the state `m2`. Then `interpret` returns normally: no exception
reaches its caller; the runtime-error flag of the reporter is set and the
error `Top-level return.` on a `return` token is reported; and the machine is
otherwise in the state `m2`, whatever statements follow: none of them is
executed. -/
theorem Interpreter.interpret_reports_top_level_return
    (execute : Stmt → Eval Machine Unit) (pre : List Stmt) (stmt : Stmt) (post : List Stmt)
    (m m1 m2 : Machine) (value : Value)
    (hpre : Interpreter.interpretLoop execute pre m = (.ok (), m1))
    (hreturn : execute stmt m1 = (.error (.ReturnException value), m2)) :
    (Interpreter.interpret execute (pre ++ stmt :: post) m).1 = .ok () ∧
    (Interpreter.interpret execute (pre ++ stmt :: post) m).2.errorReporter.hadRuntimeError
      = true ∧
    (Interpreter.interpret execute (pre ++ stmt :: post) m).2.errorReporter.reported =
      m2.errorReporter.reported ++ [(⟨.RETURN, "return", .none, -1⟩, "Top-level return.")] ∧
    (Interpreter.interpret execute (pre ++ stmt :: post) m).2.runtime = m2.runtime ∧
    (Interpreter.interpret execute (pre ++ stmt :: post) m).2.gc = m2.gc ∧
    (Interpreter.interpret execute (pre ++ stmt :: post) m).2.moduleCache = m2.moduleCache ∧
    Interpreter.interpret execute (pre ++ stmt :: post) m =
      Interpreter.interpret execute (pre ++ [stmt]) m := by
  have h1 := Interpreter.interpretLoop_append_error execute stmt post
    (.ReturnException value) pre m m1 m2 hpre hreturn
  have h2 := Interpreter.interpretLoop_append_error execute stmt []
    (.ReturnException value) pre m m1 m2 hpre hreturn
  simp [Interpreter.interpret, h1, h2, ErrorReporter.hadRuntimeError,
    ErrorReporter.runtimeError]

/-- Witness for claim C35, on the program `"a"; return "r"; "b";`. -/
theorem Interpreter.interpret_reports_top_level_return_witness :
    (Interpreter.interpret sampleMachineExecute sampleTopLevelReturn sampleMachine).1 = .ok () ∧
    (Interpreter.interpret sampleMachineExecute sampleTopLevelReturn
      sampleMachine).2.errorReporter.hadRuntimeError = true :=
  ⟨(Interpreter.interpret_reports_top_level_return sampleMachineExecute
      [.ExprStmt (.LiteralExpr (.string "a"))]
      (.ReturnStmt ⟨.RETURN, "return", .none, 1⟩ (some (.LiteralExpr (.string "r"))))
      [.ExprStmt (.LiteralExpr (.string "b"))]
      sampleMachine sampleMachine sampleMachine (.string "r") rfl rfl).1,
   (Interpreter.interpret_reports_top_level_return sampleMachineExecute
      [.ExprStmt (.LiteralExpr (.string "a"))]
      (.ReturnStmt ⟨.RETURN, "return", .none, 1⟩ (some (.LiteralExpr (.string "r"))))
      [.ExprStmt (.LiteralExpr (.string "b"))]
      sampleMachine sampleMachine sampleMachine (.string "r") rfl rfl).2.1⟩

/-! ## Finding the file of a module -/

namespace ModuleLoader

theorem rfind_none (c : Char) : ∀ l : List Char, rfind l c = none ↔ c ∉ l := by
  intro l
  induction l with
  | nil => simp [rfind]
  | cons x rest ih =>
    simp only [rfind, List.mem_cons, not_or]
    cases hr : rfind rest c with
    | some pos =>
      have : ¬ (c ∉ rest) := fun h => by rw [ih.2 h] at hr; cases hr
      simp [this]
    | none =>
      have hrest : c ∉ rest := ih.1 hr
      by_cases hx : x = c
      · simp [hx]
      · simp [hx, hrest, Ne.symm hx]

theorem rfind_some (c : Char) :
    ∀ (l : List Char) (pos : Nat), rfind l c = some pos →
      ∃ pre rest, l = pre ++ c :: rest ∧ pre.length = pos ∧ c ∉ rest := by
  intro l
  induction l with
  | nil => intro pos h; simp [rfind] at h
  | cons x tail ih =>
    intro pos h
    simp only [rfind] at h
    cases hr : rfind tail c with
    | some p =>
      rw [hr] at h
      simp only [Option.some.injEq] at h
      obtain ⟨pre, rest, h1, h2, h3⟩ := ih p hr
      exact ⟨x :: pre, rest, by rw [h1]; rfl, by simp [h2, h], h3⟩
    | none =>
      rw [hr] at h
      by_cases hx : x = c
      · simp only [hx, if_true, Option.some.injEq] at h
        exact ⟨[], tail, by rw [hx]; rfl, by simp [← h], (rfind_none c tail).1 hr⟩
      · simp [hx] at h

theorem getFileExtension_of_no_dot (filePath : String) (h : '.' ∉ filePath.data) :
    getFileExtension filePath = "" := by
  simp [getFileExtension, (rfind_none '.' filePath.data).2 h]

theorem getFileExtension_of_last_dot (filePath : String) (pre rest : List Char)
    (h : filePath.data = pre ++ '.' :: rest) (hrest : '.' ∉ rest) :
    getFileExtension filePath = String.mk ('.' :: rest) := by
  unfold getFileExtension
  cases hr : rfind filePath.data '.' with
  | none =>
    have := (rfind_none '.' filePath.data).1 hr
    rw [h] at this
    simp at this
  | some pos =>
    obtain ⟨pre2, rest2, h1, h2, h3⟩ := rfind_some '.' filePath.data pos hr
    have hsplit : pre2 = pre ∧ rest2 = rest := by
      rw [h] at h1
      have key : ∀ (a b c d : List Char), a ++ '.' :: b = c ++ '.' :: d →
          '.' ∉ b → '.' ∉ d → a = c ∧ b = d := by
        intro a
        induction a with
        | nil =>
          intro b c d hab hb hd
          cases c with
          | nil => simpa using hab
          | cons y c2 =>
            simp only [List.nil_append, List.cons_append, List.cons.injEq] at hab
            exfalso
            apply hb
            rw [hab.2]
            simp
        | cons x a2 iha =>
          intro b c d hab hb hd
          cases c with
          | nil =>
            simp only [List.nil_append, List.cons_append, List.cons.injEq] at hab
            exfalso
            apply hd
            rw [← hab.2]
            simp
          | cons y c2 =>
            simp only [List.cons_append, List.cons.injEq] at hab
            obtain ⟨e1, e2⟩ := iha b c2 d hab.2 hb hd
            exact ⟨by rw [hab.1, e1], e2⟩
      exact key pre2 rest2 pre rest h1.symm h3 hrest
    simp only
    rw [h, ← h2, hsplit.1]
    simp

theorem probeExtensions_eq_find (fs : FileSystem) (searchPath base : String) :
    ∀ exts : List String, probeExtensions fs searchPath base exts =
      (exts.map (fun ext => fs.join searchPath (base ++ ext))).find? fs.isRegularFile := by
  intro exts
  induction exts with
  | nil => rfl
  | cons ext rest ih =>
    simp only [probeExtensions, List.map_cons, List.find?_cons]
    cases h : fs.isRegularFile (fs.join searchPath (base ++ ext))
    · simp [ih]
    · simp

theorem probeSearchPaths_eq_find (fs : FileSystem) (base : String) (exts : List String) :
    ∀ searchPaths : List String, probeSearchPaths fs base exts searchPaths =
      (searchPaths.flatMap (fun searchPath =>
        exts.map (fun ext => fs.join searchPath (base ++ ext)))).find? fs.isRegularFile := by
  intro searchPaths
  induction searchPaths with
  | nil => rfl
  | cons sp rest ih =>
    simp only [probeSearchPaths, List.flatMap_cons, List.find?_append,
      probeExtensions_eq_find]
    cases h : List.find? fs.isRegularFile
      (List.map (fun ext => fs.join sp (base ++ ext)) exts) with
    | none => simp [ih]
    | some p => simp

end ModuleLoader

/-- Claim C34. For every file system, list of search paths, module path and
list of candidate extensions. When the module path has a last dot and the
text from that dot on is one of the candidate extensions, the base is the
text before that dot with every dot replaced by the separator, that
extension is the only one probed, and the result is the first search path,
in order, whose joined path is an existing regular file. Otherwise the base
is the whole module path with every dot replaced by the separator, and the
result is the first existing regular file in the order of the search paths
and, within a search path, of the candidate extensions. The result is the
empty string when no probe succeeds. With the separator `/`, `game.utils`
becomes `game/utils`. The extension of a path is empty when the path has no
dot and is otherwise the text from its last dot on. -/
theorem ModuleLoader.findModuleFile_probes_in_order (fs : FileSystem)
    (searchPaths : List String) (modulePath : String) (possibleExtensions : List String) :
    (∀ pre rest, modulePath.data = pre ++ '.' :: rest → '.' ∉ rest →
      String.mk ('.' :: rest) ∈ possibleExtensions →
      ModuleLoader.findModuleFile fs searchPaths modulePath possibleExtensions =
        ((searchPaths.map (fun searchPath => fs.join searchPath
          (ModuleLoader.replaceDots fs.separator (String.mk pre) ++
            String.mk ('.' :: rest)))).find? fs.isRegularFile).getD "") ∧
    ((ModuleLoader.getFileExtension modulePath = "" ∨
        ModuleLoader.getFileExtension modulePath ∉ possibleExtensions) →
      ModuleLoader.findModuleFile fs searchPaths modulePath possibleExtensions =
        ((searchPaths.flatMap (fun searchPath => possibleExtensions.map (fun ext =>
          fs.join searchPath (ModuleLoader.replaceDots fs.separator modulePath ++ ext)))
          ).find? fs.isRegularFile).getD "") ∧
    (∀ base : String, (ModuleLoader.replaceDots fs.separator base).data =
      base.data.map (fun c => if c = '.' then fs.separator else c)) ∧
    ModuleLoader.replaceDots '/' "game.utils" = "game/utils" ∧
    ('.' ∉ modulePath.data → ModuleLoader.getFileExtension modulePath = "") ∧
    (∀ pre rest, modulePath.data = pre ++ '.' :: rest → '.' ∉ rest →
      ModuleLoader.getFileExtension modulePath = String.mk ('.' :: rest)) := by
  refine ⟨?_, ?_, fun _ => rfl, by decide,
    ModuleLoader.getFileExtension_of_no_dot modulePath,
    ModuleLoader.getFileExtension_of_last_dot modulePath⟩
  · intro pre rest hdata hrest hmem
    have hext := ModuleLoader.getFileExtension_of_last_dot modulePath pre rest hdata hrest
    have hexplicit : (!(String.mk ('.' :: rest)).isEmpty &&
        possibleExtensions.contains (String.mk ('.' :: rest))) = true := by
      have h1 : (String.mk ('.' :: rest)).isEmpty = false := by
        rw [Bool.eq_false_iff]
        intro h
        have h3 := congrArg String.data ((String.isEmpty_iff _).1 h)
        simp at h3
      have h2 : possibleExtensions.contains (String.mk ('.' :: rest)) = true := by
        simpa using hmem
      rw [h1, h2]
      rfl
    have hlen : modulePath.length - (String.mk ('.' :: rest)).length = pre.length := by
      simp only [String.length, hdata, List.length_append, List.length_cons]
      omega
    have htake : modulePath.data.take pre.length = pre := by
      rw [hdata]
      simp
    simp only [ModuleLoader.findModuleFile, hext, hexplicit, if_true, hlen, htake,
      ModuleLoader.probeSearchPaths_eq_find, List.flatMap_singleton', List.map_cons,
      List.map_nil]
    have hflat : (List.flatMap searchPaths (fun searchPath =>
          [fs.join searchPath
            (ModuleLoader.replaceDots fs.separator (String.mk pre) ++ String.mk ('.' :: rest))])) =
        searchPaths.map (fun searchPath => fs.join searchPath
          (ModuleLoader.replaceDots fs.separator (String.mk pre) ++
            String.mk ('.' :: rest))) := by
      induction searchPaths with
      | nil => rfl
      | cons sp rest2 ih => simp [List.flatMap_cons, ih]
    rw [hflat]
    cases List.find? fs.isRegularFile (searchPaths.map (fun searchPath => fs.join searchPath
      (ModuleLoader.replaceDots fs.separator (String.mk pre) ++ String.mk ('.' :: rest)))) <;> rfl
  · intro h
    have hexplicit : (!(ModuleLoader.getFileExtension modulePath).isEmpty &&
        possibleExtensions.contains (ModuleLoader.getFileExtension modulePath)) = false := by
      rcases h with h | h
      · rw [h]; rfl
      · have h2 : possibleExtensions.contains (ModuleLoader.getFileExtension modulePath)
            = false := by simpa using h
        rw [h2, Bool.and_false]
    simp only [ModuleLoader.findModuleFile, hexplicit, Bool.false_eq_true, if_false,
      ModuleLoader.probeSearchPaths_eq_find]
    cases List.find? fs.isRegularFile (searchPaths.flatMap (fun searchPath =>
      possibleExtensions.map (fun ext =>
        fs.join searchPath (ModuleLoader.replaceDots fs.separator modulePath ++ ext)))) <;> rfl

/-- Witness for claim C34: `game.utils` is found as `lib/game/utils.cube`,
in the second search path, and `shader.glsl` as `lib/shader.glsl`. -/
theorem ModuleLoader.findModuleFile_probes_in_order_witness :
    ModuleLoader.findModuleFile sampleFileSystem ["src", "lib"] "game.utils"
      [".py", ".cube", ".glsl"] = "lib/game/utils.cube" ∧
    ModuleLoader.findModuleFile sampleFileSystem ["src", "lib"] "shader.glsl"
      [".py", ".cube", ".glsl"] = "lib/shader.glsl" :=
  ⟨((ModuleLoader.findModuleFile_probes_in_order sampleFileSystem ["src", "lib"] "game.utils"
      [".py", ".cube", ".glsl"]).2.1 (Or.inr (by decide))).trans (by decide),
   ((ModuleLoader.findModuleFile_probes_in_order sampleFileSystem ["src", "lib"] "shader.glsl"
      [".py", ".cube", ".glsl"]).1 "shader".data "glsl".data rfl (by decide)
      (by decide)).trans (by decide)⟩

/-! ## The module cache -/

namespace ModuleLoader

theorem lookup_cache_put (cache : ModuleCache) (modulePath : String) (loaded : ObjPtr) :
    (cache.filter (fun entry => entry.1 != modulePath) ++ [(modulePath, loaded)]).lookup
      modulePath = some loaded := by
  induction cache with
  | nil => simp [List.lookup]
  | cons entry rest ih =>
    obtain ⟨k, v⟩ := entry
    by_cases hk : k = modulePath
    · subst hk
      simpa using ih
    · have h1 : (k != modulePath) = true := by simpa using hk
      have h2 : (modulePath == k) = false := by simpa using fun e => hk e.symm
      simp only [List.filter_cons, h1, if_true, List.cons_append, List.lookup, h2]
      exact ih

theorem loadModule_cached {σ : Type} (getCache : σ → ModuleCache)
    (setCache : ModuleCache → σ → σ) (fs : FileSystem) (self : ModuleLoader σ)
    (modulePath : String) (s : σ) (cached : ObjPtr)
    (h : (getCache s).lookup modulePath = some cached) :
    loadModule getCache setCache fs self modulePath s = (.ok cached, s) := by
  simp [loadModule, h]

theorem loadModuleTimes_cached {σ : Type} (getCache : σ → ModuleCache)
    (setCache : ModuleCache → σ → σ) (fs : FileSystem) (self : ModuleLoader σ)
    (modulePath : String) (s : σ) (cached : ObjPtr)
    (h : (getCache s).lookup modulePath = some cached) :
    ∀ n, loadModuleTimes getCache setCache fs self modulePath n s =
      (List.replicate n (.ok cached), s) := by
  intro n
  induction n with
  | zero => rfl
  | succ k ih =>
    simp only [loadModuleTimes, loadModule_cached getCache setCache fs self modulePath s cached h,
      ih, List.replicate_succ]

end ModuleLoader

theorem Interpreter.visitImportStmt_cache (layout : Layout) (fs : FileSystem)
    (moduleLoader : ModuleLoader Machine) (moduleName : Token) (aliasName : String)
    (m : Machine) :
    (Interpreter.visitImportStmt layout fs moduleLoader moduleName aliasName m).2.moduleCache =
      (ModuleLoader.loadModule Machine.moduleCache Machine.setModuleCache fs moduleLoader
        moduleName.lexeme m).2.moduleCache := by
  unfold Interpreter.visitImportStmt
  rcases ModuleLoader.loadModule Machine.moduleCache Machine.setModuleCache fs moduleLoader
      moduleName.lexeme m with ⟨outcome, m1⟩
  cases outcome with
  | error e => rfl
  | ok module =>
    simp only
    split
    · rfl
    · simp only [Machine.registerObject]
      cases m1.runtime.objects.read module.addr <;> rfl

/-- Loads one after the other. Let a call `loadModule(p)` return a module that
is not null, in a state whose cache is read and written as a cache. Then the cache binds
`p`, the path as passed, to that module. Every later call with the same path,
for every file system and every set of readers and search paths, returns the
same module and leaves the state unchanged, so no reader runs again and the
top level of the module is not executed again; so does every sequence of
later calls. When the first call found no cache entry, it called exactly the
reader registered for the extension of the file found, once. An `import`
statement loads with the lexeme of the module name as path: the cache after
it is the cache after that call of `loadModule`, whatever the alias. -/
theorem ModuleLoader.loadModule_reads_once {σ : Type} (getCache : σ → ModuleCache)
    (setCache : ModuleCache → σ → σ) (fs : FileSystem) (self : ModuleLoader σ)
    (modulePath : String) (s s1 : σ) (loaded : ObjPtr)
    (hcache : ∀ cache t, getCache (setCache cache t) = cache)
    (hfirst : ModuleLoader.loadModule getCache setCache fs self modulePath s = (.ok loaded, s1))
    (hloaded : loaded.isNull = false) :
    (getCache s1).lookup modulePath = some loaded ∧
    (∀ (fs2 : FileSystem) (loader2 : ModuleLoader σ),
      ModuleLoader.loadModule getCache setCache fs2 loader2 modulePath s1 = (.ok loaded, s1)) ∧
    (∀ (fs2 : FileSystem) (loader2 : ModuleLoader σ) (n : Nat),
      ModuleLoader.loadModuleTimes getCache setCache fs2 loader2 modulePath n s1 =
        (List.replicate n (.ok loaded), s1)) ∧
    ((getCache s).lookup modulePath = none →
      ∃ reader s0,
        self.readers.lookup (ModuleLoader.getFileExtension
          (ModuleLoader.findModuleFile fs self.searchPaths modulePath
            (self.readers.map Prod.fst))) = some reader ∧
        reader (ModuleLoader.findModuleFile fs self.searchPaths modulePath
            (self.readers.map Prod.fst))
          (ModuleLoader.moduleNameOf modulePath (ModuleLoader.getFileExtension
            (ModuleLoader.findModuleFile fs self.searchPaths modulePath
              (self.readers.map Prod.fst)))) s = (.ok loaded, s0) ∧
        s1 = setCache ((getCache s0).filter (fun entry => entry.1 != modulePath) ++
          [(modulePath, loaded)]) s0) ∧
    (∀ (layout : Layout) (fs2 : FileSystem) (loader2 : ModuleLoader Machine)
        (moduleName : Token) (aliasName : String) (m : Machine),
      (Interpreter.visitImportStmt layout fs2 loader2 moduleName aliasName m).2.moduleCache =
        (ModuleLoader.loadModule Machine.moduleCache Machine.setModuleCache fs2 loader2
          moduleName.lexeme m).2.moduleCache) := by
  have hnull : ObjPtr.null.isNull = true := rfl
  have hne : loaded ≠ ObjPtr.null := by
    intro h
    rw [h, hnull] at hloaded
    cases hloaded
  have hrun : (getCache s).lookup modulePath = none →
      ∃ reader s0,
        self.readers.lookup (ModuleLoader.getFileExtension
          (ModuleLoader.findModuleFile fs self.searchPaths modulePath
            (self.readers.map Prod.fst))) = some reader ∧
        reader (ModuleLoader.findModuleFile fs self.searchPaths modulePath
            (self.readers.map Prod.fst))
          (ModuleLoader.moduleNameOf modulePath (ModuleLoader.getFileExtension
            (ModuleLoader.findModuleFile fs self.searchPaths modulePath
              (self.readers.map Prod.fst)))) s = (.ok loaded, s0) ∧
        s1 = setCache ((getCache s0).filter (fun entry => entry.1 != modulePath) ++
          [(modulePath, loaded)]) s0 := by
    intro hmiss
    simp only [ModuleLoader.loadModule, hmiss] at hfirst
    split at hfirst
    · exact absurd (Except.ok.inj (Prod.mk.inj hfirst).1).symm hne
    · split at hfirst
      · exact absurd (Except.ok.inj (Prod.mk.inj hfirst).1).symm hne
      · split at hfirst
        · exact absurd (Except.ok.inj (Prod.mk.inj hfirst).1).symm hne
        · rename_i reader hreader
          split at hfirst
          · cases (Prod.mk.inj hfirst).1
          · rename_i loadedModule s0 hread
            split at hfirst
            · exact absurd (Except.ok.inj (Prod.mk.inj hfirst).1).symm hne
            · have h1 := Except.ok.inj (Prod.mk.inj hfirst).1
              subst h1
              exact ⟨reader, s0, hreader, hread, (Prod.mk.inj hfirst).2.symm⟩
  have hbound : (getCache s1).lookup modulePath = some loaded := by
    cases hmiss : (getCache s).lookup modulePath with
    | some cached =>
      rw [ModuleLoader.loadModule_cached getCache setCache fs self modulePath s cached hmiss]
        at hfirst
      have h1 := Except.ok.inj (Prod.mk.inj hfirst).1
      have h2 := (Prod.mk.inj hfirst).2
      rw [← h2, ← h1]
      exact hmiss
    | none =>
      obtain ⟨reader, s0, _, _, hs1⟩ := hrun hmiss
      rw [hs1, hcache]
      exact ModuleLoader.lookup_cache_put _ _ _
  exact ⟨hbound,
    fun fs2 loader2 =>
      ModuleLoader.loadModule_cached getCache setCache fs2 loader2 modulePath s1 loaded hbound,
    fun fs2 loader2 n =>
      ModuleLoader.loadModuleTimes_cached getCache setCache fs2 loader2 modulePath s1 loaded
        hbound n,
    hrun, Interpreter.visitImportStmt_cache⟩

/-- Loads one after the other with a reader that counts its calls: after the
first load of `game.utils` the counter is 1, and it is still 1 after three
more loads, which return the same module. -/
theorem ModuleLoader.loadModule_reads_once_witness :
    ModuleLoader.loadModule Prod.fst (fun cache s => (cache, s.2)) sampleFileSystem
      sampleCountingLoader "game.utils" ([], 0) = (.ok ⟨7⟩, ([("game.utils", ⟨7⟩)], 1)) ∧
    ModuleLoader.loadModuleTimes Prod.fst (fun cache s => (cache, s.2)) sampleFileSystem
      sampleCountingLoader "game.utils" 3 ([("game.utils", ⟨7⟩)], 1) =
        ([.ok ⟨7⟩, .ok ⟨7⟩, .ok ⟨7⟩], ([("game.utils", ⟨7⟩)], 1)) :=
  ⟨by decide,
   (ModuleLoader.loadModule_reads_once Prod.fst (fun cache s => (cache, s.2)) sampleFileSystem
      sampleCountingLoader "game.utils" ([], 0) ([("game.utils", ⟨7⟩)], 1) ⟨7⟩
      (fun _ _ => rfl) (by decide) rfl).2.2.1 sampleFileSystem sampleCountingLoader 3⟩

/-! ## A module that imports itself -/

/-- The reader of `.cube` files on the file `lib/loop.cube`, which holds
`import loop;`: when the import statement exhausts the bound on the depth,
so does the reader. -/
theorem CubeModuleReader.readModule_import_loop (execute : Stmt → Eval Machine Unit)
    (hexecute : ∀ m : Machine, m.moduleCache.lookup "loop" = none →
      (execute (.ImportStmt ⟨.IDENTIFIER, "loop", .none, 1⟩ "") m).1 =
        .error (.undefined "execute"))
    (name : String) (m : Machine) (hmiss : m.moduleCache.lookup "loop" = none) :
    (CubeModuleReader.readModule sampleReentrantFileSystem sampleReentrantParse
      (fun _ env => Object.module ⟨"", env⟩) execute "lib/loop.cube" name m).1 =
        .error (.undefined "execute") := by
  have hcontent : sampleReentrantFileSystem.content "lib/loop.cube" =
      some "import loop;" := by decide
  have hparse : sampleReentrantParse "import loop;" =
      some [.ImportStmt ⟨.IDENTIFIER, "loop", .none, 1⟩ ""] := by
    unfold sampleReentrantParse
    rw [if_neg (by decide), if_pos (by decide)]
  simp only [CubeModuleReader.readModule, hcontent, hparse, Interpreter.interpret,
    Interpreter.interpretLoop]
  have h := hexecute { m with runtime :=
    { (m.runtime.newEnvironment (some m.runtime.globals)).2.newObject
        (Object.module ⟨"", (m.runtime.newEnvironment (some m.runtime.globals)).1⟩) |>.2
      with environment := (m.runtime.newEnvironment (some m.runtime.globals)).1 } } hmiss
  rcases hex : execute
    (.ImportStmt ⟨.IDENTIFIER, "loop", .none, 1⟩ "") { m with runtime :=
    { (m.runtime.newEnvironment (some m.runtime.globals)).2.newObject
        (Object.module ⟨"", (m.runtime.newEnvironment (some m.runtime.globals)).1⟩) |>.2
      with environment := (m.runtime.newEnvironment (some m.runtime.globals)).1 } }
    with ⟨out, m2⟩
  rw [hex] at h
  simp only at h
  subst h
  rfl

/-- The loader on the path `loop` with an empty cache entry: when the import
statement exhausts the bound on the depth, so does `loadModule`. -/
theorem ModuleLoader.loadModule_import_loop (execute : Stmt → Eval Machine Unit)
    (hexecute : ∀ m : Machine, m.moduleCache.lookup "loop" = none →
      (execute (.ImportStmt ⟨.IDENTIFIER, "loop", .none, 1⟩ "") m).1 =
        .error (.undefined "execute"))
    (m : Machine) (hmiss : m.moduleCache.lookup "loop" = none) :
    (ModuleLoader.loadModule Machine.moduleCache Machine.setModuleCache
      sampleReentrantFileSystem
      { searchPaths := ["lib"],
        readers := [(".cube", CubeModuleReader.readModule sampleReentrantFileSystem
          sampleReentrantParse (fun _ env => .module ⟨"", env⟩) execute)] }
      "loop" m).1 = .error (.undefined "execute") := by
  have hfile : ModuleLoader.findModuleFile sampleReentrantFileSystem ["lib"] "loop"
      [".cube"] = "lib/loop.cube" := by decide
  have hext : ModuleLoader.getFileExtension "lib/loop.cube" = ".cube" := by decide
  have hempty1 : ("lib/loop.cube" : String).isEmpty = false := by decide
  have hempty2 : (".cube" : String).isEmpty = false := by decide
  have hlookup : ∀ reader : ModuleReader Machine,
      List.lookup ".cube" [(".cube", reader)] = some reader := by
    intro reader
    simp [List.lookup]
  simp only [ModuleLoader.loadModule, hmiss, List.map, hfile, hempty1, hext, hempty2, hlookup,
    Bool.false_eq_true, if_false]
  have h := CubeModuleReader.readModule_import_loop execute hexecute
    (ModuleLoader.moduleNameOf "loop" ".cube") m hmiss
  rcases hrm : CubeModuleReader.readModule sampleReentrantFileSystem sampleReentrantParse
    (fun _ env => Object.module ⟨"", env⟩) execute
    "lib/loop.cube" (ModuleLoader.moduleNameOf "loop" ".cube") m with ⟨out, s1⟩
  rw [hrm] at h
  simp only at h
  subst h
  rfl

/-- The statement `import loop;`, met while the cache does not bind `loop`,
exhausts every bound on the depth of nested imports. -/
theorem sampleReentrantExecute_import_loop (fuel : Nat) :
    ∀ m : Machine, m.moduleCache.lookup "loop" = none →
      (sampleReentrantExecute fuel (.ImportStmt ⟨.IDENTIFIER, "loop", .none, 1⟩ "") m).1 =
        .error (.undefined "execute") := by
  induction fuel with
  | zero =>
    intro m _
    rfl
  | succ n ih =>
    intro m hmiss
    have h := ModuleLoader.loadModule_import_loop (sampleReentrantExecute n) ih m hmiss
    simp only [sampleReentrantExecute, Interpreter.visitImportStmt]
    rcases hld : ModuleLoader.loadModule Machine.moduleCache Machine.setModuleCache
      sampleReentrantFileSystem
      { searchPaths := ["lib"],
        readers := [(".cube", CubeModuleReader.readModule sampleReentrantFileSystem
          sampleReentrantParse (fun _ env => .module ⟨"", env⟩) (sampleReentrantExecute n))] }
      "loop" m with ⟨out, s1⟩
    rw [hld] at h
    simp only at h
    subst h
    rfl

/-- Claim C32, evaluated at the module `m` whose file holds the program
`if (i.go = !i.go) { import m; }`, loaded from a state with an empty cache in
which `i.go` is `false`. The call `loadModule("m")` succeeds, reports no
error and returns the module at address 3. While its reader runs, the cache
does not bind `m` yet, so the import statement of the module runs the reader
a second time: two module objects are constructed, at addresses 3 and 4, each
with its own environment, and the top level is executed twice, which leaves
`i.go` at `false` again. The import statement inside the module is given the
module at address 4 and binds `m` to it in the block environment 3, while the
outer call returns the module at address 3 and the cache ends binding `m` to
it. A call after that one returns the cached module at address 3. For the
module `loop`, whose file holds the program `import loop;` without a guard,
the call `loadModule("loop")` exhausts every bound on the depth of nested
imports: it does not return. -/
theorem ModuleLoader.loadModule_reentrant_reads_twice :
    sampleReentrantMachine.moduleCache = [] ∧
    sampleReentrantLoaded.1 = .ok ⟨3⟩ ∧
    sampleReentrantLoaded.2.errorReporter = ⟨false, false, []⟩ ∧
    (sampleReentrantMachine.runtime.objects.filter
      (fun entry => entry.2.getType == .C_CUBE_MODULE)).map Prod.fst = [] ∧
    (sampleReentrantLoaded.2.runtime.objects.filter
      (fun entry => entry.2.getType == .C_CUBE_MODULE)).map Prod.fst = [3, 4] ∧
    sampleReentrantLoaded.2.runtime.environments.read 2 = some ⟨[], some ⟨1⟩⟩ ∧
    sampleReentrantLoaded.2.runtime.environments.read 3 =
      some ⟨[("m", .object ⟨4⟩)], some ⟨2⟩⟩ ∧
    sampleReentrantLoaded.2.runtime.environments.read 4 = some ⟨[], some ⟨1⟩⟩ ∧
    sampleReentrantLoaded.2.moduleCache = [("m", ⟨3⟩)] ∧
    (sampleReentrantEvaluate 4
      (.GetExpr (.VariableExpr ⟨.IDENTIFIER, "i", .none, 1⟩) ⟨.IDENTIFIER, "go", .none, 1⟩)
      sampleReentrantLoaded.2.runtime).1 = .ok (.boolean false) ∧
    (ModuleLoader.loadModule Machine.moduleCache Machine.setModuleCache
      sampleReentrantFileSystem (sampleReentrantLoader 6) "m" sampleReentrantLoaded.2).1 =
        .ok ⟨3⟩ ∧
    (∀ fuel : Nat,
      (ModuleLoader.loadModule Machine.moduleCache Machine.setModuleCache
        sampleReentrantFileSystem (sampleReentrantLoader fuel) "loop"
        sampleReentrantMachine).1 = .error (.undefined "execute")) := by
  refine ⟨by decide, by decide, by decide, by decide, by decide, by decide, by decide,
    by decide, by decide, by decide, by decide, ?_⟩
  intro fuel
  exact ModuleLoader.loadModule_import_loop (sampleReentrantExecute fuel)
    (sampleReentrantExecute_import_loop fuel) sampleReentrantMachine rfl

/-! ## A runtime error at the top level of a module -/

/-- Claim C33, evaluated at the module `game.utils` whose file holds the
program `boom;`, a use of an undefined variable. The top level of the module
raises the runtime error, which `interpret` reports; `loadModule` returns the
module at address 1, not null, and caches it under the path; and the
statement `import game.utils` completes without an error and binds the name.
For a path without a file, `loadModule` returns null and the cache stays
empty. -/
theorem ModuleLoader.loadModule_caches_failed_module :
    (ModuleLoader.loadModule Machine.moduleCache Machine.setModuleCache sampleFileSystem
      sampleCubeLoader "game.utils" sampleMachine).1 = .ok ⟨1⟩ ∧
    (ModuleLoader.loadModule Machine.moduleCache Machine.setModuleCache sampleFileSystem
      sampleCubeLoader "game.utils" sampleMachine).2.errorReporter =
        ⟨false, true, [(⟨.IDENTIFIER, "boom", .none, 1⟩,
          "Tanımlanmamış değişken \x27boom\x27.")]⟩ ∧
    (ModuleLoader.loadModule Machine.moduleCache Machine.setModuleCache sampleFileSystem
      sampleCubeLoader "game.utils" sampleMachine).2.moduleCache = [("game.utils", ⟨1⟩)] ∧
    (Interpreter.visitImportStmt sampleLayout sampleFileSystem sampleCubeLoader
      ⟨.IDENTIFIER, "game.utils", .none, 1⟩ "" sampleMachine).1 = .ok () ∧
    (Interpreter.visitImportStmt sampleLayout sampleFileSystem sampleCubeLoader
      ⟨.IDENTIFIER, "game.utils", .none, 1⟩ "" sampleMachine).2.runtime.environments.read 1 =
        some ⟨[("game.utils", .object ⟨1⟩)], none⟩ ∧
    (ModuleLoader.loadModule Machine.moduleCache Machine.setModuleCache sampleFileSystem
      sampleCubeLoader "missing" sampleMachine).1 = .ok ObjPtr.null ∧
    (ModuleLoader.loadModule Machine.moduleCache Machine.setModuleCache sampleFileSystem
      sampleCubeLoader "missing" sampleMachine).2.moduleCache = [] := by
  refine ⟨by decide, by decide, by decide, by decide, by decide, by decide, by decide⟩

/-! ## Registration of declared classes and functions -/

/-- Claim C31, evaluated at the declaration `class A { greet() { } }`. The
class object, at address 2, is registered: it is young and has metadata. The
function object of the method, at address 1, is in memory and in the method
table of the class, but it has no metadata and is in neither generation. The
function object of a declaration `fun f() { }` is registered. With a method
that is not managed, marking the class stops at the method: for a class
declared in a function body, the list that only the closure of its method
binds is swept by a minor collection although the class is bound in the
globals. -/
theorem Interpreter.visitClassStmt_leaves_methods_unregistered :
    sampleClassDeclared.runtime.objects.read 2 =
      some (.klass ⟨"A", none, [("greet", ⟨1⟩)]⟩) ∧
    (sampleClassDeclared.runtime.objects.read 1).map Object.getType = some .FUNCTION ∧
    sampleClassDeclared.gc.youngGeneration = [⟨2⟩] ∧
    sampleClassDeclared.gc.oldGeneration = [] ∧
    sampleClassDeclared.gc.objectMetadata.read 2 = some ⟨⟨2⟩, 0, 0, false⟩ ∧
    sampleClassDeclared.gc.objectMetadata.read 1 = none ∧
    sampleFunDeclared.gc.youngGeneration = [⟨1⟩] ∧
    sampleFunDeclared.gc.objectMetadata.read 1 = some ⟨⟨1⟩, 0, 0, false⟩ ∧
    sampleClassReturned.runtime.environments.read 1 = some ⟨[("A", .object ⟨3⟩)], none⟩ ∧
    sampleClassReturned.gc.youngGeneration = [⟨1⟩, ⟨3⟩] ∧
    (sampleClassReturned.collectGarbage sampleLayout false).gc.youngGeneration = [⟨3⟩] ∧
    (sampleClassReturned.collectGarbage sampleLayout false).gc.objectMetadata.read 1 = none := by
  refine ⟨by rfl, by decide, by decide, by decide, by decide, by decide, by decide, by decide,
    by decide, by decide, by decide, by decide⟩

/-! ## Registering a managed object again -/

/-- Claim C39, evaluated at a module that is imported, survives three minor
collections and is imported again. After the collections the module, at
address 1, is old with generation 1. The second import finds it in the cache
and registers it again: it is then a member of the young and of the old
generation at once, and its metadata says generation 0 although it is
old. -/
theorem Gc.createObject_again_breaks_generations :
    sampleImported.gc.youngGeneration = [⟨1⟩] ∧
    sampleImported.moduleCache = [("ok", ⟨1⟩)] ∧
    sampleImportedOld.gc.youngGeneration = [] ∧
    sampleImportedOld.gc.oldGeneration = [⟨1⟩] ∧
    sampleImportedOld.gc.objectMetadata.read 1 = some ⟨⟨1⟩, 1, 0, true⟩ ∧
    sampleImportedAgain.gc.youngGeneration = [⟨1⟩] ∧
    sampleImportedAgain.gc.oldGeneration = [⟨1⟩] ∧
    sampleImportedAgain.gc.objectMetadata.read 1 = some ⟨⟨1⟩, 0, 0, false⟩ := by
  refine ⟨by decide, by decide, by decide, by decide, by decide, by decide, by decide,
    by decide⟩

/-! ## The byte count -/

/-- Claim C40, evaluated at the class of the declaration
`class A { greet() { } }` and at the module of `import ok`, with the sizes of
the sample layout. The registration of the class adds `sizeof(CCubeClass)`,
120, and its sweep subtracts `getSize()`, 183: after a full collection with
no roots nothing is managed and the byte count is `2 ^ 64 - 63`, not 0. The
registration of the module adds 72 and its sweep subtracts 103. -/
theorem Gc.sweep_subtracts_more_than_added :
    sampleClassDeclared.gc.bytesAllocated = 120 ∧
    (sampleClassDeclared.world sampleLayout).getSize ⟨2⟩ = 183 ∧
    (Gc.collectGarbage (sampleClassDeclared.worldWithoutRoots sampleLayout) true
      sampleClassDeclared.gc).youngGeneration = [] ∧
    (Gc.collectGarbage (sampleClassDeclared.worldWithoutRoots sampleLayout) true
      sampleClassDeclared.gc).objectMetadata = [] ∧
    (Gc.collectGarbage (sampleClassDeclared.worldWithoutRoots sampleLayout) true
      sampleClassDeclared.gc).bytesAllocated = 18446744073709551553 ∧
    sampleImported.gc.bytesAllocated = 72 ∧
    (sampleImported.world sampleLayout).getSize ⟨1⟩ = 103 ∧
    (Gc.collectGarbage (sampleImported.worldWithoutRoots sampleLayout) true
      sampleImported.gc).bytesAllocated = 18446744073709551585 := by
  refine ⟨by decide, by decide, by decide, by decide, by decide, by decide, by decide,
    by decide⟩

/-! ## Termination of the mark phase -/

namespace Gc

theorem length_write_of_read {α : Type} (m : Memory α) (key : Nat) (a b : α)
    (h : m.read key = some a) : (m.write key b).length = m.length := by
  induction m with
  | nil => simp [Memory.read, List.lookup] at h
  | cons p rest ih =>
    obtain ⟨k, v⟩ := p
    by_cases hk : k = key
    · simp [Memory.write, hk]
    · have h2 : (key == k) = false := by simpa using fun e => hk e.symm
      simp only [Memory.read, List.lookup, h2] at h
      simp only [Memory.write, hk, if_false, List.length_cons]
      rw [ih h]

theorem unmarked_write (metadata : Memory GcObjectMetadata) (key : Nat)
    (m : GcObjectMetadata) (h : metadata.read key = some m) (hm : m.marked = false) :
    unmarked (metadata.write key { m with marked := true }) + 1 = unmarked metadata := by
  induction metadata with
  | nil => simp [Memory.read, List.lookup] at h
  | cons p rest ih =>
    obtain ⟨k, v⟩ := p
    by_cases hk : k = key
    · subst hk
      simp only [Memory.read, List.lookup, beq_self_eq_true, Option.some.injEq] at h
      subst h
      simp [Memory.write, unmarked, List.filter_cons, hm]
    · have h2 : (key == k) = false := by simpa using fun e => hk e.symm
      simp only [Memory.read, List.lookup, h2] at h
      have ih2 := ih h
      simp only [unmarked] at ih2 ⊢
      simp only [Memory.write, hk, if_false, List.filter_cons]
      cases hv : v.marked
      · simp only [Bool.not_false, if_true, List.length_cons]
        omega
      · simp only [Bool.not_true, Bool.false_eq_true, if_false]
        exact ih2

theorem unmarked_le_length (metadata : Memory GcObjectMetadata) :
    unmarked metadata ≤ metadata.length :=
  List.length_filter_le _ _

theorem completesBelow_some (bound : Nat) : CompletesBelow bound some :=
  fun metadata _ => ⟨metadata, rfl, Nat.le_refl _, rfl⟩

theorem completesBelow_bind {bound : Nat}
    {f g : Memory GcObjectMetadata → Option (Memory GcObjectMetadata)}
    (hf : CompletesBelow bound f) (hg : CompletesBelow bound g) :
    CompletesBelow bound (fun metadata => (f metadata).bind g) := by
  intro metadata hlt
  obtain ⟨r1, h1, h2, h3⟩ := hf metadata hlt
  obtain ⟨r2, h4, h5, h6⟩ := hg r1 (by omega)
  exact ⟨r2, by simp [h1, h4], by omega, by omega⟩

theorem completesBelow_markAllWithin {β : Type} {bound : Nat}
    (step : β → Memory GcObjectMetadata → Option (Memory GcObjectMetadata))
    (h : ∀ b, CompletesBelow bound (step b)) (l : List β) :
    CompletesBelow bound (markAllWithin step l) := by
  induction l with
  | nil => exact completesBelow_some bound
  | cons b rest ih =>
    intro metadata hlt
    obtain ⟨r1, h1, h2, h3⟩ := h b metadata hlt
    obtain ⟨r2, h4, h5, h6⟩ := ih r1 (by omega)
    exact ⟨r2, by simp [markAllWithin, h1, h4], by omega, by omega⟩

theorem completesBelow_markValueWithin {bound : Nat}
    (mark : ObjPtr → Memory GcObjectMetadata → Option (Memory GcObjectMetadata))
    (h : ∀ obj, CompletesBelow bound (mark obj)) (val : Value) :
    CompletesBelow bound (markValueWithin mark val) := by
  cases val <;> first | exact h _ | exact completesBelow_some bound

theorem completesBelow_markObjectWithin (w : GcWorld) :
    ∀ (fuel : Nat) (obj : ObjPtr), CompletesBelow fuel (markObjectWithin w fuel obj) := by
  intro fuel
  induction fuel with
  | zero => intro obj metadata hlt; omega
  | succ n ih =>
    intro obj metadata hlt
    have hmap : ∀ map : ValueMap, CompletesBelow n
        (markAllWithin (fun (pair : String × Value) =>
          markValueWithin (markObjectWithin w n) pair.2) map) :=
      fun map => completesBelow_markAllWithin _
        (fun pair => completesBelow_markValueWithin _ ih pair.2) map
    have hobjs : ∀ methods : List (String × ObjPtr), CompletesBelow n
        (markAllWithin (fun (pair : String × ObjPtr) => markObjectWithin w n pair.2) methods) :=
      fun methods => completesBelow_markAllWithin _ (fun pair => ih pair.2) methods
    have hcont : ∀ elements : List Value, CompletesBelow n
        (markAllWithin (fun (val : Value) => markValueWithin (markObjectWithin w n) val)
          elements) :=
      fun elements => completesBelow_markAllWithin _
        (fun val => completesBelow_markValueWithin _ ih val) elements
    unfold markObjectWithin
    by_cases hnull : obj.isNull = true
    · simp only [hnull, if_true]
      exact ⟨metadata, rfl, Nat.le_refl _, rfl⟩
    · simp only [hnull, Bool.false_eq_true, if_false]
      cases hr : metadata.read obj.addr with
      | none => exact ⟨metadata, rfl, Nat.le_refl _, rfl⟩
      | some m =>
        simp only
        by_cases hm : m.marked = true
        · simp only [hm, if_true]
          exact ⟨metadata, rfl, Nat.le_refl _, rfl⟩
        · simp only [hm, Bool.false_eq_true, if_false]
          have hm2 : m.marked = false := by simpa using hm
          have hdec := unmarked_write metadata obj.addr m hr hm2
          have hlen := length_write_of_read metadata obj.addr m { m with marked := true } hr
          have hlt1 : unmarked (metadata.write obj.addr { m with marked := true }) < n := by
            omega
          have finish : ∀ g : Memory GcObjectMetadata → Option (Memory GcObjectMetadata),
              CompletesBelow n g →
              ∃ result, g (metadata.write obj.addr { m with marked := true }) = some result ∧
                unmarked result ≤ unmarked metadata ∧ result.length = metadata.length := by
            intro g hg
            obtain ⟨r, h1, h2, h3⟩ := hg _ hlt1
            exact ⟨r, h1, by omega, by omega⟩
          cases w.heap.objects.read obj.addr with
          | none => exact finish some (completesBelow_some n)
          | some o =>
            cases o with
            | function func =>
              simp only
              cases w.heap.environments.read func.closure.addr with
              | none => exact finish some (completesBelow_some n)
              | some closure =>
                simp only
                refine finish _ (completesBelow_bind (hmap closure.values) ?_)
                cases closure.enclosing with
                | none => exact completesBelow_some n
                | some enclosing =>
                  simp only
                  cases w.heap.environments.read enclosing.addr with
                  | none => exact completesBelow_some n
                  | some e => exact hmap e.values
            | klass klass =>
              simp only
              refine finish _ (completesBelow_bind (hobjs klass.methods) ?_)
              cases klass.superclass with
              | none => exact completesBelow_some n
              | some superclass => exact ih superclass
            | inst inst =>
              exact finish _ (completesBelow_bind (ih inst.klass) (hmap inst.properties))
            | list list => exact finish _ (hcont list.elements)
            | boundMethod b =>
              exact finish _ (completesBelow_bind (ih b.inst) (ih b.function))
            | module module =>
              simp only
              cases w.heap.environments.read module.moduleEnvironment.addr with
              | none => exact finish some (completesBelow_some n)
              | some e => exact finish _ (hmap e.values)

end Gc

namespace Gc

theorem markAllWithin_mono {β : Type}
    (s1 s2 : β → Memory GcObjectMetadata → Option (Memory GcObjectMetadata))
    (h : ∀ b metadata r, s1 b metadata = some r → s2 b metadata = some r) :
    ∀ (l : List β) (metadata r : Memory GcObjectMetadata),
      markAllWithin s1 l metadata = some r → markAllWithin s2 l metadata = some r := by
  intro l
  induction l with
  | nil => intro metadata r hr; exact hr
  | cons b rest ih =>
    intro metadata r hr
    simp only [markAllWithin] at hr ⊢
    cases h1 : s1 b metadata with
    | none => rw [h1] at hr; cases hr
    | some metadata1 =>
      rw [h1] at hr
      rw [h b metadata metadata1 h1]
      exact ih metadata1 r hr

theorem markValueWithin_mono
    (m1 m2 : ObjPtr → Memory GcObjectMetadata → Option (Memory GcObjectMetadata))
    (h : ∀ obj metadata r, m1 obj metadata = some r → m2 obj metadata = some r)
    (val : Value) (metadata r : Memory GcObjectMetadata)
    (hr : markValueWithin m1 val metadata = some r) :
    markValueWithin m2 val metadata = some r := by
  cases val <;> first | exact h _ _ _ hr | exact hr

theorem bind_mono {f1 f2 : Option (Memory GcObjectMetadata)}
    {g1 g2 : Memory GcObjectMetadata → Option (Memory GcObjectMetadata)}
    {r : Memory GcObjectMetadata}
    (hf : ∀ x, f1 = some x → f2 = some x) (hg : ∀ x y, g1 x = some y → g2 x = some y)
    (h : f1.bind g1 = some r) : f2.bind g2 = some r := by
  cases h1 : f1 with
  | none => rw [h1] at h; cases h
  | some x =>
    rw [h1] at h
    rw [hf x h1]
    exact hg x r h

theorem markAllWithin_foldl {β : Type}
    (stepW : β → Memory GcObjectMetadata → Option (Memory GcObjectMetadata))
    (step : β → Memory GcObjectMetadata → Memory GcObjectMetadata)
    (h : ∀ b metadata r, stepW b metadata = some r → step b metadata = r) :
    ∀ (l : List β) (metadata r : Memory GcObjectMetadata),
      markAllWithin stepW l metadata = some r →
      l.foldl (fun md b => step b md) metadata = r := by
  intro l
  induction l with
  | nil =>
    intro metadata r hr
    simp only [markAllWithin, Option.some.injEq] at hr
    exact hr
  | cons b rest ih =>
    intro metadata r hr
    simp only [markAllWithin] at hr
    cases h1 : stepW b metadata with
    | none => rw [h1] at hr; cases hr
    | some metadata1 =>
      rw [h1] at hr
      simp only [List.foldl_cons]
      rw [h b metadata metadata1 h1]
      exact ih metadata1 r hr

theorem markValueWithin_agrees
    (markW : ObjPtr → Memory GcObjectMetadata → Option (Memory GcObjectMetadata))
    (mark : ObjPtr → Memory GcObjectMetadata → Memory GcObjectMetadata)
    (h : ∀ obj metadata r, markW obj metadata = some r → mark obj metadata = r)
    (val : Value) (metadata r : Memory GcObjectMetadata)
    (hr : markValueWithin markW val metadata = some r) :
    markValueWith mark val metadata = r := by
  cases val <;>
    first
    | exact h _ _ _ hr
    | (simp only [markValueWithin, Option.some.injEq] at hr; exact hr)

theorem markMapWithin_agrees
    (markW : ObjPtr → Memory GcObjectMetadata → Option (Memory GcObjectMetadata))
    (mark : ObjPtr → Memory GcObjectMetadata → Memory GcObjectMetadata)
    (h : ∀ obj metadata r, markW obj metadata = some r → mark obj metadata = r)
    (map : ValueMap) (metadata r : Memory GcObjectMetadata)
    (hr : markAllWithin (fun (pair : String × Value) => markValueWithin markW pair.2) map
      metadata = some r) :
    markMapWith mark map metadata = r :=
  markAllWithin_foldl _ (fun (pair : String × Value) => markValueWith mark pair.2)
    (fun pair => markValueWithin_agrees markW mark h pair.2) map metadata r hr

theorem markContainerWithin_agrees
    (markW : ObjPtr → Memory GcObjectMetadata → Option (Memory GcObjectMetadata))
    (mark : ObjPtr → Memory GcObjectMetadata → Memory GcObjectMetadata)
    (h : ∀ obj metadata r, markW obj metadata = some r → mark obj metadata = r)
    (container : List Value) (metadata r : Memory GcObjectMetadata)
    (hr : markAllWithin (fun (val : Value) => markValueWithin markW val) container
      metadata = some r) :
    markContainerWith mark container metadata = r :=
  markAllWithin_foldl _ (fun (val : Value) => markValueWith mark val)
    (fun val => markValueWithin_agrees markW mark h val) container metadata r hr

theorem markMapObjectsWithin_agrees
    (markW : ObjPtr → Memory GcObjectMetadata → Option (Memory GcObjectMetadata))
    (mark : ObjPtr → Memory GcObjectMetadata → Memory GcObjectMetadata)
    (h : ∀ obj metadata r, markW obj metadata = some r → mark obj metadata = r)
    (map : List (String × ObjPtr)) (metadata r : Memory GcObjectMetadata)
    (hr : markAllWithin (fun (pair : String × ObjPtr) => markW pair.2) map
      metadata = some r) :
    markMapObjectsWith mark map metadata = r :=
  markAllWithin_foldl _ (fun (pair : String × ObjPtr) => mark pair.2)
    (fun pair => h pair.2) map metadata r hr

theorem markObjectWithin_succ (w : GcWorld) :
    ∀ (fuel : Nat) (obj : ObjPtr) (metadata r : Memory GcObjectMetadata),
      markObjectWithin w fuel obj metadata = some r →
      markObjectWithin w (fuel + 1) obj metadata = some r := by
  intro fuel
  induction fuel with
  | zero => intro obj metadata r h; simp [markObjectWithin] at h
  | succ n ih =>
    intro obj metadata r h
    have hmap : ∀ (map : ValueMap) (md x : Memory GcObjectMetadata),
        markAllWithin (fun (pair : String × Value) =>
          markValueWithin (markObjectWithin w n) pair.2) map md = some x →
        markAllWithin (fun (pair : String × Value) =>
          markValueWithin (markObjectWithin w (n + 1)) pair.2) map md = some x :=
      fun map md x => markAllWithin_mono _ _
        (fun pair => markValueWithin_mono _ _ ih pair.2) map md x
    have hobjs : ∀ (methods : List (String × ObjPtr)) (md x : Memory GcObjectMetadata),
        markAllWithin (fun (pair : String × ObjPtr) => markObjectWithin w n pair.2)
          methods md = some x →
        markAllWithin (fun (pair : String × ObjPtr) => markObjectWithin w (n + 1) pair.2)
          methods md = some x :=
      fun methods md x => markAllWithin_mono _ _ (fun pair => ih pair.2) methods md x
    have hcont : ∀ (elements : List Value) (md x : Memory GcObjectMetadata),
        markAllWithin (fun (val : Value) => markValueWithin (markObjectWithin w n) val)
          elements md = some x →
        markAllWithin (fun (val : Value) => markValueWithin (markObjectWithin w (n + 1)) val)
          elements md = some x :=
      fun elements md x => markAllWithin_mono _ _
        (fun val => markValueWithin_mono _ _ ih val) elements md x
    unfold markObjectWithin at h ⊢
    by_cases hnull : obj.isNull = true
    · simp only [hnull, if_true] at h ⊢
      exact h
    · simp only [hnull, Bool.false_eq_true, if_false] at h ⊢
      cases hr : metadata.read obj.addr with
      | none => rw [hr] at h; exact h
      | some m =>
        rw [hr] at h
        simp only at h ⊢
        by_cases hm : m.marked = true
        · simp only [hm, if_true] at h ⊢
          exact h
        · simp only [hm, Bool.false_eq_true, if_false] at h ⊢
          cases ho : w.heap.objects.read obj.addr with
          | none => rw [ho] at h; exact h
          | some o =>
            rw [ho] at h
            cases o with
            | function func =>
              simp only at h ⊢
              cases hc : w.heap.environments.read func.closure.addr with
              | none => rw [hc] at h; exact h
              | some closure =>
                rw [hc] at h
                simp only at h ⊢
                refine bind_mono (hmap closure.values _) ?_ h
                intro x y hxy
                cases he : closure.enclosing with
                | none => rw [he] at hxy; exact hxy
                | some enclosing =>
                  rw [he] at hxy
                  simp only at hxy ⊢
                  cases hread : w.heap.environments.read enclosing.addr with
                  | none => rw [hread] at hxy; exact hxy
                  | some e => rw [hread] at hxy; exact hmap e.values x y hxy
            | klass klass =>
              simp only at h ⊢
              refine bind_mono (hobjs klass.methods _) ?_ h
              intro x y hxy
              cases hs : klass.superclass with
              | none => rw [hs] at hxy; exact hxy
              | some superclass => rw [hs] at hxy; exact ih superclass x y hxy
            | inst inst =>
              exact bind_mono (ih inst.klass _) (hmap inst.properties) h
            | list list => exact hcont list.elements _ r h
            | boundMethod b =>
              exact bind_mono (ih b.inst _) (ih b.function) h
            | module module =>
              simp only at h ⊢
              cases hread : w.heap.environments.read module.moduleEnvironment.addr with
              | none => rw [hread] at h; exact h
              | some e => rw [hread] at h; exact hmap e.values _ r h

theorem markObjectWithin_add (w : GcWorld) (fuel : Nat) (obj : ObjPtr)
    (metadata r : Memory GcObjectMetadata)
    (h : markObjectWithin w fuel obj metadata = some r) :
    ∀ more, markObjectWithin w (fuel + more) obj metadata = some r := by
  intro more
  induction more with
  | zero => exact h
  | succ k ih => exact markObjectWithin_succ w (fuel + k) obj metadata r ih

end Gc

namespace Gc

theorem markObjectWithin_agrees (w : GcWorld) :
    ∀ (fuel : Nat) (obj : ObjPtr) (metadata r : Memory GcObjectMetadata),
      markObjectWithin w fuel obj metadata = some r → markObject w fuel obj metadata = r := by
  intro fuel
  induction fuel with
  | zero => intro obj metadata r h; simp [markObjectWithin] at h
  | succ n ih =>
    intro obj metadata r h
    have hmap := markMapWithin_agrees (markObjectWithin w n) (markObject w n) ih
    have hobjs := markMapObjectsWithin_agrees (markObjectWithin w n) (markObject w n) ih
    have hcont := markContainerWithin_agrees (markObjectWithin w n) (markObject w n) ih
    unfold markObjectWithin at h
    unfold markObject
    by_cases hnull : obj.isNull = true
    · simp only [hnull, if_true, Option.some.injEq] at h ⊢
      exact h
    · simp only [hnull, Bool.false_eq_true, if_false] at h ⊢
      cases hr : metadata.read obj.addr with
      | none =>
        rw [hr] at h
        simp only [Option.some.injEq] at h
        exact h
      | some m =>
        rw [hr] at h
        simp only at h ⊢
        by_cases hm : m.marked = true
        · simp only [hm, if_true, Option.some.injEq] at h ⊢
          exact h
        · simp only [hm, Bool.false_eq_true, if_false] at h ⊢
          cases ho : w.heap.objects.read obj.addr with
          | none =>
            rw [ho] at h
            simp only [Option.some.injEq] at h
            exact h
          | some o =>
            rw [ho] at h
            cases o with
            | function func =>
              simp only at h ⊢
              cases hc : w.heap.environments.read func.closure.addr with
              | none =>
                rw [hc] at h
                simp only [Option.some.injEq] at h
                exact h
              | some closure =>
                rw [hc] at h
                simp only at h ⊢
                obtain ⟨metadata2, h1, h2⟩ := Option.bind_eq_some.1 h
                rw [hmap closure.values _ metadata2 h1]
                cases he : closure.enclosing with
                | none =>
                  rw [he] at h2
                  simp only [Option.some.injEq] at h2
                  exact h2
                | some enclosing =>
                  rw [he] at h2
                  simp only at h2 ⊢
                  cases hread : w.heap.environments.read enclosing.addr with
                  | none =>
                    rw [hread] at h2
                    simp only [Option.some.injEq] at h2
                    exact h2
                  | some e =>
                    rw [hread] at h2
                    exact hmap e.values metadata2 r h2
            | klass klass =>
              simp only at h ⊢
              obtain ⟨metadata2, h1, h2⟩ := Option.bind_eq_some.1 h
              rw [hobjs klass.methods _ metadata2 h1]
              cases hs : klass.superclass with
              | none =>
                rw [hs] at h2
                simp only [Option.some.injEq] at h2
                exact h2
              | some superclass =>
                rw [hs] at h2
                exact ih superclass metadata2 r h2
            | inst inst =>
              simp only at h ⊢
              obtain ⟨metadata2, h1, h2⟩ := Option.bind_eq_some.1 h
              rw [ih inst.klass _ metadata2 h1]
              exact hmap inst.properties metadata2 r h2
            | list list => exact hcont list.elements _ r h
            | boundMethod b =>
              simp only at h ⊢
              obtain ⟨metadata2, h1, h2⟩ := Option.bind_eq_some.1 h
              rw [ih b.inst _ metadata2 h1]
              exact ih b.function metadata2 r h2
            | module module =>
              simp only at h ⊢
              cases hread : w.heap.environments.read module.moduleEnvironment.addr with
              | none =>
                rw [hread] at h
                simp only [Option.some.injEq] at h
                exact h
              | some e =>
                rw [hread] at h
                exact hmap e.values _ r h

end Gc

/-- Claim C38. For every memory, finite or cyclic, every object and every
metadata map: a call of `markObject` whose depth is allowed to exceed the
number of unmarked managed objects completes; with any deeper allowance it
gives the same map, and that map is the one the embedding `Gc.markObject`
computes with the same fuel. The call does not raise the number of unmarked
entries and keeps the number of entries. It returns the map unchanged on a
null handle, an unmanaged object and a marked object; on an unmarked managed
object it sets the mark bit first, which lowers the number of unmarked
entries by one, and only then recurses. The number of unmarked entries is at
most the number of entries, so the depth `markFuel` that the mark phase
allows is enough. -/
theorem Gc.markObject_terminates (w : GcWorld) (fuel : Nat) (obj : ObjPtr)
    (metadata : Memory GcObjectMetadata) (hfuel : Gc.unmarked metadata < fuel) :
    (∃ result, Gc.markObjectWithin w fuel obj metadata = some result ∧
      (∀ more, Gc.markObjectWithin w (fuel + more) obj metadata = some result) ∧
      (∀ more, Gc.markObject w (fuel + more) obj metadata = result) ∧
      Gc.unmarked result ≤ Gc.unmarked metadata ∧
      result.length = metadata.length) ∧
    ((obj.isNull = true ∨ metadata.read obj.addr = none ∨
        ∃ m, metadata.read obj.addr = some m ∧ m.marked = true) →
      Gc.markObjectWithin w fuel obj metadata = some metadata) ∧
    (∀ m, metadata.read obj.addr = some m → m.marked = false →
      Gc.unmarked (metadata.write obj.addr { m with marked := true }) + 1 =
        Gc.unmarked metadata) ∧
    Gc.unmarked metadata ≤ metadata.length ∧
    (∀ gc : Gc, ∀ md : Memory GcObjectMetadata, md.length = gc.objectMetadata.length →
      Gc.unmarked md < gc.resetMarks.markFuel) := by
  refine ⟨?_, ?_, fun m hr hm => Gc.unmarked_write metadata obj.addr m hr hm,
    Gc.unmarked_le_length metadata, ?_⟩
  · obtain ⟨result, h1, h2, h3⟩ := Gc.completesBelow_markObjectWithin w fuel obj metadata hfuel
    refine ⟨result, h1, Gc.markObjectWithin_add w fuel obj metadata result h1, ?_, h2, h3⟩
    intro more
    exact Gc.markObjectWithin_agrees w (fuel + more) obj metadata result
      (Gc.markObjectWithin_add w fuel obj metadata result h1 more)
  · intro h
    cases fuel with
    | zero => omega
    | succ n =>
      unfold Gc.markObjectWithin
      rcases h with h | h | ⟨m, h, hm⟩
      · simp [h]
      · by_cases hnull : obj.isNull = true
        · simp [hnull]
        · simp [hnull, h]
      · by_cases hnull : obj.isNull = true
        · simp [hnull]
        · simp [hnull, h, hm]
  · intro gc md hlen
    have h1 := Gc.unmarked_le_length md
    have h2 : gc.resetMarks.markFuel = gc.objectMetadata.length + 1 := by
      simp [Gc.markFuel, Gc.resetMarks]
    omega

/-- Witness for claim C38, on three cycles: the list that contains itself,
and the instance that has itself as a property and whose class has a method
with a closure that binds the class. With four unmarked entries a depth of 5
is enough, and the marking of the instance marks the instance, its class and
the method. -/
theorem Gc.markObject_terminates_witness :
    Gc.markObjectWithin sampleCyclicWorld 5 ⟨1⟩ sampleCyclicMetadata =
      some [(1, ⟨⟨1⟩, 0, 0, true⟩), (2, ⟨⟨2⟩, 0, 0, false⟩), (3, ⟨⟨3⟩, 0, 0, false⟩),
        (4, ⟨⟨4⟩, 0, 0, false⟩)] ∧
    Gc.markObjectWithin sampleCyclicWorld 5 ⟨2⟩ sampleCyclicMetadata =
      some [(1, ⟨⟨1⟩, 0, 0, false⟩), (2, ⟨⟨2⟩, 0, 0, true⟩), (3, ⟨⟨3⟩, 0, 0, true⟩),
        (4, ⟨⟨4⟩, 0, 0, true⟩)] ∧
    ∃ result, Gc.markObjectWithin sampleCyclicWorld 5 ⟨2⟩ sampleCyclicMetadata = some result ∧
      ∀ more, Gc.markObject sampleCyclicWorld (5 + more) ⟨2⟩ sampleCyclicMetadata = result :=
  ⟨by decide, by decide,
   (Gc.markObject_terminates sampleCyclicWorld 5 ⟨2⟩ sampleCyclicMetadata (by decide)).1.elim
     fun result h => ⟨result, h.1, h.2.2.1⟩⟩
